import Mathlib

/-!
# M68k backend: shallow embedding and verified properties

The definitions below embed parts of the M68k code generator:

* `M68kCollapseMOVEMPass.cpp` (namespace `M68k.CollapseMOVEM`),
* `M68kExpandPseudo.cpp` (namespace `M68k.ExpandPseudo`),
* `M68kISelLowering.cpp` (namespace `M68k.ISel`).

Conventions: a C++ `assert` that fails and `llvm_unreachable` are modelled as the
result `none`; `int` and `unsigned` values are integers / naturals with the 32-bit
wrap-around written out (`toInt32`, `toUInt32`).
-/

namespace M68k

/-! ## Machine integers -/

/-- The C++ constant `INT_MIN` for a 32-bit `int`. -/
def INT_MIN : Int := -2147483648

/-- The C++ constant `INT_MAX` for a 32-bit `int`. -/
def INT_MAX : Int := 2147483647

/-- Conversion of an integer value to `int` (32-bit two's complement). -/
def toInt32 (x : Int) : Int := (x + 2147483648) % 4294967296 - 2147483648

/-- Conversion of an integer value to `unsigned` (32 bits). -/
def toUInt32 (x : Int) : Nat := (x % 4294967296).toNat

/-- Modelled from the spec: the template `isUInt<16>` of `llvm/Support/MathExtras.h` is
missing from the sources; it tests that a signed 64-bit value lies in the addressable
immediate range 0..65535. -/
def isUInt16 (x : Int) : Bool := decide (0 ≤ x) && decide (x < 65536)

/-! ## The MOVEM collapse pass (`M68kCollapseMOVEMPass.cpp`) -/

namespace CollapseMOVEM

/-- The enumeration `UpdateType`. -/
inductive UpdateType
  | Ascending
  | Descending
  | Intermixed
  deriving DecidableEq, Repr

/-- The anonymous enumeration `{ None, Load, Store }` of `MOVEMState`. -/
inductive MoveType
  | None
  | Load
  | Store
  deriving DecidableEq, Repr

/-- Modelled from the spec: the class `MachineInstr` and the opcode enumeration are missing
from the sources.  An instruction is an opcode with its operand list: the four MOVEM forms
of the `switch` in `runOnMachineFunction`, with their explicit operands in operand order
(immediates are 64-bit values, registers are register numbers), and every other opcode. -/
inductive MachineInstr
  | MOVM32jm (Reg : Nat) (Mask : Int)
  | MOVM32pm (Offset : Int) (Reg : Nat) (Mask : Int)
  | MOVM32mj (Mask : Int) (Reg : Nat)
  | MOVM32mp (Mask : Int) (Offset : Int) (Reg : Nat)
  | other (Opcode : Nat)
  deriving DecidableEq, Repr

/-- The three registers the pass asks `M68kRegisterInfo` for.  They are physical
registers, hence different from register number 0 (`NoRegister`). -/
structure M68kRegisterInfo where
  StackRegister : Nat
  BaseRegister : Nat
  FrameRegister : Nat
  stack_ne_zero : StackRegister ≠ 0
  base_ne_zero : BaseRegister ≠ 0
  frame_ne_zero : FrameRegister ≠ 0

/-- The struct `MOVEMState`.  The iterator `Begin` is represented by the instructions of
the block lying between `Begin` and the cursor of the pass (`[]` stands for `nullptr`);
`End` is always set to the cursor right before `Finish` is called and is not stored.
The field `Ty` is the member `Type`. -/
structure MOVEMState where
  Begin : List MachineInstr
  Base : Nat
  Start : Int
  Stop : Int
  Mask : Nat
  Ty : MoveType
  deriving DecidableEq, Repr

/-- The constructor `MOVEMState()`. -/
def MOVEMState.init : MOVEMState :=
  { Begin := [], Base := 0, Start := INT_MIN, Stop := INT_MAX, Mask := 0, Ty := MoveType.None }

/-- Method `hasBase`. -/
def MOVEMState.hasBase (S : MOVEMState) : Bool := S.Base != 0

/-- Method `isLoad`. -/
def MOVEMState.isLoad (S : MOVEMState) : Bool := decide (S.Ty = MoveType.Load)

/-- Method `isStore`. -/
def MOVEMState.isStore (S : MOVEMState) : Bool := decide (S.Ty = MoveType.Store)

/-- Method `classifyUpdateByMask`; `none` is the failure of `assert(Value)`. -/
def MOVEMState.classifyUpdateByMask (S : MOVEMState) (Value : Nat) : Option UpdateType :=
  if Value = 0 then none
  else if S.Mask = 0 then some UpdateType.Ascending
  else if S.Mask < Value then some UpdateType.Ascending
  else if S.Mask > Value then some UpdateType.Descending
  else some UpdateType.Intermixed

/-- Method `updateMask`; `none` is the failure of one of its two assertions. -/
def MOVEMState.updateMask (S : MOVEMState) (Value : Nat) : Option MOVEMState :=
  if ¬ Value < 65536 then none
  else if Value &&& S.Mask ≠ 0 then none
  else some { S with Mask := S.Mask ||| Value }

/-- Method `update`.  The mask is passed as the unsigned value that
`classifyUpdateByMask` and `updateMask` receive (the round trip through the `int`
parameter `M` does not change it).  The result is `none` when an assertion fails,
otherwise the returned flag and the state after the call. -/
def MOVEMState.update (S : MOVEMState) (O : Int) (M : Nat) : Option (Bool × MOVEMState) :=
  match S.classifyUpdateByMask M with
  | none => none
  | some Ty =>
    if Ty = UpdateType.Intermixed then some (false, S)
    else if S.Start = INT_MIN then
      match MOVEMState.updateMask { S with Start := O, Stop := O } M with
      | none => none
      | some S1 => some (true, S1)
    else if Ty = UpdateType.Descending ∧ O = toInt32 (S.Start - 4) then
      match MOVEMState.updateMask { S with Start := toInt32 (S.Start - 4) } M with
      | none => none
      | some S1 => some (true, S1)
    else if Ty = UpdateType.Ascending ∧ O = toInt32 (S.Stop + 4) then
      match MOVEMState.updateMask { S with Stop := toInt32 (S.Stop + 4) } M with
      | none => none
      | some S1 => some (true, S1)
    else some (false, S)

/-- Method `Finish`.  `Pre` is the part of the block before `State.begin()`; the result
is the block up to the cursor (`End`) after the call, and the new state.  `none` is the
failure of an assertion (`begin`, `getFinalOffset`, `getBase`). -/
def Finish (Pre : List MachineInstr) (State : MOVEMState) :
    Option (List MachineInstr × MOVEMState) :=
  match State.Begin with
  | [] => none
  | [MI] => some (Pre ++ [MI], MOVEMState.init)
  | _ :: _ :: _ =>
    if State.Start = INT_MIN then none
    else if State.Base = 0 then none
    else if State.isLoad then
      some (Pre ++ [MachineInstr.MOVM32mp (Int.ofNat State.Mask) State.Start State.Base],
        MOVEMState.init)
    else
      some (Pre ++ [MachineInstr.MOVM32pm State.Start State.Base (Int.ofNat State.Mask)],
        MOVEMState.init)

/-- The part of `ProcessMI` run on a state without base register: the `else if` that
opens a run at `MI`, and the final `return false`.  An instruction that is not taken
into a run stays in the block, so it is appended to `Pre`. -/
def ProcessMIStart (TRI : M68kRegisterInfo) (Pre : List MachineInstr) (MI : MachineInstr)
    (State : MOVEMState) (Mask : Nat) (Offset : Int) (Reg : Nat) (isStore : Bool) :
    Option (Bool × List MachineInstr × MOVEMState) :=
  if Reg = TRI.StackRegister ∨ Reg = TRI.BaseRegister ∨ Reg = TRI.FrameRegister then
    match State.Begin with
    | _ :: _ => none
    | [] =>
      if State.hasBase then none
      else
        match MOVEMState.update { State with Begin := [MI], Base := Reg } Offset Mask with
        | none => none
        | some (_, S1) =>
          some (true, Pre,
            { S1 with Ty := if isStore then MoveType.Store else MoveType.Load })
  else some (false, Pre ++ [MI], State)

/-- Method `ProcessMI`.  `Pre` is the block before the open run (before the cursor when
no run is open).  After `Finish` the state is `MOVEMState()`, which has no base, so the
recursive call runs `ProcessMIStart`. -/
def ProcessMI (TRI : M68kRegisterInfo) (Pre : List MachineInstr) (MI : MachineInstr)
    (State : MOVEMState) (Mask : Nat) (Offset : Int) (Reg : Nat) (isStore : Bool) :
    Option (Bool × List MachineInstr × MOVEMState) :=
  if State.hasBase then
    if State.isStore = isStore ∧ State.Base = Reg then
      match State.update Offset Mask with
      | none => none
      | some (true, S1) => some (true, Pre, { S1 with Begin := S1.Begin ++ [MI] })
      | some (false, _) =>
        match Finish Pre State with
        | none => none
        | some (Pre1, S1) => ProcessMIStart TRI Pre1 MI S1 Mask Offset Reg isStore
    else
      match Finish Pre State with
      | none => none
      | some (Pre1, S1) => ProcessMIStart TRI Pre1 MI S1 Mask Offset Reg isStore
  else ProcessMIStart TRI Pre MI State Mask Offset Reg isStore

/-- The state of the loop over one block: the flag `Modified`, the block up to the open
run (up to the cursor when none is open), and the `MOVEMState`. -/
abbrev LoopState := Bool × List MachineInstr × MOVEMState

/-- The values `(Mask, Offset, Reg, isStore)` that the `switch` of
`runOnMachineFunction` reads from the operands of a MOVEM before it calls `ProcessMI`
(`Mask` is an `unsigned`, `Offset` an `int`); `none` for the `default` case. -/
def operands : MachineInstr → Option (Nat × Int × Nat × Bool)
  | MachineInstr.MOVM32jm Reg Mask => some (toUInt32 Mask, 0, Reg, true)
  | MachineInstr.MOVM32pm Offset Reg Mask => some (toUInt32 Mask, toInt32 Offset, Reg, true)
  | MachineInstr.MOVM32mj Mask Reg => some (toUInt32 Mask, 0, Reg, false)
  | MachineInstr.MOVM32mp Mask Offset Reg => some (toUInt32 Mask, toInt32 Offset, Reg, false)
  | MachineInstr.other _ => none

/-- One iteration of the `while (MI != E)` loop of `runOnMachineFunction`: the `switch`
on the opcode of `MI`. -/
def stepMI (TRI : M68kRegisterInfo) (L : LoopState) (MI : MachineInstr) : Option LoopState :=
  match operands MI with
  | none =>
    if L.2.2.hasBase then
      match Finish L.2.1 L.2.2 with
      | none => none
      | some (Pre1, S1) => some (true, Pre1 ++ [MI], S1)
    else some (L.1, L.2.1 ++ [MI], L.2.2)
  | some (Mask, Offset, Reg, isStore) =>
    match ProcessMI TRI L.2.1 MI L.2.2 Mask Offset Reg isStore with
    | none => none
    | some (r, Pre1, S1) => some (L.1 || r, Pre1, S1)

/-- The `while (MI != E)` loop over the instructions of one block. -/
def loopMBB (TRI : M68kRegisterInfo) : LoopState → List MachineInstr → Option LoopState
  | L, [] => some L
  | L, MI :: rest =>
    match stepMI TRI L MI with
    | none => none
    | some L1 => loopMBB TRI L1 rest

/-- The code after the `while` loop: a run still open at the end of the block is
flushed.  Returns `Modified`, the state and the new block. -/
def endOfMBB (L : LoopState) : Option (Bool × MOVEMState × List MachineInstr) :=
  if L.2.2.hasBase then
    match Finish L.2.1 L.2.2 with
    | none => none
    | some (Pre1, S2) => some (L.1, S2, Pre1)
  else some (L.1, L.2.2, L.2.1)

/-- The body of `for (auto &MBB : MF)`: the loop over the block, then the flush of a run
still open at the end of the block. -/
def runOnMBB (TRI : M68kRegisterInfo) (Modified : Bool) (State : MOVEMState)
    (MBB : List MachineInstr) : Option (Bool × MOVEMState × List MachineInstr) :=
  match loopMBB TRI (Modified, [], State) MBB with
  | none => none
  | some L => endOfMBB L

/-- The loop `for (auto &MBB : MF)`, threading `Modified` and `State` through the
blocks; `Done` collects the blocks already processed. -/
def runOnBlocks (TRI : M68kRegisterInfo) :
    Bool → MOVEMState → List (List MachineInstr) → List (List MachineInstr) →
      Option (Bool × List (List MachineInstr))
  | Modified, _, Done, [] => some (Modified, Done)
  | Modified, State, Done, MBB :: rest =>
    match runOnMBB TRI Modified State MBB with
    | none => none
    | some (Modified1, S1, MBB1) => runOnBlocks TRI Modified1 S1 (Done ++ [MBB1]) rest

/-- Method `M68kCollapseMOVEM::runOnMachineFunction`: a function body is the list of its
blocks; the result is the returned flag `Modified` and the new body, or `none` when an
assertion fails. -/
def runOnMachineFunction (TRI : M68kRegisterInfo) (MF : List (List MachineInstr)) :
    Option (Bool × List (List MachineInstr)) :=
  runOnBlocks TRI false MOVEMState.init [] MF

/-- Offsets and masks `(Offset, Mask)` of instructions that extend a run upwards from the
boundary `Stop` and accumulated mask `Mask`: each offset is exactly 4 above the previous
one and each mask is numerically above the OR of all masks before it. -/
def ascendingFrom : Int → Nat → List (Int × Nat) → Bool
  | _, _, [] => true
  | Stop, Mask, p :: rest =>
    decide (p.1 = Stop + 4) && decide (Mask < p.2) && ascendingFrom p.1 (Mask ||| p.2) rest

/-- Offsets and masks `(Offset, Mask)` of instructions that extend a run downwards from
the boundary `Start` and accumulated mask `Mask`: each offset is exactly 4 below the
previous one and each mask is numerically below the OR of all masks before it. -/
def descendingFrom : Int → Nat → List (Int × Nat) → Bool
  | _, _, [] => true
  | Start, Mask, p :: rest =>
    decide (p.1 = Start - 4) && decide (p.2 < Mask) && descendingFrom p.1 (Mask ||| p.2) rest

/-- A list of `(Offset, Mask)` whose offsets ascend by 4 and whose mask order agrees. -/
def ascendingRun : List (Int × Nat) → Bool
  | [] => true
  | p :: rest => ascendingFrom p.1 p.2 rest

/-- A list of `(Offset, Mask)` whose offsets descend by 4 and whose mask order agrees. -/
def descendingRun : List (Int × Nat) → Bool
  | [] => true
  | p :: rest => descendingFrom p.1 p.2 rest

/-- The OR of the masks of a list of `(Offset, Mask)`. -/
def orMasks (ops : List (Int × Nat)) : Nat := ops.foldl (fun a p => a ||| p.2) 0

/-- The lowest offset of a list of `(Offset, Mask)` (0 for the empty list). -/
def lowestOffset : List (Int × Nat) → Int
  | [] => 0
  | [p] => p.1
  | p :: q :: rest => min p.1 (lowestOffset (q :: rest))

/-- The offset of the last element of a list of `(Offset, Mask)`, `d` for the empty
list. -/
def lastOffset (d : Int) (ops : List (Int × Nat)) : Int := ops.foldl (fun _ p => p.1) d

/-- The single instruction `Finish` builds for a run: the load form `MOVM32mp` or the
store form `MOVM32pm`. -/
def mergedInstr (isStore : Bool) (Reg : Nat) (Offset : Int) (Mask : Nat) : MachineInstr :=
  if isStore then MachineInstr.MOVM32pm Offset Reg (Int.ofNat Mask)
  else MachineInstr.MOVM32mp (Int.ofNat Mask) Offset Reg

/-- The register `Reg` is one of the three registers a run can be based on (the test of
`ProcessMI` before it opens a run). -/
def isRunBase (TRI : M68kRegisterInfo) (Reg : Nat) : Bool :=
  decide (Reg = TRI.StackRegister ∨ Reg = TRI.BaseRegister ∨ Reg = TRI.FrameRegister)

/-- The instruction is a MOVEM on the stack, base or frame register, that is, an
instruction `ProcessMI` takes into a run. -/
def isStackMOVEM (TRI : M68kRegisterInfo) (MI : MachineInstr) : Bool :=
  match operands MI with
  | none => false
  | some (_, _, Reg, _) => isRunBase TRI Reg

/-- No two adjacent instructions of the block are both MOVEMs on the stack, base or frame
register. -/
def noAdjacentMOVEM (TRI : M68kRegisterInfo) : List MachineInstr → Bool
  | [] => true
  | [_] => true
  | X :: Y :: rest =>
    !(isStackMOVEM TRI X && isStackMOVEM TRI Y) && noAdjacentMOVEM TRI (Y :: rest)

/-- The mask of a MOVEM on the stack, base or frame register passes the assertions of
`classifyUpdateByMask` and `updateMask` on a fresh state: it is non-zero and fits 16
bits.  Every other instruction satisfies the predicate. -/
def validMask (TRI : M68kRegisterInfo) (MI : MachineInstr) : Prop :=
  ∀ Mask Offset Reg isStore, operands MI = some (Mask, Offset, Reg, isStore) →
    isRunBase TRI Reg = true → Mask ≠ 0 ∧ Mask < 65536

/-- Invariant of the loop of `runOnMachineFunction`: every instruction already in the
block or in the open run has a valid mask, a state without base register is the empty
state, and the accumulated mask of an open run is non-zero and fits 16 bits. -/
def LoopInv (TRI : M68kRegisterInfo) (L : LoopState) : Prop :=
  (∀ X ∈ L.2.1, validMask TRI X) ∧ (∀ X ∈ L.2.2.Begin, validMask TRI X) ∧
  (L.2.2.Base = 0 → L.2.2 = MOVEMState.init) ∧
  (L.2.2.Base ≠ 0 → L.2.2.Mask ≠ 0 ∧ L.2.2.Mask < 65536)

/-- The body after the pass: `runOnMachineFunction` without the flag `Modified`. -/
def collapse (TRI : M68kRegisterInfo) (MF : List (List MachineInstr)) :
    Option (List (List MachineInstr)) :=
  (runOnMachineFunction TRI MF).map Prod.snd

/-- A register description used in examples: stack pointer 15, base pointer 12, frame
pointer 14. -/
def exampleTRI : M68kRegisterInfo :=
  { StackRegister := 15, BaseRegister := 12, FrameRegister := 14,
    stack_ne_zero := by decide, base_ne_zero := by decide, frame_ne_zero := by decide }

/-- The example block of the specification: 8 stores on the stack pointer at offsets
-4, -8, ..., -32 with masks 0x0001, 0x0002, ..., 0x0080, in block order. -/
def specExampleBlock : List MachineInstr :=
  [MachineInstr.MOVM32pm (-4) 15 1, MachineInstr.MOVM32pm (-8) 15 2,
   MachineInstr.MOVM32pm (-12) 15 4, MachineInstr.MOVM32pm (-16) 15 8,
   MachineInstr.MOVM32pm (-20) 15 16, MachineInstr.MOVM32pm (-24) 15 32,
   MachineInstr.MOVM32pm (-28) 15 64, MachineInstr.MOVM32pm (-32) 15 128]

/-- The same 8 stores with the masks in the opposite order: offsets -4, -8, ..., -32
with masks 0x0080, 0x0040, ..., 0x0001. -/
def descendingExampleBlock : List MachineInstr :=
  [MachineInstr.MOVM32pm (-4) 15 128, MachineInstr.MOVM32pm (-8) 15 64,
   MachineInstr.MOVM32pm (-12) 15 32, MachineInstr.MOVM32pm (-16) 15 16,
   MachineInstr.MOVM32pm (-20) 15 8, MachineInstr.MOVM32pm (-24) 15 4,
   MachineInstr.MOVM32pm (-28) 15 2, MachineInstr.MOVM32pm (-32) 15 1]

end CollapseMOVEM

/-! ## The pseudo instruction expansion pass (`M68kExpandPseudo.cpp`) -/

namespace ExpandPseudo

/-- Modelled from the spec: the machine value types (`MVT`, missing from the sources) that
`ExpandMI` passes to the expansion helpers as source and destination bit-widths. -/
inductive MVT
  | i8
  | i16
  | i32
  deriving DecidableEq, Repr

/-- Modelled from the spec: the register enumeration of the target is missing from the
sources; the physical registers named by the pass, and all others. -/
inductive Register
  | A1
  | SP
  | phys (n : Nat)
  deriving DecidableEq, Repr

/-- Modelled from the spec: the opcode enumeration of the target is missing from the
sources; the placeholder opcodes of the `switch` in `ExpandMI`, the opcodes of the
instructions the expansions build, and every other opcode. -/
inductive Opcode
  | MOVXd16d8 | MOVXd32d8 | MOVXd32d16
  | MOVSXd16d8 | MOVSXd32d8 | MOVSXd32d16
  | MOVZXd16d8 | MOVZXd32d8 | MOVZXd32d16
  | MOVSXd16j8 | MOVSXd32j8 | MOVSXd32j16
  | MOVZXd16j8 | MOVZXd32j8 | MOVZXd32j16
  | MOVSXd16p8 | MOVSXd32p8 | MOVSXd32p16
  | MOVZXd16p8 | MOVZXd32p8 | MOVZXd32p16
  | MOVSXd16f8 | MOVSXd32f8 | MOVSXd32f16
  | MOVZXd16f8 | MOVZXd32f8 | MOVZXd32f16
  | MOV8cd | MOV8dc
  | MOVM8jm_P | MOVM16jm_P | MOVM32jm_P
  | MOVM8pm_P | MOVM16pm_P | MOVM32pm_P
  | MOVM8mj_P | MOVM16mj_P | MOVM32mj_P
  | MOVM8mp_P | MOVM16mp_P | MOVM32mp_P
  | TCRETURNq | TCRETURNj | RET
  | RTS | MOV32aj | MOV32ja | TAILJMPq | TAILJMPj
  | MOV8dj | MOV16rj | MOV8dp | MOV16rp | MOV8df | MOV16rf
  | MOVM32jm | MOVM32pm | MOVM32mj | MOVM32mp
  | other (n : Nat)
  deriving Repr

/-- A code for each opcode, used to decide the equality of opcodes. -/
def Opcode.toCode : Opcode → Nat × Nat
  | Opcode.MOVXd16d8 => (0, 0)
  | Opcode.MOVXd32d8 => (1, 0)
  | Opcode.MOVXd32d16 => (2, 0)
  | Opcode.MOVSXd16d8 => (3, 0)
  | Opcode.MOVSXd32d8 => (4, 0)
  | Opcode.MOVSXd32d16 => (5, 0)
  | Opcode.MOVZXd16d8 => (6, 0)
  | Opcode.MOVZXd32d8 => (7, 0)
  | Opcode.MOVZXd32d16 => (8, 0)
  | Opcode.MOVSXd16j8 => (9, 0)
  | Opcode.MOVSXd32j8 => (10, 0)
  | Opcode.MOVSXd32j16 => (11, 0)
  | Opcode.MOVZXd16j8 => (12, 0)
  | Opcode.MOVZXd32j8 => (13, 0)
  | Opcode.MOVZXd32j16 => (14, 0)
  | Opcode.MOVSXd16p8 => (15, 0)
  | Opcode.MOVSXd32p8 => (16, 0)
  | Opcode.MOVSXd32p16 => (17, 0)
  | Opcode.MOVZXd16p8 => (18, 0)
  | Opcode.MOVZXd32p8 => (19, 0)
  | Opcode.MOVZXd32p16 => (20, 0)
  | Opcode.MOVSXd16f8 => (21, 0)
  | Opcode.MOVSXd32f8 => (22, 0)
  | Opcode.MOVSXd32f16 => (23, 0)
  | Opcode.MOVZXd16f8 => (24, 0)
  | Opcode.MOVZXd32f8 => (25, 0)
  | Opcode.MOVZXd32f16 => (26, 0)
  | Opcode.MOV8cd => (27, 0)
  | Opcode.MOV8dc => (28, 0)
  | Opcode.MOVM8jm_P => (29, 0)
  | Opcode.MOVM16jm_P => (30, 0)
  | Opcode.MOVM32jm_P => (31, 0)
  | Opcode.MOVM8pm_P => (32, 0)
  | Opcode.MOVM16pm_P => (33, 0)
  | Opcode.MOVM32pm_P => (34, 0)
  | Opcode.MOVM8mj_P => (35, 0)
  | Opcode.MOVM16mj_P => (36, 0)
  | Opcode.MOVM32mj_P => (37, 0)
  | Opcode.MOVM8mp_P => (38, 0)
  | Opcode.MOVM16mp_P => (39, 0)
  | Opcode.MOVM32mp_P => (40, 0)
  | Opcode.TCRETURNq => (41, 0)
  | Opcode.TCRETURNj => (42, 0)
  | Opcode.RET => (43, 0)
  | Opcode.RTS => (44, 0)
  | Opcode.MOV32aj => (45, 0)
  | Opcode.MOV32ja => (46, 0)
  | Opcode.TAILJMPq => (47, 0)
  | Opcode.TAILJMPj => (48, 0)
  | Opcode.MOV8dj => (49, 0)
  | Opcode.MOV16rj => (50, 0)
  | Opcode.MOV8dp => (51, 0)
  | Opcode.MOV16rp => (52, 0)
  | Opcode.MOV8df => (53, 0)
  | Opcode.MOV16rf => (54, 0)
  | Opcode.MOVM32jm => (55, 0)
  | Opcode.MOVM32pm => (56, 0)
  | Opcode.MOVM32mj => (57, 0)
  | Opcode.MOVM32mp => (58, 0)
  | Opcode.other n => (59, n)

/-- The opcode of a code. -/
def Opcode.ofCode : Nat × Nat → Opcode
  | (0, _) => Opcode.MOVXd16d8
  | (1, _) => Opcode.MOVXd32d8
  | (2, _) => Opcode.MOVXd32d16
  | (3, _) => Opcode.MOVSXd16d8
  | (4, _) => Opcode.MOVSXd32d8
  | (5, _) => Opcode.MOVSXd32d16
  | (6, _) => Opcode.MOVZXd16d8
  | (7, _) => Opcode.MOVZXd32d8
  | (8, _) => Opcode.MOVZXd32d16
  | (9, _) => Opcode.MOVSXd16j8
  | (10, _) => Opcode.MOVSXd32j8
  | (11, _) => Opcode.MOVSXd32j16
  | (12, _) => Opcode.MOVZXd16j8
  | (13, _) => Opcode.MOVZXd32j8
  | (14, _) => Opcode.MOVZXd32j16
  | (15, _) => Opcode.MOVSXd16p8
  | (16, _) => Opcode.MOVSXd32p8
  | (17, _) => Opcode.MOVSXd32p16
  | (18, _) => Opcode.MOVZXd16p8
  | (19, _) => Opcode.MOVZXd32p8
  | (20, _) => Opcode.MOVZXd32p16
  | (21, _) => Opcode.MOVSXd16f8
  | (22, _) => Opcode.MOVSXd32f8
  | (23, _) => Opcode.MOVSXd32f16
  | (24, _) => Opcode.MOVZXd16f8
  | (25, _) => Opcode.MOVZXd32f8
  | (26, _) => Opcode.MOVZXd32f16
  | (27, _) => Opcode.MOV8cd
  | (28, _) => Opcode.MOV8dc
  | (29, _) => Opcode.MOVM8jm_P
  | (30, _) => Opcode.MOVM16jm_P
  | (31, _) => Opcode.MOVM32jm_P
  | (32, _) => Opcode.MOVM8pm_P
  | (33, _) => Opcode.MOVM16pm_P
  | (34, _) => Opcode.MOVM32pm_P
  | (35, _) => Opcode.MOVM8mj_P
  | (36, _) => Opcode.MOVM16mj_P
  | (37, _) => Opcode.MOVM32mj_P
  | (38, _) => Opcode.MOVM8mp_P
  | (39, _) => Opcode.MOVM16mp_P
  | (40, _) => Opcode.MOVM32mp_P
  | (41, _) => Opcode.TCRETURNq
  | (42, _) => Opcode.TCRETURNj
  | (43, _) => Opcode.RET
  | (44, _) => Opcode.RTS
  | (45, _) => Opcode.MOV32aj
  | (46, _) => Opcode.MOV32ja
  | (47, _) => Opcode.TAILJMPq
  | (48, _) => Opcode.TAILJMPj
  | (49, _) => Opcode.MOV8dj
  | (50, _) => Opcode.MOV16rj
  | (51, _) => Opcode.MOV8dp
  | (52, _) => Opcode.MOV16rp
  | (53, _) => Opcode.MOV8df
  | (54, _) => Opcode.MOV16rf
  | (55, _) => Opcode.MOVM32jm
  | (56, _) => Opcode.MOVM32pm
  | (57, _) => Opcode.MOVM32mj
  | (58, _) => Opcode.MOVM32mp
  | (_, n) => Opcode.other n

instance : DecidableEq Opcode := fun a b =>
  decidable_of_iff (a.toCode = b.toCode)
    ⟨fun h => by
      have hinv : ∀ x : Opcode, Opcode.ofCode x.toCode = x := by
        intro x
        cases x <;> rfl
      rw [← hinv a, ← hinv b, h],
     fun h => by rw [h]⟩

/-- Modelled from the spec: the class `MachineOperand` is missing from the sources; an
operand is a register (with the flags `Define` and `Kill`), an immediate, a symbolic
target (global address or external symbol), or of any other kind. -/
inductive MachineOperand
  | Reg (R : Register) (isDef : Bool) (isKill : Bool)
  | Imm (Val : Int)
  | GlobalAddress (GV : Nat) (Offset : Int) (TargetFlags : Nat)
  | ExternalSymbol (Name : String) (TargetFlags : Nat)
  | other (n : Nat)
  deriving DecidableEq, Repr

/-- Modelled from the spec: the class `MachineInstr` is missing from the sources; an
instruction is an opcode, the explicit operands in operand order, and the implicit
operands. -/
structure MachineInstr where
  Opcode : Opcode
  Operands : List MachineOperand
  ImplicitOps : List MachineOperand
  deriving DecidableEq, Repr

/-- What `ExpandMI` consults outside the file: the subtarget (`STI`), the function info
(`MFI`), the instruction info (`TII`) and the frame lowering (`FL`).  Each helper of `TII`
returns its flag and the instructions that stand at the place of the placeholder
afterwards.  `mergeSPUpdates` gets the block before the cursor and returns the merged
amount and that part of the block afterwards; `emitSPUpdate` gets the block before the
cursor and returns the instructions it inserts.  `ImplicitOperands` are the implicit
operands `BuildMI` gives an instruction of an opcode. -/
structure Target where
  atLeastM68020 : Bool
  TCReturnAddrDelta : Int
  ExpandMOVX_RR : MachineInstr → MVT → MVT → Bool × List MachineInstr
  ExpandMOVSZX_RR : MachineInstr → Bool → MVT → MVT → Bool × List MachineInstr
  ExpandMOVSZX_RM : MachineInstr → Bool → Opcode → MVT → MVT → Bool × List MachineInstr
  ExpandCCR : MachineInstr → Bool → Bool × List MachineInstr
  ExpandMOVEM : MachineInstr → Opcode → Bool → Bool × List MachineInstr
  mergeSPUpdates : List MachineInstr → Bool → Int × List MachineInstr
  emitSPUpdate : List MachineInstr → Int → Bool → List MachineInstr
  ImplicitOperands : Opcode → List MachineOperand

/-- Modelled from the spec: `BuildMI` is missing from the sources; the call
`BuildMI(MBB, MBBI, DL, TII->get(Opc))` followed by the operands added to it creates the
instruction of that opcode with these explicit operands and the implicit operands of the
opcode. -/
def BuildMI (T : Target) (Opc : Opcode) (Operands : List MachineOperand) : MachineInstr :=
  { Opcode := Opc, Operands := Operands, ImplicitOps := T.ImplicitOperands Opc }

/-- The result of a helper of `TII`, placed in the block after `Pre`. -/
def placeHelper (Pre : List MachineInstr) (r : Bool × List MachineInstr) :
    Option (Bool × List MachineInstr) :=
  some (r.1, Pre ++ r.2)

/-- The jump built by the case `M68k::TCRETURNq` / `M68k::TCRETURNj` of `ExpandMI`, before
the implicit operands are copied; `none` is a failed assertion on the kind of the jump
target. -/
def buildTailJump (T : Target) (Opc : Opcode) (JumpTarget : MachineOperand) :
    Option MachineInstr :=
  if Opc = Opcode.TCRETURNq then
    match JumpTarget with
    | MachineOperand.GlobalAddress GV Off Flags =>
      some (BuildMI T Opcode.TAILJMPq [MachineOperand.GlobalAddress GV Off Flags])
    | MachineOperand.ExternalSymbol Name Flags =>
      some (BuildMI T Opcode.TAILJMPq [MachineOperand.ExternalSymbol Name Flags])
    | _ => none
  else
    match JumpTarget with
    | MachineOperand.Reg R _ _ =>
      some (BuildMI T Opcode.TAILJMPj [MachineOperand.Reg R false true])
    | _ => none

/-- The case `M68k::TCRETURNq` / `M68k::TCRETURNj` of `ExpandMI`. -/
def ExpandTCRETURN (T : Target) (Pre : List MachineInstr) (MI : MachineInstr) :
    Option (Bool × List MachineInstr) :=
  match MI.Operands with
  | JumpTarget :: MachineOperand.Imm StackAdjust :: _ =>
    let StackAdj := toInt32 StackAdjust
    let MaxTCDelta := T.TCReturnAddrDelta
    if ¬ MaxTCDelta ≤ 0 then none
    else
      let Offset := toInt32 (StackAdj - MaxTCDelta)
      if ¬ 0 ≤ Offset then none
      else
        let Pre2 :=
          if Offset ≠ 0 then
            let m := T.mergeSPUpdates Pre true
            m.2 ++ T.emitSPUpdate m.2 (toInt32 (Offset + m.1)) true
          else Pre
        match buildTailJump T MI.Opcode JumpTarget with
        | none => none
        | some NewMI =>
          some (true,
            Pre2 ++ [{ NewMI with ImplicitOps := NewMI.ImplicitOps ++ MI.ImplicitOps }])
  | _ => none

/-- The case `M68k::RET` of `ExpandMI`. -/
def ExpandRET (T : Target) (Pre : List MachineInstr) (MI : MachineInstr) :
    Option (Bool × List MachineInstr) :=
  match MI.Operands with
  | MachineOperand.Imm StackAdj :: _ =>
    if StackAdj = 0 then some (true, Pre ++ [BuildMI T Opcode.RTS []])
    else if isUInt16 StackAdj then
      if T.atLeastM68020 then none
      else
        let Pre1 := Pre ++ [BuildMI T Opcode.MOV32aj
          [MachineOperand.Reg Register.A1 true false,
           MachineOperand.Reg Register.SP false false]]
        let Pre2 := Pre1 ++ T.emitSPUpdate Pre1 StackAdj true
        some (true, Pre2 ++
          [BuildMI T Opcode.MOV32ja
            [MachineOperand.Reg Register.SP false false,
             MachineOperand.Reg Register.A1 false false],
           BuildMI T Opcode.RTS []])
    else none
  | _ => none

/-- Method `ExpandMI`.  `Pre` is the block before `MBBI` and `MI` the instruction at
`MBBI`; the result is the returned flag and the block up to the place of `MI`
afterwards (the instructions behind `MI` are not touched).  `none` is a failed
assertion or `llvm_unreachable`. -/
def ExpandMI (T : Target) (Pre : List MachineInstr) (MI : MachineInstr) :
    Option (Bool × List MachineInstr) :=
  match MI.Opcode with
  | Opcode.MOVXd16d8 => placeHelper Pre (T.ExpandMOVX_RR MI MVT.i16 MVT.i8)
  | Opcode.MOVXd32d8 => placeHelper Pre (T.ExpandMOVX_RR MI MVT.i32 MVT.i8)
  | Opcode.MOVXd32d16 => placeHelper Pre (T.ExpandMOVX_RR MI MVT.i32 MVT.i16)
  | Opcode.MOVSXd16d8 => placeHelper Pre (T.ExpandMOVSZX_RR MI true MVT.i16 MVT.i8)
  | Opcode.MOVSXd32d8 => placeHelper Pre (T.ExpandMOVSZX_RR MI true MVT.i32 MVT.i8)
  | Opcode.MOVSXd32d16 => placeHelper Pre (T.ExpandMOVSZX_RR MI true MVT.i32 MVT.i16)
  | Opcode.MOVZXd16d8 => placeHelper Pre (T.ExpandMOVSZX_RR MI false MVT.i16 MVT.i8)
  | Opcode.MOVZXd32d8 => placeHelper Pre (T.ExpandMOVSZX_RR MI false MVT.i32 MVT.i8)
  | Opcode.MOVZXd32d16 => placeHelper Pre (T.ExpandMOVSZX_RR MI false MVT.i32 MVT.i16)
  | Opcode.MOVSXd16j8 =>
    placeHelper Pre (T.ExpandMOVSZX_RM MI true Opcode.MOV8dj MVT.i16 MVT.i8)
  | Opcode.MOVSXd32j8 =>
    placeHelper Pre (T.ExpandMOVSZX_RM MI true Opcode.MOV8dj MVT.i32 MVT.i8)
  | Opcode.MOVSXd32j16 =>
    placeHelper Pre (T.ExpandMOVSZX_RM MI true Opcode.MOV16rj MVT.i32 MVT.i16)
  | Opcode.MOVZXd16j8 =>
    placeHelper Pre (T.ExpandMOVSZX_RM MI false Opcode.MOV8dj MVT.i16 MVT.i8)
  | Opcode.MOVZXd32j8 =>
    placeHelper Pre (T.ExpandMOVSZX_RM MI false Opcode.MOV8dj MVT.i32 MVT.i8)
  | Opcode.MOVZXd32j16 =>
    placeHelper Pre (T.ExpandMOVSZX_RM MI false Opcode.MOV16rj MVT.i32 MVT.i16)
  | Opcode.MOVSXd16p8 =>
    placeHelper Pre (T.ExpandMOVSZX_RM MI true Opcode.MOV8dp MVT.i16 MVT.i8)
  | Opcode.MOVSXd32p8 =>
    placeHelper Pre (T.ExpandMOVSZX_RM MI true Opcode.MOV8dp MVT.i32 MVT.i8)
  | Opcode.MOVSXd32p16 =>
    placeHelper Pre (T.ExpandMOVSZX_RM MI true Opcode.MOV16rp MVT.i32 MVT.i16)
  | Opcode.MOVZXd16p8 =>
    placeHelper Pre (T.ExpandMOVSZX_RM MI false Opcode.MOV8dp MVT.i16 MVT.i8)
  | Opcode.MOVZXd32p8 =>
    placeHelper Pre (T.ExpandMOVSZX_RM MI false Opcode.MOV8dp MVT.i32 MVT.i8)
  | Opcode.MOVZXd32p16 =>
    placeHelper Pre (T.ExpandMOVSZX_RM MI false Opcode.MOV16rp MVT.i32 MVT.i16)
  | Opcode.MOVSXd16f8 =>
    placeHelper Pre (T.ExpandMOVSZX_RM MI true Opcode.MOV8df MVT.i16 MVT.i8)
  | Opcode.MOVSXd32f8 =>
    placeHelper Pre (T.ExpandMOVSZX_RM MI true Opcode.MOV8df MVT.i32 MVT.i8)
  | Opcode.MOVSXd32f16 =>
    placeHelper Pre (T.ExpandMOVSZX_RM MI true Opcode.MOV16rf MVT.i32 MVT.i16)
  | Opcode.MOVZXd16f8 =>
    placeHelper Pre (T.ExpandMOVSZX_RM MI false Opcode.MOV8df MVT.i16 MVT.i8)
  | Opcode.MOVZXd32f8 =>
    placeHelper Pre (T.ExpandMOVSZX_RM MI false Opcode.MOV8df MVT.i32 MVT.i8)
  | Opcode.MOVZXd32f16 =>
    placeHelper Pre (T.ExpandMOVSZX_RM MI false Opcode.MOV16rf MVT.i32 MVT.i16)
  | Opcode.MOV8cd => placeHelper Pre (T.ExpandCCR MI true)
  | Opcode.MOV8dc => placeHelper Pre (T.ExpandCCR MI false)
  | Opcode.MOVM8jm_P => placeHelper Pre (T.ExpandMOVEM MI Opcode.MOVM32jm false)
  | Opcode.MOVM16jm_P => placeHelper Pre (T.ExpandMOVEM MI Opcode.MOVM32jm false)
  | Opcode.MOVM32jm_P => placeHelper Pre (T.ExpandMOVEM MI Opcode.MOVM32jm false)
  | Opcode.MOVM8pm_P => placeHelper Pre (T.ExpandMOVEM MI Opcode.MOVM32pm false)
  | Opcode.MOVM16pm_P => placeHelper Pre (T.ExpandMOVEM MI Opcode.MOVM32pm false)
  | Opcode.MOVM32pm_P => placeHelper Pre (T.ExpandMOVEM MI Opcode.MOVM32pm false)
  | Opcode.MOVM8mj_P => placeHelper Pre (T.ExpandMOVEM MI Opcode.MOVM32mj true)
  | Opcode.MOVM16mj_P => placeHelper Pre (T.ExpandMOVEM MI Opcode.MOVM32mj true)
  | Opcode.MOVM32mj_P => placeHelper Pre (T.ExpandMOVEM MI Opcode.MOVM32mj true)
  | Opcode.MOVM8mp_P => placeHelper Pre (T.ExpandMOVEM MI Opcode.MOVM32mp true)
  | Opcode.MOVM16mp_P => placeHelper Pre (T.ExpandMOVEM MI Opcode.MOVM32mp true)
  | Opcode.MOVM32mp_P => placeHelper Pre (T.ExpandMOVEM MI Opcode.MOVM32mp true)
  | Opcode.TCRETURNq => ExpandTCRETURN T Pre MI
  | Opcode.TCRETURNj => ExpandTCRETURN T Pre MI
  | Opcode.RET => ExpandRET T Pre MI
  | _ => some (false, Pre ++ [MI])

/-- The loop of `ExpandMBB` over the instructions present on entry: `Pre` is the block
before the cursor, `Modified` the flag. -/
def ExpandLoop (T : Target) : Bool → List MachineInstr → List MachineInstr →
    Option (Bool × List MachineInstr)
  | Modified, Pre, [] => some (Modified, Pre)
  | Modified, Pre, MI :: rest =>
    match ExpandMI T Pre MI with
    | none => none
    | some (r, Pre1) => ExpandLoop T (Modified || r) Pre1 rest

/-- Method `ExpandMBB`. -/
def ExpandMBB (T : Target) (MBB : List MachineInstr) : Option (Bool × List MachineInstr) :=
  ExpandLoop T false [] MBB

/-- A return placeholder `M68k::RET` with cleanup count `n` (and no other operand). -/
def retPlaceholder (n : Int) : MachineInstr :=
  { Opcode := Opcode.RET, Operands := [MachineOperand.Imm n], ImplicitOps := [] }

/-- The manual pop sequence built for a return with cleanup count `n` behind the block
`Pre`: load the return address at `(SP)` into `A1`, adjust the stack pointer by `n`, store
`A1` to `(SP)`, return. -/
def manualPopSequence (T : Target) (Pre : List MachineInstr) (n : Int) : List MachineInstr :=
  [BuildMI T Opcode.MOV32aj
    [MachineOperand.Reg Register.A1 true false, MachineOperand.Reg Register.SP false false]]
  ++ T.emitSPUpdate
      (Pre ++ [BuildMI T Opcode.MOV32aj
        [MachineOperand.Reg Register.A1 true false,
         MachineOperand.Reg Register.SP false false]]) n true
  ++ [BuildMI T Opcode.MOV32ja
        [MachineOperand.Reg Register.SP false false,
         MachineOperand.Reg Register.A1 false false],
      BuildMI T Opcode.RTS []]

/-- A target older than the 68020 used in examples: its helpers expand nothing, and
`emitSPUpdate` inserts one instruction `other 0` carrying the amount. -/
def exampleTarget : Target :=
  { atLeastM68020 := false
    TCReturnAddrDelta := 0
    ExpandMOVX_RR := fun MI _ _ => (false, [MI])
    ExpandMOVSZX_RR := fun MI _ _ _ => (false, [MI])
    ExpandMOVSZX_RM := fun MI _ _ _ _ => (false, [MI])
    ExpandCCR := fun MI _ => (false, [MI])
    ExpandMOVEM := fun MI _ _ => (false, [MI])
    mergeSPUpdates := fun Pre _ => (0, Pre)
    emitSPUpdate := fun _ n _ =>
      [{ Opcode := Opcode.other 0, Operands := [MachineOperand.Imm n], ImplicitOps := [] }]
    ImplicitOperands := fun _ => [] }

end ExpandPseudo

/-! ## Instruction selection lowering (`M68kISelLowering.cpp`) -/

namespace ISD

/-- Modelled from the spec: the enumeration `ISD::CondCode` of abstract comparison
predicates is missing from the sources (`llvm/CodeGen/ISDOpcodes.h`); its values, in
declaration order. -/
inductive CondCode
  | SETFALSE | SETOEQ | SETOGT | SETOGE | SETOLT | SETOLE | SETONE | SETO
  | SETUO | SETUEQ | SETUGT | SETUGE | SETULT | SETULE | SETUNE | SETTRUE
  | SETFALSE2 | SETEQ | SETGT | SETGE | SETLT | SETLE | SETNE | SETTRUE2
  | SETCC_INVALID
  deriving DecidableEq, Repr

/-- Modelled from the spec: the function `ISD::getSetCCSwappedOperands` is missing from the
sources; it gives the predicate for the swapped operands: it exchanges "less" and
"greater" (OLT/OGT, OLE/OGE, UGT/ULT, UGE/ULE and the integer forms) and keeps every other
predicate. -/
def getSetCCSwappedOperands : CondCode → CondCode
  | CondCode.SETOGT => CondCode.SETOLT
  | CondCode.SETOLT => CondCode.SETOGT
  | CondCode.SETOGE => CondCode.SETOLE
  | CondCode.SETOLE => CondCode.SETOGE
  | CondCode.SETUGT => CondCode.SETULT
  | CondCode.SETULT => CondCode.SETUGT
  | CondCode.SETUGE => CondCode.SETULE
  | CondCode.SETULE => CondCode.SETUGE
  | CondCode.SETGT => CondCode.SETLT
  | CondCode.SETLT => CondCode.SETGT
  | CondCode.SETGE => CondCode.SETLE
  | CondCode.SETLE => CondCode.SETGE
  | CC => CC

end ISD

namespace ISel

/-- Modelled from the spec: the enumeration `M68k::CondCode` of target condition codes is
missing from the sources; a closed enumeration (equal, not-equal, signed and unsigned
orderings, overflow, carry, sign) with the marker `COND_INVALID`. -/
inductive CondCode
  | COND_T | COND_F | COND_HI | COND_LS | COND_CC | COND_CS | COND_NE | COND_EQ
  | COND_VC | COND_VS | COND_PL | COND_MI | COND_GE | COND_LT | COND_GT | COND_LE
  | COND_INVALID
  deriving DecidableEq, Repr

/-- Modelled from the spec: the class `SDValue` is missing from the sources.  Operands of a
comparison as `TranslateM68kCC` inspects them: an integer constant node
(`ConstantSDNode`) of a type of `Bits` bits with value `Val`, a load node for which
`ISD::isNON_EXTLoad` holds, or any other node. -/
inductive SDValue
  | Constant (Bits : Nat) (Val : Nat)
  | NonExtLoad (id : Nat)
  | Other (id : Nat)
  deriving DecidableEq, Repr

/-- Modelled from the spec: the test `ISD::isNON_EXTLoad`, missing from the sources. -/
def SDValue.isNON_EXTLoad : SDValue → Bool
  | SDValue.NonExtLoad _ => true
  | _ => false

/-- Modelled from the spec: method `ConstantSDNode::isAllOnesValue`, missing from the
sources, on a constant of `Bits` bits. -/
def isAllOnesValue (Bits Val : Nat) : Bool := Val % 2 ^ Bits == 2 ^ Bits - 1

/-- Modelled from the spec: method `ConstantSDNode::isNullValue`, missing from the
sources. -/
def isNullValue (Bits Val : Nat) : Bool := Val % 2 ^ Bits == 0

/-- Modelled from the spec: method `ConstantSDNode::getZExtValue`, missing from the
sources. -/
def getZExtValue (Bits Val : Nat) : Nat := Val % 2 ^ Bits

/-- Function `TranslateIntegerM68kCC`; `none` is `llvm_unreachable`. -/
def TranslateIntegerM68kCC : ISD.CondCode → Option CondCode
  | ISD.CondCode.SETEQ => some CondCode.COND_EQ
  | ISD.CondCode.SETGT => some CondCode.COND_GT
  | ISD.CondCode.SETGE => some CondCode.COND_GE
  | ISD.CondCode.SETLT => some CondCode.COND_LT
  | ISD.CondCode.SETLE => some CondCode.COND_LE
  | ISD.CondCode.SETNE => some CondCode.COND_NE
  | ISD.CondCode.SETULT => some CondCode.COND_CS
  | ISD.CondCode.SETUGE => some CondCode.COND_CC
  | ISD.CondCode.SETUGT => some CondCode.COND_HI
  | ISD.CondCode.SETULE => some CondCode.COND_LS
  | _ => none

/-- The last `switch` of `TranslateM68kCC` (floating point); `none` is
`llvm_unreachable`. -/
def TranslateFPM68kCC : ISD.CondCode → Option CondCode
  | ISD.CondCode.SETUEQ => some CondCode.COND_EQ
  | ISD.CondCode.SETEQ => some CondCode.COND_EQ
  | ISD.CondCode.SETOLT => some CondCode.COND_HI
  | ISD.CondCode.SETOGT => some CondCode.COND_HI
  | ISD.CondCode.SETGT => some CondCode.COND_HI
  | ISD.CondCode.SETOLE => some CondCode.COND_CC
  | ISD.CondCode.SETOGE => some CondCode.COND_CC
  | ISD.CondCode.SETGE => some CondCode.COND_CC
  | ISD.CondCode.SETUGT => some CondCode.COND_CS
  | ISD.CondCode.SETULT => some CondCode.COND_CS
  | ISD.CondCode.SETLT => some CondCode.COND_CS
  | ISD.CondCode.SETUGE => some CondCode.COND_LS
  | ISD.CondCode.SETULE => some CondCode.COND_LS
  | ISD.CondCode.SETLE => some CondCode.COND_LS
  | ISD.CondCode.SETONE => some CondCode.COND_NE
  | ISD.CondCode.SETNE => some CondCode.COND_NE
  | ISD.CondCode.SETOEQ => some CondCode.COND_INVALID
  | ISD.CondCode.SETUNE => some CondCode.COND_INVALID
  | _ => none

/-- The middle `switch` of `TranslateM68kCC`: the predicates for which the operands are
swapped. -/
def needsSwap : ISD.CondCode → Bool
  | ISD.CondCode.SETOLT => true
  | ISD.CondCode.SETOLE => true
  | ISD.CondCode.SETUGT => true
  | ISD.CondCode.SETUGE => true
  | _ => false

/-- Function `TranslateM68kCC`.  The result is the returned condition code and the values
of the reference parameters `LHS` and `RHS` on return; `none` is `llvm_unreachable`. -/
def TranslateM68kCC (SetCCOpcode : ISD.CondCode) (isFP : Bool) (LHS RHS : SDValue) :
    Option (CondCode × SDValue × SDValue) :=
  if ¬ isFP then
    let viaInteger : Option (CondCode × SDValue × SDValue) :=
      match TranslateIntegerM68kCC SetCCOpcode with
      | none => none
      | some CC => some (CC, LHS, RHS)
    match RHS with
    | SDValue.Constant Bits Val =>
      if SetCCOpcode = ISD.CondCode.SETGT ∧ isAllOnesValue Bits Val then
        some (CondCode.COND_PL, LHS, SDValue.Constant Bits 0)
      else if SetCCOpcode = ISD.CondCode.SETLT ∧ isNullValue Bits Val then
        some (CondCode.COND_MI, LHS, RHS)
      else if SetCCOpcode = ISD.CondCode.SETLT ∧ getZExtValue Bits Val = 1 then
        some (CondCode.COND_LE, LHS, SDValue.Constant Bits 0)
      else viaInteger
    | _ => viaInteger
  else
    let flip : Bool := LHS.isNON_EXTLoad && !RHS.isNON_EXTLoad
    let SetCCOpcode1 := if flip then ISD.getSetCCSwappedOperands SetCCOpcode else SetCCOpcode
    let LHS1 := if flip then RHS else LHS
    let RHS1 := if flip then LHS else RHS
    let LHS2 := if needsSwap SetCCOpcode1 then RHS1 else LHS1
    let RHS2 := if needsSwap SetCCOpcode1 then LHS1 else RHS1
    match TranslateFPM68kCC SetCCOpcode1 with
    | none => none
    | some CC => some (CC, LHS2, RHS2)

/-- The integer predicates `TranslateIntegerM68kCC` translates. -/
def integerPredicates : List ISD.CondCode :=
  [ISD.CondCode.SETEQ, ISD.CondCode.SETGT, ISD.CondCode.SETGE, ISD.CondCode.SETLT,
   ISD.CondCode.SETLE, ISD.CondCode.SETNE, ISD.CondCode.SETULT, ISD.CondCode.SETUGE,
   ISD.CondCode.SETUGT, ISD.CondCode.SETULE]

/-- The predicates the floating-point `switch` of `TranslateM68kCC` translates. -/
def floatPredicates : List ISD.CondCode :=
  [ISD.CondCode.SETUEQ, ISD.CondCode.SETEQ, ISD.CondCode.SETOLT, ISD.CondCode.SETOGT,
   ISD.CondCode.SETGT, ISD.CondCode.SETOLE, ISD.CondCode.SETOGE, ISD.CondCode.SETGE,
   ISD.CondCode.SETUGT, ISD.CondCode.SETULT, ISD.CondCode.SETLT, ISD.CondCode.SETUGE,
   ISD.CondCode.SETULE, ISD.CondCode.SETLE, ISD.CondCode.SETONE, ISD.CondCode.SETNE,
   ISD.CondCode.SETOEQ, ISD.CondCode.SETUNE]

/-! ### Calling conventions and argument locations -/

/-- Modelled from the spec: the calling convention identifiers (`CallingConv::ID`) are
missing from the sources; the ones named in the file, and all others. -/
inductive CallingConv
  | C
  | Fast
  | Swift
  | other (n : Nat)
  deriving DecidableEq, Repr

/-- Modelled from the spec: the machine value types (`MVT`) are missing from the sources;
the scalar types, and any other type with its size in bits. -/
inductive MVT
  | i1
  | i8
  | i16
  | i32
  | i64
  | f32
  | f64
  | other (Bits : Nat)
  deriving DecidableEq, Repr

/-- Modelled from the spec: method `getSizeInBits`, missing from the sources. -/
def MVT.getSizeInBits : MVT → Nat
  | MVT.i1 => 1
  | MVT.i8 => 8
  | MVT.i16 => 16
  | MVT.i32 => 32
  | MVT.i64 => 64
  | MVT.f32 => 32
  | MVT.f64 => 64
  | MVT.other Bits => Bits

/-- Modelled from the spec: the register enumeration of the target is missing from the
sources; the physical registers named in the file, and all others. -/
inductive Register
  | A0
  | A1
  | D0
  | phys (n : Nat)
  deriving DecidableEq, Repr

/-- Modelled from the spec: the enumeration `CCValAssign::LocInfo` (the extension kind of
a location assignment) is missing from the sources. -/
inductive LocInfo
  | Full
  | SExt
  | ZExt
  | AExt
  | BCvt
  | Indirect
  | other (n : Nat)
  deriving DecidableEq, Repr

/-- Modelled from the spec: the location of a location assignment, missing from the
sources: either a physical register or a stack offset. -/
inductive Loc
  | Reg (R : Register)
  | Mem (Offset : Nat)
  deriving DecidableEq, Repr

/-- Modelled from the spec: the class `CCValAssign` (location assignment) is missing from
the sources: value number, value type, location type, extension kind and location. -/
structure CCValAssign where
  ValNo : Nat
  ValVT : MVT
  LocVT : MVT
  HTP : LocInfo
  Loc : Loc
  deriving DecidableEq, Repr

/-- Modelled from the spec: method `isRegLoc` of `CCValAssign`, missing from the
sources. -/
def CCValAssign.isRegLoc (VA : CCValAssign) : Bool :=
  match VA.Loc with
  | Loc.Reg _ => true
  | Loc.Mem _ => false

/-- Modelled from the spec: method `getLocMemOffset` of `CCValAssign`, missing from the
sources (0 for a register location, where the method asserts). -/
def CCValAssign.getLocMemOffset (VA : CCValAssign) : Nat :=
  match VA.Loc with
  | Loc.Reg _ => 0
  | Loc.Mem Offset => Offset

/-- Modelled from the spec: method `isExtInLoc` of `CCValAssign`, missing from the
sources. -/
def CCValAssign.isExtInLoc (VA : CCValAssign) : Bool :=
  decide (VA.HTP = LocInfo.AExt ∨ VA.HTP = LocInfo.SExt ∨ VA.HTP = LocInfo.ZExt)

/-- Function `canGuaranteeTCO`. -/
def canGuaranteeTCO (_CC : CallingConv) : Bool := false

/-- Function `mayTailCallThisCC`. -/
def mayTailCallThisCC (CC : CallingConv) : Bool :=
  match CC with
  | CallingConv.C => true
  | _ => canGuaranteeTCO CC

/-- Function `shouldGuaranteeTCO`. -/
def shouldGuaranteeTCO (CC : CallingConv) (GuaranteedTailCallOpt : Bool) : Bool :=
  GuaranteedTailCallOpt && canGuaranteeTCO CC

/-- Function `M68k::isCalleePop`. -/
def isCalleePop (_CallingConv : CallingConv) (_IsVarArg : Bool) (_GuaranteeTCO : Bool) : Bool :=
  false

/-- Modelled from the spec: method `TargetRegisterInfo::regmaskSubsetEqual` is missing from
the sources; it tests that the preserved-register set `mask1` is a superset of `mask0`.
A register mask is the natural number whose bit `r` is set when register `r` is
preserved. -/
def regmaskSubsetEqual (mask0 mask1 : Nat) : Bool := mask0 &&& mask1 == mask0

/-- Everything `IsEligibleForTailCallOptimization` reads: its parameters, and the answers
of the analyses it calls outside the function (`ArgLocs` and `NextStackOffset` are the
result of `AnalyzeCallOperands(Outs, CC_M68k)`, `MatchingStackOffset i` is the answer of
`MatchingStackOffset` for argument `i`, `CallPreservedMask` is
`TRI->getCallPreservedMask(MF, ·)`). -/
structure TailCallQuery where
  CalleeIsGlobalOrSymbol : Bool
  CalleeCC : CallingConv
  CallerCC : CallingConv
  isVarArg : Bool
  isCalleeStructRet : Bool
  isCallerStructRet : Bool
  OutsEmpty : Bool
  GuaranteedTailCallOpt : Bool
  needsStackRealignment : Bool
  ArgLocs : List CCValAssign
  NextStackOffset : Nat
  resultsCompatible : Bool
  CallPreservedMask : CallingConv → Nat
  MatchingStackOffset : Nat → Bool
  PositionIndependent : Bool
  parametersInCSRMatch : Bool
  BytesToPopOnReturn : Nat

/-- The loop of `IsEligibleForTailCallOptimization` over the stack arguments, from
argument `i` on: `false` when it returns `false`. -/
def stackArgsMatch (MatchingStackOffset : Nat → Bool) : Nat → List CCValAssign → Bool
  | _, [] => true
  | i, VA :: rest =>
    if VA.HTP = LocInfo.Indirect then false
    else if !VA.isRegLoc && !MatchingStackOffset i then false
    else stackArgsMatch MatchingStackOffset (i + 1) rest

/-- The loop of `IsEligibleForTailCallOptimization` that counts the arguments in `A0` and
`A1`, with the current value of `NumInRegs`: `false` when it returns `false`. -/
def inRegsLoop (MaxInRegs : Nat) : Nat → List CCValAssign → Bool
  | _, [] => true
  | NumInRegs, VA :: rest =>
    match VA.Loc with
    | Loc.Mem _ => inRegsLoop MaxInRegs NumInRegs rest
    | Loc.Reg R =>
      if R = Register.A0 ∨ R = Register.A1 then
        if NumInRegs + 1 = MaxInRegs then false
        else inRegsLoop MaxInRegs (NumInRegs + 1) rest
      else inRegsLoop MaxInRegs NumInRegs rest

/-- Method `M68kTargetLowering::IsEligibleForTailCallOptimization`. -/
def IsEligibleForTailCallOptimization (Q : TailCallQuery) : Bool :=
  if !mayTailCallThisCC Q.CalleeCC then false
  else
    let CCMatch : Bool := decide (Q.CallerCC = Q.CalleeCC)
    if Q.GuaranteedTailCallOpt then
      if canGuaranteeTCO Q.CalleeCC && CCMatch then true else false
    else if Q.needsStackRealignment then false
    else if Q.isCalleeStructRet || Q.isCallerStructRet then false
    else if Q.isVarArg && !Q.OutsEmpty && !Q.ArgLocs.all (fun VA => VA.isRegLoc) then false
    else if !Q.resultsCompatible then false
    else if !CCMatch &&
        !regmaskSubsetEqual (Q.CallPreservedMask Q.CallerCC) (Q.CallPreservedMask Q.CalleeCC)
      then false
    else
      let StackArgsSize : Nat := if !Q.OutsEmpty then Q.NextStackOffset else 0
      let argsOK : Bool :=
        if !Q.OutsEmpty then
          (if Q.NextStackOffset ≠ 0 then stackArgsMatch Q.MatchingStackOffset 0 Q.ArgLocs
            else true) &&
          (if !Q.CalleeIsGlobalOrSymbol || Q.PositionIndependent then
            inRegsLoop (if Q.PositionIndependent then 1 else 2) 0 Q.ArgLocs
            else true) &&
          Q.parametersInCSRMatch
        else true
      if !argsOK then false
      else
        let CalleeWillPop := isCalleePop Q.CalleeCC Q.isVarArg Q.GuaranteedTailCallOpt
        if Q.BytesToPopOnReturn ≠ 0 then
          if !(CalleeWillPop && Q.BytesToPopOnReturn == StackArgsSize) then false else true
        else if CalleeWillPop && decide (StackArgsSize > 0) then false
        else true

/-- A call from a `Fast` function to a `C` function in which the caller preserves
registers 0 and 1 and the callee only register 0; every other condition of
tail-call eligibility holds. -/
def exampleQuery : TailCallQuery :=
  { CalleeIsGlobalOrSymbol := true, CalleeCC := CallingConv.C, CallerCC := CallingConv.Fast,
    isVarArg := false, isCalleeStructRet := false, isCallerStructRet := false,
    OutsEmpty := true, GuaranteedTailCallOpt := false, needsStackRealignment := false,
    ArgLocs := [], NextStackOffset := 0, resultsCompatible := true,
    CallPreservedMask := fun CC => if CC = CallingConv.C then 1 else 3,
    MatchingStackOffset := fun _ => true, PositionIndependent := false,
    parametersInCSRMatch := true, BytesToPopOnReturn := 0 }

/-- Method `M68kTargetLowering::GetAlignedArgumentStackSize`, for the stack alignment
`StackAlignment` and slot size `SlotSize` of the subtarget (both `unsigned`).
`AlignMask` is a `uint64_t`, `Offset` an `int64_t`, the result an `unsigned`. -/
def GetAlignedArgumentStackSize (StackAlignment SlotSize StackSize : Nat) : Nat :=
  let AlignMask := (StackAlignment + 4294967296 - 1) % 4294967296
  let Offset := StackSize
  let Diff := (StackAlignment + 4294967296 - SlotSize) % 4294967296
  if Offset &&& AlignMask ≤ Diff then
    ((Offset + (Diff + 18446744073709551616 - (Offset &&& AlignMask)))
      % 18446744073709551616) % 4294967296
  else
    ((((18446744073709551615 - AlignMask) &&& Offset) + StackAlignment + Diff)
      % 18446744073709551616) % 4294967296

/-- Modelled from the spec: the argument flags `ISD::ArgFlagsTy`, missing from the
sources, as far as `LowerMemArgument` reads them. -/
structure ArgFlagsTy where
  isByVal : Bool
  ByValSize : Nat
  deriving DecidableEq, Repr

/-- Modelled from the spec: a frame object of `MachineFrameInfo`, missing from the
sources: a stack slot with offset, size, mutability flag and sign/zero-extension flags. -/
structure FixedObject where
  Size : Nat
  SPOffset : Int
  IsImmutable : Bool
  isZExt : Bool
  isSExt : Bool
  deriving DecidableEq, Repr

/-- Modelled from the spec: the fixed objects of `MachineFrameInfo`, missing from the
sources, in the order of their creation; a frame index is the position in this list. -/
abbrev MachineFrameInfo := List FixedObject

/-- Modelled from the spec: method `MachineFrameInfo::CreateFixedObject`, missing from the
sources: it adds a stack slot of the given size at the given offset and returns its frame
index. -/
def CreateFixedObject (MFI : MachineFrameInfo) (Size : Nat) (SPOffset : Int)
    (IsImmutable : Bool) : MachineFrameInfo × Nat :=
  (MFI ++ [{ Size := Size, SPOffset := SPOffset, IsImmutable := IsImmutable, isZExt := false,
             isSExt := false }], MFI.length)

/-- The change of the frame object with index `FI` by `f`. -/
def modifyObject (f : FixedObject → FixedObject) : Nat → MachineFrameInfo → MachineFrameInfo
  | _, [] => []
  | 0, Obj :: rest => f Obj :: rest
  | FI + 1, Obj :: rest => Obj :: modifyObject f FI rest

/-- Modelled from the spec: method `MachineFrameInfo::setObjectZExt`, missing from the
sources. -/
def setObjectZExt (MFI : MachineFrameInfo) (FI : Nat) (IsZExt : Bool) : MachineFrameInfo :=
  modifyObject (fun Obj => { Obj with isZExt := IsZExt }) FI MFI

/-- Modelled from the spec: method `MachineFrameInfo::setObjectSExt`, missing from the
sources. -/
def setObjectSExt (MFI : MachineFrameInfo) (FI : Nat) (IsSExt : Bool) : MachineFrameInfo :=
  modifyObject (fun Obj => { Obj with isSExt := IsSExt }) FI MFI

/-- The value `LowerMemArgument` returns: the frame index node of the object `FI`, or a
load of type `VT` from the object `FI`, truncated to `Trunc` when the value is extended in
its location. -/
inductive MemArgValue
  | FrameIndex (FI : Nat)
  | Load (VT : MVT) (FI : Nat) (Trunc : Option MVT)
  deriving DecidableEq, Repr

/-- The frame index a value returned by `LowerMemArgument` refers to. -/
def MemArgValue.frameIndex : MemArgValue → Nat
  | MemArgValue.FrameIndex FI => FI
  | MemArgValue.Load _ FI _ => FI

/-- Method `M68kTargetLowering::LowerMemArgument`: the frame info after the call and the
value it returns. -/
def LowerMemArgument (CallConv : CallingConv) (GuaranteedTailCallOpt : Bool)
    (Flags : ArgFlagsTy) (VA : CCValAssign) (MFI : MachineFrameInfo) :
    MachineFrameInfo × MemArgValue :=
  let ValVT : MVT := if VA.HTP = LocInfo.Indirect then VA.LocVT else VA.ValVT
  let Offset0 : Int := toInt32 (Int.ofNat VA.getLocMemOffset)
  let Offset : Int :=
    if VA.ValVT = MVT.i8 then toInt32 (Offset0 + 3)
    else if VA.ValVT = MVT.i16 then toInt32 (Offset0 + 2)
    else Offset0
  let AlwaysUseMutable := shouldGuaranteeTCO CallConv GuaranteedTailCallOpt
  let isImmutable := !AlwaysUseMutable && !Flags.isByVal
  if Flags.isByVal then
    let Bytes := if Flags.ByValSize % 4294967296 = 0 then 1 else Flags.ByValSize % 4294967296
    let r := CreateFixedObject MFI Bytes Offset isImmutable
    (r.1, MemArgValue.FrameIndex r.2)
  else
    let r := CreateFixedObject MFI (ValVT.getSizeInBits / 8) Offset isImmutable
    let MFI1 :=
      if VA.HTP = LocInfo.ZExt then setObjectZExt r.1 r.2 true
      else if VA.HTP = LocInfo.SExt then setObjectSExt r.1 r.2 true
      else r.1
    (MFI1, MemArgValue.Load ValVT r.2 (if VA.isExtInLoc then some VA.ValVT else none))

/-! ### Assignment of argument locations -/

/-- Modelled from the spec: the rule of the per-convention table for one argument (the
generated table `CC_M68k` of `M68kGenCallingConv.inc` and `CCState` are not part of the
sources at hand): the eligible registers in priority order, and the size and alignment of
a stack slot. -/
structure ArgRule where
  Regs : List Register
  SlotSize : Nat
  Align : Nat

/-- Modelled from the spec: the state of an assignment, missing from the sources
(`CCState`): the registers already assigned, the cumulative stack offset and the locations
assigned so far. -/
structure CCState where
  UsedRegs : List Register
  StackOffset : Nat
  Locs : List CCValAssign

/-- Modelled from the spec: the cumulative offset rounded up to the alignment of the slot
(`alignTo`, missing from the sources). -/
def alignTo (Offset Align : Nat) : Nat :=
  if Align = 0 then Offset else (Offset + Align - 1) / Align * Align

/-- Modelled from the spec: the assignment of one value, missing from the sources
(`CC_M68k`): "first-fit on registers else append to the stack area at the current
cumulative offset (aligned)". -/
def assignValue (Rule : ArgRule) (ValNo : Nat) (VT : MVT) (St : CCState) : CCState :=
  match Rule.Regs.find? (fun R => !St.UsedRegs.contains R) with
  | some R =>
    { UsedRegs := R :: St.UsedRegs, StackOffset := St.StackOffset,
      Locs := St.Locs ++
        [{ ValNo := ValNo, ValVT := VT, LocVT := VT, HTP := LocInfo.Full, Loc := Loc.Reg R }] }
  | none =>
    { UsedRegs := St.UsedRegs,
      StackOffset := alignTo St.StackOffset Rule.Align + Rule.SlotSize,
      Locs := St.Locs ++
        [{ ValNo := ValNo, ValVT := VT, LocVT := VT, HTP := LocInfo.Full,
           Loc := Loc.Mem (alignTo St.StackOffset Rule.Align) }] }

/-- Modelled from the spec: the loop over the ordered argument list, missing from the
sources (`CCState::AnalyzeFormalArguments` / `AnalyzeCallOperands`); `Table` gives the
rule for a position and a value type, `ValNo` is the number of the next value. -/
def analyzeFrom (Table : Nat → MVT → ArgRule) : Nat → List MVT → CCState → CCState
  | _, [], St => St
  | ValNo, VT :: rest, St =>
    analyzeFrom Table (ValNo + 1) rest (assignValue (Table ValNo VT) ValNo VT St)

/-- Modelled from the spec: the assignment of locations to an argument list, missing from
the sources (`CCInfo.AnalyzeFormalArguments(Ins, CC_M68k)` in `LowerFormalArguments`,
`CCInfo.AnalyzeCallOperands(Outs, CC_M68k)` in `LowerCall`), started on a fresh state. -/
def AnalyzeArguments (Table : Nat → MVT → ArgRule) (Args : List MVT) : List CCValAssign :=
  (analyzeFrom Table 0 Args { UsedRegs := [], StackOffset := 0, Locs := [] }).Locs

/-- The register of a register location. -/
def CCValAssign.locReg? (VA : CCValAssign) : Option Register :=
  match VA.Loc with
  | Loc.Reg R => some R
  | Loc.Mem _ => none

/-- The assertion "Same value in different locations" in the loop of
`LowerFormalArguments` over `ArgLocs`, with the current value of `LastVal` (initially
`~0U`): `false` when it fails. -/
def valNoAssertion : Nat → List CCValAssign → Bool
  | _, [] => true
  | LastVal, VA :: rest => decide (VA.ValNo ≠ LastVal) && valNoAssertion VA.ValNo rest

/-- An example rule table: every argument may go to `D0`, then `A0`, then `A1`, else to a
4-byte stack slot aligned to 4. -/
def exampleTable : Nat → MVT → ArgRule :=
  fun _ _ => { Regs := [Register.D0, Register.A0, Register.A1], SlotSize := 4, Align := 4 }

end ISel

namespace ISel

/-! ### Selection DAG nodes and the lowering of multiplications -/

/-- Modelled from the spec: the value type of a DAG result (`EVT`), missing from the
sources: a machine value type, the chain type `MVT::Other` or the glue type
`MVT::Glue`. -/
inductive EVT
  | Simple (T : MVT)
  | Other
  | Glue
  deriving DecidableEq, Repr

/-- Modelled from the spec: method `getSizeInBits` of a value type, missing from the
sources (chain and glue carry no bits). -/
def EVT.getSizeInBits : EVT → Nat
  | EVT.Simple T => T.getSizeInBits
  | _ => 0

/-- Modelled from the spec: the node opcodes (`ISD::NodeType` and the target opcodes
`M68kISD::`, written with the prefix `M68kISD_`) named in the lowering functions; the
enumerations themselves are missing from the sources. -/
inductive NodeType
  | ADD | SUB | MUL | AND | OR | XOR | SHL | SRL | SRA
  | TRUNCATE | ANY_EXTEND | SIGN_EXTEND | ZERO_EXTEND | BITCAST
  | EXTRACT_ELEMENT | MERGE_VALUES | SETCC | SELECT | BRCOND
  | SADDO | UADDO | SSUBO | USUBO | SMULO | UMULO
  | CopyToReg | CopyFromReg
  | M68kISD_ADD | M68kISD_SUB | M68kISD_SMUL | M68kISD_UMUL
  | M68kISD_SETCC | M68kISD_SETCC_CARRY | M68kISD_BT | M68kISD_CMP
  | M68kISD_CMOV | M68kISD_BRCOND | M68kISD_RET
  | CALLSEQ_START | CALLSEQ_END | M68kISD_SEG_ALLOCA
  deriving DecidableEq, Repr

/-- Modelled from the spec: the runtime library routines (`RTLIB::Libcall`) named in
`LowerMUL`; the enumeration is missing from the sources. -/
inductive Libcall
  | MUL_I32
  | MUL_I64
  deriving DecidableEq, Repr

/-- Modelled from the spec: a value of the selection DAG (classes `SDNode` and `SDValue`,
missing from the sources).  `Leaf` is a node of any opcode outside `NodeType`;
`Constant` is a `ConstantSDNode` (a target constant when `isTarget`) whose integer is
`Val` reduced modulo two to the width of `VT`; `Register` is a `RegisterSDNode`;
`Node Opc VTs Ops` is the node `getNode(Opc, VTs, Ops)` taken at its result 0 and
`Res N i` the same node taken at result `i`; `LibCall` is the value `.first` returned by
`makeLibCall`. -/
inductive SDNode
  | Leaf (id : Nat) (VT : EVT)
  | Constant (Val : Nat) (VT : EVT) (isTarget : Bool)
  | Register (Reg : Register) (VT : EVT)
  | Node (Opc : NodeType) (VTs : List EVT) (Ops : List SDNode)
  | Res (N : SDNode) (ResNo : Nat)
  | LibCall (LC : Libcall) (RetVT : EVT) (Args : List SDNode) (IsSExt : Bool)

/-- Modelled from the spec: method `getValueType` of `SDValue`, missing from the
sources. -/
def SDNode.getValueType : SDNode → EVT
  | SDNode.Leaf _ VT => VT
  | SDNode.Constant _ VT _ => VT
  | SDNode.Register _ VT => VT
  | SDNode.Node _ VTs _ => VTs.headD EVT.Other
  | SDNode.Res (SDNode.Node _ VTs _) i => VTs.getD i EVT.Other
  | SDNode.Res _ _ => EVT.Other
  | SDNode.LibCall _ RetVT _ _ => RetVT

/-- Modelled from the spec: the test `getOpcode() == Opc` on a value, missing from the
sources. -/
def SDNode.hasOpcode (Opc : NodeType) : SDNode → Bool
  | SDNode.Node O _ _ => O == Opc
  | SDNode.Res (SDNode.Node O _ _) _ => O == Opc
  | _ => false

/-- Modelled from the spec: method `ConstantSDNode::getZExtValue`, missing from the
sources, on the constant `Val` of type `VT`; `none` is the assertion that the value fits
in 64 bits. -/
def SDNode.getZExtValue (Val : Nat) (VT : EVT) : Option Nat :=
  if Val % 2 ^ VT.getSizeInBits < 2 ^ 64 then some (Val % 2 ^ VT.getSizeInBits) else none

/-- Modelled from the spec: function `isPowerOf2_64` of `MathExtras.h`, missing from the
sources, on a 64-bit unsigned value. -/
def isPowerOf2_64 (Value : Nat) : Bool :=
  Value != 0 && (Value &&& (Value - 1)) == 0

/-- Modelled from the spec: function `Log2_64` of `MathExtras.h`, missing from the
sources: the floor of the binary logarithm, and the unsigned value of -1 for zero. -/
def Log2_64 (Value : Nat) : Nat :=
  if Value = 0 then 4294967295 else Nat.log2 Value

/-- Function `LowerMUL` on the multiplication `N = (mul Op0, Op1)` of type `VT`.  The
outer `none` is an assertion failure; `some none` is the empty `SDValue()`.  `PtrVT` is
`getPointerTy` of the data layout. -/
def LowerMUL (atLeastM68020 : Bool) (PtrVT : EVT) (VT : EVT) (Op0 Op1 : SDNode) :
    Option (Option SDNode) :=
  let rest : Option SDNode :=
    if !atLeastM68020 then
      let LHS := Op0
      let RHS := Op1
      if VT = EVT.Simple MVT.i32 then
        some (SDNode.LibCall Libcall.MUL_I32 VT [LHS, RHS] true)
      else if VT = EVT.Simple MVT.i64 then
        let LoSize := VT.getSizeInBits
        let HiLHS := SDNode.Node NodeType.SRA [VT]
          [LHS, SDNode.Constant (LoSize - 1) PtrVT false]
        let HiRHS := SDNode.Node NodeType.SRA [VT]
          [RHS, SDNode.Constant (LoSize - 1) PtrVT false]
        let Ret := SDNode.LibCall Libcall.MUL_I64 VT [HiLHS, LHS, HiRHS, RHS] true
        some (SDNode.Node NodeType.EXTRACT_ELEMENT [VT]
          [Ret, SDNode.Constant 0 PtrVT false])
      else none
    else none
  match Op1 with
  | SDNode.Constant Val CVT _ =>
    match SDNode.getZExtValue Val CVT with
    | none => none
    | some MulAmt =>
      if isPowerOf2_64 MulAmt then
        if isPowerOf2_64 MulAmt then
          some (some (SDNode.Node NodeType.SHL [VT]
            [Op0, SDNode.Constant (Log2_64 MulAmt) (EVT.Simple MVT.i8) false]))
        else if isPowerOf2_64 ((MulAmt + 2 ^ 64 - 1) % 2 ^ 64) then
          some (some (SDNode.Node NodeType.ADD [VT]
            [Op0, SDNode.Node NodeType.SHL [VT]
              [Op0, SDNode.Constant (Log2_64 ((MulAmt + 2 ^ 64 - 1) % 2 ^ 64))
                (EVT.Simple MVT.i8) false]]))
        else if isPowerOf2_64 ((MulAmt + 1) % 2 ^ 64) then
          some (some (SDNode.Node NodeType.SUB [VT]
            [SDNode.Node NodeType.SHL [VT]
              [Op0, SDNode.Constant (Log2_64 ((MulAmt + 1) % 2 ^ 64))
                (EVT.Simple MVT.i8) false],
             Op0]))
        else some rest
      else some rest
  | _ => some rest

/-- Modelled from the spec: the value of a left shift (`ISD::SHL`) of the `w`-bit value
`x` by `k`. -/
def evalSHL (w x k : Nat) : Nat := (x <<< k) % 2 ^ w

/-- Modelled from the spec: the value of a `w`-bit multiplication (`ISD::MUL`). -/
def evalMUL (w x y : Nat) : Nat := (x * y) % 2 ^ w

end ISel

namespace ISel

/-! ### Overflow-checked arithmetic -/

/-- Modelled from the spec: the integer value of a condition code of the enumeration
`M68k::CondCode` (its position in the enumeration), missing from the sources. -/
def CondCode.toNat : CondCode → Nat
  | CondCode.COND_T => 0
  | CondCode.COND_F => 1
  | CondCode.COND_HI => 2
  | CondCode.COND_LS => 3
  | CondCode.COND_CC => 4
  | CondCode.COND_CS => 5
  | CondCode.COND_NE => 6
  | CondCode.COND_EQ => 7
  | CondCode.COND_VC => 8
  | CondCode.COND_VS => 9
  | CondCode.COND_PL => 10
  | CondCode.COND_MI => 11
  | CondCode.COND_GE => 12
  | CondCode.COND_LT => 13
  | CondCode.COND_GT => 14
  | CondCode.COND_LE => 15
  | CondCode.COND_INVALID => 16

/-- Function `LowerXALUO` on the node `Op = (Opc LHS, RHS)` with the two result types
`VT0` and `VT1`; `none` is `llvm_unreachable`. -/
def LowerXALUO (Opc : NodeType) (VT0 VT1 : EVT) (LHS RHS : SDNode) : Option SDNode :=
  let sel : Option (NodeType × CondCode) :=
    match Opc with
    | NodeType.SADDO => some (NodeType.M68kISD_ADD, CondCode.COND_VS)
    | NodeType.UADDO => some (NodeType.M68kISD_ADD, CondCode.COND_CS)
    | NodeType.SSUBO => some (NodeType.M68kISD_SUB, CondCode.COND_VS)
    | NodeType.USUBO => some (NodeType.M68kISD_SUB, CondCode.COND_CS)
    | _ => none
  match sel with
  | none => none
  | some (BaseOp, Cond) =>
    let Sum := SDNode.Node BaseOp [VT0, EVT.Simple MVT.i8] [LHS, RHS]
    let SetCC := SDNode.Node NodeType.M68kISD_SETCC [VT1]
      [SDNode.Constant Cond.toNat (EVT.Simple MVT.i8) false, SDNode.Res Sum 1]
    some (SDNode.Node NodeType.MERGE_VALUES [VT0, VT1] [Sum, SetCC])

/-- The step of `LowerSELECT` for a condition `Cond = (CondOpcode LHS, RHS)` that is an
overflow-checked operation (the `else if` over USUBO, SSUBO, UADDO, SADDO, UMULO, SMULO):
the new values of `Cond` and `CC`.  The outer `none` is `llvm_unreachable`, `some none`
means that the step does not apply. -/
def LowerSELECT_overflow (CondOpcode : NodeType) (LHS RHS : SDNode) :
    Option (Option (SDNode × SDNode)) :=
  if CondOpcode = NodeType.USUBO ∨ CondOpcode = NodeType.SSUBO ∨
      CondOpcode = NodeType.UADDO ∨ CondOpcode = NodeType.SADDO ∨
      CondOpcode = NodeType.UMULO ∨ CondOpcode = NodeType.SMULO then
    match (match CondOpcode with
      | NodeType.UADDO => some (NodeType.M68kISD_ADD, CondCode.COND_CS)
      | NodeType.SADDO => some (NodeType.M68kISD_ADD, CondCode.COND_VS)
      | NodeType.USUBO => some (NodeType.M68kISD_SUB, CondCode.COND_CS)
      | NodeType.SSUBO => some (NodeType.M68kISD_SUB, CondCode.COND_VS)
      | NodeType.UMULO => some (NodeType.M68kISD_UMUL, CondCode.COND_VS)
      | NodeType.SMULO => some (NodeType.M68kISD_SMUL, CondCode.COND_VS)
      | _ => (none : Option (NodeType × CondCode))) with
    | none => none
    | some (MxOpcode, MxCond) =>
      let VTs :=
        if CondOpcode = NodeType.UMULO then
          [LHS.getValueType, LHS.getValueType, EVT.Simple MVT.i32]
        else [LHS.getValueType, EVT.Simple MVT.i32]
      let MxOp := SDNode.Node MxOpcode VTs [LHS, RHS]
      let Cond := if CondOpcode = NodeType.UMULO then SDNode.Res MxOp 2 else SDNode.Res MxOp 1
      let CC := SDNode.Constant MxCond.toNat (EVT.Simple MVT.i8) false
      some (some (Cond, CC))
  else some none

/-- The step of `LowerBRCOND` for a condition `Cond = (CondOpcode LHS, RHS)` that is an
overflow-checked operation (the `if` over UADDO, SADDO, USUBO, SSUBO): the new values of
`Cond` and `CC`.  `Inverted` is the local flag set for `setcc(op:1 == 0)`;
`GetOppositeBranchCondition` is declared outside the sources and is a parameter.  The
outer `none` is `llvm_unreachable`, `some none` means that the step does not apply. -/
def LowerBRCOND_overflow (GetOppositeBranchCondition : CondCode → CondCode)
    (Inverted : Bool) (CondOpcode : NodeType) (LHS RHS : SDNode) :
    Option (Option (SDNode × SDNode)) :=
  if CondOpcode = NodeType.UADDO ∨ CondOpcode = NodeType.SADDO ∨
      CondOpcode = NodeType.USUBO ∨ CondOpcode = NodeType.SSUBO then
    match (match CondOpcode with
      | NodeType.UADDO => some (NodeType.M68kISD_ADD, CondCode.COND_CS)
      | NodeType.SADDO => some (NodeType.M68kISD_ADD, CondCode.COND_VS)
      | NodeType.USUBO => some (NodeType.M68kISD_SUB, CondCode.COND_CS)
      | NodeType.SSUBO => some (NodeType.M68kISD_SUB, CondCode.COND_VS)
      | NodeType.UMULO => some (NodeType.M68kISD_UMUL, CondCode.COND_VS)
      | NodeType.SMULO => some (NodeType.M68kISD_SMUL, CondCode.COND_VS)
      | _ => (none : Option (NodeType × CondCode))) with
    | none => none
    | some (MxOpcode, MxCond0) =>
      let MxCond := if Inverted then GetOppositeBranchCondition MxCond0 else MxCond0
      let VTs :=
        if CondOpcode = NodeType.UMULO then
          [LHS.getValueType, LHS.getValueType, EVT.Simple MVT.i8]
        else [LHS.getValueType, EVT.Simple MVT.i8]
      let MxOp := SDNode.Node MxOpcode VTs [LHS, RHS]
      let Cond := if CondOpcode = NodeType.UMULO then SDNode.Res MxOp 2 else SDNode.Res MxOp 1
      let CC := SDNode.Constant MxCond.toNat (EVT.Simple MVT.i8) false
      some (some (Cond, CC))
  else some none

/-- The four overflow-checked operations the specification names. -/
inductive CheckedOp
  | SignedAdd
  | UnsignedAdd
  | SignedSub
  | UnsignedSub
  deriving DecidableEq, Repr

/-- The DAG opcode of an overflow-checked operation. -/
def CheckedOp.toNodeType : CheckedOp → NodeType
  | CheckedOp.SignedAdd => NodeType.SADDO
  | CheckedOp.UnsignedAdd => NodeType.UADDO
  | CheckedOp.SignedSub => NodeType.SSUBO
  | CheckedOp.UnsignedSub => NodeType.USUBO

/-- The mapping as the specification words it: the flag-setting operation and the tested
condition of each overflow-checked operation (unsigned variants test the carry flag,
signed variants the overflow flag). -/
def specOverflowMapping : CheckedOp → NodeType × CondCode
  | CheckedOp.SignedAdd => (NodeType.M68kISD_ADD, CondCode.COND_VS)
  | CheckedOp.UnsignedAdd => (NodeType.M68kISD_ADD, CondCode.COND_CS)
  | CheckedOp.SignedSub => (NodeType.M68kISD_SUB, CondCode.COND_VS)
  | CheckedOp.UnsignedSub => (NodeType.M68kISD_SUB, CondCode.COND_CS)

end ISel

namespace ISel

/-! ### Values of integer comparisons -/

/-- Modelled from the spec: the signed (two's complement) value of the pattern `X` in a
type of `Bits` bits. -/
def signedValue (Bits X : Nat) : Int :=
  if X % 2 ^ Bits < 2 ^ (Bits - 1) then (X % 2 ^ Bits : Nat) else (X % 2 ^ Bits : Nat) - 2 ^ Bits

/-- Modelled from the spec: the sign bit (the most significant bit) of the pattern `X`
in a type of `Bits` bits. -/
def signBit (Bits X : Nat) : Bool := (X % 2 ^ Bits).testBit (Bits - 1)

end ISel

namespace ISel

/-! ### Bit tests -/

/-- Modelled from the spec: method `getOperand` of `SDValue`, missing from the sources;
`none` is the assertion that the operand exists. -/
def SDNode.getOperand : SDNode → Nat → Option SDNode
  | SDNode.Node _ _ Ops, i => Ops.get? i
  | SDNode.Res (SDNode.Node _ _ Ops) _, i => Ops.get? i
  | _, _ => none

/-- Modelled from the spec: function `isOneConstant`, missing from the sources. -/
def isOneConstant : SDNode → Bool
  | SDNode.Constant Val VT _ => Val % 2 ^ VT.getSizeInBits == 1
  | _ => false

/-- Modelled from the spec: function `isNullConstant`, missing from the sources. -/
def isNullConstant : SDNode → Bool
  | SDNode.Constant Val VT _ => Val % 2 ^ VT.getSizeInBits == 0
  | _ => false

/-- Modelled from the spec: function `Log2_64_Ceil` of `MathExtras.h`, missing from the
sources: 64 minus the number of leading zeros of `Value - 1` as a 64-bit value. -/
def Log2_64_Ceil (Value : Nat) : Nat :=
  let m := (Value + 2 ^ 64 - 1) % 2 ^ 64
  if m = 0 then 0 else Nat.log2 m + 1

/-- Function `getBitTestCondition`. -/
def getBitTestCondition (Src BitNo : SDNode) (CC : ISD.CondCode) : SDNode :=
  let Src1 :=
    if Src.getValueType = EVT.Simple MVT.i8 ∨ Src.getValueType = EVT.Simple MVT.i16 then
      SDNode.Node NodeType.ANY_EXTEND [EVT.Simple MVT.i32] [Src]
    else Src
  let BitNo1 :=
    if Src1.getValueType ≠ BitNo.getValueType then
      SDNode.Node NodeType.ANY_EXTEND [Src1.getValueType] [BitNo]
    else BitNo
  let BT := SDNode.Node NodeType.M68kISD_BT [EVT.Simple MVT.i32] [Src1, BitNo1]
  let Cond := if CC = ISD.CondCode.SETEQ then CondCode.COND_NE else CondCode.COND_EQ
  SDNode.Node NodeType.M68kISD_SETCC [EVT.Simple MVT.i8]
    [SDNode.Constant Cond.toNat (EVT.Simple MVT.i8) false, BT]

/-- Function `LowerAndToBT`.  The outer `none` is an assertion failure, `some none` the
empty `SDValue()`.  `countMinLeadingZeros N` stands for
`DAG.computeKnownBits(N).countMinLeadingZeros()`, an analysis outside the sources. -/
def LowerAndToBT (countMinLeadingZeros : SDNode → Nat) (And : SDNode) (CC : ISD.CondCode) :
    Option (Option SDNode) :=
  (And.getOperand 0).bind fun Op0a =>
  (And.getOperand 1).bind fun Op1a =>
  (if Op0a.hasOpcode NodeType.TRUNCATE then Op0a.getOperand 0 else some Op0a).bind fun Op0b =>
  (if Op1a.hasOpcode NodeType.TRUNCATE then Op1a.getOperand 0 else some Op1a).bind fun Op1b =>
  let Op0 := if Op1b.hasOpcode NodeType.SHL then Op1b else Op0b
  let Op1 := if Op1b.hasOpcode NodeType.SHL then Op0b else Op1b
  if Op0.hasOpcode NodeType.SHL then
    (Op0.getOperand 0).bind fun Op00 =>
    if isOneConstant Op00 then
      let BitWidth := Op0.getValueType.getSizeInBits
      let AndBitWidth := And.getValueType.getSizeInBits
      if BitWidth > AndBitWidth ∧ countMinLeadingZeros Op0 < BitWidth - AndBitWidth then
        some none
      else
        (Op0.getOperand 1).bind fun RHS =>
        some (some (getBitTestCondition Op1 RHS CC))
    else some none
  else
    match Op1 with
    | SDNode.Constant Val CVT false =>
      (SDNode.getZExtValue Val CVT).bind fun AndRHSVal =>
      let AndLHS := Op0
      (if AndRHSVal = 1 ∧ AndLHS.hasOpcode NodeType.SRL then
        (AndLHS.getOperand 0).bind fun L =>
        (AndLHS.getOperand 1).bind fun R => some (some (L, R))
       else some none).bind fun (LR : Option (SDNode × SDNode)) =>
      let LR1 : Option (SDNode × SDNode) :=
        if ¬ AndRHSVal < 2 ^ 32 ∧ isPowerOf2_64 AndRHSVal then
          some (AndLHS,
            SDNode.Constant (Log2_64_Ceil AndRHSVal) AndLHS.getValueType false)
        else LR
      match LR1 with
      | some (LHS, RHS) => some (some (getBitTestCondition LHS RHS CC))
      | none => some none
    | _ => some none

/-- Function `LowerTruncateToBT`; the outer `none` is its assertion. -/
def LowerTruncateToBT (Op : SDNode) (CC : ISD.CondCode) : Option (Option SDNode) :=
  if Op.hasOpcode NodeType.TRUNCATE ∧ Op.getValueType = EVT.Simple MVT.i1 then
    (Op.getOperand 0).bind fun ShiftRight =>
    if !ShiftRight.hasOpcode NodeType.SRL then some none
    else
      (ShiftRight.getOperand 0).bind fun Src =>
      (ShiftRight.getOperand 1).bind fun BitNo =>
      some (some (getBitTestCondition Src BitNo CC))
  else none

/-- Function `LowerToBT`. -/
def LowerToBT (countMinLeadingZeros : SDNode → Nat) (Op : SDNode) (CC : ISD.CondCode) :
    Option (Option SDNode) :=
  if Op.hasOpcode NodeType.AND then LowerAndToBT countMinLeadingZeros Op CC
  else if Op.hasOpcode NodeType.TRUNCATE ∧ Op.getValueType = EVT.Simple MVT.i1 then
    LowerTruncateToBT Op CC
  else some none

/-- The first step of `LowerSETCC` on the comparison `Op = (setcc Op0, Op1, CC)` of type
`VT`: the assertion on the type and the attempt to use a bit test.  `Op0HasOneUse` is
`Op0.hasOneUse()`; `Rest` stands for the result of the remaining steps of the function
(the simplification of comparisons of a SETCC and the general compare).  The outer `none`
is an assertion failure, `some none` the empty `SDValue()`. -/
def LowerSETCC (countMinLeadingZeros : SDNode → Nat) (Op0HasOneUse : Bool) (VT : EVT)
    (Op0 Op1 : SDNode) (CC : ISD.CondCode) (Rest : Option (Option SDNode)) :
    Option (Option SDNode) :=
  if VT ≠ EVT.Simple MVT.i8 then none
  else if Op0HasOneUse ∧ isNullConstant Op1 ∧
      (CC = ISD.CondCode.SETEQ ∨ CC = ISD.CondCode.SETNE) then
    (LowerToBT countMinLeadingZeros Op0 CC).bind fun NewSetCCOpt =>
    match NewSetCCOpt with
    | some NewSetCC =>
      if VT = EVT.Simple MVT.i1 then
        some (some (SDNode.Node NodeType.TRUNCATE [EVT.Simple MVT.i1] [NewSetCC]))
      else some (some NewSetCC)
    | none => Rest
  else Rest

/-- The DAG `(and (srl x, n), 1)` of type `VTA`. -/
def andSrlOne (VTA VTS CVT : EVT) (x n : SDNode) : SDNode :=
  SDNode.Node NodeType.AND [VTA]
    [SDNode.Node NodeType.SRL [VTS] [x, n], SDNode.Constant 1 CVT false]

/-- The DAG `(and x, (shl 1, n))` of type `VTA`. -/
def andShlRight (VTA CVT : EVT) (isTarget : Bool) (x n : SDNode) : SDNode :=
  SDNode.Node NodeType.AND [VTA]
    [x, SDNode.Node NodeType.SHL [VTA] [SDNode.Constant 1 CVT isTarget, n]]

/-- The DAG `(and (shl 1, n), x)` of type `VTA`. -/
def andShlLeft (VTA CVT : EVT) (isTarget : Bool) (x n : SDNode) : SDNode :=
  SDNode.Node NodeType.AND [VTA]
    [SDNode.Node NodeType.SHL [VTA] [SDNode.Constant 1 CVT isTarget, n], x]

end ISel

namespace ISel

/-! ### Lowering of the select pseudo instructions (`EmitLoweredSelect`) -/

/-- Modelled from the spec: function `M68k::GetOppositeBranchCondition` of
`M68kInstrInfo.cpp`, missing from the sources: the logically opposite condition (the
marker COND_INVALID, on which the function aborts, is mapped to itself).  The lowering
functions take the function as a parameter; this definition instantiates it in
examples. -/
def GetOppositeBranchCondition : CondCode → CondCode
  | CondCode.COND_T => CondCode.COND_F
  | CondCode.COND_F => CondCode.COND_T
  | CondCode.COND_HI => CondCode.COND_LS
  | CondCode.COND_LS => CondCode.COND_HI
  | CondCode.COND_CC => CondCode.COND_CS
  | CondCode.COND_CS => CondCode.COND_CC
  | CondCode.COND_NE => CondCode.COND_EQ
  | CondCode.COND_EQ => CondCode.COND_NE
  | CondCode.COND_VC => CondCode.COND_VS
  | CondCode.COND_VS => CondCode.COND_VC
  | CondCode.COND_PL => CondCode.COND_MI
  | CondCode.COND_MI => CondCode.COND_PL
  | CondCode.COND_GE => CondCode.COND_LT
  | CondCode.COND_LT => CondCode.COND_GE
  | CondCode.COND_GT => CondCode.COND_LE
  | CondCode.COND_LE => CondCode.COND_GT
  | CondCode.COND_INVALID => CondCode.COND_INVALID

/-- The machine basic blocks `EmitLoweredSelect` names: the block of the select, the
three blocks it may create, and any other block of the function. -/
inductive MBB
  | thisMBB
  | jcc1MBB
  | copy0MBB
  | sinkMBB
  | other (n : Nat)
  deriving DecidableEq, Repr

/-- The opcodes for which `isCMOVPseudo` holds. -/
inductive CMOVOpcode
  | CMOV8d
  | CMOV16d
  | CMOV32r
  deriving DecidableEq, Repr

/-- Modelled from the spec: machine instructions as `EmitLoweredSelect` reads and builds
them (class `MachineInstr`, missing from the sources).  `CMOV` is a select pseudo with
its destination (operand 0), operand 1 and its kill flag, operand 2, the condition code
(operand 3) and whether it kills CCR; `PHI` lists (register, predecessor) pairs; `Bcc` is
the conditional branch `GetCondBranchFromCond(CC)` to a block; `other` is any other
instruction with whether it reads and whether it defines CCR. -/
inductive MachineInstr
  | CMOV (Opc : CMOVOpcode) (Dest Op1 : Nat) (Op1IsKill : Bool) (Op2 : Nat) (CC : CondCode)
      (KillsCCR : Bool)
  | PHI (Dest : Nat) (Incoming : List (Nat × MBB))
  | COPY (Dest Src : Nat)
  | Bcc (CC : CondCode) (Target : MBB)
  | other (id : Nat) (readsCCR definesCCR : Bool)
  deriving DecidableEq, Repr

/-- Function `isCMOVPseudo`. -/
def isCMOVPseudo : MachineInstr → Bool
  | MachineInstr.CMOV _ _ _ _ _ _ _ => true
  | _ => false

/-- Modelled from the spec: method `readsRegister(M68k::CCR)`, missing from the sources;
selects and conditional branches read the condition codes. -/
def readsCCR : MachineInstr → Bool
  | MachineInstr.CMOV _ _ _ _ _ _ _ => true
  | MachineInstr.Bcc _ _ => true
  | MachineInstr.other _ r _ => r
  | _ => false

/-- Modelled from the spec: method `definesRegister(M68k::CCR)`, missing from the
sources. -/
def definesCCR : MachineInstr → Bool
  | MachineInstr.other _ _ d => d
  | _ => false

/-- Modelled from the spec: method `killsRegister(M68k::CCR)`, missing from the
sources. -/
def killsCCR : MachineInstr → Bool
  | MachineInstr.CMOV _ _ _ _ _ _ K => K
  | _ => false

/-- A machine basic block: its instructions, its successors and whether CCR is live
into it. -/
structure MachineBasicBlock where
  Instrs : List MachineInstr
  Successors : List MBB
  LiveInCCR : Bool
  deriving DecidableEq, Repr

/-- The effect of `EmitLoweredSelect`: the instructions and successors of the block of the
select afterwards, and the created blocks in the order of their insertion after it (the
last one, `sinkMBB`, is the returned block). -/
structure LoweredSelect where
  thisMBB : List MachineInstr
  thisSuccessors : List MBB
  NewBlocks : List (MBB × MachineBasicBlock)
  deriving DecidableEq, Repr

/-- Function `checkAndUpdateCCRKill` on the instructions after `SelectItr` and the
successors of the block.  The kill marker it sets lands on a select that
`EmitLoweredSelect` erases and is not represented. -/
def checkAndUpdateCCRKill (SuccLiveInCCR : MBB → Bool) (Successors : List MBB) :
    List MachineInstr → Bool
  | [] => !(Successors.any SuccLiveInCCR)
  | mi :: rest =>
    if readsCCR mi then false
    else if definesCCR mi then true
    else checkAndUpdateCCRKill SuccLiveInCCR Successors rest

/-- The `while` loop of `EmitLoweredSelect` over the instructions after `MI`: the selects
it steps over (up to `LastCMOV`) and the instructions from `NextMIIt` on. -/
def scanCMOVs (CC OppCC : CondCode) : List MachineInstr →
    List MachineInstr × List MachineInstr
  | MachineInstr.CMOV Opc D O1 K O2 C KC :: rest =>
    if C = CC ∨ C = OppCC then
      ((MachineInstr.CMOV Opc D O1 K O2 C KC) :: (scanCMOVs CC OppCC rest).1,
        (scanCMOVs CC OppCC rest).2)
    else ([], MachineInstr.CMOV Opc D O1 K O2 C KC :: rest)
  | l => ([], l)

/-- The loop of `EmitLoweredSelect` that builds the PHI nodes for the selects from `MI`
to `LastCMOV`, in order; `Table` is `RegRewriteTable`. -/
def buildPHIs (OppCC : CondCode) : List (Nat × (Nat × Nat)) → List MachineInstr →
    List MachineInstr
  | _, [] => []
  | Table, MachineInstr.CMOV _ DestReg O1 _ O2 C _ :: rest =>
    let Op1Reg := if C = OppCC then O2 else O1
    let Op2Reg := if C = OppCC then O1 else O2
    let Op1Reg1 := match Table.lookup Op1Reg with
      | some p => p.1
      | none => Op1Reg
    let Op2Reg1 := match Table.lookup Op2Reg with
      | some p => p.2
      | none => Op2Reg
    MachineInstr.PHI DestReg [(Op1Reg1, MBB.copy0MBB), (Op2Reg1, MBB.thisMBB)] ::
      buildPHIs OppCC ((DestReg, (Op1Reg1, Op2Reg1)) :: Table) rest
  | Table, _ :: rest => buildPHIs OppCC Table rest

/-- The operand tests of the second `if` of `EmitLoweredSelect`, which looks for a cascaded
select `N` after `MI`: the same opcode, the same operand 2, and operand 1 the killed
result of `MI`. -/
def isCascadedPair : MachineInstr → MachineInstr → Bool
  | MachineInstr.CMOV Opc D _ _ O2 _ _, MachineInstr.CMOV Opc2 _ P1 K1 P2 _ _ =>
    Opc2 = Opc ∧ P2 = O2 ∧ P1 = D ∧ K1 = true
  | _, _ => false

/-- Function `EmitLoweredSelect` on the block `Pre ++ MI :: Rest` with the given
successors.  `GetOppositeBranchCondition` is declared outside the sources and is a
parameter; `SuccLiveInCCR` tells whether CCR is live into a successor.  `none`: `MI` is
not a select pseudo. -/
def EmitLoweredSelect (GetOppositeBranchCondition : CondCode → CondCode)
    (SuccLiveInCCR : MBB → Bool) (Pre : List MachineInstr) (MI : MachineInstr)
    (Rest : List MachineInstr) (Successors : List MBB) : Option LoweredSelect :=
  match MI with
  | MachineInstr.CMOV _ D _ _ O2 CC _ =>
    let OppCC := GetOppositeBranchCondition CC
    let Run := (scanCMOVs CC OppCC Rest).1
    let Next := (scanCMOVs CC OppCC Rest).2
    let CascadedCMOV : Option MachineInstr :=
      match Run, Next with
      | [], N :: _ => if isCascadedPair MI N then some N else none
      | _, _ => none
    let LastCMOV := Run.getLastD MI
    let LastCCRSUser := CascadedCMOV.getD LastCMOV
    let AfterUser := if CascadedCMOV.isSome then Next.tail else Next
    let LiveIn := !killsCCR LastCCRSUser &&
      !checkAndUpdateCCRKill SuccLiveInCCR Successors AfterUser
    let PHIs := buildPHIs OppCC [] (MI :: Run)
    match CascadedCMOV with
    | some (MachineInstr.CMOV _ D2 _ _ _ C2 _) =>
      let LastPHI : List MachineInstr :=
        match PHIs.getLast? with
        | some (MachineInstr.PHI d Incoming) =>
          [MachineInstr.PHI d (Incoming ++ [(O2, MBB.jcc1MBB)])]
        | _ => []
      some
        { thisMBB := Pre ++ [MachineInstr.Bcc CC MBB.sinkMBB]
          thisSuccessors := [MBB.jcc1MBB, MBB.sinkMBB]
          NewBlocks :=
            [(MBB.jcc1MBB,
              { Instrs := [MachineInstr.Bcc C2 MBB.sinkMBB],
                Successors := [MBB.copy0MBB, MBB.sinkMBB], LiveInCCR := true }),
             (MBB.copy0MBB,
              { Instrs := [], Successors := [MBB.sinkMBB], LiveInCCR := LiveIn }),
             (MBB.sinkMBB,
              { Instrs := PHIs.dropLast ++ LastPHI ++ [MachineInstr.COPY D2 D] ++ Next.tail,
                Successors := Successors, LiveInCCR := LiveIn })] }
    | _ =>
      some
        { thisMBB := Pre ++ [MachineInstr.Bcc CC MBB.sinkMBB]
          thisSuccessors := [MBB.copy0MBB, MBB.sinkMBB]
          NewBlocks :=
            [(MBB.copy0MBB,
              { Instrs := [], Successors := [MBB.sinkMBB], LiveInCCR := LiveIn }),
             (MBB.sinkMBB,
              { Instrs := PHIs ++ Next, Successors := Successors, LiveInCCR := LiveIn })] }
  | _ => none

/-- Whether an instruction continues the run of selects that `EmitLoweredSelect` fuses:
a select pseudo whose condition is `CC` or `OppCC`. -/
def inRun (CC OppCC : CondCode) : MachineInstr → Bool
  | MachineInstr.CMOV _ _ _ _ _ C _ => C = CC ∨ C = OppCC
  | _ => false

/-- The destination register (operand 0) of a select pseudo. -/
def destReg : MachineInstr → Option Nat
  | MachineInstr.CMOV _ D _ _ _ _ _ => some D
  | _ => none

/-- The PHI node `P` merges the two operands of the select `S`: it defines the
destination of `S` from one register on the edge from `copy0MBB` and one on the edge from
`thisMBB`. -/
def isPHIFor (S P : MachineInstr) : Prop :=
  ∃ d a b, destReg S = some d ∧
    P = MachineInstr.PHI d [(a, MBB.copy0MBB), (b, MBB.thisMBB)]

/-- Modelled from the spec: the effect of a select pseudo on the register values: the
destination receives operand 2 if the condition holds and operand 1 otherwise. -/
def execCMOV (holds : CondCode → Bool) (regs : Nat → Int) : MachineInstr → Nat → Int
  | MachineInstr.CMOV _ D O1 _ O2 C _ =>
    Function.update regs D (if holds C then regs O2 else regs O1)
  | _ => regs

/-- Modelled from the spec: whether control leaves a block through its final conditional
branch to `sinkMBB`. -/
def takesBranch (holds : CondCode → Bool) (B : MachineBasicBlock) : Bool :=
  match B.Instrs.getLast? with
  | some (MachineInstr.Bcc C MBB.sinkMBB) => holds C
  | _ => false

/-- Modelled from the spec: the block from which control enters `sinkMBB`, walking the
blocks in layout order: a block whose conditional branch is taken, or the block that
falls through into `sinkMBB`. -/
def sinkPredecessor (holds : CondCode → Bool) : List (MBB × MachineBasicBlock) → Option MBB
  | [] => none
  | [_] => none
  | (id, B) :: (next, NB) :: rest =>
    if takesBranch holds B then some id
    else if next = MBB.sinkMBB then some id
    else sinkPredecessor holds ((next, NB) :: rest)

/-- Modelled from the spec: the effect of a list of PHI nodes and copies at the head of a
block entered from `pred`: a PHI node reads, in the register values `entry` on entry, the
register listed for `pred`; a copy reads the current values. -/
def execMerge (pred : MBB) (entry : Nat → Int) : (Nat → Int) → List MachineInstr → Nat → Int
  | cur, MachineInstr.PHI d Incoming :: rest =>
    match Incoming.find? (fun p => p.2 = pred) with
    | some p => execMerge pred entry (Function.update cur d (entry p.1)) rest
    | none => cur
  | cur, MachineInstr.COPY d s :: rest =>
    execMerge pred entry (Function.update cur d (cur s)) rest
  | cur, _ => cur

end ISel

namespace ISel

/-! ### Lowering of returns -/

/-- Modelled from the spec: method `SelectionDAG::getCopyToReg` with a glue operand,
missing from the sources: a `CopyToReg` node with results (chain, glue) on the chain, the
register, the value and the glue when there is one. -/
def getCopyToReg (Chain : SDNode) (Reg : Register) (N : SDNode) (Glue : Option SDNode) :
    SDNode :=
  SDNode.Node NodeType.CopyToReg [EVT.Other, EVT.Glue]
    ([Chain, SDNode.Register Reg N.getValueType, N] ++ Glue.toList)

/-- Modelled from the spec: method `SelectionDAG::getCopyFromReg`, missing from the
sources: a `CopyFromReg` node with results (value, chain) on the chain and the
register. -/
def getCopyFromReg (Chain : SDNode) (Reg : Register) (VT : EVT) : SDNode :=
  SDNode.Node NodeType.CopyFromReg [VT, EVT.Other] [Chain, SDNode.Register Reg VT]

/-- Modelled from the spec: method `SelectionDAG::getBitcast`, missing from the
sources. -/
def getBitcast (VT : EVT) (V : SDNode) : SDNode :=
  if VT = V.getValueType then V else SDNode.Node NodeType.BITCAST [VT] [V]

/-- The local variables `Chain`, `Flag` and `RetOps` of `LowerReturn`. -/
structure ReturnState where
  Chain : SDNode
  Flag : Option SDNode
  RetOps : List SDNode

/-- The loop of `LowerReturn` over the return value locations `RVLocs` and the values
`OutVals`; `none` is the assertion `Can only return in registers!` (or a missing value).
Vector types are outside the model of value types, so `ValVT.isVector()` is false. -/
def LowerReturnLoop : List CCValAssign → List SDNode → ReturnState → Option ReturnState
  | [], _, S => some S
  | VA :: RVLocs, OutVals, S =>
    match VA.Loc, OutVals with
    | Loc.Reg LocReg, OutVal :: Rest =>
      let ValToCopy :=
        if VA.HTP = LocInfo.SExt then
          SDNode.Node NodeType.SIGN_EXTEND [EVT.Simple VA.LocVT] [OutVal]
        else if VA.HTP = LocInfo.ZExt then
          SDNode.Node NodeType.ZERO_EXTEND [EVT.Simple VA.LocVT] [OutVal]
        else if VA.HTP = LocInfo.AExt then
          SDNode.Node NodeType.ANY_EXTEND [EVT.Simple VA.LocVT] [OutVal]
        else if VA.HTP = LocInfo.BCvt then getBitcast (EVT.Simple VA.LocVT) OutVal
        else OutVal
      let Chain := getCopyToReg S.Chain LocReg ValToCopy S.Flag
      LowerReturnLoop RVLocs Rest
        { Chain := Chain, Flag := some (SDNode.Res Chain 1),
          RetOps := S.RetOps ++ [SDNode.Register LocReg (EVT.Simple VA.LocVT)] }
    | _, _ => none

/-- Function `LowerReturn`.  `RVLocs` is the result of `CCInfo.AnalyzeReturn`,
`BytesToPopOnReturn` and `SRetReturnReg` (0 when unset) come from the function's
side-table, `PtrVT` is `getPointerTy`; `none` is an assertion failure. -/
def LowerReturn (PtrVT : EVT) (BytesToPopOnReturn SRetReturnReg : Nat)
    (RVLocs : List CCValAssign) (Chain : SDNode) (OutVals : List SDNode) : Option SDNode :=
  let RetOps0 : List SDNode :=
    [Chain, SDNode.Constant BytesToPopOnReturn (EVT.Simple MVT.i32) true]
  match LowerReturnLoop RVLocs OutVals { Chain := Chain, Flag := none, RetOps := RetOps0 } with
  | none => none
  | some S =>
    match S.RetOps with
    | [] => none
    | RetOps_0 :: Ops =>
      let S1 : ReturnState :=
        if SRetReturnReg ≠ 0 then
          let Val := getCopyFromReg RetOps_0 (Register.phys SRetReturnReg) PtrVT
          let RetValReg := Register.D0
          let Chain1 := getCopyToReg S.Chain RetValReg Val S.Flag
          { Chain := Chain1, Flag := some (SDNode.Res Chain1 1),
            RetOps := RetOps_0 :: Ops ++ [SDNode.Register RetValReg PtrVT] }
        else S
      let RetOps := S1.Chain :: S1.RetOps.tail ++ S1.Flag.toList
      some (SDNode.Node NodeType.M68kISD_RET [EVT.Other] RetOps)

/-- The register operands `LowerReturn` pushes for the return value locations. -/
def returnRegisters (RVLocs : List CCValAssign) : List SDNode :=
  RVLocs.filterMap fun VA =>
    VA.locReg?.map fun R => SDNode.Register R (EVT.Simple VA.LocVT)

/-- The location of the 32-bit value number `ValNo` in the register `R`. -/
def exampleRegLoc (ValNo : Nat) (R : Register) : CCValAssign :=
  { ValNo := ValNo, ValVT := MVT.i32, LocVT := MVT.i32, HTP := LocInfo.Full,
    Loc := Loc.Reg R }

/-! ### Arguments in the registers of the call address -/

/-- The number of arguments assigned to `A0` or `A1`. -/
def numInRegs : List CCValAssign → Nat
  | [] => 0
  | VA :: rest =>
    (if VA.Loc = Loc.Reg Register.A0 ∨ VA.Loc = Loc.Reg Register.A1 then 1 else 0) +
      numInRegs rest

/-- The query in which the check on the arguments in `A0` and `A1` is not made (a direct
call in code that is not position-independent) and every other input is that of `Q`. -/
def TailCallQuery.directCall (Q : TailCallQuery) : TailCallQuery :=
  { Q with CalleeIsGlobalOrSymbol := true, PositionIndependent := false }

/-- An indirect call between two `C` functions with the argument locations `ArgLocs`, all
in registers, that meets every condition of tail-call eligibility other than the one on
the arguments in `A0` and `A1`. -/
def indirectCallQuery (PositionIndependent : Bool) (ArgLocs : List CCValAssign) :
    TailCallQuery :=
  { CalleeIsGlobalOrSymbol := false, CalleeCC := CallingConv.C, CallerCC := CallingConv.C,
    isVarArg := false, isCalleeStructRet := false, isCallerStructRet := false,
    OutsEmpty := false, GuaranteedTailCallOpt := false, needsStackRealignment := false,
    ArgLocs := ArgLocs, NextStackOffset := 0, resultsCompatible := true,
    CallPreservedMask := fun _ => 0,
    MatchingStackOffset := fun _ => true, PositionIndependent := PositionIndependent,
    parametersInCSRMatch := true, BytesToPopOnReturn := 0 }

end ISel

namespace ExpandPseudo

/-- A tail-call placeholder of opcode `Opc` (TCRETURNq or TCRETURNj) with the jump target,
the stack adjustment `A` and the given implicit operands. -/
def tailCallPlaceholder (Opc : Opcode) (JumpTarget : MachineOperand) (A : Int)
    (Implicit : List MachineOperand) : MachineInstr :=
  { Opcode := Opc, Operands := [JumpTarget, MachineOperand.Imm A], ImplicitOps := Implicit }

/-- A target description used in examples: like `exampleTarget`, with the return-address
delta `D`, a merge of stack-pointer updates that absorbs `Absorbed` bytes, and one implicit
operand on every built instruction. -/
def exampleTailTarget (D Absorbed : Int) : Target :=
  { exampleTarget with
    TCReturnAddrDelta := D
    mergeSPUpdates := fun Pre _ => (Absorbed, Pre)
    ImplicitOperands := fun _ => [MachineOperand.Reg Register.SP false false] }

end ExpandPseudo

namespace ISel

/-! ### Stack arguments of a tail call (`MatchingStackOffset`) -/

/-- Modelled from the spec: the DAG value `Arg` as `MatchingStackOffset` inspects it
(classes `SDValue`, `LoadSDNode`, `FrameIndexSDNode`, `RegisterSDNode`, `VTSDNode`,
missing from the sources): the nodes it looks through, a copy from the register `VR`, a
load from a base pointer, a frame index, or any other node; each with its value type. -/
inductive ArgNode
  | ZERO_EXTEND (VT : MVT) (Op : ArgNode)
  | ANY_EXTEND (VT : MVT) (Op : ArgNode)
  | BITCAST (VT : MVT) (Op : ArgNode)
  | TRUNCATE (VT : MVT) (Op : ArgNode)
  | AssertZext (VT : MVT) (AssertVT : MVT) (Op : ArgNode)
  | CopyFromReg (VT : MVT) (VR : Nat)
  | Load (VT : MVT) (BasePtr : ArgNode)
  | FrameIndex (VT : MVT) (FI : Int)
  | Other (VT : MVT) (id : Nat)
  deriving DecidableEq, Repr

/-- Modelled from the spec: method `getValueType`, missing from the sources. -/
def ArgNode.getValueType : ArgNode → MVT
  | ArgNode.ZERO_EXTEND VT _ => VT
  | ArgNode.ANY_EXTEND VT _ => VT
  | ArgNode.BITCAST VT _ => VT
  | ArgNode.TRUNCATE VT _ => VT
  | ArgNode.AssertZext VT _ _ => VT
  | ArgNode.CopyFromReg VT _ => VT
  | ArgNode.Load VT _ => VT
  | ArgNode.FrameIndex VT _ => VT
  | ArgNode.Other VT _ => VT

/-- The extension flags of `ISD::ArgFlagsTy` (methods `isZExt` and `isSExt`), which
`MatchingStackOffset` reads next to the by-value flags. -/
structure ArgExtFlags where
  isZExt : Bool
  isSExt : Bool
  deriving DecidableEq, Repr

/-- Modelled from the spec: the opcode of the instruction defining a virtual register,
as `MatchingStackOffset` tests it; the opcode enumeration is missing from the sources. -/
inductive DefOpcode
  | LEA32p
  | LEA32f
  | other (n : Nat)
  deriving DecidableEq, Repr

/-- Modelled from the spec: the instruction `Def` defining a virtual register (class
`MachineInstr`, missing from the sources): its opcode, the frame index of its operand 1
when that operand is a frame index, and the frame index `TII->isLoadFromStackSlot` reports
when the instruction is a load from a stack slot. -/
structure DefInstr where
  Opcode : DefOpcode
  Operand1FI : Option Int
  LoadFromStackSlot : Option Int
  deriving DecidableEq, Repr

/-- What `MatchingStackOffset` consults outside the file: whether a register number is
virtual, the defining instruction of a virtual register (`MRI->getVRegDef`), and the fixed
objects of the frame (a frame index is fixed when it is a position of this list). -/
structure StackEnv where
  isVirtualRegister : Nat → Bool
  getVRegDef : Nat → Option DefInstr
  MFI : MachineFrameInfo

/-- Modelled from the spec: the fixed frame object of index `FI`, `none` when
`isFixedObjectIndex(FI)` is false. -/
def fixedObject (MFI : MachineFrameInfo) (FI : Int) : Option FixedObject :=
  if 0 ≤ FI then MFI.get? FI.toNat else none

/-- The `for (;;)` loop of `MatchingStackOffset`: the value of `Arg` after it. -/
def lookThrough : ArgNode → ArgNode
  | ArgNode.ZERO_EXTEND _ Op => lookThrough Op
  | ArgNode.ANY_EXTEND _ Op => lookThrough Op
  | ArgNode.BITCAST _ Op => lookThrough Op
  | ArgNode.TRUNCATE VT (ArgNode.AssertZext VT1 AssertVT Op) =>
    if AssertVT = VT then lookThrough Op
    else ArgNode.TRUNCATE VT (ArgNode.AssertZext VT1 AssertVT Op)
  | Arg => Arg

/-- The middle part of `MatchingStackOffset`: the frame index `FI` and the byte count
`Bytes` after the tests on the kind of `Arg` (already looked through), `none` when one of
them returns `false`.  `Bytes0` is the byte size of the type of the original argument. -/
def resolveFrameIndex (E : StackEnv) (Flags : ArgFlagsTy) (Bytes0 : Nat) :
    ArgNode → Option (Int × Nat)
  | ArgNode.CopyFromReg _ VR =>
    if !E.isVirtualRegister VR then none
    else
      match E.getVRegDef VR with
      | none => none
      | some Def =>
        if !Flags.isByVal then
          match Def.LoadFromStackSlot with
          | none => none
          | some FI => some (FI, Bytes0)
        else if Def.Opcode = DefOpcode.LEA32p ∨ Def.Opcode = DefOpcode.LEA32f then
          match Def.Operand1FI with
          | some FI => some (FI, Flags.ByValSize % 4294967296)
          | none => none
        else none
  | ArgNode.Load _ Ptr =>
    if Flags.isByVal then none
    else
      match Ptr with
      | ArgNode.FrameIndex _ FI => some (FI, Bytes0)
      | _ => none
  | ArgNode.FrameIndex _ FI =>
    if Flags.isByVal then some (FI, Flags.ByValSize % 4294967296) else none
  | _ => none

/-- Function `MatchingStackOffset`; `none` is the failure of `assert(FI != INT_MAX)`. -/
def MatchingStackOffset (E : StackEnv) (Arg : ArgNode) (Offset : Nat) (Flags : ArgFlagsTy)
    (Ext : ArgExtFlags) (VA : CCValAssign) : Option Bool :=
  let Bytes0 := Arg.getValueType.getSizeInBits / 8
  let Arg1 := lookThrough Arg
  match resolveFrameIndex E Flags Bytes0 Arg1 with
  | none => some false
  | some (FI, Bytes) =>
    if FI = INT_MAX then none
    else
      match fixedObject E.MFI FI with
      | none => some false
      | some Obj =>
        if Int.ofNat Offset ≠ Obj.SPOffset then some false
        else if VA.LocVT.getSizeInBits > Arg1.getValueType.getSizeInBits ∧
            (Ext.isZExt ≠ Obj.isZExt ∨ Ext.isSExt ≠ Obj.isSExt) then some false
        else some (Bytes == Obj.Size)

/-- The ways in which `MatchingStackOffset` resolves an argument (after looking through
zero/any-extensions, bitcasts and truncations of an `AssertZext` to the same type) to the
frame index `FI`: for an argument not passed by value, a copy from a virtual register
defined by a load from the stack slot `FI`, or a load whose base pointer is the frame
index `FI`; for an argument passed by value, a copy from a virtual register defined by a
`LEA32p` or `LEA32f` of the frame index `FI`, or the frame index node `FI` itself. -/
def resolvesTo (E : StackEnv) (Flags : ArgFlagsTy) (Arg1 : ArgNode) (FI : Int) : Prop :=
  (Flags.isByVal = false ∧ ∃ VT VR Def, Arg1 = ArgNode.CopyFromReg VT VR ∧
      E.isVirtualRegister VR = true ∧ E.getVRegDef VR = some Def ∧
      Def.LoadFromStackSlot = some FI) ∨
  (Flags.isByVal = false ∧ ∃ VT VT1, Arg1 = ArgNode.Load VT (ArgNode.FrameIndex VT1 FI)) ∨
  (Flags.isByVal = true ∧ ∃ VT VR Def, Arg1 = ArgNode.CopyFromReg VT VR ∧
      E.isVirtualRegister VR = true ∧ E.getVRegDef VR = some Def ∧
      (Def.Opcode = DefOpcode.LEA32p ∨ Def.Opcode = DefOpcode.LEA32f) ∧
      Def.Operand1FI = some FI) ∨
  (Flags.isByVal = true ∧ ∃ VT, Arg1 = ArgNode.FrameIndex VT FI)

/-- A frame with two fixed objects, of 8 bytes at offset 4 and of 1 byte at offset 12, and
a virtual register 1000 defined by a `LEA32p` of the first object (not a load). -/
def exampleStackEnv : StackEnv :=
  { isVirtualRegister := fun VR => decide (1000 ≤ VR)
    getVRegDef := fun VR =>
      if VR = 1000 then
        some { Opcode := DefOpcode.LEA32p, Operand1FI := some 0, LoadFromStackSlot := none }
      else none
    MFI := [{ Size := 8, SPOffset := 4, IsImmutable := true, isZExt := false,
              isSExt := false },
            { Size := 1, SPOffset := 12, IsImmutable := true, isZExt := false,
              isSExt := false }] }

/-- A stack location at offset `Offset` for a 32-bit value. -/
def exampleMemLoc (ValNo Offset : Nat) : CCValAssign :=
  { ValNo := ValNo, ValVT := MVT.i32, LocVT := MVT.i32, HTP := LocInfo.Full,
    Loc := Loc.Mem Offset }

/-- A direct call between two `C` functions whose only argument is passed by value on
the stack at offset 4 and is the address of the caller's fixed object 0; every other
condition of tail-call eligibility holds. -/
def stackCallQuery : TailCallQuery :=
  { CalleeIsGlobalOrSymbol := true, CalleeCC := CallingConv.C, CallerCC := CallingConv.C,
    isVarArg := false, isCalleeStructRet := false, isCallerStructRet := false,
    OutsEmpty := false, GuaranteedTailCallOpt := false, needsStackRealignment := false,
    ArgLocs := [exampleMemLoc 0 4], NextStackOffset := 8, resultsCompatible := true,
    CallPreservedMask := fun _ => 0,
    MatchingStackOffset := fun _ =>
      MatchingStackOffset exampleStackEnv (ArgNode.CopyFromReg MVT.i32 1000) 4
        { isByVal := true, ByValSize := 8 } { isZExt := false, isSExt := false }
        (exampleMemLoc 0 4) == some true,
    PositionIndependent := false, parametersInCSRMatch := true, BytesToPopOnReturn := 0 }

end ISel

namespace CollapseMOVEM

/-- A sequence of calls `update(O, M)` on a `MOVEMState`, for the pairs `(O, M)` of the
list in order.  The first component is the state, the second the accepted members so far,
that is, the arguments of the calls that returned `true`; `none` when a call fails an
assertion. -/
def updateCalls : MOVEMState × List (Int × Nat) → List (Int × Nat) →
    Option (MOVEMState × List (Int × Nat))
  | R, [] => some R
  | R, p :: rest =>
    match R.1.update p.1 p.2 with
    | none => none
    | some (true, S1) => updateCalls (S1, R.2 ++ [p]) rest
    | some (false, S1) => updateCalls (S1, R.2) rest

/-- Invariant of a `MOVEMState` with the accepted members `acc`: the mask is the OR of the
members' masks and fits 16 bits, the members' masks are pairwise disjoint, the state
without member still carries the sentinel `INT_MIN`, and, when every accepted offset lies
at least 4 away from the ends of `int`, the offsets `Start` and `Stop` bound a range of
one slot of 4 bytes for each member. -/
def RunInv (S : MOVEMState) (acc : List (Int × Nat)) : Prop :=
  S.Mask = orMasks acc ∧ S.Mask < 65536 ∧ acc.Pairwise (fun p q => p.2 &&& q.2 = 0) ∧
  (acc = [] → S.Start = INT_MIN) ∧ (acc ≠ [] → S.Mask ≠ 0) ∧
  (acc ≠ [] → (∀ p ∈ acc, INT_MIN + 4 ≤ p.1 ∧ p.1 ≤ INT_MAX - 4) →
    INT_MIN + 4 ≤ S.Start ∧ S.Start ≤ S.Stop ∧ S.Stop ≤ INT_MAX - 4 ∧
    S.Stop - S.Start = 4 * ((acc.length : Int) - 1))

/-- The block after the body of `for (auto &MBB : MF)` run on it alone, from the empty
state. -/
def collapseMBB (TRI : M68kRegisterInfo) (MBB : List MachineInstr) :
    Option (List MachineInstr) :=
  (runOnMBB TRI false MOVEMState.init MBB).map fun r => r.2.2

/-- The blocks of a function body, each collapsed on its own. -/
def collapseBlocks (TRI : M68kRegisterInfo) :
    List (List MachineInstr) → Option (List (List MachineInstr))
  | [] => some []
  | MBB :: rest =>
    match collapseMBB TRI MBB, collapseBlocks TRI rest with
    | some B, some R => some (B :: R)
    | _, _ => none

/-- The state of a run of stores on register 15 after its first member, a store of mask
`M` at offset 0. -/
def openRunExample (M : Nat) : MOVEMState :=
  { Begin := [MachineInstr.MOVM32pm 0 15 (Int.ofNat M)], Base := 15, Start := 0, Stop := 0,
    Mask := M, Ty := MoveType.Store }

end CollapseMOVEM

namespace ISel

/-! ### Bytes to pop on return -/

/-- The enumeration `StructReturnType`. -/
inductive StructReturnType
  | NotStructReturn
  | RegStructReturn
  | StackStructReturn
  deriving DecidableEq, Repr

/-- The struct-return flags of `ISD::ArgFlagsTy` (methods `isSRet` and `isInReg`), which
`argsAreStructReturn` reads from the first incoming argument. -/
structure ArgSRetFlags where
  isSRet : Bool
  isInReg : Bool
  deriving DecidableEq, Repr

/-- Function `argsAreStructReturn` on the flags of the incoming arguments `Ins`. -/
def argsAreStructReturn : List ArgSRetFlags → StructReturnType
  | [] => StructReturnType.NotStructReturn
  | Flags :: _ =>
    if !Flags.isSRet then StructReturnType.NotStructReturn
    else if Flags.isInReg then StructReturnType.RegStructReturn
    else StructReturnType.StackStructReturn

/-- The statement `Some CCs need callee pop` of `LowerFormalArguments`: the value it
records with `setBytesToPopOnReturn` in the function's side-table. -/
def LowerFormalArguments_BytesToPop (CCID : CallingConv) (isVarArg : Bool)
    (GuaranteedTailCallOpt : Bool) (StackSize : Nat) (Ins : List ArgSRetFlags) : Nat :=
  if isCalleePop CCID isVarArg GuaranteedTailCallOpt then StackSize
  else if !canGuaranteeTCO CCID ∧
      argsAreStructReturn Ins = StructReturnType.StackStructReturn then 4
  else 0

end ISel

namespace CollapseMOVEM

/-- A list of `(Offset, Mask)` in block order whose offsets increase by exactly 4 from
each instruction to the next while the mask values strictly increase. -/
def stepsUp : List (Int × Nat) → Bool
  | [] => true
  | [_] => true
  | p :: q :: rest => decide (q.1 = p.1 + 4) && decide (p.2 < q.2) && stepsUp (q :: rest)

/-- A list of `(Offset, Mask)` in block order whose offsets decrease by exactly 4 from
each instruction to the next while the mask values strictly decrease. -/
def stepsDown : List (Int × Nat) → Bool
  | [] => true
  | [_] => true
  | p :: q :: rest => decide (q.1 = p.1 - 4) && decide (q.2 < p.2) && stepsDown (q :: rest)

end CollapseMOVEM

namespace ExpandPseudo

/-- The opcodes that have a `case` in the `switch` of `ExpandMI`; every other opcode takes
the `default` case. -/
def isPlaceholder : Opcode → Bool
  | Opcode.MOVXd16d8 | Opcode.MOVXd32d8 | Opcode.MOVXd32d16
  | Opcode.MOVSXd16d8 | Opcode.MOVSXd32d8 | Opcode.MOVSXd32d16
  | Opcode.MOVZXd16d8 | Opcode.MOVZXd32d8 | Opcode.MOVZXd32d16
  | Opcode.MOVSXd16j8 | Opcode.MOVSXd32j8 | Opcode.MOVSXd32j16
  | Opcode.MOVZXd16j8 | Opcode.MOVZXd32j8 | Opcode.MOVZXd32j16
  | Opcode.MOVSXd16p8 | Opcode.MOVSXd32p8 | Opcode.MOVSXd32p16
  | Opcode.MOVZXd16p8 | Opcode.MOVZXd32p8 | Opcode.MOVZXd32p16
  | Opcode.MOVSXd16f8 | Opcode.MOVSXd32f8 | Opcode.MOVSXd32f16
  | Opcode.MOVZXd16f8 | Opcode.MOVZXd32f8 | Opcode.MOVZXd32f16
  | Opcode.MOV8cd | Opcode.MOV8dc
  | Opcode.MOVM8jm_P | Opcode.MOVM16jm_P | Opcode.MOVM32jm_P
  | Opcode.MOVM8pm_P | Opcode.MOVM16pm_P | Opcode.MOVM32pm_P
  | Opcode.MOVM8mj_P | Opcode.MOVM16mj_P | Opcode.MOVM32mj_P
  | Opcode.MOVM8mp_P | Opcode.MOVM16mp_P | Opcode.MOVM32mp_P
  | Opcode.TCRETURNq | Opcode.TCRETURNj | Opcode.RET => true
  | _ => false

/-- The loop of `ExpandMBB` with a record of its calls of `ExpandMI`: the first component
lists, in the order of the calls, the instruction each call was made on and the flag it
returned; the second is the block afterwards.  `Pre` is the block before the cursor. -/
def ExpandCalls (T : Target) : List MachineInstr → List MachineInstr →
    Option (List (MachineInstr × Bool) × List MachineInstr)
  | Pre, [] => some ([], Pre)
  | Pre, MI :: rest =>
    match ExpandMI T Pre MI with
    | none => none
    | some (r, Pre1) => (ExpandCalls T Pre1 rest).map fun R => ((MI, r) :: R.1, R.2)

/-- The instructions of a block that take the `default` case of `ExpandMI`, in block
order. -/
def unrecognised (MBB : List MachineInstr) : List MachineInstr :=
  MBB.filter fun MI => !isPlaceholder MI.Opcode

/-- The frame lowering leaves every instruction of an unrecognised opcode in the block
before the cursor when `mergeSPUpdates` is called. -/
def mergeKeepsUnrecognised (T : Target) : Prop :=
  ∀ Pre b, (unrecognised Pre).Sublist (T.mergeSPUpdates Pre b).2

/-- The block holds no tail-call placeholder. -/
def noTailCall (MBB : List MachineInstr) : Prop :=
  ∀ MI ∈ MBB, MI.Opcode ≠ Opcode.TCRETURNq ∧ MI.Opcode ≠ Opcode.TCRETURNj

/-- A target description used in examples: like `exampleTarget`, with a frame lowering
whose `mergeSPUpdates` removes a stack-pointer update (the instruction `other 0` that
`emitSPUpdate` of this target inserts) standing right before the cursor and returns its
amount. -/
def mergingTarget : Target :=
  { exampleTarget with
    mergeSPUpdates := fun Pre _ =>
      match Pre.getLast? with
      | some { Opcode := Opcode.other 0, Operands := [MachineOperand.Imm n], ImplicitOps := _ } =>
        (n, Pre.dropLast)
      | _ => (0, Pre) }

end ExpandPseudo

namespace ISel

/-! ### The condition of a bit test -/

/-- Modelled from the spec: the Z flag after the bit test (`M68kISD::BT`) of bit `n` of
`x`: it is set exactly when the tested bit is 0. -/
def bitTestZ (x n : Nat) : Bool := !x.testBit n

/-- Modelled from the spec: whether a condition code holds for a value of the Z flag:
COND_EQ holds when Z is set, COND_NE when Z is clear; the other codes do not depend on Z
alone. -/
def condOnZ : CondCode → Bool → Option Bool
  | CondCode.COND_EQ, Z => some Z
  | CondCode.COND_NE, Z => some (!Z)
  | _, _ => none

/-- Modelled from the spec: the comparison `((Src >> BitNo) & 1) CC 0` that
`getBitTestCondition` replaces, for the codes SETEQ and SETNE. -/
def bitCompare (CC : ISD.CondCode) (x n : Nat) : Option Bool :=
  match CC with
  | ISD.CondCode.SETEQ => some (((x >>> n) &&& 1) == 0)
  | ISD.CondCode.SETNE => some (((x >>> n) &&& 1) != 0)
  | _ => none

/-! ### Tail calls in `LowerCall` -/

/-- What `LowerCall` decides about a tail call: the final values of `isTailCall`,
`IsSibcall`, `NumBytes` and `FPDiff`, the tail-call return-address delta of the side-table
afterwards, whether `EmitTailCallLoadRetAddr` is called, whether
`EmitTailCallStoreRetAddr` builds a store, and the stack adjustment operand of the
`TC_RETURN` node (`none` when the call is not a tail call). -/
structure TailCallPlan where
  isTailCall : Bool
  IsSibcall : Bool
  NumBytes : Nat
  FPDiff : Int
  TCReturnAddrDelta : Int
  LoadsRetAddr : Bool
  StoresRetAddr : Bool
  StackAdjust : Option Int
  deriving DecidableEq, Repr

/-- The statements of `LowerCall` that decide about the tail call.  `disableTailCalls` is
the function attribute, `isTailCall` the incoming flag of the call, `IsMustTail` whether
the call is a must-tail call; `Q` holds what `IsEligibleForTailCallOptimization` reads
(`Q.CalleeCC` is `CallConv`); `AlignedCallFrameSize` is
`CCInfo.getAlignedCallFrameSize()`; `TCReturnAddrDelta` is the value in the side-table
before the call.  `none` is the assertion on variable arguments. -/
def LowerCall (disableTailCalls isTailCall IsMustTail : Bool) (Q : TailCallQuery)
    (AlignedCallFrameSize StackAlignment SlotSize : Nat) (TCReturnAddrDelta : Int) :
    Option TailCallPlan :=
  let isTailCall1 : Bool := if disableTailCalls then false else isTailCall
  let isTailCall2 : Bool :=
    if IsMustTail then true
    else if isTailCall1 then IsEligibleForTailCallOptimization Q
    else isTailCall1
  let IsSibcall : Bool :=
    if IsMustTail then false
    else if isTailCall1 then !Q.GuaranteedTailCallOpt && isTailCall2
    else false
  if Q.isVarArg && canGuaranteeTCO Q.CalleeCC then none
  else
    let NumBytes : Nat :=
      if IsSibcall then 0
      else if Q.GuaranteedTailCallOpt && canGuaranteeTCO Q.CalleeCC then
        GetAlignedArgumentStackSize StackAlignment SlotSize AlignedCallFrameSize
      else AlignedCallFrameSize
    let moves : Bool := isTailCall2 && !IsSibcall && !IsMustTail
    let FPDiff : Int :=
      if moves then toInt32 (Int.ofNat Q.BytesToPopOnReturn - Int.ofNat NumBytes) else 0
    let Delta : Int :=
      if moves ∧ FPDiff < TCReturnAddrDelta then FPDiff else TCReturnAddrDelta
    some
      { isTailCall := isTailCall2
        IsSibcall := IsSibcall
        NumBytes := NumBytes
        FPDiff := FPDiff
        TCReturnAddrDelta := Delta
        LoadsRetAddr := isTailCall2 && decide (FPDiff ≠ 0)
        StoresRetAddr := !IsSibcall && isTailCall2 && decide (FPDiff ≠ 0)
        StackAdjust := if isTailCall2 then some FPDiff else none }

/-! ### Comparisons of 16-bit values -/

/-- Function `isM68kCCUnsigned`; `none` is `llvm_unreachable`. -/
def isM68kCCUnsigned : CondCode → Option Bool
  | CondCode.COND_EQ => some true
  | CondCode.COND_NE => some true
  | CondCode.COND_CS => some true
  | CondCode.COND_HI => some true
  | CondCode.COND_LS => some true
  | CondCode.COND_CC => some true
  | CondCode.COND_GT => some false
  | CondCode.COND_GE => some false
  | CondCode.COND_LT => some false
  | CondCode.COND_LE => some false
  | _ => none

/-- Modelled from the spec: the test `isa<ConstantSDNode>`, missing from the sources. -/
def isConstantSDNode : SDNode → Bool
  | SDNode.Constant _ _ _ => true
  | _ => false

/-- Method `EmitCmp`.  `EmitTest` stands for the method `EmitTest`, which is entered for
a comparison with the constant zero only; `hasMinSize` is the attribute of the function
that is compiled.  `none` is a failed assertion or `llvm_unreachable`. -/
def EmitCmp (EmitTest : SDNode → CondCode → SDNode) (hasMinSize : Bool) (Op0 Op1 : SDNode)
    (M68kCC : CondCode) : Option SDNode :=
  if isNullConstant Op1 then some (EmitTest Op0 M68kCC)
  else if isConstantSDNode Op1 ∧ Op0.getValueType = EVT.Simple MVT.i1 then none
  else if Op0.getValueType = EVT.Simple MVT.i8 ∨ Op0.getValueType = EVT.Simple MVT.i16 ∨
      Op0.getValueType = EVT.Simple MVT.i32 ∨ Op0.getValueType = EVT.Simple MVT.i64 then
    let widened : Option (SDNode × SDNode) :=
      if (Op0.getValueType = EVT.Simple MVT.i16 ∧
          (isConstantSDNode Op0 ∨ isConstantSDNode Op1)) ∧ !hasMinSize then
        match isM68kCCUnsigned M68kCC with
        | none => none
        | some u =>
          let ExtendOp := if u then NodeType.ZERO_EXTEND else NodeType.SIGN_EXTEND
          some (SDNode.Node ExtendOp [EVT.Simple MVT.i32] [Op0],
            SDNode.Node ExtendOp [EVT.Simple MVT.i32] [Op1])
      else some (Op0, Op1)
    match widened with
    | none => none
    | some (A, B) =>
      some (SDNode.Res
        (SDNode.Node NodeType.M68kISD_SUB [A.getValueType, EVT.Simple MVT.i8] [A, B]) 1)
  else some (SDNode.Node NodeType.M68kISD_CMP [EVT.Simple MVT.i8] [Op0, Op1])

/-- The view of a DAG value that `TranslateM68kCC` inspects: a constant with the width of
its type and its value, or another node. -/
def SDNode.toSDValue : SDNode → SDValue
  | SDNode.Constant Val VT _ => SDValue.Constant VT.getSizeInBits Val
  | SDNode.Leaf id _ => SDValue.Other id
  | _ => SDValue.Other 0

/-- The value of the reference parameter `RHS` of `TranslateM68kCC` on return, as a DAG
value: the operand `Op1` itself when it was left as it is, otherwise the constant zero of
the type of `Op1` that the function puts in its place. -/
def rhsAfterTranslate (Op1 : SDNode) (RHS : SDValue) : SDNode :=
  if RHS = Op1.toSDValue then Op1 else SDNode.Constant 0 Op1.getValueType false

/-- The last statements of `LowerSETCC` for operands of an integer type (`isFP` is
false, so that `TranslateM68kCC` does not exchange the operands): the translation of the
predicate, the comparison built by `EmitCmp` and the SETCC node on it.  The outer `none`
is a failed assertion or `llvm_unreachable`, `some none` the empty `SDValue()`. -/
def LowerSETCC_compare (EmitTest : SDNode → CondCode → SDNode) (hasMinSize : Bool)
    (Op0 Op1 : SDNode) (CC : ISD.CondCode) : Option (Option SDNode) :=
  match TranslateM68kCC CC false Op0.toSDValue Op1.toSDValue with
  | none => none
  | some (M68kCC, _, RHS) =>
    if M68kCC = CondCode.COND_INVALID then some none
    else
      match EmitCmp EmitTest hasMinSize Op0 (rhsAfterTranslate Op1 RHS) M68kCC with
      | none => none
      | some CCR =>
        some (some (SDNode.Node NodeType.M68kISD_SETCC [EVT.Simple MVT.i8]
          [SDNode.Constant M68kCC.toNat (EVT.Simple MVT.i8) false, CCR]))

/-- Modelled from the spec: the value of `ISD::ZERO_EXTEND` of the `From`-bit pattern `a`
to `To` bits. -/
def evalZERO_EXTEND (From To a : Nat) : Nat := (a % 2 ^ From) % 2 ^ To

/-- Modelled from the spec: the value of `ISD::SIGN_EXTEND` of the `From`-bit pattern `a`
to `To` bits. -/
def evalSIGN_EXTEND (From To a : Nat) : Nat := (signedValue From a % (2 ^ To : Int)).toNat

/-- Modelled from the spec: whether a condition code holds after the comparison of the
`Bits`-bit patterns `a` and `b` (the flags of `a - b`): equality, the unsigned orderings
(COND_CS below, COND_CC not below, COND_HI above, COND_LS not above) and the signed
orderings; `none` for the codes that are not orderings of two values. -/
def compareHolds (Bits a b : Nat) : CondCode → Option Bool
  | CondCode.COND_EQ => some (decide (a % 2 ^ Bits = b % 2 ^ Bits))
  | CondCode.COND_NE => some (decide (a % 2 ^ Bits ≠ b % 2 ^ Bits))
  | CondCode.COND_CS => some (decide (a % 2 ^ Bits < b % 2 ^ Bits))
  | CondCode.COND_CC => some (decide (b % 2 ^ Bits ≤ a % 2 ^ Bits))
  | CondCode.COND_HI => some (decide (b % 2 ^ Bits < a % 2 ^ Bits))
  | CondCode.COND_LS => some (decide (a % 2 ^ Bits ≤ b % 2 ^ Bits))
  | CondCode.COND_LT => some (decide (signedValue Bits a < signedValue Bits b))
  | CondCode.COND_GE => some (decide (signedValue Bits b ≤ signedValue Bits a))
  | CondCode.COND_GT => some (decide (signedValue Bits b < signedValue Bits a))
  | CondCode.COND_LE => some (decide (signedValue Bits a ≤ signedValue Bits b))
  | _ => none

end ISel

namespace ISel

/-! ### The values of DAG nodes -/

/-- Modelled from the spec: the value and the carry flag that a node of opcode `Opc` with
the result types `VTs` computes from the values and carry flags of its operands, for the
opcodes used below.  The value is a pattern of the width of the first result type.  OR,
XOR, AND and SUB are the generic operations; `M68kISD::SUB` computes operand 0 minus
operand 1 and sets carry when operand 0 is below operand 1 (unsigned); `M68kISD::CMP` of
`(c, x)` compares `x` with `c` and sets carry when `x` is below `c` (unsigned);
`M68kISD::SETCC_CARRY` yields all ones when the carry of its operand 1 is set and 0
otherwise; `CopyFromReg` yields the value of its register operand. -/
def evalOp (Opc : NodeType) (VTs : List EVT) (Ops : List (Nat × Bool)) : Nat × Bool :=
  let w := (VTs.headD EVT.Other).getSizeInBits
  match Opc, Ops with
  | NodeType.OR, [a, b] => ((a.1 ||| b.1) % 2 ^ w, false)
  | NodeType.XOR, [a, b] => ((a.1 ^^^ b.1) % 2 ^ w, false)
  | NodeType.AND, [a, b] => ((a.1 &&& b.1) % 2 ^ w, false)
  | NodeType.SUB, [a, b] => ((a.1 % 2 ^ w + 2 ^ w - b.1 % 2 ^ w) % 2 ^ w, false)
  | NodeType.M68kISD_SUB, [a, b] =>
    ((a.1 % 2 ^ w + 2 ^ w - b.1 % 2 ^ w) % 2 ^ w, decide (a.1 < b.1))
  | NodeType.M68kISD_CMP, [c, x] => (0, decide (x.1 < c.1))
  | NodeType.M68kISD_SETCC_CARRY, [_, f] => (if f.2 then 2 ^ w - 1 else 0, false)
  | NodeType.CopyFromReg, [_, r] => (r.1 % 2 ^ w, false)
  | _, _ => (0, false)

mutual
/-- Modelled from the spec: the value and the carry flag of a DAG value, for the values
`leaf` of the leaves and `reg` of the registers.  A constant and a leaf have the value
reduced to the width of their type; a node taken at another result has the value and the
carry of the node. -/
def SDNode.eval (leaf : Nat → Nat) (reg : ISel.Register → Nat) : SDNode → Nat × Bool
  | SDNode.Leaf id VT => (leaf id % 2 ^ VT.getSizeInBits, false)
  | SDNode.Constant Val VT _ => (Val % 2 ^ VT.getSizeInBits, false)
  | SDNode.Register R VT => (reg R % 2 ^ VT.getSizeInBits, false)
  | SDNode.Node Opc VTs Ops => evalOp Opc VTs (SDNode.evalList leaf reg Ops)
  | SDNode.Res N _ => SDNode.eval leaf reg N
  | SDNode.LibCall _ _ _ _ => (0, false)
/-- The values and carry flags of a list of DAG values. -/
def SDNode.evalList (leaf : Nat → Nat) (reg : ISel.Register → Nat) : List SDNode → List (Nat × Bool)
  | [] => []
  | N :: Ns => SDNode.eval leaf reg N :: SDNode.evalList leaf reg Ns
end

/-! ### Dynamic stack allocation -/

/-- Modelled from the spec: method `SelectionDAG::getCALLSEQ_START`, missing from the
sources: a `CALLSEQ_START` node with results (chain, glue) on the chain and the two sizes
as target constants of the pointer type. -/
def getCALLSEQ_START (PtrVT : EVT) (Chain : SDNode) (InSize OutSize : Nat) : SDNode :=
  SDNode.Node NodeType.CALLSEQ_START [EVT.Other, EVT.Glue]
    [Chain, SDNode.Constant InSize PtrVT true, SDNode.Constant OutSize PtrVT true]

/-- Modelled from the spec: method `SelectionDAG::getCALLSEQ_END`, missing from the
sources: a `CALLSEQ_END` node with results (chain, glue) on the chain, the two operands
and the glue when there is one. -/
def getCALLSEQ_END (Chain Op1 Op2 : SDNode) (InGlue : Option SDNode) : SDNode :=
  SDNode.Node NodeType.CALLSEQ_END [EVT.Other, EVT.Glue] ([Chain, Op1, Op2] ++ InGlue.toList)

/-- Modelled from the spec: method `SelectionDAG::getCopyToReg` without glue, missing from
the sources: a `CopyToReg` node with the chain as its only result. -/
def getCopyToRegChain (Chain : SDNode) (Reg : ISel.Register) (N : SDNode) : SDNode :=
  SDNode.Node NodeType.CopyToReg [EVT.Other] [Chain, SDNode.Register Reg N.getValueType, N]

/-- Method `LowerDYNAMIC_STACKALLOC` on the node `(Chain, Size, AlignOp)` of type `VT`.
`SplitStack` is `MF.shouldSplitStack()`, `PtrVT` is `getPointerTy`, `Vreg` the virtual
register `createVirtualRegister` returns, `SPReg` is
`getStackPointerRegisterToSaveRestore()` and `StackAlign` is `getStackAlignment()`.
`none` is a failed assertion or a failed `cast`. -/
def LowerDYNAMIC_STACKALLOC (SplitStack : Bool) (PtrVT : EVT) (Vreg SPReg StackAlign : Nat)
    (VT : EVT) (Chain Size AlignOp : SDNode) : Option SDNode :=
  match AlignOp with
  | SDNode.Constant Val CVT _ =>
    match SDNode.getZExtValue Val CVT with
    | none => none
    | some A =>
      let Align := A % 4294967296
      let Chain1 := getCALLSEQ_START PtrVT Chain 0 0
      let RC : Option (SDNode × SDNode) :=
        if SplitStack then
          let Chain2 := getCopyToRegChain Chain1 (ISel.Register.phys Vreg) Size
          some (SDNode.Node NodeType.M68kISD_SEG_ALLOCA [PtrVT]
            [Chain2, SDNode.Register (ISel.Register.phys Vreg) PtrVT], Chain2)
        else if SPReg = 0 then none
        else
          let SP := getCopyFromReg Chain1 (ISel.Register.phys SPReg) VT
          let Chain2 := SDNode.Res SP 1
          let Result0 := SDNode.Node NodeType.SUB [VT] [SP, Size]
          let Result :=
            if Align > StackAlign then
              SDNode.Node NodeType.AND [VT]
                [Result0,
                 SDNode.Constant ((18446744073709551616 - Align) % 18446744073709551616) VT
                   false]
            else Result0
          some (Result, getCopyToRegChain Chain2 (ISel.Register.phys SPReg) Result)
      match RC with
      | none => none
      | some (Result, Chain3) =>
        let Chain4 := getCALLSEQ_END Chain3 (SDNode.Constant 0 PtrVT true)
          (SDNode.Constant 0 PtrVT true) none
        some (SDNode.Node NodeType.MERGE_VALUES [Result.getValueType, Chain4.getValueType]
          [Result, Chain4])
  | _ => none

/-! ### Selects of all ones -/

/-- Modelled from the spec: function `isAllOnesConstant`, missing from the sources. -/
def isAllOnesConstant : SDNode → Bool
  | SDNode.Constant Val VT _ => Val % 2 ^ VT.getSizeInBits == 2 ^ VT.getSizeInBits - 1
  | _ => false

/-- Modelled from the spec: method `SelectionDAG::getNOT`, missing from the sources: the
XOR with the constant of all ones. -/
def getNOT (Val : SDNode) (VT : EVT) : SDNode :=
  SDNode.Node NodeType.XOR [VT] [Val, SDNode.Constant (2 ^ VT.getSizeInBits - 1) VT false]

/-- The step of `LowerSELECT` for a select of all ones against a compare with zero (the
block under the comment `(select (x == 0), -1, y) -> (sign_bit (x - 1)) | y`), on the
select `(select Cond, Op1, Op2)` of type `VT`; `Cond` is the condition after the attempt
to lower it with `LowerSETCC`.  The outer `none` is a failed assertion or `cast`,
`some none` means that the step does not apply. -/
def LowerSELECT_allOnes (VT : EVT) (Cond Op1 Op2 : SDNode) : Option (Option SDNode) :=
  if Cond.hasOpcode NodeType.M68kISD_SETCC then
    (Cond.getOperand 1).bind fun Cmp =>
    if Cmp.hasOpcode NodeType.M68kISD_CMP then
      (Cmp.getOperand 0).bind fun Cmp0 =>
      if isNullConstant Cmp0 then
        (Cond.getOperand 0).bind fun CCNode =>
        match CCNode with
        | SDNode.Constant Val CVT _ =>
          (SDNode.getZExtValue Val CVT).bind fun CondCodeVal =>
          if (isAllOnesConstant Op1 ∨ isAllOnesConstant Op2) ∧
              (CondCodeVal = CondCode.COND_EQ.toNat ∨ CondCodeVal = CondCode.COND_NE.toNat) then
            let Y := if isAllOnesConstant Op2 then Op1 else Op2
            (Cmp.getOperand 1).bind fun CmpOp0 =>
            if isNullConstant Y ∧
                (isAllOnesConstant Op1 = decide (CondCodeVal = CondCode.COND_NE.toNat)) then
              let Neg := SDNode.Node NodeType.M68kISD_SUB
                [CmpOp0.getValueType, EVT.Simple MVT.i32]
                [SDNode.Constant 0 CmpOp0.getValueType false, CmpOp0]
              some (some (SDNode.Node NodeType.M68kISD_SETCC_CARRY [VT]
                [SDNode.Constant CondCode.COND_CS.toNat (EVT.Simple MVT.i8) false,
                 SDNode.Res Neg 1]))
            else
              let Cmp1 := SDNode.Node NodeType.M68kISD_CMP [EVT.Simple MVT.i8]
                [SDNode.Constant 1 CmpOp0.getValueType false, CmpOp0]
              let Res0 := SDNode.Node NodeType.M68kISD_SETCC_CARRY [VT]
                [SDNode.Constant CondCode.COND_CS.toNat (EVT.Simple MVT.i8) false, Cmp1]
              let Res1 :=
                if isAllOnesConstant Op1 ≠ decide (CondCodeVal = CondCode.COND_EQ.toNat) then
                  getNOT Res0 Res0.getValueType
                else Res0
              let Res2 :=
                if !isNullConstant Op2 then
                  SDNode.Node NodeType.OR [Res1.getValueType] [Res1, Y]
                else Res1
              some (some Res2)
          else some none
        | _ => none
      else some none
    else some none
  else some none

/-- The condition `(setcc CC, (cmp 0, X))` that compares `X` with zero, as `LowerSELECT`
meets it. -/
def compareWithZero (CC : CondCode) (X : SDNode) : SDNode :=
  SDNode.Node NodeType.M68kISD_SETCC [EVT.Simple MVT.i8]
    [SDNode.Constant CC.toNat (EVT.Simple MVT.i8) false,
     SDNode.Node NodeType.M68kISD_CMP [EVT.Simple MVT.i8]
       [SDNode.Constant 0 X.getValueType false, X]]

end ISel

namespace ISel

/-- Modelled from the spec: the value of `(select c, a, b)` for the truth value `c` of the
condition. -/
def evalSELECT (c : Bool) (a b : Nat) : Nat := if c then a else b

end ISel

namespace ISel

/-! ### Renaming of the PHI operands -/

/-- The registers a select pseudo reads: its operands 1 and 2. -/
def selectOperands : MachineInstr → List Nat
  | MachineInstr.CMOV _ _ O1 _ O2 _ _ => [O1, O2]
  | _ => []

/-- The registers a PHI node takes as operands. -/
def phiOperands : MachineInstr → List Nat
  | MachineInstr.PHI _ Incoming => Incoming.map Prod.fst
  | _ => []

/-- The destination registers of the selects of a list, in order. -/
def destRegs (L : List MachineInstr) : List Nat := L.filterMap destReg

/-- Whether no select of the list reads its own destination or the destination of a later
select of the list: the destinations are used only by later selects. -/
def usedOnlyLater : List MachineInstr → Bool
  | [] => true
  | I :: rest =>
    (selectOperands I).all (fun r => !(destRegs (I :: rest)).contains r) &&
      usedOnlyLater rest

/-- The entry of a register in `RegRewriteTable` that `EmitLoweredSelect` uses for operand
1 (the first component) when there is one, and the register itself otherwise. -/
def rewriteFirst (Table : List (Nat × (Nat × Nat))) (r : Nat) : Nat :=
  match Table.lookup r with
  | some p => p.1
  | none => r

/-- The entry of a register in `RegRewriteTable` that `EmitLoweredSelect` uses for operand
2 (the second component) when there is one, and the register itself otherwise. -/
def rewriteSecond (Table : List (Nat × (Nat × Nat))) (r : Nat) : Nat :=
  match Table.lookup r with
  | some p => p.2
  | none => r

end ISel

end M68k


/-! # Theorems -/

namespace M68k

theorem toInt32_of_range (x : Int) (h1 : INT_MIN ≤ x) (h2 : x ≤ INT_MAX) : toInt32 x = x := by
  unfold toInt32
  unfold INT_MIN at h1
  unfold INT_MAX at h2
  omega

namespace CollapseMOVEM

theorem update_first (S : MOVEMState) (O : Int) (M : Nat)
    (hM0 : M ≠ 0) (hM : M < 65536) (hMask : S.Mask = 0) (hStart : S.Start = INT_MIN) :
    S.update O M = some (true, { S with Start := O, Stop := O, Mask := M }) := by
  simp [MOVEMState.update, MOVEMState.classifyUpdateByMask, MOVEMState.updateMask, hM0, hM,
    hMask, hStart]

theorem update_ascending (S : MOVEMState) (O : Int) (M : Nat)
    (hM : M < 65536) (hdisj : M &&& S.Mask = 0) (hlt : S.Mask < M)
    (hStart : S.Start ≠ INT_MIN) (hO : O = S.Stop + 4)
    (hO1 : INT_MIN ≤ O) (hO2 : O ≤ INT_MAX) :
    S.update O M = some (true, { S with Stop := O, Mask := S.Mask ||| M }) := by
  have hM0 : M ≠ 0 := by omega
  have hw : toInt32 (S.Stop + 4) = O := by rw [← hO]; exact toInt32_of_range O hO1 hO2
  simp [MOVEMState.update, MOVEMState.classifyUpdateByMask, MOVEMState.updateMask, hM0, hM,
    hlt, hStart, hw, hdisj]

theorem update_descending (S : MOVEMState) (O : Int) (M : Nat)
    (hM0 : M ≠ 0) (hM : M < 65536) (hdisj : M &&& S.Mask = 0) (hlt : M < S.Mask)
    (hStart : S.Start ≠ INT_MIN) (hO : O = S.Start - 4)
    (hO1 : INT_MIN ≤ O) (hO2 : O ≤ INT_MAX) :
    S.update O M = some (true, { S with Start := O, Mask := S.Mask ||| M }) := by
  have hS0 : S.Mask ≠ 0 := by omega
  have hnlt : ¬ S.Mask < M := by omega
  have hw : toInt32 (S.Start - 4) = O := by rw [← hO]; exact toInt32_of_range O hO1 hO2
  simp [MOVEMState.update, MOVEMState.classifyUpdateByMask, MOVEMState.updateMask, hM0, hM,
    hlt, hStart, hw, hdisj, hS0, hnlt]

theorem ProcessMI_merge (TRI : M68kRegisterInfo) (Pre : List MachineInstr)
    (MI : MachineInstr) (S S1 : MOVEMState) (Mask : Nat) (Offset : Int) (Reg : Nat)
    (isStore : Bool) (hb : S.Base = Reg) (hR : Reg ≠ 0) (hs : S.isStore = isStore)
    (hu : S.update Offset Mask = some (true, S1)) :
    ProcessMI TRI Pre MI S Mask Offset Reg isStore
      = some (true, Pre, { S1 with Begin := S1.Begin ++ [MI] }) := by
  have hB : S.hasBase = true := by simp [MOVEMState.hasBase, hb, hR]
  simp [ProcessMI, hB, hs, hb, hu]

theorem loop_ascending (TRI : M68kRegisterInfo) (Reg : Nat) (isStore : Bool) (hR : Reg ≠ 0) :
    ∀ (B : List MachineInstr) (ops : List (Int × Nat)) (Pre : List MachineInstr)
      (S : MOVEMState),
      B.map operands = ops.map (fun p => some (p.2, p.1, Reg, isStore)) →
      S.Base = Reg → S.isStore = isStore → S.Start ≠ INT_MIN →
      (∀ p ∈ ops, p.2 < 65536 ∧ p.2 &&& S.Mask = 0 ∧ INT_MIN ≤ p.1 ∧ p.1 ≤ INT_MAX) →
      ops.Pairwise (fun p q => p.2 &&& q.2 = 0) →
      ascendingFrom S.Stop S.Mask ops = true →
      ∃ S1, loopMBB TRI (true, Pre, S) B = some (true, Pre, S1) ∧
        S1.Begin = S.Begin ++ B ∧ S1.Base = Reg ∧ S1.Start = S.Start ∧
        S1.Mask = ops.foldl (fun a p => a ||| p.2) S.Mask ∧ S1.Ty = S.Ty := by
  intro B
  induction B with
  | nil =>
    intro ops Pre S hB hb _ _ _ _ _
    cases ops with
    | nil => exact ⟨S, by simp [loopMBB], by simp, hb, rfl, rfl, rfl⟩
    | cons p rest => simp at hB
  | cons MI B ih =>
    intro ops Pre S hB hb hs hStart hops hpw hasc
    cases ops with
    | nil => simp at hB
    | cons p rest =>
      simp only [List.map_cons, List.cons.injEq] at hB
      obtain ⟨hMI, hB⟩ := hB
      simp only [ascendingFrom, Bool.and_eq_true, decide_eq_true_eq] at hasc
      obtain ⟨⟨hO, hlt⟩, hrest⟩ := hasc
      obtain ⟨hM, hdisj, hO1, hO2⟩ := hops p (List.mem_cons_self _ _)
      have hu := update_ascending S p.1 p.2 hM hdisj hlt hStart hO hO1 hO2
      have hP := ProcessMI_merge TRI Pre MI S _ p.2 p.1 Reg isStore hb hR hs hu
      rw [List.pairwise_cons] at hpw
      obtain ⟨hp, hpw⟩ := hpw
      have hops1 : ∀ q ∈ rest, q.2 < 65536 ∧ q.2 &&& (S.Mask ||| p.2) = 0 ∧
          INT_MIN ≤ q.1 ∧ q.1 ≤ INT_MAX := by
        intro q hq
        obtain ⟨h1, h2, h3, h4⟩ := hops q (List.mem_cons_of_mem _ hq)
        refine ⟨h1, ?_, h3, h4⟩
        rw [Nat.and_or_distrib_left, h2, Nat.and_comm, hp q hq]
        rfl
      obtain ⟨S1, hl, hBeg, hBase, hSt, hMask, hTy⟩ :=
        ih rest Pre { S with Stop := p.1, Mask := S.Mask ||| p.2, Begin := S.Begin ++ [MI] }
          hB hb hs hStart hops1 hpw hrest
      refine ⟨S1, ?_, ?_, hBase, hSt, ?_, hTy⟩
      · simp only [loopMBB, stepMI, hMI, hP, Bool.or_true]
        exact hl
      · rw [hBeg]; simp
      · rw [hMask]; simp

theorem loop_descending (TRI : M68kRegisterInfo) (Reg : Nat) (isStore : Bool) (hR : Reg ≠ 0) :
    ∀ (B : List MachineInstr) (ops : List (Int × Nat)) (Pre : List MachineInstr)
      (S : MOVEMState),
      B.map operands = ops.map (fun p => some (p.2, p.1, Reg, isStore)) →
      S.Base = Reg → S.isStore = isStore → S.Start ≠ INT_MIN →
      (∀ p ∈ ops, p.2 ≠ 0 ∧ p.2 < 65536 ∧ p.2 &&& S.Mask = 0 ∧ INT_MIN < p.1 ∧
        p.1 ≤ INT_MAX) →
      ops.Pairwise (fun p q => p.2 &&& q.2 = 0) →
      descendingFrom S.Start S.Mask ops = true →
      ∃ S1, loopMBB TRI (true, Pre, S) B = some (true, Pre, S1) ∧
        S1.Begin = S.Begin ++ B ∧ S1.Base = Reg ∧ S1.Start = lastOffset S.Start ops ∧
        S1.Start ≠ INT_MIN ∧
        S1.Mask = ops.foldl (fun a p => a ||| p.2) S.Mask ∧ S1.Ty = S.Ty := by
  intro B
  induction B with
  | nil =>
    intro ops Pre S hB hb _ hStart _ _ _
    cases ops with
    | nil => exact ⟨S, by simp [loopMBB], by simp, hb, rfl, hStart, rfl, rfl⟩
    | cons p rest => simp at hB
  | cons MI B ih =>
    intro ops Pre S hB hb hs hStart hops hpw hdesc
    cases ops with
    | nil => simp at hB
    | cons p rest =>
      simp only [List.map_cons, List.cons.injEq] at hB
      obtain ⟨hMI, hB⟩ := hB
      simp only [descendingFrom, Bool.and_eq_true, decide_eq_true_eq] at hdesc
      obtain ⟨⟨hO, hlt⟩, hrest⟩ := hdesc
      obtain ⟨hM0, hM, hdisj, hO1, hO2⟩ := hops p (List.mem_cons_self _ _)
      have hu := update_descending S p.1 p.2 hM0 hM hdisj hlt hStart hO (le_of_lt hO1) hO2
      have hP := ProcessMI_merge TRI Pre MI S _ p.2 p.1 Reg isStore hb hR hs hu
      rw [List.pairwise_cons] at hpw
      obtain ⟨hp, hpw⟩ := hpw
      have hops1 : ∀ q ∈ rest, q.2 ≠ 0 ∧ q.2 < 65536 ∧ q.2 &&& (S.Mask ||| p.2) = 0 ∧
          INT_MIN < q.1 ∧ q.1 ≤ INT_MAX := by
        intro q hq
        obtain ⟨h0, h1, h2, h3, h4⟩ := hops q (List.mem_cons_of_mem _ hq)
        refine ⟨h0, h1, ?_, h3, h4⟩
        rw [Nat.and_or_distrib_left, h2, Nat.and_comm, hp q hq]
        rfl
      have hStart1 : p.1 ≠ INT_MIN := ne_of_gt hO1
      obtain ⟨S1, hl, hBeg, hBase, hSt, hSt1, hMask, hTy⟩ :=
        ih rest Pre { S with Start := p.1, Mask := S.Mask ||| p.2, Begin := S.Begin ++ [MI] }
          hB hb hs hStart1 hops1 hpw hrest
      refine ⟨S1, ?_, ?_, hBase, ?_, hSt1, ?_, hTy⟩
      · simp only [loopMBB, stepMI, hMI, hP, Bool.or_true]
        exact hl
      · rw [hBeg]; simp
      · rw [hSt]; simp [lastOffset]
      · rw [hMask]; simp

theorem lowestOffset_ascending :
    ∀ (rest : List (Int × Nat)) (p : Int × Nat) (m : Nat),
      ascendingFrom p.1 m rest = true → lowestOffset (p :: rest) = p.1 := by
  intro rest
  induction rest with
  | nil => intro p m _; rfl
  | cons q rest ih =>
    intro p m h
    simp only [ascendingFrom, Bool.and_eq_true, decide_eq_true_eq] at h
    obtain ⟨⟨hO, _⟩, hrest⟩ := h
    have := ih q _ hrest
    simp only [lowestOffset, this]
    omega

theorem lastOffset_le_descending :
    ∀ (rest : List (Int × Nat)) (s : Int) (m : Nat),
      descendingFrom s m rest = true → lastOffset s rest ≤ s := by
  intro rest
  induction rest with
  | nil => intro s m _; simp [lastOffset]
  | cons q rest ih =>
    intro s m h
    simp only [descendingFrom, Bool.and_eq_true, decide_eq_true_eq] at h
    obtain ⟨⟨hO, _⟩, hrest⟩ := h
    have := ih q.1 _ hrest
    simp only [lastOffset, List.foldl_cons] at this ⊢
    omega

theorem lowestOffset_descending :
    ∀ (rest : List (Int × Nat)) (p : Int × Nat) (m : Nat),
      descendingFrom p.1 m rest = true → lowestOffset (p :: rest) = lastOffset p.1 rest := by
  intro rest
  induction rest with
  | nil => intro p m _; rfl
  | cons q rest ih =>
    intro p m h
    simp only [descendingFrom, Bool.and_eq_true, decide_eq_true_eq] at h
    obtain ⟨⟨hO, _⟩, hrest⟩ := h
    have h1 := ih q _ hrest
    have h2 := lastOffset_le_descending rest q.1 _ hrest
    simp only [lowestOffset, h1]
    simp only [lastOffset, List.foldl_cons] at h2 ⊢
    omega

theorem stepMI_first (TRI : M68kRegisterInfo) (MI : MachineInstr) (p : Int × Nat)
    (Reg : Nat) (isStore : Bool)
    (hReg : Reg = TRI.StackRegister ∨ Reg = TRI.BaseRegister ∨ Reg = TRI.FrameRegister)
    (hMI : operands MI = some (p.2, p.1, Reg, isStore))
    (hM0 : p.2 ≠ 0) (hM : p.2 < 65536) (m : Bool) (Pre : List MachineInstr) :
    stepMI TRI (m, Pre, MOVEMState.init) MI
      = some (true, Pre,
          { Begin := [MI], Base := Reg, Start := p.1, Stop := p.1, Mask := p.2,
            Ty := if isStore then MoveType.Store else MoveType.Load }) := by
  have hu := update_first { MOVEMState.init with Begin := [MI], Base := Reg } p.1 p.2 hM0 hM
    rfl rfl
  simp only [stepMI, hMI, ProcessMI, ProcessMIStart]
  simp [MOVEMState.hasBase, MOVEMState.init, hReg] at hu ⊢
  rw [hu]
  simp

theorem isStore_ite (S : MOVEMState) (isStore : Bool)
    (h : S.Ty = if isStore then MoveType.Store else MoveType.Load) :
    S.isStore = isStore ∧ S.isLoad = !isStore := by
  cases isStore <;> simp [MOVEMState.isStore, MOVEMState.isLoad, h]

/-- C1 (amended): a block of N adjacent MOVEMs on one stack/frame/base-pointer register and
of one direction, with non-zero pairwise-disjoint 16-bit masks and offsets that step by
exactly 4, whose mask order agrees with the offset order (ascending offsets: each mask is
numerically above the OR of the masks before it; descending offsets: below it), is
replaced for N >= 2 by the single instruction carrying the OR of the masks at the lowest
offset, and is left unchanged for N = 1. -/
theorem collapse_run_merges (TRI : M68kRegisterInfo) (Reg : Nat) (isStore : Bool)
    (B : List MachineInstr) (ops : List (Int × Nat))
    (hReg : Reg = TRI.StackRegister ∨ Reg = TRI.BaseRegister ∨ Reg = TRI.FrameRegister)
    (hB : B.map operands = ops.map (fun p => some (p.2, p.1, Reg, isStore)))
    (hmask : ∀ p ∈ ops, p.2 ≠ 0 ∧ p.2 < 65536)
    (hoff : ∀ p ∈ ops, INT_MIN < p.1 ∧ p.1 ≤ INT_MAX)
    (hpw : ops.Pairwise (fun p q => p.2 &&& q.2 = 0))
    (hdir : ascendingRun ops = true ∨ descendingRun ops = true) :
    (2 ≤ ops.length →
      runOnMachineFunction TRI [B]
        = some (true, [[mergedInstr isStore Reg (lowestOffset ops) (orMasks ops)]])) ∧
    (ops.length = 1 → runOnMachineFunction TRI [B] = some (true, [B])) := by
  have hR : Reg ≠ 0 := by
    rcases hReg with h | h | h
    · rw [h]; exact TRI.stack_ne_zero
    · rw [h]; exact TRI.base_ne_zero
    · rw [h]; exact TRI.frame_ne_zero
  cases ops with
  | nil => simp
  | cons p rest =>
    cases B with
    | nil => simp at hB
    | cons MI B =>
      simp only [List.map_cons, List.cons.injEq] at hB
      obtain ⟨hMI, hB⟩ := hB
      obtain ⟨hM0, hM⟩ := hmask p (List.mem_cons_self _ _)
      obtain ⟨hO1, hO2⟩ := hoff p (List.mem_cons_self _ _)
      rw [List.pairwise_cons] at hpw
      obtain ⟨hp, hpw⟩ := hpw
      have hfirst := stepMI_first TRI MI p Reg isStore hReg hMI hM0 hM false []
      have hlen : B.length = rest.length := by
        have := congrArg List.length hB
        simpa using this
      -- the state after the first instruction
      obtain ⟨S1, hl, hBeg, hBase, hSt, hMask⟩ :
          ∃ S1, loopMBB TRI (false, [], MOVEMState.init) (MI :: B) = some (true, [], S1) ∧
            S1.Begin = MI :: B ∧ S1.Base = Reg ∧
            (S1.Start = lowestOffset (p :: rest) ∧ S1.Start ≠ INT_MIN) ∧
            S1.Mask = orMasks (p :: rest) ∧
            S1.Ty = if isStore then MoveType.Store else MoveType.Load := by
        rcases hdir with hasc | hdesc
        · obtain ⟨S1, h1, h2, h3, h4, h5, h6⟩ :=
            loop_ascending TRI Reg isStore hR B rest []
              { Begin := [MI], Base := Reg, Start := p.1, Stop := p.1, Mask := p.2,
                Ty := if isStore then MoveType.Store else MoveType.Load }
              hB rfl (isStore_ite _ isStore rfl).1 (ne_of_gt hO1)
              (fun q hq => ⟨(hmask q (List.mem_cons_of_mem _ hq)).2,
                by rw [Nat.and_comm]; exact hp q hq,
                le_of_lt (hoff q (List.mem_cons_of_mem _ hq)).1,
                (hoff q (List.mem_cons_of_mem _ hq)).2⟩)
              hpw hasc
          refine ⟨S1, ?_, by simpa using h2, h3, ⟨?_, ?_⟩, ?_, h6⟩
          · simp only [loopMBB, hfirst]; exact h1
          · rw [h4]; exact (lowestOffset_ascending rest p p.2 hasc).symm
          · rw [h4]; exact ne_of_gt hO1
          · rw [h5]; simp [orMasks]
        · obtain ⟨S1, h1, h2, h3, h4, h4b, h5, h6⟩ :=
            loop_descending TRI Reg isStore hR B rest []
              { Begin := [MI], Base := Reg, Start := p.1, Stop := p.1, Mask := p.2,
                Ty := if isStore then MoveType.Store else MoveType.Load }
              hB rfl (isStore_ite _ isStore rfl).1 (ne_of_gt hO1)
              (fun q hq => ⟨(hmask q (List.mem_cons_of_mem _ hq)).1,
                (hmask q (List.mem_cons_of_mem _ hq)).2,
                by rw [Nat.and_comm]; exact hp q hq,
                (hoff q (List.mem_cons_of_mem _ hq)).1,
                (hoff q (List.mem_cons_of_mem _ hq)).2⟩)
              hpw hdesc
          refine ⟨S1, ?_, by simpa using h2, h3, ⟨?_, h4b⟩, ?_, h6⟩
          · simp only [loopMBB, hfirst]; exact h1
          · rw [h4]; exact (lowestOffset_descending rest p p.2 hdesc).symm
          · rw [h5]; simp [orMasks]
      obtain ⟨hMask, hTy⟩ := hMask
      obtain ⟨hSt, hSt1⟩ := hSt
      have hhb : S1.hasBase = true := by simp [MOVEMState.hasBase, hBase, hR]
      obtain ⟨_, hLoad⟩ := isStore_ite S1 isStore hTy
      constructor
      · intro h2
        cases B with
        | nil =>
          simp only [List.length_nil] at hlen
          simp only [List.length_cons, ← hlen] at h2
          omega
        | cons MI2 B2 =>
          simp only [runOnMachineFunction, runOnBlocks, runOnMBB, endOfMBB, hl, hhb, Finish, hBeg]
          rw [hSt] at hSt1
          cases isStore <;>
            simp [hSt1, hBase, hR, hLoad, mergedInstr, hSt, hMask, runOnBlocks]
      · intro h1
        cases B with
        | nil =>
          simp only [runOnMachineFunction, runOnBlocks, runOnMBB, endOfMBB, hl, hhb, Finish, hBeg]
          simp [runOnBlocks]
        | cons MI2 B2 =>
          simp only [List.length_cons] at h1 hlen
          omega

/-- Witness of `collapse_run_merges`: 8 stores at offsets -4, ..., -32 with masks 0x0080,
..., 0x0001 become one store with mask 0x00FF at offset -32. -/
theorem collapse_run_merges_witness :
    runOnMachineFunction exampleTRI [descendingExampleBlock]
      = some (true, [[MachineInstr.MOVM32pm (-32) 15 255]]) := by
  have h := (collapse_run_merges exampleTRI 15 true descendingExampleBlock
    [(-4, 128), (-8, 64), (-12, 32), (-16, 16), (-20, 8), (-24, 4), (-28, 2), (-32, 1)]
    (by decide) (by decide) (by decide) (by decide) (by decide) (by decide)).1 (by decide)
  have e : mergedInstr true 15
      (lowestOffset [(-4, 128), (-8, 64), (-12, 32), (-16, 16), (-20, 8), (-24, 4), (-28, 2),
        (-32, 1)])
      (orMasks [(-4, 128), (-8, 64), (-12, 32), (-16, 16), (-20, 8), (-24, 4), (-28, 2),
        (-32, 1)]) = MachineInstr.MOVM32pm (-32) 15 255 := by decide
  rw [e] at h
  exact h

/-- C1 fails as stated: on the example of the specification (8 stores at offsets -4, ...,
-32 with masks 0x0001, ..., 0x0080, which are adjacent, share base and direction, have
pairwise-disjoint non-zero masks and contiguous descending offsets) the pass leaves all 8
instructions in place instead of one store with mask 0x00FF at offset -32. -/
theorem collapse_spec_example_unmerged :
    runOnMachineFunction exampleTRI [specExampleBlock] = some (true, [specExampleBlock]) ∧
    specExampleBlock.length = 8 ∧
    runOnMachineFunction exampleTRI [specExampleBlock]
      ≠ some (true, [[MachineInstr.MOVM32pm (-32) 15 255]]) := by
  decide

/-! ### Blocks without adjacent MOVEMs are left unchanged -/

theorem isRunBase_ne_zero (TRI : M68kRegisterInfo) (Reg : Nat) (h : isRunBase TRI Reg = true) :
    Reg ≠ 0 := by
  simp only [isRunBase, decide_eq_true_eq] at h
  rcases h with h | h | h
  · rw [h]; exact TRI.stack_ne_zero
  · rw [h]; exact TRI.base_ne_zero
  · rw [h]; exact TRI.frame_ne_zero

theorem stepMI_init_other (TRI : M68kRegisterInfo) (m : Bool) (Pre : List MachineInstr)
    (X : MachineInstr) (h : isStackMOVEM TRI X = false) :
    stepMI TRI (m, Pre, MOVEMState.init) X = some (m, Pre ++ [X], MOVEMState.init) := by
  unfold isStackMOVEM at h
  unfold stepMI
  cases hX : operands X with
  | none => simp [MOVEMState.hasBase, MOVEMState.init]
  | some q =>
    obtain ⟨M, O, R, st⟩ := q
    rw [hX] at h
    simp only [isRunBase, decide_eq_false_iff_not] at h
    simp [ProcessMI, ProcessMIStart, MOVEMState.hasBase, MOVEMState.init, h]

theorem stepMI_init_movem (TRI : M68kRegisterInfo) (m : Bool) (Pre : List MachineInstr)
    (X : MachineInstr) (h : isStackMOVEM TRI X = true) (hv : validMask TRI X) :
    ∃ S, stepMI TRI (m, Pre, MOVEMState.init) X = some (true, Pre, S) ∧ S.Begin = [X] ∧
      S.Base ≠ 0 ∧ isRunBase TRI S.Base = true := by
  unfold isStackMOVEM at h
  cases hX : operands X with
  | none => rw [hX] at h; simp at h
  | some q =>
    obtain ⟨M, O, R, st⟩ := q
    rw [hX] at h
    obtain ⟨hM0, hM⟩ := hv M O R st hX h
    have hR : R = TRI.StackRegister ∨ R = TRI.BaseRegister ∨ R = TRI.FrameRegister := by
      simpa [isRunBase] using h
    exact ⟨_, stepMI_first TRI X (O, M) R st hR hX hM0 hM m Pre, rfl,
      isRunBase_ne_zero TRI R h, h⟩

theorem stepMI_open_other (TRI : M68kRegisterInfo) (m : Bool) (Pre : List MachineInstr)
    (S : MOVEMState) (X0 Y : MachineInstr) (hB : S.Begin = [X0]) (h0 : S.Base ≠ 0)
    (hb : isRunBase TRI S.Base = true) (h : isStackMOVEM TRI Y = false) :
    ∃ m1, stepMI TRI (m, Pre, S) Y = some (m1, Pre ++ [X0] ++ [Y], MOVEMState.init) := by
  have hF : Finish Pre S = some (Pre ++ [X0], MOVEMState.init) := by simp [Finish, hB]
  have hhb : S.hasBase = true := by simp [MOVEMState.hasBase, h0]
  unfold isStackMOVEM at h
  unfold stepMI
  cases hY : operands Y with
  | none => exact ⟨true, by simp [hhb, hF]⟩
  | some q =>
    obtain ⟨M, O, R, st⟩ := q
    rw [hY] at h
    simp only at h
    have hne : S.Base ≠ R := by
      intro e
      rw [e, h] at hb
      exact Bool.noConfusion hb
    simp only [isRunBase, decide_eq_false_iff_not] at h
    exact ⟨m || false, by
      simp [ProcessMI, ProcessMIStart, hhb, hne, hF, h, MOVEMState.init]⟩

theorem noAdjacentMOVEM_cons (TRI : M68kRegisterInfo) (Y : MachineInstr)
    (rest : List MachineInstr) (h : noAdjacentMOVEM TRI (Y :: rest) = true) :
    noAdjacentMOVEM TRI rest = true ∧
      (isStackMOVEM TRI Y = true → ∀ Z ∈ rest.head?, isStackMOVEM TRI Z = false) := by
  cases rest with
  | nil => simp [noAdjacentMOVEM]
  | cons Z rest =>
    simp only [noAdjacentMOVEM, Bool.and_eq_true, Bool.not_eq_true', Bool.and_eq_false_iff] at h
    refine ⟨h.2, ?_⟩
    intro hY Z1 hZ1
    simp only [List.head?_cons, Option.mem_def, Option.some.injEq] at hZ1
    rw [← hZ1]
    rcases h.1 with h1 | h1
    · rw [hY] at h1; exact Bool.noConfusion h1
    · exact h1

theorem loop_isolated (TRI : M68kRegisterInfo) :
    ∀ blk : List MachineInstr, (∀ X ∈ blk, validMask TRI X) → noAdjacentMOVEM TRI blk = true →
      (∀ m Pre, ∃ m1, (loopMBB TRI (m, Pre, MOVEMState.init) blk).bind endOfMBB
          = some (m1, MOVEMState.init, Pre ++ blk)) ∧
      (∀ m Pre S X0, S.Begin = [X0] → S.Base ≠ 0 → isRunBase TRI S.Base = true →
        (∀ Z ∈ blk.head?, isStackMOVEM TRI Z = false) →
        ∃ m1, (loopMBB TRI (m, Pre, S) blk).bind endOfMBB
          = some (m1, MOVEMState.init, Pre ++ X0 :: blk)) := by
  intro blk
  induction blk with
  | nil =>
    intro _ _
    constructor
    · intro m Pre
      exact ⟨m, by simp [loopMBB, endOfMBB, MOVEMState.hasBase, MOVEMState.init]⟩
    · intro m Pre S X0 hB h0 _ _
      exact ⟨m, by simp [loopMBB, endOfMBB, MOVEMState.hasBase, h0, Finish, hB]⟩
  | cons Y rest ih =>
    intro hv hna
    obtain ⟨hna1, hhead⟩ := noAdjacentMOVEM_cons TRI Y rest hna
    obtain ⟨iha, ihb⟩ := ih (fun X hX => hv X (List.mem_cons_of_mem _ hX)) hna1
    constructor
    · intro m Pre
      cases hY : isStackMOVEM TRI Y with
      | false =>
        obtain ⟨m1, h1⟩ := iha m (Pre ++ [Y])
        exact ⟨m1, by simpa [loopMBB, stepMI_init_other TRI m Pre Y hY] using h1⟩
      | true =>
        obtain ⟨S, hS, hB, h0, hb⟩ :=
          stepMI_init_movem TRI m Pre Y hY (hv Y (List.mem_cons_self _ _))
        obtain ⟨m1, h1⟩ := ihb true Pre S Y hB h0 hb (hhead hY)
        exact ⟨m1, by simpa [loopMBB, hS] using h1⟩
    · intro m Pre S X0 hB h0 hb hZ
      have hY : isStackMOVEM TRI Y = false := hZ Y (by simp)
      obtain ⟨m1, hS⟩ := stepMI_open_other TRI m Pre S X0 Y hB h0 hb hY
      obtain ⟨m2, h2⟩ := iha m1 (Pre ++ [X0] ++ [Y])
      exact ⟨m2, by simpa [loopMBB, hS] using h2⟩

theorem runOnMBB_isolated (TRI : M68kRegisterInfo) (m : Bool) (blk : List MachineInstr)
    (hv : ∀ X ∈ blk, validMask TRI X) (hna : noAdjacentMOVEM TRI blk = true) :
    ∃ m1, runOnMBB TRI m MOVEMState.init blk = some (m1, MOVEMState.init, blk) := by
  obtain ⟨m1, h⟩ := (loop_isolated TRI blk hv hna).1 m []
  refine ⟨m1, ?_⟩
  unfold runOnMBB
  cases hl : loopMBB TRI (m, [], MOVEMState.init) blk with
  | none => rw [hl] at h; simp at h
  | some L => rw [hl] at h; simpa using h

theorem runOnBlocks_isolated (TRI : M68kRegisterInfo) :
    ∀ (C Done : List (List MachineInstr)) (m : Bool),
      (∀ blk ∈ C, (∀ X ∈ blk, validMask TRI X) ∧ noAdjacentMOVEM TRI blk = true) →
      ∃ m1, runOnBlocks TRI m MOVEMState.init Done C = some (m1, Done ++ C) := by
  intro C
  induction C with
  | nil => intro Done m _; exact ⟨m, by simp [runOnBlocks]⟩
  | cons blk C ih =>
    intro Done m h
    obtain ⟨hv, hna⟩ := h blk (List.mem_cons_self _ _)
    obtain ⟨m1, h1⟩ := runOnMBB_isolated TRI m blk hv hna
    obtain ⟨m2, h2⟩ := ih (Done ++ [blk]) m1 (fun b hb => h b (List.mem_cons_of_mem _ hb))
    exact ⟨m2, by simpa [runOnBlocks, h1] using h2⟩

/-! ### The output of the pass has valid masks -/

theorem updateMask_match_some (S0 S1 : MOVEMState) (M : Nat) (b : Bool)
    (h : (match MOVEMState.updateMask S0 M with
          | none => none
          | some S2 => some (true, S2)) = some (b, S1)) :
    b = true ∧ M < 65536 ∧ S1 = { S0 with Mask := S0.Mask ||| M } := by
  unfold MOVEMState.updateMask at h
  by_cases h1 : M < 65536
  · by_cases h2 : M &&& S0.Mask = 0
    · simp [h1, h2] at h
      exact ⟨h.1, h1, h.2.symm⟩
    · simp [h1, h2] at h
  · simp [h1] at h

theorem update_some (S S1 : MOVEMState) (O : Int) (M : Nat) (b : Bool)
    (h : S.update O M = some (b, S1)) :
    M ≠ 0 ∧ S1.Begin = S.Begin ∧ S1.Base = S.Base ∧ S1.Ty = S.Ty ∧
      ((b = true ∧ M < 65536 ∧ S1.Mask = S.Mask ||| M) ∨ (b = false ∧ S1 = S)) := by
  unfold MOVEMState.update at h
  cases hc : S.classifyUpdateByMask M with
  | none => rw [hc] at h; simp at h
  | some Ty =>
    rw [hc] at h
    have hM0 : M ≠ 0 := by
      intro e
      simp [MOVEMState.classifyUpdateByMask, e] at hc
    refine ⟨hM0, ?_⟩
    simp only at h
    by_cases h1 : Ty = UpdateType.Intermixed
    · simp only [h1, if_true, Option.some.injEq, Prod.mk.injEq] at h
      obtain ⟨hb, hS⟩ := h
      subst hS
      exact ⟨rfl, rfl, rfl, Or.inr ⟨hb.symm, rfl⟩⟩
    · rw [if_neg h1] at h
      by_cases h2 : S.Start = INT_MIN
      · rw [if_pos h2] at h
        obtain ⟨hb, hM, hS⟩ := updateMask_match_some _ _ _ _ h
        subst hS
        exact ⟨rfl, rfl, rfl, Or.inl ⟨hb, hM, rfl⟩⟩
      · rw [if_neg h2] at h
        by_cases h3 : Ty = UpdateType.Descending ∧ O = toInt32 (S.Start - 4)
        · rw [if_pos h3] at h
          obtain ⟨hb, hM, hS⟩ := updateMask_match_some _ _ _ _ h
          subst hS
          exact ⟨rfl, rfl, rfl, Or.inl ⟨hb, hM, rfl⟩⟩
        · rw [if_neg h3] at h
          by_cases h4 : Ty = UpdateType.Ascending ∧ O = toInt32 (S.Stop + 4)
          · rw [if_pos h4] at h
            obtain ⟨hb, hM, hS⟩ := updateMask_match_some _ _ _ _ h
            subst hS
            exact ⟨rfl, rfl, rfl, Or.inl ⟨hb, hM, rfl⟩⟩
          · rw [if_neg h4] at h
            simp only [Option.some.injEq, Prod.mk.injEq] at h
            obtain ⟨hb, hS⟩ := h
            subst hS
            exact ⟨rfl, rfl, rfl, Or.inr ⟨hb.symm, rfl⟩⟩

theorem toUInt32_ofNat (M : Nat) (h : M < 65536) : toUInt32 (Int.ofNat M) = M := by
  unfold toUInt32
  simp only [Int.ofNat_eq_coe]
  omega

theorem or_ne_zero_right (a b : Nat) (h : b ≠ 0) : a ||| b ≠ 0 := by
  intro e
  obtain ⟨i, hi⟩ := Nat.ne_zero_implies_bit_true h
  have h1 : (a ||| b).testBit i = true := by rw [Nat.testBit_or, hi]; simp
  rw [e] at h1
  simp at h1

theorem or_lt_65536 (a b : Nat) (ha : a < 65536) (hb : b < 65536) : a ||| b < 65536 :=
  @Nat.or_lt_two_pow a b 16 ha hb

theorem update_fresh (S S1 : MOVEMState) (O : Int) (M : Nat) (b : Bool)
    (hMask : S.Mask = 0) (hStart : S.Start = INT_MIN) (h : S.update O M = some (b, S1)) :
    M ≠ 0 ∧ M < 65536 ∧ S1 = { S with Start := O, Stop := O, Mask := M } := by
  have hM0 := (update_some S S1 O M b h).1
  by_cases hM : M < 65536
  · rw [update_first S O M hM0 hM hMask hStart] at h
    simp only [Option.some.injEq, Prod.mk.injEq] at h
    exact ⟨hM0, hM, h.2.symm⟩
  · simp [MOVEMState.update, MOVEMState.classifyUpdateByMask, MOVEMState.updateMask, hM0, hM,
      hMask, hStart] at h

theorem validMask_of_operands (TRI : M68kRegisterInfo) (MI : MachineInstr) (M : Nat)
    (O : Int) (R : Nat) (st : Bool) (hMI : operands MI = some (M, O, R, st))
    (h : isRunBase TRI R = true → M ≠ 0 ∧ M < 65536) : validMask TRI MI := by
  intro M1 O1 R1 st1 h1 hR
  rw [hMI] at h1
  simp only [Option.some.injEq, Prod.mk.injEq] at h1
  obtain ⟨e1, _, e3, _⟩ := h1
  subst e1
  subst e3
  exact h hR

theorem Finish_inv (TRI : M68kRegisterInfo) (Pre Pre1 : List MachineInstr) (S S1 : MOVEMState)
    (hPre : ∀ X ∈ Pre, validMask TRI X) (hBeg : ∀ X ∈ S.Begin, validMask TRI X)
    (hM0 : S.Mask ≠ 0) (hM : S.Mask < 65536) (h : Finish Pre S = some (Pre1, S1)) :
    S1 = MOVEMState.init ∧ ∀ X ∈ Pre1, validMask TRI X := by
  have hv1 : validMask TRI
      (MachineInstr.MOVM32mp (Int.ofNat S.Mask) S.Start S.Base) :=
    validMask_of_operands TRI _ S.Mask (toInt32 S.Start) S.Base false
      (by simp only [operands, toUInt32_ofNat S.Mask hM]) (fun _ => ⟨hM0, hM⟩)
  have hv2 : validMask TRI
      (MachineInstr.MOVM32pm S.Start S.Base (Int.ofNat S.Mask)) :=
    validMask_of_operands TRI _ S.Mask (toInt32 S.Start) S.Base true
      (by simp only [operands, toUInt32_ofNat S.Mask hM]) (fun _ => ⟨hM0, hM⟩)
  unfold Finish at h
  split at h
  · simp at h
  · next MI hB =>
    simp only [Option.some.injEq, Prod.mk.injEq] at h
    obtain ⟨h1, h2⟩ := h
    refine ⟨h2.symm, ?_⟩
    intro X hX
    rw [← h1] at hX
    rcases List.mem_append.mp hX with hX | hX
    · exact hPre X hX
    · exact hBeg X (by rw [hB]; exact hX)
  · split at h
    · simp at h
    · split at h
      · simp at h
      · split at h <;>
        · simp only [Option.some.injEq, Prod.mk.injEq] at h
          obtain ⟨h1, h2⟩ := h
          refine ⟨h2.symm, ?_⟩
          intro X hX
          rw [← h1] at hX
          rcases List.mem_append.mp hX with hX | hX
          · exact hPre X hX
          · simp only [List.mem_singleton] at hX
            rw [hX]
            first | exact hv1 | exact hv2

theorem ProcessMIStart_inv (TRI : M68kRegisterInfo) (Pre Pre1 : List MachineInstr)
    (MI : MachineInstr) (S1 : MOVEMState) (M : Nat) (O : Int) (R : Nat) (st r : Bool)
    (hPre : ∀ X ∈ Pre, validMask TRI X) (hMI : operands MI = some (M, O, R, st))
    (h : ProcessMIStart TRI Pre MI MOVEMState.init M O R st = some (r, Pre1, S1)) :
    LoopInv TRI (r, Pre1, S1) := by
  unfold ProcessMIStart at h
  by_cases hR : R = TRI.StackRegister ∨ R = TRI.BaseRegister ∨ R = TRI.FrameRegister
  · rw [if_pos hR] at h
    have hRb : isRunBase TRI R = true := by simpa [isRunBase] using hR
    simp only [MOVEMState.init, MOVEMState.hasBase] at h
    cases hu : MOVEMState.update
        { Begin := [MI], Base := R, Start := INT_MIN, Stop := INT_MAX, Mask := 0,
          Ty := MoveType.None } O M with
    | none => simp [hu] at h
    | some q =>
      obtain ⟨b, S2⟩ := q
      obtain ⟨hM0, hM, hS2⟩ := update_fresh _ _ O M b rfl rfl hu
      simp [hu] at h
      obtain ⟨_, h1, h2⟩ := h
      subst h1
      subst h2
      subst hS2
      refine ⟨hPre, ?_, ?_, ?_⟩
      · intro X hX
        simp only [List.mem_singleton] at hX
        rw [hX]
        exact validMask_of_operands TRI MI M O R st hMI (fun _ => ⟨hM0, hM⟩)
      · intro e
        exact absurd e (isRunBase_ne_zero TRI R hRb)
      · intro _
        exact ⟨hM0, hM⟩
  · rw [if_neg hR] at h
    simp only [Option.some.injEq, Prod.mk.injEq] at h
    obtain ⟨_, h1, h2⟩ := h
    subst h1
    subst h2
    refine ⟨?_, by simp [MOVEMState.init], fun _ => rfl, fun e => absurd rfl e⟩
    intro X hX
    rcases List.mem_append.mp hX with hX | hX
    · exact hPre X hX
    · simp only [List.mem_singleton] at hX
      rw [hX]
      refine validMask_of_operands TRI MI M O R st hMI (fun hb => ?_)
      simp only [isRunBase, decide_eq_true_eq] at hb
      exact absurd hb hR

theorem Finish_ProcessMIStart_inv (TRI : M68kRegisterInfo) (Pre Pre1 : List MachineInstr)
    (MI : MachineInstr) (S S1 : MOVEMState) (M : Nat) (O : Int) (R : Nat) (st r m : Bool)
    (hL : LoopInv TRI (m, Pre, S)) (hb : S.Base ≠ 0)
    (hMI : operands MI = some (M, O, R, st))
    (h : (match Finish Pre S with
          | none => none
          | some (Pre2, S2) => ProcessMIStart TRI Pre2 MI S2 M O R st) = some (r, Pre1, S1)) :
    LoopInv TRI (r, Pre1, S1) := by
  obtain ⟨hPre, hBeg, _, hMask⟩ := hL
  obtain ⟨hM0, hM⟩ := hMask hb
  cases hF : Finish Pre S with
  | none => simp [hF] at h
  | some q =>
    obtain ⟨Pre2, S2⟩ := q
    obtain ⟨hS2, hPre2⟩ := Finish_inv TRI Pre Pre2 S S2 hPre hBeg hM0 hM hF
    rw [hF] at h
    simp only at h
    rw [hS2] at h
    exact ProcessMIStart_inv TRI Pre2 Pre1 MI S1 M O R st r hPre2 hMI h

theorem ProcessMI_inv (TRI : M68kRegisterInfo) (Pre Pre1 : List MachineInstr)
    (MI : MachineInstr) (S S1 : MOVEMState) (M : Nat) (O : Int) (R : Nat) (st r m : Bool)
    (hL : LoopInv TRI (m, Pre, S)) (hMI : operands MI = some (M, O, R, st))
    (h : ProcessMI TRI Pre MI S M O R st = some (r, Pre1, S1)) :
    LoopInv TRI (r, Pre1, S1) := by
  unfold ProcessMI at h
  by_cases hb : S.Base = 0
  · have hS : S = MOVEMState.init := hL.2.2.1 hb
    have hhb : S.hasBase = false := by simp [MOVEMState.hasBase, hb]
    rw [hhb] at h
    simp only [Bool.false_eq_true, if_false] at h
    rw [hS] at h
    exact ProcessMIStart_inv TRI Pre Pre1 MI S1 M O R st r hL.1 hMI h
  · have hhb : S.hasBase = true := by simp [MOVEMState.hasBase, hb]
    rw [hhb] at h
    simp only [if_true] at h
    by_cases hc : S.isStore = st ∧ S.Base = R
    · rw [if_pos hc] at h
      cases hu : S.update O M with
      | none => simp [hu] at h
      | some q =>
        obtain ⟨b, S2⟩ := q
        rw [hu] at h
        obtain ⟨hM0, hBeg, hBase, _, hcase⟩ := update_some S S2 O M b hu
        cases b with
        | true =>
          simp only [Option.some.injEq, Prod.mk.injEq] at h
          obtain ⟨_, h1, h2⟩ := h
          subst h1
          subst h2
          rcases hcase with ⟨_, hM, hMask⟩ | ⟨hf, _⟩
          · obtain ⟨hPre, hB, _, hMk⟩ := hL
            refine ⟨hPre, ?_, ?_, ?_⟩
            · intro X hX
              simp only [hBeg] at hX
              rcases List.mem_append.mp hX with hX | hX
              · exact hB X hX
              · simp only [List.mem_singleton] at hX
                rw [hX]
                exact validMask_of_operands TRI MI M O R st hMI (fun _ => ⟨hM0, hM⟩)
            · intro e
              simp only [hBase] at e
              exact absurd e hb
            · intro _
              simp only [hMask]
              exact ⟨or_ne_zero_right _ _ hM0, or_lt_65536 _ _ (hMk hb).2 hM⟩
          · exact Bool.noConfusion hf
        | false =>
          simp only at h
          exact Finish_ProcessMIStart_inv TRI Pre Pre1 MI S S1 M O R st r m hL hb hMI h
    · rw [if_neg hc] at h
      exact Finish_ProcessMIStart_inv TRI Pre Pre1 MI S S1 M O R st r m hL hb hMI h

theorem validMask_of_none (TRI : M68kRegisterInfo) (MI : MachineInstr)
    (h : operands MI = none) : validMask TRI MI := by
  intro M O R st h1
  rw [h] at h1
  exact Option.noConfusion h1

theorem stepMI_inv (TRI : M68kRegisterInfo) (L L1 : LoopState) (MI : MachineInstr)
    (hL : LoopInv TRI L) (h : stepMI TRI L MI = some L1) : LoopInv TRI L1 := by
  obtain ⟨m, Pre, S⟩ := L
  unfold stepMI at h
  cases hMI : operands MI with
  | none =>
    rw [hMI] at h
    simp only at h
    have hv := validMask_of_none TRI MI hMI
    by_cases hb : S.Base = 0
    · have hhb : S.hasBase = false := by simp [MOVEMState.hasBase, hb]
      rw [hhb] at h
      simp only [Bool.false_eq_true, if_false, Option.some.injEq] at h
      subst h
      obtain ⟨hPre, hB, h3, h4⟩ := hL
      refine ⟨?_, hB, h3, h4⟩
      intro X hX
      rcases List.mem_append.mp hX with hX | hX
      · exact hPre X hX
      · simp only [List.mem_singleton] at hX
        rw [hX]
        exact hv
    · have hhb : S.hasBase = true := by simp [MOVEMState.hasBase, hb]
      rw [hhb] at h
      simp only [if_true] at h
      obtain ⟨hPre, hB, _, h4⟩ := hL
      obtain ⟨hM0, hM⟩ := h4 hb
      cases hF : Finish Pre S with
      | none => simp [hF] at h
      | some q =>
        obtain ⟨Pre2, S2⟩ := q
        obtain ⟨hS2, hPre2⟩ := Finish_inv TRI Pre Pre2 S S2 hPre hB hM0 hM hF
        rw [hF] at h
        simp only [Option.some.injEq] at h
        subst h
        subst hS2
        refine ⟨?_, by simp [MOVEMState.init], fun _ => rfl, fun e => absurd rfl e⟩
        intro X hX
        rcases List.mem_append.mp hX with hX | hX
        · exact hPre2 X hX
        · simp only [List.mem_singleton] at hX
          rw [hX]
          exact hv
  | some q =>
    obtain ⟨M, O, R, st⟩ := q
    rw [hMI] at h
    simp only at h
    cases hP : ProcessMI TRI Pre MI S M O R st with
    | none => simp [hP] at h
    | some q2 =>
      obtain ⟨r, Pre1, S1⟩ := q2
      rw [hP] at h
      simp only [Option.some.injEq] at h
      subst h
      exact ProcessMI_inv TRI Pre Pre1 MI S S1 M O R st r m hL hMI hP

theorem loopMBB_inv (TRI : M68kRegisterInfo) :
    ∀ (blk : List MachineInstr) (L L1 : LoopState),
      LoopInv TRI L → loopMBB TRI L blk = some L1 → LoopInv TRI L1 := by
  intro blk
  induction blk with
  | nil =>
    intro L L1 hL h
    simp only [loopMBB, Option.some.injEq] at h
    rw [← h]
    exact hL
  | cons MI rest ih =>
    intro L L1 hL h
    simp only [loopMBB] at h
    cases hs : stepMI TRI L MI with
    | none => simp [hs] at h
    | some L2 =>
      rw [hs] at h
      exact ih L2 L1 (stepMI_inv TRI L L2 MI hL hs) h

theorem runOnMBB_inv (TRI : M68kRegisterInfo) (m m1 : Bool) (blk blk1 : List MachineInstr)
    (S1 : MOVEMState) (h : runOnMBB TRI m MOVEMState.init blk = some (m1, S1, blk1)) :
    S1 = MOVEMState.init ∧ ∀ X ∈ blk1, validMask TRI X := by
  unfold runOnMBB at h
  cases hl : loopMBB TRI (m, [], MOVEMState.init) blk with
  | none => simp [hl] at h
  | some L =>
    rw [hl] at h
    simp only at h
    have hL0 : LoopInv TRI (m, [], MOVEMState.init) :=
      ⟨by simp, by simp [MOVEMState.init], fun _ => rfl, fun e => absurd rfl e⟩
    obtain ⟨hPre, hB, h3, h4⟩ := loopMBB_inv TRI blk _ L hL0 hl
    unfold endOfMBB at h
    by_cases hb : L.2.2.Base = 0
    · have hhb : L.2.2.hasBase = false := by simp [MOVEMState.hasBase, hb]
      rw [hhb] at h
      simp only [Bool.false_eq_true, if_false, Option.some.injEq, Prod.mk.injEq] at h
      obtain ⟨_, e2, e3⟩ := h
      rw [← e2, ← e3]
      exact ⟨h3 hb, hPre⟩
    · have hhb : L.2.2.hasBase = true := by simp [MOVEMState.hasBase, hb]
      rw [hhb] at h
      simp only [if_true] at h
      obtain ⟨hM0, hM⟩ := h4 hb
      cases hF : Finish L.2.1 L.2.2 with
      | none => simp [hF] at h
      | some q =>
        obtain ⟨Pre2, S2⟩ := q
        rw [hF] at h
        simp only [Option.some.injEq, Prod.mk.injEq] at h
        obtain ⟨_, e2, e3⟩ := h
        rw [← e2, ← e3]
        exact Finish_inv TRI L.2.1 Pre2 L.2.2 S2 hPre hB hM0 hM hF

theorem runOnBlocks_inv (TRI : M68kRegisterInfo) :
    ∀ (MF Done C : List (List MachineInstr)) (m m1 : Bool),
      (∀ blk ∈ Done, ∀ X ∈ blk, validMask TRI X) →
      runOnBlocks TRI m MOVEMState.init Done MF = some (m1, C) →
      ∀ blk ∈ C, ∀ X ∈ blk, validMask TRI X := by
  intro MF
  induction MF with
  | nil =>
    intro Done C m m1 hD h
    simp only [runOnBlocks, Option.some.injEq, Prod.mk.injEq] at h
    rw [← h.2]
    exact hD
  | cons blk MF ih =>
    intro Done C m m1 hD h
    simp only [runOnBlocks] at h
    cases hr : runOnMBB TRI m MOVEMState.init blk with
    | none => simp [hr] at h
    | some q =>
      obtain ⟨m2, S2, blk2⟩ := q
      obtain ⟨hS2, hv⟩ := runOnMBB_inv TRI m m2 blk blk2 S2 hr
      rw [hr] at h
      simp only at h
      rw [hS2] at h
      refine ih (Done ++ [blk2]) C m2 m1 ?_ h
      intro b hb
      rcases List.mem_append.mp hb with hb | hb
      · exact hD b hb
      · simp only [List.mem_singleton] at hb
        rw [hb]
        exact hv

/-- C6 (amended): when no block of the output of a first run of the pass has two adjacent
MOVEMs on the stack, base or frame register, a second run of the pass on that output
completes and leaves every block unchanged. -/
theorem collapse_idempotent_of_isolated (TRI : M68kRegisterInfo)
    (MF C : List (List MachineInstr)) (h1 : collapse TRI MF = some C)
    (hna : ∀ blk ∈ C, noAdjacentMOVEM TRI blk = true) :
    collapse TRI C = some C := by
  unfold collapse at h1 ⊢
  cases hr : runOnMachineFunction TRI MF with
  | none => simp [hr] at h1
  | some q =>
    obtain ⟨m, C1⟩ := q
    rw [hr] at h1
    simp only [Option.map_some', Option.some.injEq] at h1
    subst h1
    have hv := runOnBlocks_inv TRI MF [] C1 false m (by simp) hr
    obtain ⟨m1, h2⟩ := runOnBlocks_isolated TRI C1 [] false
      (fun blk hb => ⟨hv blk hb, hna blk hb⟩)
    simp only [runOnMachineFunction, h2, List.nil_append, Option.map_some']

/-- Witness of `collapse_idempotent_of_isolated`: the 8 descending stores of
`descendingExampleBlock` are merged by the first run, and the second run leaves the
merged store unchanged. -/
theorem collapse_idempotent_of_isolated_witness :
    collapse exampleTRI [descendingExampleBlock] = some [[MachineInstr.MOVM32pm (-32) 15 255]] ∧
    collapse exampleTRI [[MachineInstr.MOVM32pm (-32) 15 255]]
      = some [[MachineInstr.MOVM32pm (-32) 15 255]] :=
  ⟨by decide,
   collapse_idempotent_of_isolated exampleTRI [descendingExampleBlock]
    [[MachineInstr.MOVM32pm (-32) 15 255]] (by decide) (by decide)⟩

/-- C6 fails as stated: on the block of three stores at offsets 0, 8, 4 with masks 0x2,
0x8, 0x4 the first run merges the last two (mask 0xC at offset 4), and a second run
changes the block again, merging the remaining two instructions into one store with mask
0xE at offset 0. -/
theorem collapse_not_idempotent :
    collapse exampleTRI
        [[MachineInstr.MOVM32pm 0 15 2, MachineInstr.MOVM32pm 8 15 8,
          MachineInstr.MOVM32pm 4 15 4]]
      = some [[MachineInstr.MOVM32pm 0 15 2, MachineInstr.MOVM32pm 4 15 12]] ∧
    collapse exampleTRI [[MachineInstr.MOVM32pm 0 15 2, MachineInstr.MOVM32pm 4 15 12]]
      = some [[MachineInstr.MOVM32pm 0 15 14]] ∧
    collapse exampleTRI [[MachineInstr.MOVM32pm 0 15 2, MachineInstr.MOVM32pm 4 15 12]]
      ≠ some [[MachineInstr.MOVM32pm 0 15 2, MachineInstr.MOVM32pm 4 15 12]] := by
  decide

end CollapseMOVEM

namespace ExpandPseudo

/-- C7: on a target older than the 68020, expanding a return placeholder with cleanup
count n replaces it (the placeholder is not part of the resulting block) by a single RTS
when n = 0, and when 1 <= n <= 65535 by the four steps: load the return address at (SP)
into A1, adjust the stack pointer by n, store A1 to (SP), RTS. -/
theorem ExpandMI_RET_pre68020 (T : Target) (Pre : List MachineInstr) (MI : MachineInstr)
    (n : Int) (rest : List MachineOperand)
    (hT : T.atLeastM68020 = false) (hOpc : MI.Opcode = Opcode.RET)
    (hOps : MI.Operands = MachineOperand.Imm n :: rest) :
    (n = 0 → ExpandMI T Pre MI = some (true, Pre ++ [BuildMI T Opcode.RTS []])) ∧
    (1 ≤ n ∧ n ≤ 65535 →
      ExpandMI T Pre MI = some (true, Pre ++
        ([BuildMI T Opcode.MOV32aj
            [MachineOperand.Reg Register.A1 true false,
             MachineOperand.Reg Register.SP false false]]
          ++ T.emitSPUpdate
              (Pre ++ [BuildMI T Opcode.MOV32aj
                [MachineOperand.Reg Register.A1 true false,
                 MachineOperand.Reg Register.SP false false]]) n true
          ++ [BuildMI T Opcode.MOV32ja
                [MachineOperand.Reg Register.SP false false,
                 MachineOperand.Reg Register.A1 false false],
              BuildMI T Opcode.RTS []]))) := by
  constructor
  · intro h0
    simp [ExpandMI, hOpc, ExpandRET, hOps, h0]
  · intro hn
    have h0 : n ≠ 0 := by omega
    have h16 : isUInt16 n = true := by
      simp only [isUInt16, Bool.and_eq_true, decide_eq_true_eq]
      omega
    simp [ExpandMI, hOpc, ExpandRET, hOps, h0, h16, hT]

/-- Witness of `ExpandMI_RET_pre68020`: cleanup count 0 gives a bare return and cleanup
count 8 gives the 4-step sequence. -/
theorem ExpandMI_RET_pre68020_witness :
    ExpandMI exampleTarget [] (retPlaceholder 0)
      = some (true, [BuildMI exampleTarget Opcode.RTS []]) ∧
    ExpandMI exampleTarget [] (retPlaceholder 8)
      = some (true, [] ++ manualPopSequence exampleTarget [] 8) ∧
    (manualPopSequence exampleTarget [] 8).length = 4 :=
  ⟨(ExpandMI_RET_pre68020 exampleTarget [] (retPlaceholder 0) 0 [] rfl rfl rfl).1 rfl,
   (ExpandMI_RET_pre68020 exampleTarget [] (retPlaceholder 8) 8 [] rfl rfl rfl).2
     ⟨by decide, by decide⟩,
   by decide⟩

/-- C8: for every cleanup count outside 0..65535, expanding a return placeholder aborts
(on every target): no instruction is emitted and the count is not truncated. -/
theorem ExpandMI_RET_out_of_range (T : Target) (Pre : List MachineInstr) (MI : MachineInstr)
    (n : Int) (rest : List MachineOperand)
    (hOpc : MI.Opcode = Opcode.RET) (hOps : MI.Operands = MachineOperand.Imm n :: rest)
    (hn : n < 0 ∨ 65535 < n) :
    ExpandMI T Pre MI = none := by
  have h0 : n ≠ 0 := by omega
  have h16 : isUInt16 n = false := by
    simp only [isUInt16, Bool.and_eq_false_iff, decide_eq_false_iff_not]
    omega
  simp [ExpandMI, hOpc, ExpandRET, hOps, h0, h16]

/-- Witness of `ExpandMI_RET_out_of_range`: cleanup count 0x20000 is rejected. -/
theorem ExpandMI_RET_out_of_range_witness :
    ExpandMI exampleTarget [] (retPlaceholder 131072) = none :=
  ExpandMI_RET_out_of_range exampleTarget [] (retPlaceholder 131072) 131072 [] rfl rfl
    (Or.inr (by decide))

end ExpandPseudo

namespace ISel

/-- C2 (amended): `TranslateM68kCC` returns exactly one condition code (with the operand
pair to compare) for the ten integer predicates EQ, GT, GE, LT, LE, NE, ULT, UGE, UGT, ULE
on integer comparisons and for the eighteen predicates of its floating-point switch on
floating-point comparisons (the marker COND_INVALID for OEQ and UNE); for every other
predicate value it aborts. -/
theorem TranslateM68kCC_defined_iff (CC : ISD.CondCode) (LHS RHS : SDValue) :
    ((TranslateM68kCC CC false LHS RHS).isSome = true ↔ CC ∈ integerPredicates) ∧
    ((TranslateM68kCC CC true LHS RHS).isSome = true ↔ CC ∈ floatPredicates) := by
  constructor
  · cases RHS with
    | Constant Bits Val =>
      cases CC <;>
        simp [TranslateM68kCC, TranslateIntegerM68kCC, integerPredicates] <;>
        (repeat' split) <;> simp
    | NonExtLoad id =>
      cases CC <;> simp [TranslateM68kCC, TranslateIntegerM68kCC, integerPredicates]
    | Other id =>
      cases CC <;> simp [TranslateM68kCC, TranslateIntegerM68kCC, integerPredicates]
  · cases h : (LHS.isNON_EXTLoad && !RHS.isNON_EXTLoad) <;>
      cases CC <;>
        simp [TranslateM68kCC, TranslateFPM68kCC, floatPredicates, h,
          ISD.getSetCCSwappedOperands]

/-- C2 fails as stated: the floating-point comparison with predicate SETUO and the integer
comparison with predicate SETOEQ make `TranslateM68kCC` abort instead of returning a
condition code. -/
theorem TranslateM68kCC_not_total :
    TranslateM68kCC ISD.CondCode.SETUO true (SDValue.Other 0) (SDValue.Other 1) = none ∧
    TranslateM68kCC ISD.CondCode.SETOEQ false (SDValue.Other 0) (SDValue.Other 1) = none := by
  decide

/-- C3: for floating-point comparisons and each pair (P, P') among (OLT, OGT), (OLE, OGE),
(UGT, ULT), (UGE, ULE), translating P on (L, R) and P' on (R, L) return the same condition
code and the same ordered operand pair, namely (R, L), whether or not L or R is a foldable
load. -/
theorem TranslateM68kCC_swap_consistent (L R : SDValue) :
    (TranslateM68kCC ISD.CondCode.SETOLT true L R = some (CondCode.COND_HI, R, L) ∧
      TranslateM68kCC ISD.CondCode.SETOGT true R L = some (CondCode.COND_HI, R, L)) ∧
    (TranslateM68kCC ISD.CondCode.SETOLE true L R = some (CondCode.COND_CC, R, L) ∧
      TranslateM68kCC ISD.CondCode.SETOGE true R L = some (CondCode.COND_CC, R, L)) ∧
    (TranslateM68kCC ISD.CondCode.SETUGT true L R = some (CondCode.COND_CS, R, L) ∧
      TranslateM68kCC ISD.CondCode.SETULT true R L = some (CondCode.COND_CS, R, L)) ∧
    (TranslateM68kCC ISD.CondCode.SETUGE true L R = some (CondCode.COND_LS, R, L) ∧
      TranslateM68kCC ISD.CondCode.SETULE true R L = some (CondCode.COND_LS, R, L)) := by
  cases L <;> cases R <;>
    simp [TranslateM68kCC, TranslateFPM68kCC, needsSwap, SDValue.isNON_EXTLoad,
      ISD.getSetCCSwappedOperands]

theorem regmaskSubsetEqual_iff (mask0 mask1 : Nat) :
    regmaskSubsetEqual mask0 mask1 = true ↔
      ∀ r, mask0.testBit r = true → mask1.testBit r = true := by
  unfold regmaskSubsetEqual
  rw [beq_iff_eq]
  constructor
  · intro h r hr
    have := congrArg (fun x => Nat.testBit x r) h
    simp only [Nat.testBit_and, hr, Bool.true_and] at this
    exact this
  · intro h
    apply Nat.eq_of_testBit_eq
    intro i
    rw [Nat.testBit_and]
    cases h0 : mask0.testBit i with
    | false => simp
    | true => simp [h i h0]

/-- C4: `IsEligibleForTailCallOptimization` returns false whenever some register preserved
by the caller's calling convention is not preserved by the callee's, whatever its other
inputs. -/
theorem IsEligible_false_of_not_preserved (Q : TailCallQuery)
    (h : ¬ ∀ r, (Q.CallPreservedMask Q.CallerCC).testBit r = true →
      (Q.CallPreservedMask Q.CalleeCC).testBit r = true) :
    IsEligibleForTailCallOptimization Q = false := by
  have hsub : regmaskSubsetEqual (Q.CallPreservedMask Q.CallerCC)
      (Q.CallPreservedMask Q.CalleeCC) = false := by
    cases hs : regmaskSubsetEqual (Q.CallPreservedMask Q.CallerCC)
        (Q.CallPreservedMask Q.CalleeCC) with
    | false => rfl
    | true => exact absurd ((regmaskSubsetEqual_iff _ _).mp hs) h
  have hne : Q.CallerCC ≠ Q.CalleeCC := by
    intro e
    apply h
    rw [e]
    exact fun _ hr => hr
  unfold IsEligibleForTailCallOptimization
  simp only [hsub, hne, decide_False, canGuaranteeTCO, Bool.false_and, Bool.not_false,
    Bool.and_self, if_true, Bool.false_eq_true, if_false]
  repeat' split
  all_goals rfl

/-- Witness of `IsEligible_false_of_not_preserved`. -/
theorem IsEligible_false_of_not_preserved_witness :
    IsEligibleForTailCallOptimization exampleQuery = false :=
  IsEligible_false_of_not_preserved exampleQuery (fun h => by
    have h1 := h 1 (by decide)
    revert h1
    decide)

/-! ### Assignment of argument locations -/

theorem assignValue_inv (Rule : ArgRule) (ValNo : Nat) (VT : MVT) (St : CCState)
    (hN : (St.Locs.filterMap CCValAssign.locReg?).Nodup)
    (hU : ∀ R ∈ St.Locs.filterMap CCValAssign.locReg?, R ∈ St.UsedRegs) :
    ((assignValue Rule ValNo VT St).Locs.filterMap CCValAssign.locReg?).Nodup ∧
    (∀ R ∈ (assignValue Rule ValNo VT St).Locs.filterMap CCValAssign.locReg?,
      R ∈ (assignValue Rule ValNo VT St).UsedRegs) ∧
    (assignValue Rule ValNo VT St).Locs.map CCValAssign.ValNo
      = St.Locs.map CCValAssign.ValNo ++ [ValNo] := by
  unfold assignValue
  cases hf : Rule.Regs.find? (fun R => !St.UsedRegs.contains R) with
  | none =>
    simp only [List.filterMap_append, List.map_append, List.map_cons, List.map_nil]
    refine ⟨?_, ?_, trivial⟩
    · simpa [CCValAssign.locReg?] using hN
    · simpa [CCValAssign.locReg?] using hU
  | some R =>
    have hR : R ∉ St.UsedRegs := by
      have := List.find?_some hf
      simpa using this
    have hR1 : R ∉ St.Locs.filterMap CCValAssign.locReg? := fun h => hR (hU R h)
    simp only [List.filterMap_append, List.map_append, List.map_cons, List.map_nil]
    refine ⟨?_, ?_, trivial⟩
    · have e : List.filterMap CCValAssign.locReg?
          [{ ValNo := ValNo, ValVT := VT, LocVT := VT, HTP := LocInfo.Full,
             Loc := Loc.Reg R }] = [R] := rfl
      rw [e, List.nodup_append]
      refine ⟨hN, List.nodup_singleton R, ?_⟩
      intro x hx hx1
      simp only [List.mem_singleton] at hx1
      rw [hx1] at hx
      exact hR1 hx
    · intro x hx
      rcases List.mem_append.mp hx with hx | hx
      · exact List.mem_cons_of_mem _ (hU x hx)
      · have e : List.filterMap CCValAssign.locReg?
            [{ ValNo := ValNo, ValVT := VT, LocVT := VT, HTP := LocInfo.Full,
               Loc := Loc.Reg R }] = [R] := rfl
        rw [e, List.mem_singleton] at hx
        rw [hx]
        exact List.mem_cons_self _ _

theorem analyzeFrom_inv (Table : Nat → MVT → ArgRule) :
    ∀ (Args : List MVT) (ValNo : Nat) (St : CCState),
      (St.Locs.filterMap CCValAssign.locReg?).Nodup →
      (∀ R ∈ St.Locs.filterMap CCValAssign.locReg?, R ∈ St.UsedRegs) →
      ((analyzeFrom Table ValNo Args St).Locs.filterMap CCValAssign.locReg?).Nodup ∧
      (analyzeFrom Table ValNo Args St).Locs.map CCValAssign.ValNo
        = St.Locs.map CCValAssign.ValNo ++ List.range' ValNo Args.length := by
  intro Args
  induction Args with
  | nil => intro ValNo St hN _; exact ⟨hN, by simp [analyzeFrom]⟩
  | cons VT rest ih =>
    intro ValNo St hN hU
    obtain ⟨h1, h2, h3⟩ := assignValue_inv (Table ValNo VT) ValNo VT St hN hU
    obtain ⟨h4, h5⟩ := ih (ValNo + 1) _ h1 h2
    refine ⟨h4, ?_⟩
    simp only [analyzeFrom, h5, h3, List.length_cons, List.range'_succ, List.append_assoc,
      List.singleton_append]

theorem valNoAssertion_of_range :
    ∀ (Locs : List CCValAssign) (LastVal s n : Nat),
      Locs.map CCValAssign.ValNo = List.range' s n → LastVal ≠ s →
      valNoAssertion LastVal Locs = true := by
  intro Locs
  induction Locs with
  | nil => intro _ _ _ _ _; rfl
  | cons VA rest ih =>
    intro LastVal s n h hne
    cases n with
    | zero => simp at h
    | succ n =>
      simp only [List.map_cons, List.range'_succ, List.cons.injEq] at h
      obtain ⟨h1, h2⟩ := h
      have hrest := ih VA.ValNo (s + 1) n h2 (by omega)
      rw [h1] at hrest
      have hd : decide (s ≠ LastVal) = true := decide_eq_true (fun e => hne e.symm)
      simp only [valNoAssertion, h1, hrest, hd, Bool.and_self]

/-- C5: the assignment of argument locations gives every value number exactly one
location (the locations carry the value numbers 0, 1, ..., n-1 in order, so the assertion
"Same value in different locations" of `LowerFormalArguments` holds), never assigns one
register to two arguments, and yields the same locations each time it is run on the same
argument list. -/
theorem AnalyzeArguments_collision_free (Table : Nat → MVT → ArgRule) (Args : List MVT) :
    (AnalyzeArguments Table Args).map CCValAssign.ValNo = List.range Args.length ∧
    valNoAssertion 4294967295 (AnalyzeArguments Table Args) = true ∧
    ((AnalyzeArguments Table Args).filterMap CCValAssign.locReg?).Nodup ∧
    (∀ Locs1 Locs2, Locs1 = AnalyzeArguments Table Args → Locs2 = AnalyzeArguments Table Args →
      Locs1 = Locs2) := by
  obtain ⟨h1, h2⟩ := analyzeFrom_inv Table Args 0
    { UsedRegs := [], StackOffset := 0, Locs := [] } (by simp) (by simp)
  have hV : (AnalyzeArguments Table Args).map CCValAssign.ValNo
      = List.range' 0 Args.length := by
    unfold AnalyzeArguments
    rw [h2]
    rfl
  refine ⟨?_, ?_, h1, ?_⟩
  · rw [hV, List.range_eq_range']
  · exact valNoAssertion_of_range _ 4294967295 0 Args.length hV (by decide)
  · intro Locs1 Locs2 e1 e2
    rw [e1, e2]

/-! ### Stack size alignment -/

theorem and_not_low_mask (k s : Nat) (hk : k ≤ 64) (hs : s < 2 ^ 64) :
    (18446744073709551615 - (2 ^ k - 1)) &&& s = s - s % 2 ^ k := by
  have h1 : 18446744073709551615 - (2 ^ k - 1) = (2 ^ (64 - k) - 1) <<< k := by
    rw [Nat.shiftLeft_eq, Nat.sub_mul, ← Nat.pow_add, Nat.sub_add_cancel hk]
    have : 1 ≤ 2 ^ k := Nat.one_le_two_pow
    omega
  have h2 : s - s % 2 ^ k = (s >>> k) <<< k := by
    rw [Nat.shiftLeft_eq, Nat.shiftRight_eq_div_pow]
    have := Nat.div_add_mod s (2 ^ k)
    rw [Nat.mul_comm] at this
    omega
  rw [h1, h2]
  apply Nat.eq_of_testBit_eq
  intro i
  simp only [Nat.testBit_and, Nat.testBit_shiftLeft, Nat.testBit_two_pow_sub_one,
    Nat.testBit_shiftRight]
  by_cases hi : k ≤ i
  · have e : k + (i - k) = i := by omega
    simp only [ge_iff_le, hi, decide_True, Bool.true_and, e]
    by_cases h64 : i < 64
    · have : i - k < 64 - k := by omega
      simp [this]
    · have hlt : s < 2 ^ i :=
        lt_of_lt_of_le hs (Nat.pow_le_pow_right (by decide) (by omega))
      simp [Nat.testBit_lt_two_pow hlt]
  · simp [hi]

theorem GetAlignedArgumentStackSize_eq (k SlotSize s : Nat) (hSS : SlotSize ≤ 2 ^ k)
    (hs : s + 2 * 2 ^ k < 4294967296) :
    GetAlignedArgumentStackSize (2 ^ k) SlotSize s =
      if s % 2 ^ k ≤ 2 ^ k - SlotSize then 2 ^ k * (s / 2 ^ k) + (2 ^ k - SlotSize)
      else 2 ^ k * (s / 2 ^ k + 1) + (2 ^ k - SlotSize) := by
  have hA1 : 1 ≤ 2 ^ k := Nat.one_le_two_pow
  have hk : k ≤ 64 := by
    by_contra hc
    have : 2 ^ 64 ≤ 2 ^ k := Nat.pow_le_pow_right (by decide) (by omega)
    omega
  have hmask : (2 ^ k + 4294967296 - 1) % 4294967296 = 2 ^ k - 1 := by omega
  have hdiff : (2 ^ k + 4294967296 - SlotSize) % 4294967296 = 2 ^ k - SlotSize := by omega
  have hland := and_not_low_mask k s hk (by omega)
  have hdm := Nat.div_add_mod s (2 ^ k)
  have hm : s % 2 ^ k < 2 ^ k := Nat.mod_lt _ (by omega)
  have hmul : 2 ^ k * (s / 2 ^ k + 1) = 2 ^ k * (s / 2 ^ k) + 2 ^ k := by
    rw [Nat.mul_add, Nat.mul_one]
  unfold GetAlignedArgumentStackSize
  simp only [hmask, hdiff, Nat.and_pow_two_sub_one_eq_mod, hland]
  by_cases hc : s % 2 ^ k ≤ 2 ^ k - SlotSize
  · simp only [hc, if_true]
    omega
  · simp only [hc, if_false]
    omega

/-- C9: for every stack size s and every power-of-two stack alignment A = 2^k with
A >= slotSize (and s + 2A below 2^32, so that nothing overflows 32 bits),
`GetAlignedArgumentStackSize` returns a value congruent to A - slotSize modulo A. -/
theorem GetAlignedArgumentStackSize_congr (k SlotSize s : Nat) (hSS : SlotSize ≤ 2 ^ k)
    (hs : s + 2 * 2 ^ k < 4294967296) :
    GetAlignedArgumentStackSize (2 ^ k) SlotSize s % 2 ^ k = (2 ^ k - SlotSize) % 2 ^ k := by
  rw [GetAlignedArgumentStackSize_eq k SlotSize s hSS hs]
  split <;> exact Nat.mul_add_mod _ _ _

/-- Witness of `GetAlignedArgumentStackSize_congr`: for a 16-byte alignment and 4-byte
slots, stack size 20 is aligned to 28 = 16 + 12. -/
theorem GetAlignedArgumentStackSize_congr_witness :
    GetAlignedArgumentStackSize 16 4 20 = 28 ∧
    GetAlignedArgumentStackSize (2 ^ 4) 4 20 % 2 ^ 4 = (2 ^ 4 - 4) % 2 ^ 4 :=
  ⟨by decide, GetAlignedArgumentStackSize_congr 4 4 20 (by decide) (by decide)⟩

/-! ### Stack arguments -/

theorem modifyObject_length (f : FixedObject → FixedObject) :
    ∀ (MFI : MachineFrameInfo) (Obj : FixedObject),
      modifyObject f MFI.length (MFI ++ [Obj]) = MFI ++ [f Obj] := by
  intro MFI
  induction MFI with
  | nil => intro Obj; rfl
  | cons O rest ih =>
    intro Obj
    have := ih Obj
    simp only [List.length_cons, List.cons_append, modifyObject]
    exact congrArg (List.cons O) this

/-- C10: `LowerMemArgument` creates exactly one fixed object for a stack-passed argument,
the returned value refers to it (it is loaded from it when the argument is not passed by
value), and the object is placed at the assigned offset plus 3 when the value type is i8,
plus 2 when it is i16, and at the assigned offset itself for every other type. -/
theorem LowerMemArgument_offset (CallConv : CallingConv) (GuaranteedTailCallOpt : Bool)
    (Flags : ArgFlagsTy) (VA : CCValAssign) (MFI : MachineFrameInfo) (Offset : Nat)
    (hLoc : VA.Loc = Loc.Mem Offset) (hOff : Offset + 3 ≤ 2147483647) :
    ∃ Obj : FixedObject,
      (LowerMemArgument CallConv GuaranteedTailCallOpt Flags VA MFI).1 = MFI ++ [Obj] ∧
      (LowerMemArgument CallConv GuaranteedTailCallOpt Flags VA MFI).2.frameIndex
        = MFI.length ∧
      Obj.SPOffset = (Offset : Int) +
        (if VA.ValVT = MVT.i8 then 3 else if VA.ValVT = MVT.i16 then 2 else 0) ∧
      (Flags.isByVal = false →
        (LowerMemArgument CallConv GuaranteedTailCallOpt Flags VA MFI).2
          = MemArgValue.Load (if VA.HTP = LocInfo.Indirect then VA.LocVT else VA.ValVT)
              MFI.length (if VA.isExtInLoc then some VA.ValVT else none)) := by
  have h0 : toInt32 (Int.ofNat Offset) = (Offset : Int) := by
    unfold toInt32
    simp only [Int.ofNat_eq_coe]
    omega
  have h2 : toInt32 ((Offset : Int) + 2) = (Offset : Int) + 2 := by
    unfold toInt32
    omega
  have h3 : toInt32 ((Offset : Int) + 3) = (Offset : Int) + 3 := by
    unfold toInt32
    omega
  have hcorr : (if VA.ValVT = MVT.i8 then toInt32 ((Offset : Int) + 3)
      else if VA.ValVT = MVT.i16 then toInt32 ((Offset : Int) + 2) else (Offset : Int))
      = (Offset : Int) +
        (if VA.ValVT = MVT.i8 then 3 else if VA.ValVT = MVT.i16 then 2 else 0) := by
    by_cases h8 : VA.ValVT = MVT.i8
    · simp [h8, h3]
    · by_cases h16 : VA.ValVT = MVT.i16
      · simp [h16, h2]
      · simp [h8, h16]
  unfold LowerMemArgument
  simp only [CCValAssign.getLocMemOffset, hLoc, h0, hcorr, CreateFixedObject, setObjectZExt,
    setObjectSExt, modifyObject_length]
  cases hbv : Flags.isByVal with
  | true => exact ⟨_, rfl, rfl, rfl, fun h => Bool.noConfusion h⟩
  | false =>
    by_cases hz : VA.HTP = LocInfo.ZExt
    · simp only [hz, if_true, Bool.false_eq_true, if_false]
      exact ⟨_, rfl, rfl, rfl, fun _ => trivial⟩
    · by_cases hs : VA.HTP = LocInfo.SExt
      · simp only [hs, if_true, Bool.false_eq_true, if_false]
        exact ⟨_, rfl, rfl, rfl, fun _ => trivial⟩
      · simp only [hz, hs, if_false, Bool.false_eq_true]
        exact ⟨_, rfl, rfl, rfl, fun _ => trivial⟩

/-- Witness of `LowerMemArgument_offset`: an 8-bit argument assigned slot offset 0 is read
from byte offset 3 of the frame. -/
theorem LowerMemArgument_offset_witness :
    LowerMemArgument CallingConv.C false { isByVal := false, ByValSize := 0 }
      { ValNo := 0, ValVT := MVT.i8, LocVT := MVT.i32, HTP := LocInfo.ZExt,
        Loc := Loc.Mem 0 } []
      = ([{ Size := 1, SPOffset := 3, IsImmutable := true, isZExt := true, isSExt := false }],
          MemArgValue.Load MVT.i8 0 (some MVT.i8)) ∧
    ∃ Obj : FixedObject,
      (LowerMemArgument CallingConv.C false { isByVal := false, ByValSize := 0 }
        { ValNo := 0, ValVT := MVT.i8, LocVT := MVT.i32, HTP := LocInfo.ZExt,
          Loc := Loc.Mem 0 } []).1 = [] ++ [Obj] ∧
      Obj.SPOffset = 3 := by
  refine ⟨by decide, ?_⟩
  obtain ⟨Obj, h1, _, h3, _⟩ :=
    LowerMemArgument_offset CallingConv.C false { isByVal := false, ByValSize := 0 }
      { ValNo := 0, ValVT := MVT.i8, LocVT := MVT.i32, HTP := LocInfo.ZExt, Loc := Loc.Mem 0 }
      [] 0 rfl (by decide)
  exact ⟨Obj, h1, by simpa using h3⟩

end ISel

namespace ISel

theorem isPowerOf2_64_two_pow (k : Nat) : isPowerOf2_64 (2 ^ k) = true := by
  unfold isPowerOf2_64
  have h1 : (2 : Nat) ^ k ≠ 0 := by positivity
  have h2 : (2 ^ k) &&& (2 ^ k - 1) = 0 := by
    rw [Nat.and_pow_two_sub_one_eq_mod]
    simp
  simp [h1, h2]

theorem Log2_64_two_pow (k : Nat) : Log2_64 (2 ^ k) = k := by
  unfold Log2_64
  have h1 : (2 : Nat) ^ k ≠ 0 := by positivity
  rw [if_neg h1, Nat.log2_two_pow]

theorem getZExtValue_two_pow (k : Nat) (CVT : EVT) (hk : k < CVT.getSizeInBits)
    (h64 : k < 64) : SDNode.getZExtValue (2 ^ k) CVT = some (2 ^ k) := by
  unfold SDNode.getZExtValue
  have h1 : (2 : Nat) ^ k < 2 ^ CVT.getSizeInBits := Nat.pow_lt_pow_right (by decide) hk
  have h2 : (2 : Nat) ^ k < 2 ^ 64 := Nat.pow_lt_pow_right (by decide) h64
  rw [Nat.mod_eq_of_lt h1, if_pos h2]

/-- C11: for every multiplication whose right operand is the constant 2^k (k >= 0, the
constant 1 included; 2^k representable in the type of the constant and in 64 bits),
`LowerMUL` returns the left shift of the left operand by the constant k, and the value of
that shift equals x * 2^k modulo 2^w for every width w and every x. -/
theorem LowerMUL_power_of_two (atLeastM68020 : Bool) (PtrVT VT CVT : EVT) (x : SDNode)
    (isTarget : Bool) (k : Nat) (hk : k < CVT.getSizeInBits) (h64 : k < 64) :
    LowerMUL atLeastM68020 PtrVT VT x (SDNode.Constant (2 ^ k) CVT isTarget) =
        some (some (SDNode.Node NodeType.SHL [VT]
          [x, SDNode.Constant k (EVT.Simple MVT.i8) false])) ∧
      ∀ w xv : Nat, evalSHL w xv k = evalMUL w xv (2 ^ k) := by
  constructor
  · unfold LowerMUL
    simp only [getZExtValue_two_pow k CVT hk h64, isPowerOf2_64_two_pow, if_true,
      Log2_64_two_pow]
  · intro w xv
    unfold evalSHL evalMUL
    rw [Nat.shiftLeft_eq]

/-- Witness of `LowerMUL_power_of_two`: the 32-bit multiplication by 8 becomes a shift
by 3. -/
theorem LowerMUL_power_of_two_witness :
    LowerMUL false (EVT.Simple MVT.i32) (EVT.Simple MVT.i32)
        (SDNode.Leaf 0 (EVT.Simple MVT.i32))
        (SDNode.Constant (2 ^ 3) (EVT.Simple MVT.i32) false) =
      some (some (SDNode.Node NodeType.SHL [EVT.Simple MVT.i32]
        [SDNode.Leaf 0 (EVT.Simple MVT.i32),
         SDNode.Constant 3 (EVT.Simple MVT.i8) false])) :=
  (LowerMUL_power_of_two false (EVT.Simple MVT.i32) (EVT.Simple MVT.i32)
    (EVT.Simple MVT.i32) (SDNode.Leaf 0 (EVT.Simple MVT.i32)) false 3 (by decide)
    (by decide)).1

/-- C12 does not hold of the code: the branches for 2^k + 1 and 2^k - 1 lie inside the
test that the constant is a power of two, so the 32-bit multiplication by 3 is lowered to
the runtime routine before the 68020 and left unchanged from the 68020 on, never to
(x << 1) + x or (x << 2) - x; and no input at all makes `LowerMUL` return an addition or
a subtraction. -/
theorem LowerMUL_three (PtrVT : EVT) (x : SDNode) :
    LowerMUL false PtrVT (EVT.Simple MVT.i32) x
        (SDNode.Constant 3 (EVT.Simple MVT.i32) false) =
      some (some (SDNode.LibCall Libcall.MUL_I32 (EVT.Simple MVT.i32)
        [x, SDNode.Constant 3 (EVT.Simple MVT.i32) false] true)) ∧
    LowerMUL true PtrVT (EVT.Simple MVT.i32) x
        (SDNode.Constant 3 (EVT.Simple MVT.i32) false) = some none ∧
    ∀ (a : Bool) (P VT : EVT) (y z : SDNode) (VTs : List EVT) (Ops : List SDNode),
      LowerMUL a P VT y z ≠ some (some (SDNode.Node NodeType.ADD VTs Ops)) ∧
      LowerMUL a P VT y z ≠ some (some (SDNode.Node NodeType.SUB VTs Ops)) := by
  refine ⟨by rfl, by rfl, ?_⟩
  intro a P VT y z VTs Ops
  constructor <;>
    cases a <;> cases z <;> simp only [LowerMUL] <;> (repeat' split) <;> simp_all

/-- C13: for a multiplication whose right operand is not a constant power of two (so that
`LowerMUL` does not rewrite it to a shift): before the 68020 a 32-bit multiplication
becomes the call of the 32-bit multiplication routine on (lhs, rhs), a 64-bit one the
call of the 64-bit routine on (lhs >>s 63, lhs, rhs >>s 63, rhs) followed by the
extraction of element 0; from the 68020 on the result is the empty value. -/
theorem LowerMUL_not_shift (PtrVT : EVT) (LHS RHS : SDNode)
    (h : ∀ Val CVT isTarget, RHS = SDNode.Constant Val CVT isTarget →
      ∃ A, SDNode.getZExtValue Val CVT = some A ∧ isPowerOf2_64 A = false) :
    LowerMUL false PtrVT (EVT.Simple MVT.i32) LHS RHS =
      some (some (SDNode.LibCall Libcall.MUL_I32 (EVT.Simple MVT.i32) [LHS, RHS] true)) ∧
    LowerMUL false PtrVT (EVT.Simple MVT.i64) LHS RHS =
      some (some (SDNode.Node NodeType.EXTRACT_ELEMENT [EVT.Simple MVT.i64]
        [SDNode.LibCall Libcall.MUL_I64 (EVT.Simple MVT.i64)
          [SDNode.Node NodeType.SRA [EVT.Simple MVT.i64]
             [LHS, SDNode.Constant 63 PtrVT false],
           LHS,
           SDNode.Node NodeType.SRA [EVT.Simple MVT.i64]
             [RHS, SDNode.Constant 63 PtrVT false],
           RHS] true,
         SDNode.Constant 0 PtrVT false])) ∧
    ∀ VT, LowerMUL true PtrVT VT LHS RHS = some none := by
  cases RHS with
  | Constant Val CVT isTarget =>
    obtain ⟨A, hA, hP⟩ := h Val CVT isTarget rfl
    refine ⟨?_, ?_, ?_⟩
    · simp [LowerMUL, hA, hP]
    · simp [LowerMUL, hA, hP, EVT.getSizeInBits, MVT.getSizeInBits]
    · intro VT
      simp [LowerMUL, hA, hP]
  | _ =>
    refine ⟨?_, ?_, ?_⟩
    · simp [LowerMUL]
    · simp [LowerMUL, EVT.getSizeInBits, MVT.getSizeInBits]
    · intro VT
      simp [LowerMUL]

/-- Witness of `LowerMUL_not_shift`: a multiplication of two non-constant values. -/
theorem LowerMUL_not_shift_witness :
    LowerMUL false (EVT.Simple MVT.i32) (EVT.Simple MVT.i32)
        (SDNode.Leaf 0 (EVT.Simple MVT.i32)) (SDNode.Leaf 1 (EVT.Simple MVT.i32)) =
      some (some (SDNode.LibCall Libcall.MUL_I32 (EVT.Simple MVT.i32)
        [SDNode.Leaf 0 (EVT.Simple MVT.i32), SDNode.Leaf 1 (EVT.Simple MVT.i32)] true)) :=
  (LowerMUL_not_shift (EVT.Simple MVT.i32) (SDNode.Leaf 0 (EVT.Simple MVT.i32))
    (SDNode.Leaf 1 (EVT.Simple MVT.i32)) (fun _ _ _ e => by cases e)).1

end ISel

namespace ISel

/-- C14: for each of the four overflow-checked operations (signed add, unsigned add,
signed subtract, unsigned subtract) `LowerXALUO`, the non-inverted branch lowering of
`LowerBRCOND` and the select lowering of `LowerSELECT` all build the flag-setting
operation of the specification's mapping (ADD or SUB) and test the condition of that
mapping (overflow set for the signed, carry set for the unsigned operations). -/
theorem overflow_mapping_agrees (O : CheckedOp) (VT0 VT1 : EVT) (LHS RHS : SDNode)
    (Opp : CondCode → CondCode) :
    LowerXALUO O.toNodeType VT0 VT1 LHS RHS =
      some (SDNode.Node NodeType.MERGE_VALUES [VT0, VT1]
        [SDNode.Node (specOverflowMapping O).1 [VT0, EVT.Simple MVT.i8] [LHS, RHS],
         SDNode.Node NodeType.M68kISD_SETCC [VT1]
           [SDNode.Constant (specOverflowMapping O).2.toNat (EVT.Simple MVT.i8) false,
            SDNode.Res (SDNode.Node (specOverflowMapping O).1
              [VT0, EVT.Simple MVT.i8] [LHS, RHS]) 1]]) ∧
    LowerBRCOND_overflow Opp false O.toNodeType LHS RHS =
      some (some
        (SDNode.Res (SDNode.Node (specOverflowMapping O).1
          [LHS.getValueType, EVT.Simple MVT.i8] [LHS, RHS]) 1,
         SDNode.Constant (specOverflowMapping O).2.toNat (EVT.Simple MVT.i8) false)) ∧
    LowerSELECT_overflow O.toNodeType LHS RHS =
      some (some
        (SDNode.Res (SDNode.Node (specOverflowMapping O).1
          [LHS.getValueType, EVT.Simple MVT.i32] [LHS, RHS]) 1,
         SDNode.Constant (specOverflowMapping O).2.toNat (EVT.Simple MVT.i8) false)) := by
  cases O <;> refine ⟨rfl, rfl, rfl⟩

end ISel

namespace ISel

theorem signBit_iff (Bits X : Nat) (hB : 1 ≤ Bits) :
    signBit Bits X = true ↔ 2 ^ (Bits - 1) ≤ X % 2 ^ Bits := by
  unfold signBit
  have hlt : X % 2 ^ Bits < 2 ^ Bits := Nat.mod_lt _ (by positivity)
  have h2 : 2 ^ Bits = 2 * 2 ^ (Bits - 1) := by
    obtain ⟨b, rfl⟩ : ∃ b, Bits = b + 1 := ⟨Bits - 1, by omega⟩
    simp [pow_succ, Nat.mul_comm]
  constructor
  · intro h
    exact Nat.testBit_implies_ge h
  · intro h
    rw [Nat.testBit_to_div_mod]
    have hpos : 0 < 2 ^ (Bits - 1) := by positivity
    have hd : X % 2 ^ Bits / 2 ^ (Bits - 1) = 1 := by
      apply Nat.div_eq_of_lt_le
      · omega
      · omega
    simp [hd]

theorem two_pow_split (Bits : Nat) (hB : 1 ≤ Bits) :
    (2 : Int) ^ Bits = 2 * ((2 ^ (Bits - 1) : Nat) : Int) ∧ 0 < 2 ^ (Bits - 1) ∧
      2 ^ Bits = 2 * 2 ^ (Bits - 1) := by
  obtain ⟨b, rfl⟩ : ∃ b, Bits = b + 1 := ⟨Bits - 1, by omega⟩
  refine ⟨?_, by positivity, ?_⟩
  · simp [pow_succ, mul_comm]
  · simp [pow_succ, Nat.mul_comm]

/-- C15: for an integer comparison with a constant right operand of a type of at least
two bits, `TranslateM68kCC` returns COND_PL and replaces the constant by 0 for signed
X > -1 (all ones), returns COND_MI with unchanged operands for signed X < 0, returns
COND_LE and replaces the constant by 0 for signed X < 1, and in every other case returns
`TranslateIntegerM68kCC` of the predicate with unchanged operands; each rewrite keeps the
truth value for every X: X >s -1 iff the sign bit of X is clear, X <s 0 iff it is set,
X <s 1 iff X <=s 0. -/
theorem TranslateM68kCC_constant_rewrites (CC : ISD.CondCode) (LHS : SDValue)
    (Bits Val : Nat) (hB : 2 ≤ Bits) :
    (CC = ISD.CondCode.SETGT → signedValue Bits Val = -1 →
      TranslateM68kCC CC false LHS (SDValue.Constant Bits Val) =
          some (CondCode.COND_PL, LHS, SDValue.Constant Bits 0) ∧
        ∀ X, (signedValue Bits X > signedValue Bits Val ↔ signBit Bits X = false)) ∧
    (CC = ISD.CondCode.SETLT → signedValue Bits Val = 0 →
      TranslateM68kCC CC false LHS (SDValue.Constant Bits Val) =
          some (CondCode.COND_MI, LHS, SDValue.Constant Bits Val) ∧
        ∀ X, (signedValue Bits X < signedValue Bits Val ↔ signBit Bits X = true)) ∧
    (CC = ISD.CondCode.SETLT → signedValue Bits Val = 1 →
      TranslateM68kCC CC false LHS (SDValue.Constant Bits Val) =
          some (CondCode.COND_LE, LHS, SDValue.Constant Bits 0) ∧
        ∀ X, (signedValue Bits X < signedValue Bits Val ↔
          signedValue Bits X ≤ signedValue Bits 0)) ∧
    (¬ (CC = ISD.CondCode.SETGT ∧ signedValue Bits Val = -1) →
      ¬ (CC = ISD.CondCode.SETLT ∧ (signedValue Bits Val = 0 ∨ signedValue Bits Val = 1)) →
      TranslateM68kCC CC false LHS (SDValue.Constant Bits Val) =
        (TranslateIntegerM68kCC CC).map fun c => (c, LHS, SDValue.Constant Bits Val)) := by
  obtain ⟨hI, hpos, hN⟩ := two_pow_split Bits (by omega)
  have hlt : Val % 2 ^ Bits < 2 ^ Bits := Nat.mod_lt _ (by positivity)
  have hP2 : 2 ≤ 2 ^ (Bits - 1) := by
    obtain ⟨b, rfl⟩ : ∃ b, Bits = b + 2 := ⟨Bits - 2, by omega⟩
    have : 0 < 2 ^ b := by positivity
    show 2 ≤ 2 ^ (b + 1)
    rw [pow_succ]
    omega
  have hones : isAllOnesValue Bits Val = true ↔ signedValue Bits Val = -1 := by
    unfold isAllOnesValue signedValue
    rw [beq_iff_eq, hI]
    split <;> omega
  have hnull : isNullValue Bits Val = true ↔ signedValue Bits Val = 0 := by
    unfold isNullValue signedValue
    rw [beq_iff_eq, hI]
    split <;> omega
  have hone : getZExtValue Bits Val = 1 ↔ signedValue Bits Val = 1 := by
    unfold getZExtValue signedValue
    rw [hI]
    split <;> omega
  have hzero : signedValue Bits 0 = 0 := by
    unfold signedValue
    simp [hpos]
  have hsv : ∀ X, (signBit Bits X = true → signedValue Bits X < 0) ∧
      (signBit Bits X = false → 0 ≤ signedValue Bits X) := by
    intro X
    have hX : X % 2 ^ Bits < 2 ^ Bits := Nat.mod_lt _ (by positivity)
    have hs := signBit_iff Bits X (by omega)
    constructor
    · intro h
      have := hs.mp h
      unfold signedValue
      rw [hI]
      split <;> omega
    · intro h
      have : ¬ 2 ^ (Bits - 1) ≤ X % 2 ^ Bits := fun h1 => by
        rw [hs.mpr h1] at h
        exact Bool.noConfusion h
      unfold signedValue
      split <;> omega
  have hcases : ∀ X, signBit Bits X = true ∨ signBit Bits X = false := fun X => by
    cases signBit Bits X <;> simp
  refine ⟨?_, ?_, ?_, ?_⟩
  · intro hCC hV
    constructor
    · simp [TranslateM68kCC, hCC, hones.mpr hV]
    · intro X
      rw [hV]
      rcases hcases X with h | h
      · have := (hsv X).1 h
        simp only [h]
        constructor
        · intro h1; omega
        · intro h1; exact Bool.noConfusion h1
      · have := (hsv X).2 h
        simp only [h, iff_true]
        omega
  · intro hCC hV
    constructor
    · have h1 : ¬ isAllOnesValue Bits Val = true := fun h => by
        have := hones.mp h
        omega
      simp [TranslateM68kCC, hCC, hnull.mpr hV]
    · intro X
      rw [hV]
      rcases hcases X with h | h
      · have := (hsv X).1 h
        simp only [h, iff_true]
        omega
      · have := (hsv X).2 h
        simp only [h]
        constructor
        · intro h1; omega
        · intro h1; exact Bool.noConfusion h1
  · intro hCC hV
    constructor
    · have h1 : ¬ isNullValue Bits Val = true := fun h => by
        have := hnull.mp h
        omega
      simp [TranslateM68kCC, hCC, h1, hone.mpr hV]
    · intro X
      rw [hV, hzero]
      omega
  · intro h1 h2
    have a1 : ¬ (CC = ISD.CondCode.SETGT ∧ isAllOnesValue Bits Val = true) := fun h =>
      h1 ⟨h.1, hones.mp h.2⟩
    have a2 : ¬ (CC = ISD.CondCode.SETLT ∧ isNullValue Bits Val = true) := fun h =>
      h2 ⟨h.1, Or.inl (hnull.mp h.2)⟩
    have a3 : ¬ (CC = ISD.CondCode.SETLT ∧ getZExtValue Bits Val = 1) := fun h =>
      h2 ⟨h.1, Or.inr (hone.mp h.2)⟩
    unfold TranslateM68kCC
    simp only [Bool.false_eq_true, not_false_eq_true, if_true, if_neg a1, if_neg a2, if_neg a3]
    cases TranslateIntegerM68kCC CC <;> rfl

/-- Witness of `TranslateM68kCC_constant_rewrites`: the 32-bit comparison X < 1. -/
theorem TranslateM68kCC_constant_rewrites_witness :
    TranslateM68kCC ISD.CondCode.SETLT false (SDValue.Other 0) (SDValue.Constant 32 1) =
      some (CondCode.COND_LE, SDValue.Other 0, SDValue.Constant 32 0) :=
  ((TranslateM68kCC_constant_rewrites ISD.CondCode.SETLT (SDValue.Other 0) 32 1
    (by decide)).2.2.1 rfl (by decide)).1

end ISel

namespace ISel

theorem one_mod_two_pow (b : Nat) (h : 1 ≤ b) : 1 % 2 ^ b = 1 :=
  Nat.mod_eq_of_lt (Nat.one_lt_two_pow (by omega))

theorem getZExtValue_one (CVT : EVT) (h : 1 ≤ CVT.getSizeInBits) :
    SDNode.getZExtValue 1 CVT = some 1 := by
  unfold SDNode.getZExtValue
  rw [one_mod_two_pow _ h]
  rfl

theorem hasOpcode_node (O Opc : NodeType) (VTs : List EVT) (Ops : List SDNode) :
    (SDNode.Node O VTs Ops).hasOpcode Opc = (O == Opc) := rfl

theorem hasOpcode_constant (Opc : NodeType) (Val : Nat) (VT : EVT) (isTarget : Bool) :
    (SDNode.Constant Val VT isTarget).hasOpcode Opc = false := rfl

theorem getOperand_node (O : NodeType) (VTs : List EVT) (Ops : List SDNode) (i : Nat) :
    (SDNode.Node O VTs Ops).getOperand i = Ops.get? i := rfl

theorem LowerAndToBT_srl (cml : SDNode → Nat) (VTA VTS CVT : EVT) (x n : SDNode)
    (CC : ISD.CondCode) (hC : 1 ≤ CVT.getSizeInBits) :
    LowerAndToBT cml (SDNode.Node NodeType.AND [VTA]
        [SDNode.Node NodeType.SRL [VTS] [x, n], SDNode.Constant 1 CVT false]) CC =
      some (some (getBitTestCondition x n CC)) := by
  simp [LowerAndToBT, getOperand_node, hasOpcode_node, hasOpcode_constant, getZExtValue_one CVT hC,
    isPowerOf2_64]

theorem LowerAndToBT_shl_right (cml : SDNode → Nat) (VTA CVT : EVT) (x n : SDNode)
    (isTarget : Bool) (CC : ISD.CondCode) (hC : 1 ≤ CVT.getSizeInBits)
    (hT : x.hasOpcode NodeType.TRUNCATE = false) :
    LowerAndToBT cml (SDNode.Node NodeType.AND [VTA]
        [x, SDNode.Node NodeType.SHL [VTA] [SDNode.Constant 1 CVT isTarget, n]]) CC =
      some (some (getBitTestCondition x n CC)) := by
  simp [LowerAndToBT, getOperand_node, hasOpcode_node, hasOpcode_constant, hT, isOneConstant,
    one_mod_two_pow _ hC, SDNode.getValueType]

theorem LowerAndToBT_shl_left (cml : SDNode → Nat) (VTA CVT : EVT) (x n : SDNode)
    (isTarget : Bool) (CC : ISD.CondCode) (hC : 1 ≤ CVT.getSizeInBits)
    (hT : x.hasOpcode NodeType.TRUNCATE = false) (hS : x.hasOpcode NodeType.SHL = false) :
    LowerAndToBT cml (SDNode.Node NodeType.AND [VTA]
        [SDNode.Node NodeType.SHL [VTA] [SDNode.Constant 1 CVT isTarget, n], x]) CC =
      some (some (getBitTestCondition x n CC)) := by
  simp [LowerAndToBT, getOperand_node, hasOpcode_node, hasOpcode_constant, hT, hS, isOneConstant,
    one_mod_two_pow _ hC, SDNode.getValueType]

theorem LowerAndToBT_mask (cml : SDNode → Nat) (VTA CVT : EVT) (y : SDNode) (c : Nat)
    (CC : ISD.CondCode) (hT : y.hasOpcode NodeType.TRUNCATE = false)
    (hS : y.hasOpcode NodeType.SHL = false) (h32 : c % 2 ^ CVT.getSizeInBits < 2 ^ 32)
    (h1 : ¬ (c % 2 ^ CVT.getSizeInBits = 1 ∧ y.hasOpcode NodeType.SRL = true)) :
    LowerAndToBT cml (SDNode.Node NodeType.AND [VTA] [y, SDNode.Constant c CVT false]) CC =
      some none := by
  have h64 : c % 2 ^ CVT.getSizeInBits < 2 ^ 64 := by omega
  have hz : SDNode.getZExtValue c CVT = some (c % 2 ^ CVT.getSizeInBits) := by
    unfold SDNode.getZExtValue
    rw [if_pos h64]
  have h32b : ¬ (4294967296 ≤ c % 2 ^ CVT.getSizeInBits ∧
      isPowerOf2_64 (c % 2 ^ CVT.getSizeInBits) = true) := fun h => by omega
  simp [LowerAndToBT, getOperand_node, hasOpcode_node, hasOpcode_constant, hT, hS, hz, h32,
    h1, h32b]

theorem LowerSETCC_of_bit_test (cml : SDNode → Nat) (Op0 Op1 N : SDNode) (CC : ISD.CondCode)
    (Rest : Option (Option SDNode)) (hA : Op0.hasOpcode NodeType.AND = true)
    (h0 : isNullConstant Op1 = true)
    (hCC : CC = ISD.CondCode.SETEQ ∨ CC = ISD.CondCode.SETNE)
    (hBT : LowerAndToBT cml Op0 CC = some (some N)) :
    LowerSETCC cml true (EVT.Simple MVT.i8) Op0 Op1 CC Rest = some (some N) := by
  simp [LowerSETCC, LowerToBT, hA, h0, hCC, hBT]

/-- C16 (amended): for a single-use operand compared against zero with EQ or NE,
`LowerSETCC` returns the condition over a bit test that `getBitTestCondition` builds
(a SETCC over `BT` of x, any-extended when narrow, and n), not a compare, and so does
`LowerAndToBT`, for `(and (srl x, n), 1)` with any x, for `(and x, (shl 1, n))` when x is
not a truncation, and for `(and (shl 1, n), x)` when x is neither a truncation nor a left
shift; `LowerAndToBT` returns nothing for `(and y, c)` when y is neither a truncation nor
a left shift, the constant c fits in 32 bits and the node is not `(and (srl ..), 1)`. -/
theorem LowerSETCC_bit_test (cml : SDNode → Nat) (VTA VTS CVT ZVT : EVT) (x n : SDNode)
    (isTarget zTarget : Bool) (CC : ISD.CondCode) (Rest : Option (Option SDNode))
    (hCC : CC = ISD.CondCode.SETEQ ∨ CC = ISD.CondCode.SETNE)
    (hC : 1 ≤ CVT.getSizeInBits) :
    (LowerAndToBT cml (andSrlOne VTA VTS CVT x n) CC =
        some (some (getBitTestCondition x n CC)) ∧
      LowerSETCC cml true (EVT.Simple MVT.i8) (andSrlOne VTA VTS CVT x n)
        (SDNode.Constant 0 ZVT zTarget) CC Rest = some (some (getBitTestCondition x n CC))) ∧
    (x.hasOpcode NodeType.TRUNCATE = false →
      LowerAndToBT cml (andShlRight VTA CVT isTarget x n) CC =
        some (some (getBitTestCondition x n CC)) ∧
      LowerSETCC cml true (EVT.Simple MVT.i8) (andShlRight VTA CVT isTarget x n)
        (SDNode.Constant 0 ZVT zTarget) CC Rest = some (some (getBitTestCondition x n CC))) ∧
    (x.hasOpcode NodeType.TRUNCATE = false → x.hasOpcode NodeType.SHL = false →
      LowerAndToBT cml (andShlLeft VTA CVT isTarget x n) CC =
        some (some (getBitTestCondition x n CC)) ∧
      LowerSETCC cml true (EVT.Simple MVT.i8) (andShlLeft VTA CVT isTarget x n)
        (SDNode.Constant 0 ZVT zTarget) CC Rest = some (some (getBitTestCondition x n CC))) ∧
    (∀ c, x.hasOpcode NodeType.TRUNCATE = false → x.hasOpcode NodeType.SHL = false →
      c % 2 ^ CVT.getSizeInBits < 2 ^ 32 →
      ¬ (c % 2 ^ CVT.getSizeInBits = 1 ∧ x.hasOpcode NodeType.SRL = true) →
      LowerAndToBT cml (SDNode.Node NodeType.AND [VTA] [x, SDNode.Constant c CVT false]) CC =
        some none) ∧
    ∃ c x1 n1, getBitTestCondition x n CC =
        SDNode.Node NodeType.M68kISD_SETCC [EVT.Simple MVT.i8]
          [SDNode.Constant c (EVT.Simple MVT.i8) false,
           SDNode.Node NodeType.M68kISD_BT [EVT.Simple MVT.i32] [x1, n1]] ∧
      (x1 = x ∨ x1 = SDNode.Node NodeType.ANY_EXTEND [EVT.Simple MVT.i32] [x]) ∧
      (n1 = n ∨ n1 = SDNode.Node NodeType.ANY_EXTEND [x1.getValueType] [n]) := by
  have h0 : isNullConstant (SDNode.Constant 0 ZVT zTarget) = true := by
    simp [isNullConstant]
  refine ⟨?_, ?_, ?_, ?_, ?_⟩
  · have h := LowerAndToBT_srl cml VTA VTS CVT x n CC hC
    exact ⟨h, LowerSETCC_of_bit_test cml _ _ _ CC Rest rfl h0 hCC h⟩
  · intro hT
    have h := LowerAndToBT_shl_right cml VTA CVT x n isTarget CC hC hT
    exact ⟨h, LowerSETCC_of_bit_test cml _ _ _ CC Rest rfl h0 hCC h⟩
  · intro hT hS
    have h := LowerAndToBT_shl_left cml VTA CVT x n isTarget CC hC hT hS
    exact ⟨h, LowerSETCC_of_bit_test cml _ _ _ CC Rest rfl h0 hCC h⟩
  · intro c hT hS h32 h1
    exact LowerAndToBT_mask cml VTA CVT x c CC hT hS h32 h1
  · unfold getBitTestCondition
    refine ⟨_, _, _, rfl, ?_, ?_⟩
    · split_ifs <;> simp
    · split_ifs <;> simp

/-- Witness of `LowerSETCC_bit_test`: the comparison `((x >> n) & 1) != 0` on 32-bit
values. -/
theorem LowerSETCC_bit_test_witness :
    LowerSETCC (fun _ => 0) true (EVT.Simple MVT.i8)
        (andSrlOne (EVT.Simple MVT.i32) (EVT.Simple MVT.i32) (EVT.Simple MVT.i32)
          (SDNode.Leaf 0 (EVT.Simple MVT.i32)) (SDNode.Leaf 1 (EVT.Simple MVT.i32)))
        (SDNode.Constant 0 (EVT.Simple MVT.i32) false) ISD.CondCode.SETNE none =
      some (some (getBitTestCondition (SDNode.Leaf 0 (EVT.Simple MVT.i32))
        (SDNode.Leaf 1 (EVT.Simple MVT.i32)) ISD.CondCode.SETNE)) :=
  (LowerSETCC_bit_test (fun _ => 0) (EVT.Simple MVT.i32) (EVT.Simple MVT.i32)
    (EVT.Simple MVT.i32) (EVT.Simple MVT.i32) (SDNode.Leaf 0 (EVT.Simple MVT.i32))
    (SDNode.Leaf 1 (EVT.Simple MVT.i32)) false false ISD.CondCode.SETNE none
    (Or.inr rfl) (by decide)).1.2

/-- C16 fails as stated: for `(and (shl 1, n), x)` where x is itself a left shift
`(shl a, m)`, `LowerAndToBT` returns nothing although the node has the shape
`(and x, (shl 1, n))` with its operands exchanged; and for `(and (shl 1, n), 255)`, an
AND with a constant mask that fits in 32 bits and is not `(and (srl ..), 1)`, it returns
a bit test (of the constant at position n). -/
theorem LowerAndToBT_shape_missed :
    LowerAndToBT (fun _ => 0)
        (andShlLeft (EVT.Simple MVT.i32) (EVT.Simple MVT.i32) false
          (SDNode.Node NodeType.SHL [EVT.Simple MVT.i32]
            [SDNode.Leaf 0 (EVT.Simple MVT.i32), SDNode.Leaf 2 (EVT.Simple MVT.i32)])
          (SDNode.Leaf 1 (EVT.Simple MVT.i32)))
        ISD.CondCode.SETEQ = some none ∧
    LowerAndToBT (fun _ => 0)
        (SDNode.Node NodeType.AND [EVT.Simple MVT.i32]
          [SDNode.Node NodeType.SHL [EVT.Simple MVT.i32]
            [SDNode.Constant 1 (EVT.Simple MVT.i32) false,
             SDNode.Leaf 1 (EVT.Simple MVT.i32)],
           SDNode.Constant 255 (EVT.Simple MVT.i32) false])
        ISD.CondCode.SETEQ =
      some (some (getBitTestCondition (SDNode.Constant 255 (EVT.Simple MVT.i32) false)
        (SDNode.Leaf 1 (EVT.Simple MVT.i32)) ISD.CondCode.SETEQ)) := by
  constructor
  · rfl
  · rfl

end ISel

namespace ISel

theorem scanCMOVs_stop (CC OppCC : CondCode) (Tail : List MachineInstr)
    (hMax : ∀ I, Tail.head? = some I → inRun CC OppCC I = false) :
    scanCMOVs CC OppCC Tail = ([], Tail) := by
  cases Tail with
  | nil => rfl
  | cons I rest =>
    have h := hMax I rfl
    cases I <;> simp_all [scanCMOVs, inRun]

theorem scanCMOVs_append (CC OppCC : CondCode) (Run Tail : List MachineInstr)
    (hRun : ∀ I ∈ Run, inRun CC OppCC I = true)
    (hMax : ∀ I, Tail.head? = some I → inRun CC OppCC I = false) :
    scanCMOVs CC OppCC (Run ++ Tail) = (Run, Tail) := by
  induction Run with
  | nil => exact scanCMOVs_stop CC OppCC Tail hMax
  | cons I rest ih =>
    have hI := hRun I (List.mem_cons_self _ _)
    have ih1 := ih (fun J hJ => hRun J (List.mem_cons_of_mem _ hJ))
    cases I <;> simp_all [scanCMOVs, inRun]

theorem buildPHIs_forall2 (OppCC : CondCode) (L : List MachineInstr)
    (hL : ∀ I ∈ L, isCMOVPseudo I = true) (Table : List (Nat × (Nat × Nat))) :
    List.Forall₂ isPHIFor L (buildPHIs OppCC Table L) := by
  induction L generalizing Table with
  | nil => exact List.Forall₂.nil
  | cons I rest ih =>
    have hI := hL I (List.mem_cons_self _ _)
    have ih1 := ih (fun J hJ => hL J (List.mem_cons_of_mem _ hJ))
    cases I with
    | CMOV Opc D O1 K O2 C KC =>
      simp only [buildPHIs]
      exact List.Forall₂.cons ⟨D, _, _, rfl, rfl⟩ (ih1 _)
    | _ => simp [isCMOVPseudo] at hI

theorem inRun_isCMOVPseudo (CC OppCC : CondCode) (I : MachineInstr)
    (h : inRun CC OppCC I = true) : isCMOVPseudo I = true := by
  cases I <;> simp_all [inRun, isCMOVPseudo]

/-- C17 (amended): for a select pseudo followed by a maximal run of further selects whose
condition codes each equal the first one's code or its opposite (k selects in all), and
provided that, when k = 1, the next instruction is not a cascaded select,
`EmitLoweredSelect` ends the block with one conditional branch to the merge block,
creates exactly the two blocks `copy0MBB` (empty) and `sinkMBB`, and starts `sinkMBB`
with k PHI nodes, one per select in the original order, each defining the destination of
its select, followed by the instructions after the run; the k pseudos are gone. -/
theorem EmitLoweredSelect_run (Opp : CondCode → CondCode) (SuccLiveInCCR : MBB → Bool)
    (Pre : List MachineInstr) (Opc : CMOVOpcode) (D O1 : Nat) (K : Bool) (O2 : Nat)
    (CC : CondCode) (KC : Bool) (Run Tail : List MachineInstr) (Successors : List MBB)
    (hRun : ∀ I ∈ Run, inRun CC (Opp CC) I = true)
    (hMax : ∀ I, Tail.head? = some I → inRun CC (Opp CC) I = false)
    (hCasc : Run = [] → ∀ I, Tail.head? = some I →
      isCascadedPair (MachineInstr.CMOV Opc D O1 K O2 CC KC) I = false) :
    ∃ PHIs LiveIn,
      EmitLoweredSelect Opp SuccLiveInCCR Pre (MachineInstr.CMOV Opc D O1 K O2 CC KC)
          (Run ++ Tail) Successors =
        some
          { thisMBB := Pre ++ [MachineInstr.Bcc CC MBB.sinkMBB]
            thisSuccessors := [MBB.copy0MBB, MBB.sinkMBB]
            NewBlocks :=
              [(MBB.copy0MBB,
                { Instrs := [], Successors := [MBB.sinkMBB], LiveInCCR := LiveIn }),
               (MBB.sinkMBB,
                { Instrs := PHIs ++ Tail, Successors := Successors,
                  LiveInCCR := LiveIn })] } ∧
      PHIs.length = Run.length + 1 ∧
      List.Forall₂ isPHIFor (MachineInstr.CMOV Opc D O1 K O2 CC KC :: Run) PHIs := by
  have hscan := scanCMOVs_append CC (Opp CC) Run Tail hRun hMax
  have hall : ∀ I ∈ MachineInstr.CMOV Opc D O1 K O2 CC KC :: Run, isCMOVPseudo I = true := by
    intro I hI
    rcases List.mem_cons.mp hI with h | h
    · rw [h]
      rfl
    · exact inRun_isCMOVPseudo CC (Opp CC) I (hRun I h)
  have hF := buildPHIs_forall2 (Opp CC) _ hall []
  have hnone : (match Run, Tail with
      | [], N :: _ =>
        if isCascadedPair (MachineInstr.CMOV Opc D O1 K O2 CC KC) N = true then some N
        else none
      | _, _ => none) = none := by
    cases Run with
    | nil =>
      cases Tail with
      | nil => rfl
      | cons N rest =>
        have := hCasc rfl N rfl
        simp [this]
    | cons I rest => rfl
  refine ⟨buildPHIs (Opp CC) [] (MachineInstr.CMOV Opc D O1 K O2 CC KC :: Run),
    (!killsCCR (Run.getLastD (MachineInstr.CMOV Opc D O1 K O2 CC KC)) &&
      !checkAndUpdateCCRKill SuccLiveInCCR Successors Tail), ?_, ?_, hF⟩
  · simp [EmitLoweredSelect, hscan, hnone]
  · have := hF.length_eq
    simp only [List.length_cons] at this
    omega

/-- Witness of `EmitLoweredSelect_run`: two selects on COND_EQ and on its opposite COND_NE
followed by another instruction. -/
theorem EmitLoweredSelect_run_witness :
    ∃ PHIs LiveIn,
      EmitLoweredSelect GetOppositeBranchCondition (fun _ => false) []
          (MachineInstr.CMOV CMOVOpcode.CMOV32r 1 2 false 3 CondCode.COND_EQ false)
          ([MachineInstr.CMOV CMOVOpcode.CMOV32r 4 5 false 6 CondCode.COND_NE false] ++
            [MachineInstr.other 0 false true]) [] =
        some
          { thisMBB := [] ++ [MachineInstr.Bcc CondCode.COND_EQ MBB.sinkMBB]
            thisSuccessors := [MBB.copy0MBB, MBB.sinkMBB]
            NewBlocks :=
              [(MBB.copy0MBB,
                { Instrs := [], Successors := [MBB.sinkMBB], LiveInCCR := LiveIn }),
               (MBB.sinkMBB,
                { Instrs := PHIs ++ [MachineInstr.other 0 false true], Successors := [],
                  LiveInCCR := LiveIn })] } ∧
      PHIs.length = [MachineInstr.CMOV CMOVOpcode.CMOV32r 4 5 false 6 CondCode.COND_NE
        false].length + 1 ∧
      List.Forall₂ isPHIFor
        [MachineInstr.CMOV CMOVOpcode.CMOV32r 1 2 false 3 CondCode.COND_EQ false,
         MachineInstr.CMOV CMOVOpcode.CMOV32r 4 5 false 6 CondCode.COND_NE false] PHIs :=
  EmitLoweredSelect_run GetOppositeBranchCondition (fun _ => false) [] CMOVOpcode.CMOV32r
    1 2 false 3 CondCode.COND_EQ false
    [MachineInstr.CMOV CMOVOpcode.CMOV32r 4 5 false 6 CondCode.COND_NE false]
    [MachineInstr.other 0 false true] [] (by decide) (by decide) (by decide)

/-- C17 fails as stated: a select on COND_EQ followed by a select of the same opcode on
COND_CS that takes the first result (killed) as operand 1 and has the same operand 2 is a
maximal run of k = 1 (COND_CS is neither COND_EQ nor its opposite), yet
`EmitLoweredSelect` emits two conditional branches, creates three blocks and removes both
pseudos. -/
theorem EmitLoweredSelect_run_of_one_cascades :
    inRun CondCode.COND_EQ (GetOppositeBranchCondition CondCode.COND_EQ)
        (MachineInstr.CMOV CMOVOpcode.CMOV32r 4 1 true 3 CondCode.COND_CS true) = false ∧
    EmitLoweredSelect GetOppositeBranchCondition (fun _ => false) []
        (MachineInstr.CMOV CMOVOpcode.CMOV32r 1 2 false 3 CondCode.COND_EQ false)
        [MachineInstr.CMOV CMOVOpcode.CMOV32r 4 1 true 3 CondCode.COND_CS true] [] =
      some
        { thisMBB := [MachineInstr.Bcc CondCode.COND_EQ MBB.sinkMBB]
          thisSuccessors := [MBB.jcc1MBB, MBB.sinkMBB]
          NewBlocks :=
            [(MBB.jcc1MBB,
              { Instrs := [MachineInstr.Bcc CondCode.COND_CS MBB.sinkMBB],
                Successors := [MBB.copy0MBB, MBB.sinkMBB], LiveInCCR := true }),
             (MBB.copy0MBB,
              { Instrs := [], Successors := [MBB.sinkMBB], LiveInCCR := false }),
             (MBB.sinkMBB,
              { Instrs :=
                  [MachineInstr.PHI 1
                    [(2, MBB.copy0MBB), (3, MBB.thisMBB), (3, MBB.jcc1MBB)],
                   MachineInstr.COPY 4 1],
                Successors := [], LiveInCCR := false })] } := by
  decide

end ISel

namespace ISel

/-- C18: for a select pseudo immediately followed by a select of the same opcode whose
condition is neither the first one's nor its opposite, whose operand 1 is the killed
result of the first and whose operand 2 is the first one's operand 2,
`EmitLoweredSelect` ends the block with a conditional branch on the first condition to
`sinkMBB`, creates `jcc1MBB` with a conditional branch on the second condition to
`sinkMBB`, the empty `copy0MBB`, and `sinkMBB` starting with one PHI of three incoming
values (operand 1 from `copy0MBB`, operand 2 from `thisMBB` and from `jcc1MBB`) and a copy
of its result into the second destination; the second destination so receives operand 2
if either condition holds and operand 1 otherwise, the value of running the two selects
in sequence. -/
theorem EmitLoweredSelect_cascaded (Opp : CondCode → CondCode)
    (SuccLiveInCCR : MBB → Bool) (Pre : List MachineInstr) (Opc : CMOVOpcode)
    (D O1 : Nat) (K : Bool) (O2 : Nat) (CC : CondCode) (KC : Bool) (D2 : Nat)
    (CC2 : CondCode) (KC2 : Bool) (Tail : List MachineInstr) (Successors : List MBB)
    (h1 : CC2 ≠ CC) (h2 : CC2 ≠ Opp CC) (hOpp : CC ≠ Opp CC) (hSSA : O2 ≠ D) :
    ∃ LiveIn R,
      R = ({ thisMBB := Pre ++ [MachineInstr.Bcc CC MBB.sinkMBB]
             thisSuccessors := [MBB.jcc1MBB, MBB.sinkMBB]
             NewBlocks :=
               [(MBB.jcc1MBB,
                 { Instrs := [MachineInstr.Bcc CC2 MBB.sinkMBB],
                   Successors := [MBB.copy0MBB, MBB.sinkMBB], LiveInCCR := true }),
                (MBB.copy0MBB,
                 { Instrs := [], Successors := [MBB.sinkMBB], LiveInCCR := LiveIn }),
                (MBB.sinkMBB,
                 { Instrs :=
                     MachineInstr.PHI D
                       [(O1, MBB.copy0MBB), (O2, MBB.thisMBB), (O2, MBB.jcc1MBB)] ::
                     MachineInstr.COPY D2 D :: Tail,
                   Successors := Successors, LiveInCCR := LiveIn })] } : LoweredSelect) ∧
      EmitLoweredSelect Opp SuccLiveInCCR Pre (MachineInstr.CMOV Opc D O1 K O2 CC KC)
          (MachineInstr.CMOV Opc D2 D true O2 CC2 KC2 :: Tail) Successors = some R ∧
      ∀ (holds : CondCode → Bool) (regs : Nat → Int),
        ∃ pred,
          sinkPredecessor holds
              ((MBB.thisMBB,
                { Instrs := R.thisMBB, Successors := R.thisSuccessors,
                  LiveInCCR := false }) :: R.NewBlocks) = some pred ∧
          execMerge pred regs regs
              [MachineInstr.PHI D
                 [(O1, MBB.copy0MBB), (O2, MBB.thisMBB), (O2, MBB.jcc1MBB)],
               MachineInstr.COPY D2 D] D2 =
            (if holds CC ∨ holds CC2 then regs O2 else regs O1) ∧
          execCMOV holds (execCMOV holds regs (MachineInstr.CMOV Opc D O1 K O2 CC KC))
              (MachineInstr.CMOV Opc D2 D true O2 CC2 KC2) D2 =
            (if holds CC ∨ holds CC2 then regs O2 else regs O1) := by
  have hscan : scanCMOVs CC (Opp CC) (MachineInstr.CMOV Opc D2 D true O2 CC2 KC2 :: Tail) =
      ([], MachineInstr.CMOV Opc D2 D true O2 CC2 KC2 :: Tail) := by
    simp [scanCMOVs, h1, h2]
  refine ⟨(!KC2 && !checkAndUpdateCCRKill SuccLiveInCCR Successors Tail), _, rfl, ?_, ?_⟩
  · simp [EmitLoweredSelect, hscan, isCascadedPair, buildPHIs, hOpp, killsCCR]
  · intro holds regs
    cases hc1 : holds CC with
    | true =>
      refine ⟨MBB.thisMBB, ?_, ?_, ?_⟩
      · simp [sinkPredecessor, takesBranch, hc1]
      · simp [execMerge]
      · simp [execCMOV, hc1, Function.update, hSSA]
    | false =>
      cases hc2 : holds CC2 with
      | true =>
        refine ⟨MBB.jcc1MBB, ?_, ?_, ?_⟩
        · simp [sinkPredecessor, takesBranch, hc1, hc2]
        · simp [execMerge]
        · simp [execCMOV, hc1, hc2, Function.update, hSSA]
      | false =>
        refine ⟨MBB.copy0MBB, ?_, ?_, ?_⟩
        · simp [sinkPredecessor, takesBranch, hc1, hc2]
        · simp [execMerge]
        · simp [execCMOV, hc1, hc2, Function.update]

/-- Witness of `EmitLoweredSelect_cascaded`: a select on COND_NE followed by a cascaded
select on COND_CS. -/
theorem EmitLoweredSelect_cascaded_witness :
    ∃ LiveIn R,
      R = ({ thisMBB := [] ++ [MachineInstr.Bcc CondCode.COND_NE MBB.sinkMBB]
             thisSuccessors := [MBB.jcc1MBB, MBB.sinkMBB]
             NewBlocks :=
               [(MBB.jcc1MBB,
                 { Instrs := [MachineInstr.Bcc CondCode.COND_CS MBB.sinkMBB],
                   Successors := [MBB.copy0MBB, MBB.sinkMBB], LiveInCCR := true }),
                (MBB.copy0MBB,
                 { Instrs := [], Successors := [MBB.sinkMBB], LiveInCCR := LiveIn }),
                (MBB.sinkMBB,
                 { Instrs :=
                     MachineInstr.PHI 1
                       [(2, MBB.copy0MBB), (3, MBB.thisMBB), (3, MBB.jcc1MBB)] ::
                     MachineInstr.COPY 4 1 :: [],
                   Successors := [], LiveInCCR := LiveIn })] } : LoweredSelect) ∧
      EmitLoweredSelect GetOppositeBranchCondition (fun _ => false) []
          (MachineInstr.CMOV CMOVOpcode.CMOV32r 1 2 false 3 CondCode.COND_NE false)
          (MachineInstr.CMOV CMOVOpcode.CMOV32r 4 1 true 3 CondCode.COND_CS true :: [])
          [] = some R ∧
      ∀ (holds : CondCode → Bool) (regs : Nat → Int),
        ∃ pred,
          sinkPredecessor holds
              ((MBB.thisMBB,
                { Instrs := R.thisMBB, Successors := R.thisSuccessors,
                  LiveInCCR := false }) :: R.NewBlocks) = some pred ∧
          execMerge pred regs regs
              [MachineInstr.PHI 1
                 [(2, MBB.copy0MBB), (3, MBB.thisMBB), (3, MBB.jcc1MBB)],
               MachineInstr.COPY 4 1] 4 =
            (if holds CondCode.COND_NE ∨ holds CondCode.COND_CS then regs 3 else regs 2) ∧
          execCMOV holds
              (execCMOV holds regs
                (MachineInstr.CMOV CMOVOpcode.CMOV32r 1 2 false 3 CondCode.COND_NE false))
              (MachineInstr.CMOV CMOVOpcode.CMOV32r 4 1 true 3 CondCode.COND_CS true) 4 =
            (if holds CondCode.COND_NE ∨ holds CondCode.COND_CS then regs 3 else regs 2) :=
  EmitLoweredSelect_cascaded GetOppositeBranchCondition (fun _ => false) []
    CMOVOpcode.CMOV32r 1 2 false 3 CondCode.COND_NE false 4 CondCode.COND_CS true [] []
    (by decide) (by decide) (by decide) (by decide)

end ISel

namespace ISel

theorem LowerReturnLoop_spec (RVLocs : List CCValAssign) :
    ∀ (OutVals : List SDNode) (S : ReturnState),
      (∀ VA ∈ RVLocs, VA.isRegLoc = true) → RVLocs.length ≤ OutVals.length →
      ∃ Chain1 Flag1, LowerReturnLoop RVLocs OutVals S =
        some { Chain := Chain1, Flag := Flag1, RetOps := S.RetOps ++ returnRegisters RVLocs } := by
  induction RVLocs with
  | nil =>
    intro OutVals S _ _
    exact ⟨S.Chain, S.Flag, by simp [LowerReturnLoop, returnRegisters]⟩
  | cons VA rest ih =>
    intro OutVals S hReg hLen
    have hVA := hReg VA (List.mem_cons_self _ _)
    cases OutVals with
    | nil => simp at hLen
    | cons V Vs =>
      cases hL : VA.Loc with
      | Mem O => simp [CCValAssign.isRegLoc, hL] at hVA
      | Reg R =>
        have hlen : rest.length ≤ Vs.length := by
          simp only [List.length_cons] at hLen
          omega
        obtain ⟨C1, F1, h⟩ := ih Vs
          { Chain := getCopyToReg S.Chain R
              (if VA.HTP = LocInfo.SExt then
                SDNode.Node NodeType.SIGN_EXTEND [EVT.Simple VA.LocVT] [V]
              else if VA.HTP = LocInfo.ZExt then
                SDNode.Node NodeType.ZERO_EXTEND [EVT.Simple VA.LocVT] [V]
              else if VA.HTP = LocInfo.AExt then
                SDNode.Node NodeType.ANY_EXTEND [EVT.Simple VA.LocVT] [V]
              else if VA.HTP = LocInfo.BCvt then getBitcast (EVT.Simple VA.LocVT) V
              else V) S.Flag,
            Flag := some (SDNode.Res (getCopyToReg S.Chain R
              (if VA.HTP = LocInfo.SExt then
                SDNode.Node NodeType.SIGN_EXTEND [EVT.Simple VA.LocVT] [V]
              else if VA.HTP = LocInfo.ZExt then
                SDNode.Node NodeType.ZERO_EXTEND [EVT.Simple VA.LocVT] [V]
              else if VA.HTP = LocInfo.AExt then
                SDNode.Node NodeType.ANY_EXTEND [EVT.Simple VA.LocVT] [V]
              else if VA.HTP = LocInfo.BCvt then getBitcast (EVT.Simple VA.LocVT) V
              else V) S.Flag) 1),
            RetOps := S.RetOps ++ [SDNode.Register R (EVT.Simple VA.LocVT)] }
          (fun VA1 h1 => hReg VA1 (List.mem_cons_of_mem _ h1)) hlen
        refine ⟨C1, F1, ?_⟩
        simp only [LowerReturnLoop, hL]
        rw [h]
        simp [returnRegisters, List.filterMap_cons, CCValAssign.locReg?, hL]

/-- C19: when the side-table records a struct-return register and every return value is
assigned a register, `LowerReturn` copies into D0 the value read from that register by a
`CopyFromReg` on the chain given on entry (the original RetOps[0]), whatever the number of
other return values, while the copy into D0 itself is made on the chain and glue left by
the copies of the other return values; the register D0 is appended after the registers
of the other return values in the operands of the return node. -/
theorem LowerReturn_sret (PtrVT : EVT) (BytesToPopOnReturn SRetReturnReg : Nat)
    (RVLocs : List CCValAssign) (Chain : SDNode) (OutVals : List SDNode)
    (hS : SRetReturnReg ≠ 0) (hReg : ∀ VA ∈ RVLocs, VA.isRegLoc = true)
    (hLen : RVLocs.length ≤ OutVals.length) :
    ∃ Chain1 Flag1 CopyD0,
      LowerReturnLoop RVLocs OutVals
          { Chain := Chain, Flag := none,
            RetOps := [Chain, SDNode.Constant BytesToPopOnReturn (EVT.Simple MVT.i32) true] } =
        some { Chain := Chain1, Flag := Flag1,
               RetOps := [Chain, SDNode.Constant BytesToPopOnReturn (EVT.Simple MVT.i32) true]
                 ++ returnRegisters RVLocs } ∧
      CopyD0 = getCopyToReg Chain1 Register.D0
        (getCopyFromReg Chain (Register.phys SRetReturnReg) PtrVT) Flag1 ∧
      LowerReturn PtrVT BytesToPopOnReturn SRetReturnReg RVLocs Chain OutVals =
        some (SDNode.Node NodeType.M68kISD_RET [EVT.Other]
          (CopyD0 :: SDNode.Constant BytesToPopOnReturn (EVT.Simple MVT.i32) true ::
            returnRegisters RVLocs ++
            [SDNode.Register Register.D0 PtrVT, SDNode.Res CopyD0 1])) := by
  obtain ⟨C1, F1, h⟩ := LowerReturnLoop_spec RVLocs OutVals
    { Chain := Chain, Flag := none,
      RetOps := [Chain, SDNode.Constant BytesToPopOnReturn (EVT.Simple MVT.i32) true] }
    hReg hLen
  refine ⟨C1, F1, _, h, rfl, ?_⟩
  simp [LowerReturn, h, hS]

/-- Witness of `LowerReturn_sret`: a struct return in a function that also returns a
32-bit value in the register A0. -/
theorem LowerReturn_sret_witness :
    ∃ Chain1 Flag1 CopyD0,
      LowerReturnLoop [exampleRegLoc 0 Register.A0] [SDNode.Leaf 1 (EVT.Simple MVT.i32)]
          { Chain := SDNode.Leaf 0 EVT.Other, Flag := none,
            RetOps := [SDNode.Leaf 0 EVT.Other,
              SDNode.Constant 0 (EVT.Simple MVT.i32) true] } =
        some { Chain := Chain1, Flag := Flag1,
               RetOps := [SDNode.Leaf 0 EVT.Other,
                 SDNode.Constant 0 (EVT.Simple MVT.i32) true]
                 ++ returnRegisters [exampleRegLoc 0 Register.A0] } ∧
      CopyD0 = getCopyToReg Chain1 Register.D0
        (getCopyFromReg (SDNode.Leaf 0 EVT.Other) (Register.phys 7) (EVT.Simple MVT.i32))
        Flag1 ∧
      LowerReturn (EVT.Simple MVT.i32) 0 7 [exampleRegLoc 0 Register.A0]
          (SDNode.Leaf 0 EVT.Other) [SDNode.Leaf 1 (EVT.Simple MVT.i32)] =
        some (SDNode.Node NodeType.M68kISD_RET [EVT.Other]
          (CopyD0 :: SDNode.Constant 0 (EVT.Simple MVT.i32) true ::
            returnRegisters [exampleRegLoc 0 Register.A0] ++
            [SDNode.Register Register.D0 (EVT.Simple MVT.i32), SDNode.Res CopyD0 1])) :=
  LowerReturn_sret (EVT.Simple MVT.i32) 0 7 [exampleRegLoc 0 Register.A0]
    (SDNode.Leaf 0 EVT.Other) [SDNode.Leaf 1 (EVT.Simple MVT.i32)] (by decide) (by decide)
    (by decide)

end ISel

namespace ISel

theorem inRegsLoop_iff (MaxInRegs : Nat) (ArgLocs : List CCValAssign) :
    ∀ NumInRegs, NumInRegs < MaxInRegs →
      (inRegsLoop MaxInRegs NumInRegs ArgLocs = true ↔
        NumInRegs + numInRegs ArgLocs < MaxInRegs) := by
  induction ArgLocs with
  | nil =>
    intro n hn
    simp [inRegsLoop, numInRegs, hn]
  | cons VA rest ih =>
    intro n hn
    cases hL : VA.Loc with
    | Mem O =>
      simp only [inRegsLoop, numInRegs, hL]
      rw [ih n hn]
      simp
    | Reg R =>
      by_cases hR : R = Register.A0 ∨ R = Register.A1
      · have hR1 : Loc.Reg R = Loc.Reg Register.A0 ∨ Loc.Reg R = Loc.Reg Register.A1 := by
          rcases hR with h | h
          · exact Or.inl (by rw [h])
          · exact Or.inr (by rw [h])
        simp only [inRegsLoop, numInRegs, hL, if_pos hR, if_pos hR1]
        by_cases hE : n + 1 = MaxInRegs
        · simp only [if_pos hE]
          constructor
          · intro h
            exact Bool.noConfusion h
          · intro h
            omega
        · simp only [if_neg hE]
          rw [ih (n + 1) (by omega)]
          omega
      · have hR1 : ¬ (Loc.Reg R = Loc.Reg Register.A0 ∨ Loc.Reg R = Loc.Reg Register.A1) := by
          intro h
          apply hR
          rcases h with h | h
          · exact Or.inl (Loc.Reg.inj h)
          · exact Or.inr (Loc.Reg.inj h)
        simp only [inRegsLoop, numInRegs, hL, if_neg hR, if_neg hR1]
        rw [ih n hn]
        simp

/-- C20 (amended): when the call target may need a register (the callee is neither a
global address nor an external symbol, or the code is position-independent) and the call
has arguments, `IsEligibleForTailCallOptimization` rejects the call as soon as the number
of arguments assigned to A0 or A1 reaches 1 (position-independent) or 2 (otherwise); with
fewer such arguments the check passes and the result is that of the same query without
the check.  So the check allows no such argument (position-independent) or at most one
(otherwise). -/
theorem IsEligible_inRegs (Q : TailCallQuery)
    (hTarget : (!Q.CalleeIsGlobalOrSymbol || Q.PositionIndependent) = true)
    (hOuts : Q.OutsEmpty = false) :
    ((if Q.PositionIndependent then 1 else 2) ≤ numInRegs Q.ArgLocs →
      IsEligibleForTailCallOptimization Q = false) ∧
    (numInRegs Q.ArgLocs < (if Q.PositionIndependent then 1 else 2) →
      IsEligibleForTailCallOptimization Q =
        IsEligibleForTailCallOptimization Q.directCall) := by
  have hpos : 0 < (if Q.PositionIndependent then 1 else 2) := by
    split <;> decide
  have hiff := inRegsLoop_iff (if Q.PositionIndependent then 1 else 2) Q.ArgLocs 0 hpos
  rw [Nat.zero_add] at hiff
  constructor
  · intro h
    have hloop : inRegsLoop (if Q.PositionIndependent then 1 else 2) 0 Q.ArgLocs = false := by
      cases hl : inRegsLoop (if Q.PositionIndependent then 1 else 2) 0 Q.ArgLocs with
      | false => rfl
      | true =>
        have := hiff.mp hl
        omega
    unfold IsEligibleForTailCallOptimization
    simp only [hTarget, hOuts, hloop, canGuaranteeTCO, Bool.false_and, Bool.and_false,
      Bool.not_false, Bool.true_and, Bool.and_true, if_true, Bool.false_eq_true, if_false,
      Bool.not_true]
    repeat' split
    all_goals rfl
  · intro h
    have hloop : inRegsLoop (if Q.PositionIndependent then 1 else 2) 0 Q.ArgLocs = true :=
      hiff.mpr h
    unfold IsEligibleForTailCallOptimization TailCallQuery.directCall
    simp only [hTarget, hOuts, hloop, Bool.not_true, Bool.or_false, Bool.true_and,
      Bool.and_true, if_true, Bool.false_eq_true, if_false, Bool.not_false]

/-- Witness of `IsEligible_inRegs`: an indirect call with one argument in A0, in code that
is not position-independent, is eligible when every other condition holds. -/
theorem IsEligible_inRegs_witness :
    IsEligibleForTailCallOptimization
        (indirectCallQuery false [exampleRegLoc 0 Register.A0]) =
      IsEligibleForTailCallOptimization
        (indirectCallQuery false [exampleRegLoc 0 Register.A0]).directCall :=
  (IsEligible_inRegs (indirectCallQuery false [exampleRegLoc 0 Register.A0]) (by decide)
    (by decide)).2 (by decide)

/-- C20 fails as stated: an indirect call with exactly two arguments in A0 and A1 (not
position-independent), or with exactly one argument in A0 (position-independent), that
meets every other condition is rejected, although the same calls to a global address in
code that is not position-independent are eligible. -/
theorem IsEligible_rejects_at_bound :
    IsEligibleForTailCallOptimization
        (indirectCallQuery false [exampleRegLoc 0 Register.A0, exampleRegLoc 1 Register.A1]) =
      false ∧
    IsEligibleForTailCallOptimization
        (indirectCallQuery false
          [exampleRegLoc 0 Register.A0, exampleRegLoc 1 Register.A1]).directCall = true ∧
    IsEligibleForTailCallOptimization
        (indirectCallQuery true [exampleRegLoc 0 Register.A0]) = false ∧
    IsEligibleForTailCallOptimization
        (indirectCallQuery true [exampleRegLoc 0 Register.A0]).directCall = true := by
  decide

end ISel

namespace ExpandPseudo

/-- C29: expanding a tail-call placeholder whose assertions hold places one jump last in
the block before the placeholder's position (after the stack adjustment, if any) and the
placeholder is gone: for TCRETURNq a TAILJMPq to the same global address with the same
offset and target flags, or to the same external symbol with the same target flags; for
TCRETURNj a TAILJMPj to the same register marked killed.  The implicit operands of the
jump are those of its opcode followed by all implicit operands of the placeholder, in
order, so none is dropped. -/
theorem ExpandMI_TCRETURN_jump (T : Target) (Pre : List MachineInstr) (MI : MachineInstr)
    (JumpTarget : MachineOperand) (A : Int) (rest : List MachineOperand)
    (hOps : MI.Operands = JumpTarget :: MachineOperand.Imm A :: rest)
    (hD : T.TCReturnAddrDelta ≤ 0)
    (hOff : 0 ≤ toInt32 (toInt32 A - T.TCReturnAddrDelta)) :
    ∃ Pre2,
      (toInt32 (toInt32 A - T.TCReturnAddrDelta) = 0 → Pre2 = Pre) ∧
      (∀ GV Off Flags, MI.Opcode = Opcode.TCRETURNq →
        JumpTarget = MachineOperand.GlobalAddress GV Off Flags →
        ExpandMI T Pre MI = some (true, Pre2 ++
          [{ Opcode := Opcode.TAILJMPq,
             Operands := [MachineOperand.GlobalAddress GV Off Flags],
             ImplicitOps := T.ImplicitOperands Opcode.TAILJMPq ++ MI.ImplicitOps }])) ∧
      (∀ Name Flags, MI.Opcode = Opcode.TCRETURNq →
        JumpTarget = MachineOperand.ExternalSymbol Name Flags →
        ExpandMI T Pre MI = some (true, Pre2 ++
          [{ Opcode := Opcode.TAILJMPq,
             Operands := [MachineOperand.ExternalSymbol Name Flags],
             ImplicitOps := T.ImplicitOperands Opcode.TAILJMPq ++ MI.ImplicitOps }])) ∧
      (∀ R d k, MI.Opcode = Opcode.TCRETURNj →
        JumpTarget = MachineOperand.Reg R d k →
        ExpandMI T Pre MI = some (true, Pre2 ++
          [{ Opcode := Opcode.TAILJMPj,
             Operands := [MachineOperand.Reg R false true],
             ImplicitOps := T.ImplicitOperands Opcode.TAILJMPj ++ MI.ImplicitOps }])) := by
  have hOff1 : ¬ toInt32 (toInt32 A - T.TCReturnAddrDelta) < 0 := by omega
  refine ⟨if toInt32 (toInt32 A - T.TCReturnAddrDelta) ≠ 0 then
      (T.mergeSPUpdates Pre true).2 ++ T.emitSPUpdate (T.mergeSPUpdates Pre true).2
        (toInt32 (toInt32 (toInt32 A - T.TCReturnAddrDelta) + (T.mergeSPUpdates Pre true).1))
        true
    else Pre, ?_, ?_, ?_, ?_⟩
  · intro h
    simp [h]
  · intro GV Off Flags hOpc hJ
    simp [ExpandMI, hOpc, ExpandTCRETURN, hOps, hD, hOff1, buildTailJump, hJ, BuildMI]
  · intro Name Flags hOpc hJ
    simp [ExpandMI, hOpc, ExpandTCRETURN, hOps, hD, hOff1, buildTailJump, hJ, BuildMI]
  · intro R d k hOpc hJ
    simp [ExpandMI, hOpc, ExpandTCRETURN, hOps, hD, hOff1, buildTailJump, hJ, BuildMI]

/-- Witness of `ExpandMI_TCRETURN_jump`: a tail call to a global address with two implicit
operands and no stack adjustment. -/
theorem ExpandMI_TCRETURN_jump_witness :
    ExpandMI (exampleTailTarget 0 0) []
        (tailCallPlaceholder Opcode.TCRETURNq (MachineOperand.GlobalAddress 7 4 1) 0
          [MachineOperand.Reg (Register.phys 0) false false, MachineOperand.other 9]) =
      some (true, [] ++
        [{ Opcode := Opcode.TAILJMPq,
           Operands := [MachineOperand.GlobalAddress 7 4 1],
           ImplicitOps := (exampleTailTarget 0 0).ImplicitOperands Opcode.TAILJMPq ++
             [MachineOperand.Reg (Register.phys 0) false false, MachineOperand.other 9] }]) := by
  obtain ⟨Pre2, h0, hG, _, _⟩ := ExpandMI_TCRETURN_jump (exampleTailTarget 0 0) []
    (tailCallPlaceholder Opcode.TCRETURNq (MachineOperand.GlobalAddress 7 4 1) 0
      [MachineOperand.Reg (Register.phys 0) false false, MachineOperand.other 9])
    (MachineOperand.GlobalAddress 7 4 1) 0 [] rfl (by decide) (by decide)
  have h := hG 7 4 1 rfl rfl
  rw [h0 (by decide)] at h
  exact h

/-- C30: for a tail-call placeholder with stack adjustment A and return-address delta
D <= 0 (all amounts within the range of `int`): when A - D = 0 the block before the jump is
unchanged (no adjustment is emitted and `mergeSPUpdates` is not called); when A - D > 0
`mergeSPUpdates` is called once and `emitSPUpdate` once, before the jump, for A - D plus
the amount the merge absorbed; when A - D < 0 the expansion fails its assertion. -/
theorem ExpandMI_TCRETURN_offset (T : Target) (Pre : List MachineInstr) (MI : MachineInstr)
    (JumpTarget : MachineOperand) (A : Int) (rest : List MachineOperand) (J : MachineInstr)
    (hOpc : MI.Opcode = Opcode.TCRETURNq ∨ MI.Opcode = Opcode.TCRETURNj)
    (hOps : MI.Operands = JumpTarget :: MachineOperand.Imm A :: rest)
    (hJ : buildTailJump T MI.Opcode JumpTarget = some J)
    (hD : T.TCReturnAddrDelta ≤ 0)
    (hA : INT_MIN ≤ A ∧ A ≤ INT_MAX) (hAD : A - T.TCReturnAddrDelta ≤ INT_MAX)
    (hM : INT_MIN ≤ A - T.TCReturnAddrDelta + (T.mergeSPUpdates Pre true).1 ∧
      A - T.TCReturnAddrDelta + (T.mergeSPUpdates Pre true).1 ≤ INT_MAX) :
    (A - T.TCReturnAddrDelta = 0 →
      ExpandMI T Pre MI =
        some (true, Pre ++ [{ J with ImplicitOps := J.ImplicitOps ++ MI.ImplicitOps }])) ∧
    (0 < A - T.TCReturnAddrDelta →
      ExpandMI T Pre MI =
        some (true, (T.mergeSPUpdates Pre true).2 ++
          T.emitSPUpdate (T.mergeSPUpdates Pre true).2
            (A - T.TCReturnAddrDelta + (T.mergeSPUpdates Pre true).1) true ++
          [{ J with ImplicitOps := J.ImplicitOps ++ MI.ImplicitOps }])) ∧
    (A - T.TCReturnAddrDelta < 0 → ExpandMI T Pre MI = none) := by
  have hA1 : toInt32 A = A := toInt32_of_range A hA.1 hA.2
  have hE : ExpandMI T Pre MI = ExpandTCRETURN T Pre MI := by
    rcases hOpc with h | h <;> simp [ExpandMI, h]
  refine ⟨?_, ?_, ?_⟩
  · intro h0
    have h1 : toInt32 (A - T.TCReturnAddrDelta) = 0 := by
      rw [h0]
      rfl
    simp [hE, ExpandTCRETURN, hOps, hD, hA1, h1, hJ]
  · intro hpos
    have h1 : toInt32 (A - T.TCReturnAddrDelta) = A - T.TCReturnAddrDelta :=
      toInt32_of_range _ (by unfold INT_MIN; omega) hAD
    have h2 : toInt32 (A - T.TCReturnAddrDelta + (T.mergeSPUpdates Pre true).1) =
        A - T.TCReturnAddrDelta + (T.mergeSPUpdates Pre true).1 :=
      toInt32_of_range _ hM.1 hM.2
    have h3 : ¬ A - T.TCReturnAddrDelta < 0 := by omega
    have h4 : ¬ A - T.TCReturnAddrDelta = 0 := by omega
    have h5 : T.TCReturnAddrDelta ≤ A := by omega
    simp [hE, ExpandTCRETURN, hOps, hD, hA1, h1, h2, h3, h4, h5, hJ]
  · intro hneg
    have hlo : INT_MIN ≤ A - T.TCReturnAddrDelta := by
      have := hA.1
      omega
    have h1 : toInt32 (A - T.TCReturnAddrDelta) = A - T.TCReturnAddrDelta :=
      toInt32_of_range _ hlo hAD
    have h5 : ¬ T.TCReturnAddrDelta ≤ A := by omega
    simp [hE, ExpandTCRETURN, hOps, hD, hA1, h1, hneg, h5]

/-- Witness of `ExpandMI_TCRETURN_offset`: stack adjustment 8 with delta -4, after a merge
that absorbed 16 bytes, requests one adjustment by 28 before the jump. -/
theorem ExpandMI_TCRETURN_offset_witness :
    ExpandMI (exampleTailTarget (-4) 16) []
        (tailCallPlaceholder Opcode.TCRETURNj
          (MachineOperand.Reg (Register.phys 8) false false) 8 []) =
      some (true, ((exampleTailTarget (-4) 16).mergeSPUpdates [] true).2 ++
        (exampleTailTarget (-4) 16).emitSPUpdate
          ((exampleTailTarget (-4) 16).mergeSPUpdates [] true).2
          (8 - (exampleTailTarget (-4) 16).TCReturnAddrDelta +
            ((exampleTailTarget (-4) 16).mergeSPUpdates [] true).1) true ++
        [{ BuildMI (exampleTailTarget (-4) 16) Opcode.TAILJMPj
             [MachineOperand.Reg (Register.phys 8) false true] with
           ImplicitOps :=
             (BuildMI (exampleTailTarget (-4) 16) Opcode.TAILJMPj
               [MachineOperand.Reg (Register.phys 8) false true]).ImplicitOps ++
             (tailCallPlaceholder Opcode.TCRETURNj
               (MachineOperand.Reg (Register.phys 8) false false) 8 []).ImplicitOps }]) :=
  (ExpandMI_TCRETURN_offset (exampleTailTarget (-4) 16) []
    (tailCallPlaceholder Opcode.TCRETURNj
      (MachineOperand.Reg (Register.phys 8) false false) 8 [])
    (MachineOperand.Reg (Register.phys 8) false false) 8 []
    (BuildMI (exampleTailTarget (-4) 16) Opcode.TAILJMPj
      [MachineOperand.Reg (Register.phys 8) false true])
    (Or.inr rfl) rfl rfl (by decide) (by decide) (by decide) (by decide)).2.1 (by decide)

end ExpandPseudo

namespace ISel

theorem resolveFrameIndex_iff (E : StackEnv) (Flags : ArgFlagsTy) (Bytes0 : Nat)
    (Arg1 : ArgNode) (FI : Int) (Bytes : Nat) :
    resolveFrameIndex E Flags Bytes0 Arg1 = some (FI, Bytes) ↔
      resolvesTo E Flags Arg1 FI ∧
        Bytes = (if Flags.isByVal then Flags.ByValSize % 4294967296 else Bytes0) := by
  constructor
  · intro h
    cases hb : Flags.isByVal with
    | false =>
      cases Arg1 with
      | CopyFromReg VT VR =>
        cases hv : E.isVirtualRegister VR with
        | false => simp [resolveFrameIndex, hv] at h
        | true =>
          cases hd : E.getVRegDef VR with
          | none => simp [resolveFrameIndex, hv, hd] at h
          | some Def =>
            cases hl : Def.LoadFromStackSlot with
            | none => simp [resolveFrameIndex, hv, hd, hb, hl] at h
            | some FI1 =>
              simp only [resolveFrameIndex, hv, hd, hb, hl, Bool.not_true, Bool.not_false,
                Bool.false_eq_true, if_false, if_true, Option.some.injEq,
                Prod.mk.injEq] at h
              refine ⟨Or.inl ⟨hb, VT, VR, Def, rfl, hv, hd, ?_⟩, ?_⟩
              · rw [hl, h.1]
              · simp [h.2]
      | Load VT Ptr =>
        cases Ptr with
        | FrameIndex VT1 FI1 =>
          simp only [resolveFrameIndex, hb, Bool.false_eq_true, if_false, Option.some.injEq,
            Prod.mk.injEq] at h
          refine ⟨Or.inr (Or.inl ⟨hb, VT, VT1, ?_⟩), ?_⟩
          · rw [h.1]
          · simp [h.2]
        | _ => simp [resolveFrameIndex, hb] at h
      | _ => simp [resolveFrameIndex, hb] at h
    | true =>
      cases Arg1 with
      | CopyFromReg VT VR =>
        cases hv : E.isVirtualRegister VR with
        | false => simp [resolveFrameIndex, hv] at h
        | true =>
          cases hd : E.getVRegDef VR with
          | none => simp [resolveFrameIndex, hv, hd] at h
          | some Def =>
            by_cases hO : Def.Opcode = DefOpcode.LEA32p ∨ Def.Opcode = DefOpcode.LEA32f
            · cases ho : Def.Operand1FI with
              | none => simp [resolveFrameIndex, hv, hd, hb, hO, ho] at h
              | some FI1 =>
                simp only [resolveFrameIndex, hv, hd, hb, ho, if_pos hO, Bool.not_true,
                  Bool.false_eq_true, if_false, Option.some.injEq, Prod.mk.injEq] at h
                refine ⟨Or.inr (Or.inr (Or.inl ⟨hb, VT, VR, Def, rfl, hv, hd, hO, ?_⟩)), ?_⟩
                · rw [ho, h.1]
                · simp [h.2]
            · simp [resolveFrameIndex, hv, hd, hb, hO] at h
      | FrameIndex VT FI1 =>
        simp only [resolveFrameIndex, hb, if_true, Option.some.injEq, Prod.mk.injEq] at h
        refine ⟨Or.inr (Or.inr (Or.inr ⟨hb, VT, ?_⟩)), ?_⟩
        · rw [h.1]
        · simp [h.2]
      | _ => simp [resolveFrameIndex, hb] at h
  · rintro ⟨h, hB⟩
    rcases h with ⟨hb, VT, VR, Def, rfl, hv, hd, hl⟩ | ⟨hb, VT, VT1, rfl⟩ |
      ⟨hb, VT, VR, Def, rfl, hv, hd, hO, ho⟩ | ⟨hb, VT, rfl⟩
    · simp [resolveFrameIndex, hv, hd, hb, hl, hB]
    · simp [resolveFrameIndex, hb, hB]
    · simp [resolveFrameIndex, hv, hd, hb, hO, ho, hB]
    · simp [resolveFrameIndex, hb, hB]

theorem stackArgsMatch_spec (M : Nat → Bool) :
    ∀ (L : List CCValAssign) (i : Nat), stackArgsMatch M i L = true →
      ∀ j VA, L.get? j = some VA →
        VA.HTP ≠ LocInfo.Indirect ∧ (VA.isRegLoc = false → M (i + j) = true) := by
  intro L
  induction L with
  | nil =>
    intro i _ j VA hj
    simp at hj
  | cons V rest ih =>
    intro i h j VA hj
    unfold stackArgsMatch at h
    by_cases h1 : V.HTP = LocInfo.Indirect
    · simp [h1] at h
    · by_cases h2 : (!V.isRegLoc && !M i) = true
      · simp [h1, h2] at h
      · simp only [if_neg h1, h2, Bool.false_eq_true, if_false] at h
        cases j with
        | zero =>
          simp only [List.get?_cons_zero, Option.some.injEq] at hj
          subst hj
          refine ⟨h1, fun hr => ?_⟩
          cases hM : M i with
          | true => simp [hM]
          | false => simp [hr, hM] at h2
        | succ j =>
          simp only [List.get?_cons_succ] at hj
          have := ih (i + 1) h j VA hj
          rw [show i + (j + 1) = i + 1 + j by omega]
          exact this

theorem IsEligible_stackArgsMatch (Q : TailCallQuery)
    (h : IsEligibleForTailCallOptimization Q = true) (hOuts : Q.OutsEmpty = false)
    (hStack : Q.NextStackOffset ≠ 0) :
    stackArgsMatch Q.MatchingStackOffset 0 Q.ArgLocs = true := by
  cases hs : stackArgsMatch Q.MatchingStackOffset 0 Q.ArgLocs with
  | true => rfl
  | false =>
    have hf : IsEligibleForTailCallOptimization Q = false := by
      unfold IsEligibleForTailCallOptimization
      simp only [hs, hOuts, hStack, canGuaranteeTCO, Bool.false_and, Bool.not_false,
        Bool.and_self, if_true, Bool.false_eq_true, if_false, ne_eq, not_false_eq_true,
        Bool.not_true]
      repeat' split
      all_goals rfl
    rw [hf] at h
    exact Bool.noConfusion h

/-- C21 (amended): if `IsEligibleForTailCallOptimization` returns true for a call with
arguments and a non-empty stack-argument area, then no argument location is indirect and
`MatchingStackOffset` holds of every stack-passed argument.  `MatchingStackOffset` returns
true exactly when the argument, after looking through zero/any-extensions, bitcasts and
truncations of an AssertZext, resolves (not by value: a copy from a virtual register
defined by a stack-slot load, or a load from a frame index; by value: a copy from a
virtual register defined by LEA32p/LEA32f of a frame index, or a frame index node) to a
fixed object whose offset is the assigned offset, whose size is the byte size of the
argument type (the by-value size for by-value arguments) and, when the location type is
wider than the type of the resolved value, whose extension flags equal the argument's. -/
theorem IsEligible_stack_args (Q : TailCallQuery) (E : StackEnv) (Arg : ArgNode)
    (Offset : Nat) (Flags : ArgFlagsTy) (Ext : ArgExtFlags) (VA : CCValAssign) :
    (IsEligibleForTailCallOptimization Q = true → Q.OutsEmpty = false →
      Q.NextStackOffset ≠ 0 →
      ∀ i VA1, Q.ArgLocs.get? i = some VA1 →
        VA1.HTP ≠ LocInfo.Indirect ∧
          (VA1.isRegLoc = false → Q.MatchingStackOffset i = true)) ∧
    (MatchingStackOffset E Arg Offset Flags Ext VA = some true ↔
      ∃ FI Obj, resolvesTo E Flags (lookThrough Arg) FI ∧ FI ≠ INT_MAX ∧
        fixedObject E.MFI FI = some Obj ∧ Obj.SPOffset = Int.ofNat Offset ∧
        Obj.Size = (if Flags.isByVal then Flags.ByValSize % 4294967296
          else Arg.getValueType.getSizeInBits / 8) ∧
        (VA.LocVT.getSizeInBits > (lookThrough Arg).getValueType.getSizeInBits →
          Ext.isZExt = Obj.isZExt ∧ Ext.isSExt = Obj.isSExt)) := by
  constructor
  · intro h hOuts hStack i VA1 hi
    have hs := IsEligible_stackArgsMatch Q h hOuts hStack
    have := stackArgsMatch_spec Q.MatchingStackOffset Q.ArgLocs 0 hs i VA1 hi
    rw [Nat.zero_add] at this
    exact this
  · constructor
    · intro h
      unfold MatchingStackOffset at h
      cases hr : resolveFrameIndex E Flags (Arg.getValueType.getSizeInBits / 8)
          (lookThrough Arg) with
      | none => simp [hr] at h
      | some p =>
        obtain ⟨FI, Bytes⟩ := p
        have hres := (resolveFrameIndex_iff E Flags _ _ FI Bytes).mp hr
        simp only [hr] at h
        by_cases hmax : FI = INT_MAX
        · simp [hmax] at h
        · rw [if_neg hmax] at h
          cases ho : fixedObject E.MFI FI with
          | none => simp [ho] at h
          | some Obj =>
            simp only [ho] at h
            by_cases hoff : Int.ofNat Offset ≠ Obj.SPOffset
            · rw [if_pos hoff] at h
              exact absurd h (by simp)
            · rw [if_neg hoff] at h
              by_cases hext : VA.LocVT.getSizeInBits >
                  (lookThrough Arg).getValueType.getSizeInBits ∧
                  (Ext.isZExt ≠ Obj.isZExt ∨ Ext.isSExt ≠ Obj.isSExt)
              · rw [if_pos hext] at h
                exact absurd h (by simp)
              · rw [if_neg hext] at h
                simp only [Option.some.injEq, beq_iff_eq] at h
                refine ⟨FI, Obj, hres.1, hmax, ho, ?_, ?_, ?_⟩
                · exact (not_not.mp hoff).symm
                · rw [← h, hres.2]
                · intro hw
                  by_contra hne
                  apply hext
                  refine ⟨hw, ?_⟩
                  by_cases hz : Ext.isZExt = Obj.isZExt
                  · right
                    intro hsx
                    exact hne ⟨hz, hsx⟩
                  · left
                    exact hz
    · rintro ⟨FI, Obj, hres, hmax, ho, hoff, hsize, hext⟩
      have hr := (resolveFrameIndex_iff E Flags (Arg.getValueType.getSizeInBits / 8)
        (lookThrough Arg) FI Obj.Size).mpr ⟨hres, hsize⟩
      have hext1 : ¬ (VA.LocVT.getSizeInBits >
          (lookThrough Arg).getValueType.getSizeInBits ∧
          (Ext.isZExt ≠ Obj.isZExt ∨ Ext.isSExt ≠ Obj.isSExt)) := by
        rintro ⟨hw, hne⟩
        have := hext hw
        rcases hne with h1 | h1
        · exact h1 this.1
        · exact h1 this.2
      unfold MatchingStackOffset
      simp only [hr, if_neg hmax, ho, hoff, ne_eq, not_true_eq_false, if_false, if_neg hext1,
        beq_self_eq_true]

/-- Witness of `IsEligible_stack_args`: an eligible call whose by-value stack argument is
the address of a fixed object of the caller. -/
theorem IsEligible_stack_args_witness :
    (exampleMemLoc 0 4).HTP ≠ LocInfo.Indirect ∧
      ((exampleMemLoc 0 4).isRegLoc = false → stackCallQuery.MatchingStackOffset 0 = true) :=
  (IsEligible_stack_args stackCallQuery exampleStackEnv (ArgNode.CopyFromReg MVT.i32 1000) 4
    { isByVal := true, ByValSize := 8 } { isZExt := false, isSExt := false }
    (exampleMemLoc 0 4)).1 (by decide) rfl (by decide) 0 (exampleMemLoc 0 4) rfl

/-- C21 fails as stated: `MatchingStackOffset` returns true for a by-value argument that
is a copy from a virtual register defined by LEA32p of a frame index, which is neither a
stack-slot load nor a load from a frame index; and it returns true for the 8-bit argument
`(truncate (AssertZext (load FI)))` in a 32-bit location although the zero-extension flag
of the argument differs from that of the object, because the width test uses the type of
the value under the truncation. -/
theorem MatchingStackOffset_other_routes :
    MatchingStackOffset exampleStackEnv (ArgNode.CopyFromReg MVT.i32 1000) 4
        { isByVal := true, ByValSize := 8 } { isZExt := false, isSExt := false }
        (exampleMemLoc 0 4) = some true ∧
    (exampleStackEnv.getVRegDef 1000).map DefInstr.LoadFromStackSlot = some none ∧
    MatchingStackOffset exampleStackEnv
        (ArgNode.TRUNCATE MVT.i8
          (ArgNode.AssertZext MVT.i32 MVT.i8
            (ArgNode.Load MVT.i32 (ArgNode.FrameIndex MVT.i32 1))))
        12 { isByVal := false, ByValSize := 0 } { isZExt := true, isSExt := false }
        (exampleMemLoc 0 12) = some true := by
  decide

/-- C22: `IsEligibleForTailCallOptimization` returns true only if, when the caller has
B > 0 bytes to pop on return, the callee pops its arguments (`isCalleePop`) and its
stack-argument size equals B, and, when the caller has none, the callee does not pop a
non-empty stack-argument area.  As `isCalleePop` is constantly false, an eligible call has
B = 0. -/
theorem IsEligible_pop_bytes (Q : TailCallQuery)
    (h : IsEligibleForTailCallOptimization Q = true) :
    (Q.BytesToPopOnReturn ≠ 0 →
      isCalleePop Q.CalleeCC Q.isVarArg Q.GuaranteedTailCallOpt = true ∧
        Q.BytesToPopOnReturn = (if Q.OutsEmpty then 0 else Q.NextStackOffset)) ∧
    (Q.BytesToPopOnReturn = 0 →
      ¬ (isCalleePop Q.CalleeCC Q.isVarArg Q.GuaranteedTailCallOpt = true ∧
        0 < (if Q.OutsEmpty then 0 else Q.NextStackOffset))) ∧
    Q.BytesToPopOnReturn = 0 := by
  have hB : Q.BytesToPopOnReturn = 0 := by
    by_contra hne
    simp [IsEligibleForTailCallOptimization, isCalleePop, canGuaranteeTCO, hne] at h
  refine ⟨fun hne => absurd hB hne, fun _ => ?_, hB⟩
  simp [isCalleePop]

/-- Witness of `IsEligible_pop_bytes`: an eligible call of a caller with no bytes to
pop. -/
theorem IsEligible_pop_bytes_witness : stackCallQuery.BytesToPopOnReturn = 0 :=
  (IsEligible_pop_bytes stackCallQuery (by decide)).2.2

end ISel

namespace CollapseMOVEM

theorem update_open (S : MOVEMState) (O : Int) (M : Nat)
    (hS0 : S.Mask ≠ 0) (hM0 : M ≠ 0) (hM : M < 65536)
    (h1 : INT_MIN + 4 ≤ S.Start) (h12 : S.Start ≤ S.Stop) (h2 : S.Stop ≤ INT_MAX - 4) :
    S.update O M =
      if M < S.Mask ∧ O = S.Start - 4 then
        (if M &&& S.Mask = 0 then
          some (true, { S with Start := S.Start - 4, Mask := S.Mask ||| M })
        else none)
      else if S.Mask < M ∧ O = S.Stop + 4 then
        (if M &&& S.Mask = 0 then
          some (true, { S with Stop := S.Stop + 4, Mask := S.Mask ||| M })
        else none)
      else some (false, S) := by
  have hStart : S.Start ≠ INT_MIN := by
    unfold INT_MIN at h1 ⊢
    omega
  have e1 : toInt32 (S.Start - 4) = S.Start - 4 :=
    toInt32_of_range _ (by unfold INT_MIN at *; omega) (by unfold INT_MAX at *; omega)
  have e2 : toInt32 (S.Stop + 4) = S.Stop + 4 :=
    toInt32_of_range _ (by unfold INT_MIN at *; omega) (by unfold INT_MAX at *; omega)
  unfold MOVEMState.update MOVEMState.classifyUpdateByMask MOVEMState.updateMask
  rw [e1, e2]
  simp only [if_neg hM0, if_neg hS0, if_neg hStart]
  rcases Nat.lt_trichotomy S.Mask M with hlt | heq | hgt
  · have n1 : ¬ M < S.Mask := by omega
    simp only [if_pos hlt, n1, false_and, if_false, hlt, true_and]
    by_cases hO : O = S.Stop + 4
    · by_cases hd : M &&& S.Mask = 0
      · simp [hO, hd, hM]
      · simp [hO, hd, hM]
    · simp [hO]
  · have n1 : ¬ M < S.Mask := by omega
    have n2 : ¬ S.Mask < M := by omega
    have n3 : ¬ S.Mask > M := by omega
    simp [n1, n2, n3]
  · have n1 : ¬ S.Mask < M := by omega
    simp only [if_neg n1, if_pos hgt, n1, false_and, if_false, hgt, true_and]
    by_cases hO : O = S.Start - 4
    · by_cases hd : M &&& S.Mask = 0
      · simp [hO, hd, hM]
      · simp [hO, hd, hM]
    · simp [hO]

theorem Finish_open (Pre : List MachineInstr) (S : MOVEMState) (hBeg : S.Begin ≠ [])
    (hb : S.Base ≠ 0) (hStart : S.Start ≠ INT_MIN) :
    ∃ Pre1, Finish Pre S = some (Pre1, MOVEMState.init) := by
  unfold Finish
  cases hB : S.Begin with
  | nil => exact absurd hB hBeg
  | cons X rest =>
    cases rest with
    | nil => exact ⟨_, rfl⟩
    | cons Y rest2 =>
      simp only [if_neg hStart, if_neg hb]
      split
      · exact ⟨_, rfl⟩
      · exact ⟨_, rfl⟩

theorem ProcessMIStart_init (TRI : M68kRegisterInfo) (Pre : List MachineInstr)
    (MI : MachineInstr) (Mask : Nat) (Offset : Int) (Reg : Nat) (isStore : Bool)
    (hM0 : Mask ≠ 0) (hM : Mask < 65536) :
    ∃ r Pre1 S1, ProcessMIStart TRI Pre MI MOVEMState.init Mask Offset Reg isStore =
      some (r, Pre1, S1) ∧ (S1.Begin = [MI] ∨ S1.Begin = []) ∧
      (isRunBase TRI Reg = true → r = true ∧ Pre1 = Pre ∧ S1.Begin = [MI]) := by
  unfold ProcessMIStart
  by_cases hR : Reg = TRI.StackRegister ∨ Reg = TRI.BaseRegister ∨ Reg = TRI.FrameRegister
  · have hu := update_first { MOVEMState.init with Begin := [MI], Base := Reg } Offset Mask
      hM0 hM rfl rfl
    simp only [if_pos hR, MOVEMState.init, MOVEMState.hasBase] at hu ⊢
    refine ⟨true, Pre,
      { Begin := [MI], Base := Reg, Start := Offset, Stop := Offset, Mask := Mask,
        Ty := if isStore then MoveType.Store else MoveType.Load }, ?_, Or.inl rfl,
      fun _ => ⟨rfl, rfl, rfl⟩⟩
    simp only [bne_self_eq_false, Bool.false_eq_true, if_false, hu]
  · refine ⟨false, Pre ++ [MI], MOVEMState.init, ?_, Or.inr rfl, fun h => ?_⟩
    · simp only [if_neg hR]
    · simp only [isRunBase, decide_eq_true_eq] at h
      exact absurd h hR

theorem ProcessMI_flush (TRI : M68kRegisterInfo) (Pre : List MachineInstr)
    (MI : MachineInstr) (S : MOVEMState) (Mask : Nat) (Offset : Int) (Reg : Nat)
    (isStore : Bool) (hb : S.Base ≠ 0)
    (h : ¬ (S.isStore = isStore ∧ S.Base = Reg) ∨ S.update Offset Mask = some (false, S)) :
    ProcessMI TRI Pre MI S Mask Offset Reg isStore =
      match Finish Pre S with
      | none => none
      | some (Pre1, S1) => ProcessMIStart TRI Pre1 MI S1 Mask Offset Reg isStore := by
  have hhb : S.hasBase = true := by simp [MOVEMState.hasBase, hb]
  unfold ProcessMI
  simp only [hhb, if_true]
  by_cases hc : S.isStore = isStore ∧ S.Base = Reg
  · rcases h with h | h
    · exact absurd hc h
    · simp only [if_pos hc, h]
  · simp only [if_neg hc]

end CollapseMOVEM

namespace CollapseMOVEM

theorem flush_not_merged (TRI : M68kRegisterInfo) (Pre : List MachineInstr)
    (MI : MachineInstr) (S S1 : MOVEMState) (Mask : Nat) (Offset : Int) (Reg : Nat)
    (isStore : Bool) (r : Bool) (Pre2 : List MachineInstr)
    (hBeg : S.Begin ≠ []) (hb : S.Base ≠ 0) (hStart : S.Start ≠ INT_MIN)
    (hM0 : Mask ≠ 0) (hM : Mask < 65536)
    (h : (match Finish Pre S with
          | none => none
          | some (Pre1, S2) => ProcessMIStart TRI Pre1 MI S2 Mask Offset Reg isStore) =
        some (r, Pre2, S1)) :
    S1.Begin ≠ S.Begin ++ [MI] := by
  obtain ⟨Pre1, hF⟩ := Finish_open Pre S hBeg hb hStart
  obtain ⟨r1, Pre3, S3, hP, hB, _⟩ :=
    ProcessMIStart_init TRI Pre1 MI Mask Offset Reg isStore hM0 hM
  rw [hF] at h
  simp only [hP, Option.some.injEq, Prod.mk.injEq] at h
  obtain ⟨_, _, rfl⟩ := h
  intro he
  cases hSB : S.Begin with
  | nil => exact hBeg hSB
  | cons X rest =>
    rw [hSB] at he
    rcases hB with h3 | h3
    · rw [h3] at he
      simp at he
    · rw [h3] at he
      simp at he

/-- C23 (amended): while a run is open, `ProcessMI` merges a candidate into it (the
candidate joins the run's instructions) if and only if its direction and base register
equal the run's, its mask is disjoint from the run's accumulated mask, and either its
offset is exactly 4 below the run's lowest offset and its mask is numerically smaller than
the accumulated mask, or its offset is exactly 4 above the run's highest offset and its
mask is numerically greater than the accumulated mask. -/
theorem ProcessMI_merges_iff (TRI : M68kRegisterInfo) (Pre : List MachineInstr)
    (MI : MachineInstr) (S : MOVEMState) (Mask : Nat) (Offset : Int) (Reg : Nat)
    (isStore : Bool) (hBeg : S.Begin ≠ []) (hb : S.Base ≠ 0) (hS0 : S.Mask ≠ 0)
    (hM0 : Mask ≠ 0) (hM : Mask < 65536)
    (h1 : INT_MIN + 4 ≤ S.Start) (h12 : S.Start ≤ S.Stop) (h2 : S.Stop ≤ INT_MAX - 4) :
    (∃ S1, ProcessMI TRI Pre MI S Mask Offset Reg isStore = some (true, Pre, S1) ∧
        S1.Begin = S.Begin ++ [MI]) ↔
      (S.isStore = isStore ∧ S.Base = Reg) ∧ Mask &&& S.Mask = 0 ∧
        ((Offset = S.Start - 4 ∧ Mask < S.Mask) ∨
          (Offset = S.Stop + 4 ∧ S.Mask < Mask)) := by
  have hu := update_open S Offset Mask hS0 hM0 hM h1 h12 h2
  have hStart : S.Start ≠ INT_MIN := by
    unfold INT_MIN at h1 ⊢
    omega
  constructor
  · rintro ⟨S1, hP, hB⟩
    by_cases hc : S.isStore = isStore ∧ S.Base = Reg
    · by_cases ha : Mask < S.Mask ∧ Offset = S.Start - 4
      · by_cases hd : Mask &&& S.Mask = 0
        · exact ⟨hc, hd, Or.inl ⟨ha.2, ha.1⟩⟩
        · rw [if_pos ha, if_neg hd] at hu
          have hhb : S.hasBase = true := by simp [MOVEMState.hasBase, hb]
          simp [ProcessMI, hhb, hc, hu] at hP
      · rw [if_neg ha] at hu
        by_cases hb2 : S.Mask < Mask ∧ Offset = S.Stop + 4
        · by_cases hd : Mask &&& S.Mask = 0
          · exact ⟨hc, hd, Or.inr ⟨hb2.2, hb2.1⟩⟩
          · rw [if_pos hb2, if_neg hd] at hu
            have hhb : S.hasBase = true := by simp [MOVEMState.hasBase, hb]
            simp [ProcessMI, hhb, hc, hu] at hP
        · rw [if_neg hb2] at hu
          rw [ProcessMI_flush TRI Pre MI S Mask Offset Reg isStore hb (Or.inr hu)] at hP
          exact absurd hB
            (flush_not_merged TRI Pre MI S S1 Mask Offset Reg isStore true Pre hBeg hb hStart
              hM0 hM hP)
    · rw [ProcessMI_flush TRI Pre MI S Mask Offset Reg isStore hb (Or.inl hc)] at hP
      exact absurd hB
        (flush_not_merged TRI Pre MI S S1 Mask Offset Reg isStore true Pre hBeg hb hStart
          hM0 hM hP)
  · rintro ⟨hc, hd, hpos⟩
    have hR : Reg ≠ 0 := by
      rw [← hc.2]
      exact hb
    rcases hpos with ⟨hO, hlt⟩ | ⟨hO, hlt⟩
    · rw [if_pos ⟨hlt, hO⟩, if_pos hd] at hu
      refine ⟨_, ProcessMI_merge TRI Pre MI S _ Mask Offset Reg isStore hc.2 hR hc.1 hu, rfl⟩
    · have ha : ¬ (Mask < S.Mask ∧ Offset = S.Start - 4) := fun h => by omega
      rw [if_neg ha, if_pos ⟨hlt, hO⟩, if_pos hd] at hu
      refine ⟨_, ProcessMI_merge TRI Pre MI S _ Mask Offset Reg isStore hc.2 hR hc.1 hu, rfl⟩

/-- Witness of `ProcessMI_merges_iff`: a store of mask 1 at offset -4 joins the run of a
store of mask 2 at offset 0. -/
theorem ProcessMI_merges_iff_witness :
    ∃ S1, ProcessMI exampleTRI [] (MachineInstr.MOVM32pm (-4) 15 1) (openRunExample 2) 1 (-4)
        15 true = some (true, [], S1) ∧
      S1.Begin = (openRunExample 2).Begin ++ [MachineInstr.MOVM32pm (-4) 15 1] :=
  (ProcessMI_merges_iff exampleTRI [] (MachineInstr.MOVM32pm (-4) 15 1) (openRunExample 2) 1
    (-4) 15 true (by decide) (by decide) (by decide) (by decide) (by decide) (by decide)
    (by decide) (by decide)).mpr (by decide)

/-- C23 fails as stated: a store on the run's base register whose mask 1 is disjoint from
the run's mask 2 and whose offset 4 is exactly 4 above the run's highest offset 0 is not
merged; the pass leaves both instructions in place. -/
theorem ProcessMI_conditions_not_sufficient :
    ProcessMI exampleTRI [] (MachineInstr.MOVM32pm 4 15 1) (openRunExample 2) 1 4 15 true =
      some (true, [MachineInstr.MOVM32pm 0 15 2],
        { Begin := [MachineInstr.MOVM32pm 4 15 1], Base := 15, Start := 4, Stop := 4,
          Mask := 1, Ty := MoveType.Store }) ∧
    1 &&& (openRunExample 2).Mask = 0 ∧ (4 : Int) = (openRunExample 2).Stop + 4 ∧
    collapse exampleTRI [[MachineInstr.MOVM32pm 0 15 2, MachineInstr.MOVM32pm 4 15 1]] =
      some [[MachineInstr.MOVM32pm 0 15 2, MachineInstr.MOVM32pm 4 15 1]] := by
  decide

/-- C24 (amended): the direction is not stored in the run; it is decided for each candidate
by comparing its mask with the run's accumulated mask.  A candidate accepted by `update`
into an open run has either a mask greater than the accumulated mask and the offset 4
above the highest offset (only `Stop` moves), or a smaller mask and the offset 4 below
the lowest offset (only `Start` moves); a candidate whose mask equals the accumulated
mask is rejected and the state is unchanged. -/
theorem update_direction_per_member (S : MOVEMState) (O : Int) (M : Nat)
    (hS0 : S.Mask ≠ 0) (hM0 : M ≠ 0) (hM : M < 65536)
    (h1 : INT_MIN + 4 ≤ S.Start) (h12 : S.Start ≤ S.Stop) (h2 : S.Stop ≤ INT_MAX - 4) :
    (∀ S1, S.update O M = some (true, S1) →
      (S.Mask < M ∧ O = S.Stop + 4 ∧ S1.Stop = O ∧ S1.Start = S.Start) ∨
      (M < S.Mask ∧ O = S.Start - 4 ∧ S1.Start = O ∧ S1.Stop = S.Stop)) ∧
    (M = S.Mask → S.update O M = some (false, S)) := by
  have hu := update_open S O M hS0 hM0 hM h1 h12 h2
  constructor
  · intro S1 h
    rw [hu] at h
    by_cases ha : M < S.Mask ∧ O = S.Start - 4
    · rw [if_pos ha] at h
      by_cases hd : M &&& S.Mask = 0
      · rw [if_pos hd] at h
        simp only [Option.some.injEq, Prod.mk.injEq, true_and] at h
        subst h
        exact Or.inr ⟨ha.1, ha.2, ha.2.symm, rfl⟩
      · rw [if_neg hd] at h
        exact absurd h (by simp)
    · rw [if_neg ha] at h
      by_cases hb : S.Mask < M ∧ O = S.Stop + 4
      · rw [if_pos hb] at h
        by_cases hd : M &&& S.Mask = 0
        · rw [if_pos hd] at h
          simp only [Option.some.injEq, Prod.mk.injEq, true_and] at h
          subst h
          exact Or.inl ⟨hb.1, hb.2, hb.2.symm, rfl⟩
        · rw [if_neg hd] at h
          exact absurd h (by simp)
      · rw [if_neg hb] at h
        exact absurd h (by simp)
  · intro he
    have ha : ¬ (M < S.Mask ∧ O = S.Start - 4) := fun h => by omega
    have hb : ¬ (S.Mask < M ∧ O = S.Stop + 4) := fun h => by omega
    rw [hu, if_neg ha, if_neg hb]

/-- Witness of `update_direction_per_member`: a candidate whose mask equals the run's
mask is rejected. -/
theorem update_direction_per_member_witness :
    (openRunExample 2).update 4 2 = some (false, openRunExample 2) :=
  (update_direction_per_member (openRunExample 2) 4 2 (by decide) (by decide) (by decide)
    (by decide) (by decide) (by decide)).2 rfl

/-- C24 fails as stated: the members (offset 0, mask 2), (offset 4, mask 8),
(offset -4, mask 1) are all accepted into one run, which grows first at its highest offset
(ascending) and then at its lowest offset (descending); the pass merges the three stores
into one. -/
theorem run_grows_at_both_ends :
    updateCalls (MOVEMState.init, []) [(0, 2), (4, 8)] =
      some ({ MOVEMState.init with Start := 0, Stop := 4, Mask := 10 }, [(0, 2), (4, 8)]) ∧
    updateCalls (MOVEMState.init, []) [(0, 2), (4, 8), (-4, 1)] =
      some ({ MOVEMState.init with Start := -4, Stop := 4, Mask := 11 },
        [(0, 2), (4, 8), (-4, 1)]) ∧
    collapse exampleTRI
        [[MachineInstr.MOVM32pm 0 15 2, MachineInstr.MOVM32pm 4 15 8,
          MachineInstr.MOVM32pm (-4) 15 1]] =
      some [[MachineInstr.MOVM32pm (-4) 15 11]] := by
  decide

/-- C25 (amended): for a candidate with the run's base register and direction whose
mask shares a bit with the run's accumulated mask, `ProcessMI` fails the assertion of
`updateMask` exactly when the candidate lies at the boundary its mask selects (4 below the
lowest offset with a smaller mask, or 4 above the highest offset with a greater mask);
in every other case (equal masks, or any other offset) the candidate is treated as a
non-match: the run is flushed and the candidate opens a new run. -/
theorem ProcessMI_overlap (TRI : M68kRegisterInfo) (Pre : List MachineInstr)
    (MI : MachineInstr) (S : MOVEMState) (Mask : Nat) (Offset : Int) (isStore : Bool)
    (hBeg : S.Begin ≠ []) (hRB : isRunBase TRI S.Base = true) (hs : S.isStore = isStore)
    (hS0 : S.Mask ≠ 0) (hM0 : Mask ≠ 0) (hM : Mask < 65536)
    (h1 : INT_MIN + 4 ≤ S.Start) (h12 : S.Start ≤ S.Stop) (h2 : S.Stop ≤ INT_MAX - 4)
    (hov : Mask &&& S.Mask ≠ 0) :
    (ProcessMI TRI Pre MI S Mask Offset S.Base isStore = none ↔
      (Mask < S.Mask ∧ Offset = S.Start - 4) ∨ (S.Mask < Mask ∧ Offset = S.Stop + 4)) ∧
    (¬ ((Mask < S.Mask ∧ Offset = S.Start - 4) ∨ (S.Mask < Mask ∧ Offset = S.Stop + 4)) →
      ∃ Pre1 S1, Finish Pre S = some (Pre1, MOVEMState.init) ∧
        ProcessMI TRI Pre MI S Mask Offset S.Base isStore = some (true, Pre1, S1) ∧
        S1.Begin = [MI]) := by
  have hb : S.Base ≠ 0 := isRunBase_ne_zero TRI S.Base hRB
  have hhb : S.hasBase = true := by simp [MOVEMState.hasBase, hb]
  have hStart : S.Start ≠ INT_MIN := by
    unfold INT_MIN at h1 ⊢
    omega
  have hu := update_open S Offset Mask hS0 hM0 hM h1 h12 h2
  have hflush : ¬ ((Mask < S.Mask ∧ Offset = S.Start - 4) ∨
      (S.Mask < Mask ∧ Offset = S.Stop + 4)) →
      ∃ Pre1 S1, Finish Pre S = some (Pre1, MOVEMState.init) ∧
        ProcessMI TRI Pre MI S Mask Offset S.Base isStore = some (true, Pre1, S1) ∧
        S1.Begin = [MI] := by
    intro hn
    have ha : ¬ (Mask < S.Mask ∧ Offset = S.Start - 4) := fun h => hn (Or.inl h)
    have hb2 : ¬ (S.Mask < Mask ∧ Offset = S.Stop + 4) := fun h => hn (Or.inr h)
    rw [if_neg ha, if_neg hb2] at hu
    obtain ⟨Pre1, hF⟩ := Finish_open Pre S hBeg hb hStart
    obtain ⟨r, Pre2, S1, hP, _, hrb⟩ :=
      ProcessMIStart_init TRI Pre1 MI Mask Offset S.Base isStore hM0 hM
    obtain ⟨rfl, rfl, hB1⟩ := hrb hRB
    refine ⟨Pre2, S1, hF, ?_, hB1⟩
    rw [ProcessMI_flush TRI Pre MI S Mask Offset S.Base isStore hb (Or.inr hu), hF]
    exact hP
  refine ⟨⟨fun hnone => ?_, fun hpos => ?_⟩, hflush⟩
  · by_contra hn
    obtain ⟨Pre1, S1, _, hP, _⟩ := hflush hn
    rw [hnone] at hP
    exact absurd hP (by simp)
  · rcases hpos with ha | hb2
    · rw [if_pos ha, if_neg hov] at hu
      simp [ProcessMI, hhb, hs, hu]
    · have ha : ¬ (Mask < S.Mask ∧ Offset = S.Start - 4) := fun h => by omega
      rw [if_neg ha, if_pos hb2, if_neg hov] at hu
      simp [ProcessMI, hhb, hs, hu]

/-- Witness of `ProcessMI_overlap`: on the run of a store of mask 3 at offset 0, the
candidate of mask 5 at offset 4 fails the assertion. -/
theorem ProcessMI_overlap_witness :
    ProcessMI exampleTRI [] (MachineInstr.MOVM32pm 4 15 5) (openRunExample 3) 5 4
      (openRunExample 3).Base true = none :=
  ((ProcessMI_overlap exampleTRI [] (MachineInstr.MOVM32pm 4 15 5) (openRunExample 3) 5 4
    true (by decide) (by decide) (by decide) (by decide) (by decide) (by decide) (by decide)
    (by decide) (by decide) (by decide)).1).mpr (Or.inr (by decide))

/-- C25 fails as stated: on the run of a store of mask 3 at offset 0, a candidate with the
same base, direction and mask 3 at offset 4, and a candidate of mask 1 at offset 100, both
overlap the run's mask, yet neither fails an assertion: the run is flushed and a new run
is started, and the pass completes. -/
theorem overlap_treated_as_non_match :
    ProcessMI exampleTRI [] (MachineInstr.MOVM32pm 4 15 3) (openRunExample 3) 3 4 15 true =
      some (true, [MachineInstr.MOVM32pm 0 15 3],
        { Begin := [MachineInstr.MOVM32pm 4 15 3], Base := 15, Start := 4, Stop := 4,
          Mask := 3, Ty := MoveType.Store }) ∧
    ProcessMI exampleTRI [] (MachineInstr.MOVM32pm 100 15 1) (openRunExample 3) 1 100 15
        true =
      some (true, [MachineInstr.MOVM32pm 0 15 3],
        { Begin := [MachineInstr.MOVM32pm 100 15 1], Base := 15, Start := 100, Stop := 100,
          Mask := 1, Ty := MoveType.Store }) ∧
    collapse exampleTRI [[MachineInstr.MOVM32pm 0 15 3, MachineInstr.MOVM32pm 4 15 3]] =
      some [[MachineInstr.MOVM32pm 0 15 3, MachineInstr.MOVM32pm 4 15 3]] := by
  decide

/-- C26: `Finish` on a run of exactly one instruction leaves the block unchanged; on a run
of at least two instructions it removes them and puts one instruction at their place,
carrying the run's base register, its accumulated mask and its lowest offset `Start`, in
the store form MOVM32pm for a store run and in the load form MOVM32mp for a load run; in
both cases the state becomes the empty state. -/
theorem Finish_flush (Pre : List MachineInstr) (S : MOVEMState) (hb : S.Base ≠ 0)
    (hStart : S.Start ≠ INT_MIN) :
    (∀ MI, S.Begin = [MI] → Finish Pre S = some (Pre ++ S.Begin, MOVEMState.init)) ∧
    (2 ≤ S.Begin.length → S.Ty = MoveType.Store →
      Finish Pre S =
        some (Pre ++ [MachineInstr.MOVM32pm S.Start S.Base (Int.ofNat S.Mask)],
          MOVEMState.init)) ∧
    (2 ≤ S.Begin.length → S.Ty = MoveType.Load →
      Finish Pre S =
        some (Pre ++ [MachineInstr.MOVM32mp (Int.ofNat S.Mask) S.Start S.Base],
          MOVEMState.init)) := by
  refine ⟨?_, ?_, ?_⟩
  · intro MI hB
    simp [Finish, hB]
  · intro hlen hTy
    cases hB : S.Begin with
    | nil => simp [hB] at hlen
    | cons X rest =>
      cases rest with
      | nil => simp [hB] at hlen
      | cons Y rest2 => simp [Finish, hB, hStart, hb, MOVEMState.isLoad, hTy]
  · intro hlen hTy
    cases hB : S.Begin with
    | nil => simp [hB] at hlen
    | cons X rest =>
      cases rest with
      | nil => simp [hB] at hlen
      | cons Y rest2 => simp [Finish, hB, hStart, hb, MOVEMState.isLoad, hTy]

/-- Witness of `Finish_flush`: a run of two stores of masks 2 and 1 at offsets 0 and -4 is
replaced by one store of mask 3 at offset -4. -/
theorem Finish_flush_witness :
    Finish [MachineInstr.other 0]
        { Begin := [MachineInstr.MOVM32pm 0 15 2, MachineInstr.MOVM32pm (-4) 15 1],
          Base := 15, Start := -4, Stop := 0, Mask := 3, Ty := MoveType.Store } =
      some ([MachineInstr.other 0] ++ [MachineInstr.MOVM32pm (-4) 15 (Int.ofNat 3)],
        MOVEMState.init) :=
  (Finish_flush [MachineInstr.other 0]
    { Begin := [MachineInstr.MOVM32pm 0 15 2, MachineInstr.MOVM32pm (-4) 15 1],
      Base := 15, Start := -4, Stop := 0, Mask := 3, Ty := MoveType.Store }
    (by decide) (by decide)).2.1 (by decide) rfl

end CollapseMOVEM

namespace CollapseMOVEM

/-! ### Runs do not cross other instructions or block boundaries -/

theorem Finish_prepend (P Q : List MachineInstr) (S : MOVEMState) :
    Finish (P ++ Q) S = (Finish Q S).map fun r => (P ++ r.1, r.2) := by
  cases hB : S.Begin with
  | nil => simp [Finish, hB]
  | cons X rest =>
    cases rest with
    | nil => simp [Finish, hB]
    | cons Y r2 =>
      simp only [Finish, hB]
      split_ifs <;> simp

theorem Finish_init (Q Q1 : List MachineInstr) (S S1 : MOVEMState)
    (h : Finish Q S = some (Q1, S1)) : S1 = MOVEMState.init := by
  unfold Finish at h
  split at h
  · simp at h
  · simp only [Option.some.injEq, Prod.mk.injEq] at h
    exact h.2.symm
  · split_ifs at h <;> simp only [Option.some.injEq, Prod.mk.injEq] at h <;> exact h.2.symm

theorem ProcessMIStart_prepend (TRI : M68kRegisterInfo) (P Q : List MachineInstr)
    (MI : MachineInstr) (S : MOVEMState) (M : Nat) (O : Int) (R : Nat) (st : Bool) :
    ProcessMIStart TRI (P ++ Q) MI S M O R st =
      (ProcessMIStart TRI Q MI S M O R st).map fun r => (r.1, P ++ r.2.1, r.2.2) := by
  unfold ProcessMIStart
  by_cases hR : R = TRI.StackRegister ∨ R = TRI.BaseRegister ∨ R = TRI.FrameRegister
  · simp only [if_pos hR]
    cases hB : S.Begin with
    | cons _ _ => simp
    | nil =>
      simp only
      by_cases hb : S.hasBase = true
      · simp [hb]
      · simp only [hb, if_false]
        cases hu : MOVEMState.update { S with Begin := [MI], Base := R } O M with
        | none => simp
        | some q =>
          obtain ⟨b, S1⟩ := q
          simp
  · simp [if_neg hR]

theorem ProcessMI_prepend (TRI : M68kRegisterInfo) (P Q : List MachineInstr)
    (MI : MachineInstr) (S : MOVEMState) (M : Nat) (O : Int) (R : Nat) (st : Bool) :
    ProcessMI TRI (P ++ Q) MI S M O R st =
      (ProcessMI TRI Q MI S M O R st).map fun r => (r.1, P ++ r.2.1, r.2.2) := by
  have hF : (match Finish (P ++ Q) S with
        | none => none
        | some (Pre1, S1) => ProcessMIStart TRI Pre1 MI S1 M O R st) =
      (match Finish Q S with
        | none => none
        | some (Pre1, S1) => ProcessMIStart TRI Pre1 MI S1 M O R st).map
        fun (r : Bool × List MachineInstr × MOVEMState) => (r.1, P ++ r.2.1, r.2.2) := by
    rw [Finish_prepend]
    cases Finish Q S with
    | none => rfl
    | some q =>
      obtain ⟨Q1, S1⟩ := q
      simp only [Option.map_some']
      exact ProcessMIStart_prepend TRI P Q1 MI S1 M O R st
  unfold ProcessMI
  by_cases hb : S.hasBase = true
  · simp only [hb, if_true]
    by_cases hc : S.isStore = st ∧ S.Base = R
    · simp only [if_pos hc]
      cases hu : S.update O M with
      | none => rfl
      | some q =>
        obtain ⟨b, S1⟩ := q
        cases b with
        | true => rfl
        | false => exact hF
    · simp only [if_neg hc]
      exact hF
  · simp only [hb, if_false]
    exact ProcessMIStart_prepend TRI P Q MI S M O R st

theorem stepMI_prepend (TRI : M68kRegisterInfo) (P Q : List MachineInstr) (m m0 : Bool)
    (S : MOVEMState) (MI : MachineInstr) :
    (stepMI TRI (m, P ++ Q, S) MI).map Prod.snd =
      (stepMI TRI (m0, Q, S) MI).map fun L => (P ++ L.2.1, L.2.2) := by
  unfold stepMI
  cases hMI : operands MI with
  | none =>
    simp only
    by_cases hb : S.hasBase = true
    · simp only [hb, if_true]
      rw [Finish_prepend]
      cases Finish Q S with
      | none => rfl
      | some q => simp
    · simp [hb]
  | some q =>
    obtain ⟨M, O, R, st⟩ := q
    simp only
    rw [ProcessMI_prepend]
    cases ProcessMI TRI Q MI S M O R st with
    | none => rfl
    | some q2 => simp

theorem loopMBB_prepend (TRI : M68kRegisterInfo) (P : List MachineInstr) :
    ∀ (B Q : List MachineInstr) (m m0 : Bool) (S : MOVEMState),
      (loopMBB TRI (m, P ++ Q, S) B).map Prod.snd =
        (loopMBB TRI (m0, Q, S) B).map fun L => (P ++ L.2.1, L.2.2) := by
  intro B
  induction B with
  | nil =>
    intro Q m m0 S
    simp [loopMBB]
  | cons MI rest ih =>
    intro Q m m0 S
    have hs := stepMI_prepend TRI P Q m m0 S MI
    simp only [loopMBB]
    cases h1 : stepMI TRI (m, P ++ Q, S) MI with
    | none =>
      cases h2 : stepMI TRI (m0, Q, S) MI with
      | none => rfl
      | some L2 =>
        rw [h1, h2] at hs
        simp at hs
    | some L1 =>
      cases h2 : stepMI TRI (m0, Q, S) MI with
      | none =>
        rw [h1, h2] at hs
        simp at hs
      | some L2 =>
        rw [h1, h2] at hs
        obtain ⟨f1, Q1, S1⟩ := L1
        obtain ⟨f2, Q2, S2⟩ := L2
        simp only [Option.map_some', Option.some.injEq, Prod.mk.injEq] at hs
        obtain ⟨e1, e2⟩ := hs
        subst e1
        subst e2
        exact ih Q2 f1 f2 S1

theorem loopMBB_append (TRI : M68kRegisterInfo) :
    ∀ (A B : List MachineInstr) (L : LoopState),
      loopMBB TRI L (A ++ B) = (loopMBB TRI L A).bind fun L1 => loopMBB TRI L1 B := by
  intro A
  induction A with
  | nil =>
    intro B L
    simp [loopMBB]
  | cons MI rest ih =>
    intro B L
    simp only [List.cons_append, loopMBB]
    cases stepMI TRI L MI with
    | none => rfl
    | some L1 => exact ih B L1

theorem endOfMBB_prepend (P Q : List MachineInstr) (m m0 : Bool) (S : MOVEMState) :
    (endOfMBB (m, P ++ Q, S)).map (fun r => r.2.2) =
      (endOfMBB (m0, Q, S)).map fun r => P ++ r.2.2 := by
  unfold endOfMBB
  by_cases hb : S.hasBase = true
  · simp only [hb, if_true]
    rw [Finish_prepend]
    cases Finish Q S with
    | none => rfl
    | some q => simp
  · simp [hb]

theorem runLoop_prepend (TRI : M68kRegisterInfo) (P B : List MachineInstr) (m : Bool) :
    (match loopMBB TRI (m, P, MOVEMState.init) B with
      | none => none
      | some L => endOfMBB L).map
        (fun (r : Bool × MOVEMState × List MachineInstr) => r.2.2) =
      (collapseMBB TRI B).map fun B1 => P ++ B1 := by
  have hl := loopMBB_prepend TRI P B [] m false MOVEMState.init
  rw [List.append_nil] at hl
  unfold collapseMBB runOnMBB
  cases h1 : loopMBB TRI (m, P, MOVEMState.init) B with
  | none =>
    cases h2 : loopMBB TRI (false, [], MOVEMState.init) B with
    | none => rfl
    | some L2 =>
      rw [h1, h2] at hl
      simp at hl
  | some L1 =>
    cases h2 : loopMBB TRI (false, [], MOVEMState.init) B with
    | none =>
      rw [h1, h2] at hl
      simp at hl
    | some L2 =>
      rw [h1, h2] at hl
      obtain ⟨f1, Q1, S1⟩ := L1
      obtain ⟨f2, Q2, S2⟩ := L2
      simp only [Option.map_some', Option.some.injEq, Prod.mk.injEq] at hl
      obtain ⟨e1, e2⟩ := hl
      subst e1
      subst e2
      simp only [Option.map_map]
      exact endOfMBB_prepend P Q2 f1 f2 S1

theorem init_hasBase : MOVEMState.init.hasBase = false := rfl

theorem collapseMBB_other (TRI : M68kRegisterInfo) (A B : List MachineInstr) (k : Nat) :
    collapseMBB TRI (A ++ MachineInstr.other k :: B) =
      match collapseMBB TRI A, collapseMBB TRI B with
      | some A1, some B1 => some (A1 ++ MachineInstr.other k :: B1)
      | _, _ => none := by
  have key : ∀ (f : Bool) (A1 : List MachineInstr),
      (match loopMBB TRI (f, A1 ++ [MachineInstr.other k], MOVEMState.init) B with
        | none => none
        | some L => endOfMBB L).map
          (fun (r : Bool × MOVEMState × List MachineInstr) => r.2.2) =
        match collapseMBB TRI B with
        | some B1 => some (A1 ++ MachineInstr.other k :: B1)
        | none => none := by
    intro f A1
    rw [runLoop_prepend]
    cases collapseMBB TRI B with
    | none => rfl
    | some B1 => simp
  have hL0 : LoopInv TRI (false, [], MOVEMState.init) :=
    ⟨by simp, by simp [MOVEMState.init], fun _ => rfl, fun e => absurd rfl e⟩
  have hsplit : collapseMBB TRI (A ++ MachineInstr.other k :: B) =
      (match (loopMBB TRI (false, [], MOVEMState.init) A).bind
          (fun L1 => (stepMI TRI L1 (MachineInstr.other k)).bind
            fun L2 => loopMBB TRI L2 B) with
        | none => none
        | some L => endOfMBB L).map
          (fun (r : Bool × MOVEMState × List MachineInstr) => r.2.2) := by
    have hloop : loopMBB TRI (false, [], MOVEMState.init) (A ++ MachineInstr.other k :: B) =
        (loopMBB TRI (false, [], MOVEMState.init) A).bind
          (fun L1 => (stepMI TRI L1 (MachineInstr.other k)).bind
            fun L2 => loopMBB TRI L2 B) := by
      rw [loopMBB_append]
      cases loopMBB TRI (false, [], MOVEMState.init) A with
      | none => rfl
      | some L1 =>
        simp only [Option.some_bind, loopMBB]
        cases stepMI TRI L1 (MachineInstr.other k) with
        | none => rfl
        | some L2 => rfl
    unfold collapseMBB runOnMBB
    rw [hloop]
  rw [hsplit]
  cases hA : loopMBB TRI (false, [], MOVEMState.init) A with
  | none =>
    have hcA : collapseMBB TRI A = none := by simp [collapseMBB, runOnMBB, hA]
    rw [hcA]
    rfl
  | some L1 =>
    obtain ⟨m, Pre, S⟩ := L1
    have hInv := loopMBB_inv TRI A _ _ hL0 hA
    simp only [Option.some_bind]
    by_cases hb : S.Base = 0
    · have hS : S = MOVEMState.init := hInv.2.2.1 hb
      subst hS
      have hcA : collapseMBB TRI A = some Pre := by
        simp [collapseMBB, runOnMBB, hA, endOfMBB, init_hasBase]
      have hst : stepMI TRI (m, Pre, MOVEMState.init) (MachineInstr.other k) =
          some (m, Pre ++ [MachineInstr.other k], MOVEMState.init) := by
        simp [stepMI, operands, init_hasBase]
      rw [hcA, hst]
      simp only [Option.some_bind]
      rw [key m Pre]
      cases collapseMBB TRI B <;> rfl
    · have hhb : S.hasBase = true := by simp [MOVEMState.hasBase, hb]
      cases hF : Finish Pre S with
      | none =>
        have hcA : collapseMBB TRI A = none := by
          simp [collapseMBB, runOnMBB, hA, endOfMBB, hhb, hF]
        have hst : stepMI TRI (m, Pre, S) (MachineInstr.other k) = none := by
          simp [stepMI, operands, hhb, hF]
        rw [hcA, hst]
        rfl
      | some q =>
        obtain ⟨Pre1, S1⟩ := q
        have hS1 : S1 = MOVEMState.init := Finish_init Pre Pre1 S S1 hF
        subst hS1
        have hcA : collapseMBB TRI A = some Pre1 := by
          simp [collapseMBB, runOnMBB, hA, endOfMBB, hhb, hF]
        have hst : stepMI TRI (m, Pre, S) (MachineInstr.other k) =
            some (true, Pre1 ++ [MachineInstr.other k], MOVEMState.init) := by
          simp [stepMI, operands, hhb, hF]
        rw [hcA, hst]
        simp only [Option.some_bind]
        rw [key true Pre1]
        cases collapseMBB TRI B <;> rfl

theorem runOnMBB_flag (TRI : M68kRegisterInfo) (m : Bool) (blk : List MachineInstr) :
    (runOnMBB TRI m MOVEMState.init blk).map (fun r => r.2.2) = collapseMBB TRI blk := by
  have h := runLoop_prepend TRI [] blk m
  simp only [List.nil_append, Option.map_id'] at h
  unfold runOnMBB
  exact h

theorem runOnBlocks_collapseBlocks (TRI : M68kRegisterInfo) :
    ∀ (MF Done : List (List MachineInstr)) (m : Bool),
      (runOnBlocks TRI m MOVEMState.init Done MF).map Prod.snd =
        (collapseBlocks TRI MF).map fun R => Done ++ R := by
  intro MF
  induction MF with
  | nil =>
    intro Done m
    simp [runOnBlocks, collapseBlocks]
  | cons blk rest ih =>
    intro Done m
    have hf := runOnMBB_flag TRI m blk
    simp only [runOnBlocks, collapseBlocks]
    cases hr : runOnMBB TRI m MOVEMState.init blk with
    | none =>
      rw [hr] at hf
      simp only [Option.map_none'] at hf
      rw [← hf]
      rfl
    | some q =>
      obtain ⟨m1, S1, blk1⟩ := q
      obtain ⟨hS1, _⟩ := runOnMBB_inv TRI m m1 blk blk1 S1 hr
      subst hS1
      rw [hr] at hf
      simp only [Option.map_some'] at hf
      rw [← hf]
      simp only
      rw [ih (Done ++ [blk1]) m1]
      cases collapseBlocks TRI rest with
      | none => rfl
      | some R => simp

/-- C27: the pass never merges across another instruction or a block boundary.  A block
that contains an instruction `other k` (any opcode outside the four MOVEM forms) is
collapsed as the collapse of the part before it, then the instruction itself, then the
collapse of the part after it, each part processed from the empty state (and the pass
fails exactly when it fails on one of the parts); and the pass on a function is the
collapse of each block on its own. -/
theorem collapse_never_crosses (TRI : M68kRegisterInfo) :
    (∀ (A B : List MachineInstr) (k : Nat),
      collapseMBB TRI (A ++ MachineInstr.other k :: B) =
        match collapseMBB TRI A, collapseMBB TRI B with
        | some A1, some B1 => some (A1 ++ MachineInstr.other k :: B1)
        | _, _ => none) ∧
    (∀ MF : List (List MachineInstr), collapse TRI MF = collapseBlocks TRI MF) := by
  refine ⟨collapseMBB_other TRI, ?_⟩
  intro MF
  have h := runOnBlocks_collapseBlocks TRI MF [] false
  unfold collapse runOnMachineFunction
  rw [h]
  cases collapseBlocks TRI MF with
  | none => rfl
  | some R => simp

end CollapseMOVEM

namespace CollapseMOVEM

/-! ### The invariant of a run -/

theorem and_or_eq_zero (m a b : Nat) (h : m &&& (a ||| b) = 0) :
    m &&& a = 0 ∧ m &&& b = 0 := by
  constructor
  · apply Nat.eq_of_testBit_eq
    intro i
    have hi := congrArg (fun x => x.testBit i) h
    simp only [Nat.testBit_and, Nat.testBit_or, Nat.zero_testBit] at hi ⊢
    cases hm : m.testBit i <;> cases ha : a.testBit i <;> cases hb : b.testBit i <;> simp_all
  · apply Nat.eq_of_testBit_eq
    intro i
    have hi := congrArg (fun x => x.testBit i) h
    simp only [Nat.testBit_and, Nat.testBit_or, Nat.zero_testBit] at hi ⊢
    cases hm : m.testBit i <;> cases ha : a.testBit i <;> cases hb : b.testBit i <;> simp_all

theorem orMasks_append (l : List (Int × Nat)) (p : Int × Nat) :
    orMasks (l ++ [p]) = orMasks l ||| p.2 := by
  simp [orMasks, List.foldl_append]

theorem disjoint_orMasks (M : Nat) :
    ∀ l : List (Int × Nat), M &&& orMasks l = 0 → ∀ q ∈ l, q.2 &&& M = 0 := by
  intro l
  induction l using List.reverseRecOn with
  | nil =>
    intro _ q hq
    simp at hq
  | append_singleton l p ih =>
    intro h q hq
    rw [orMasks_append] at h
    obtain ⟨h1, h2⟩ := and_or_eq_zero M _ _ h
    rcases List.mem_append.mp hq with hq | hq
    · exact ih h1 q hq
    · simp only [List.mem_singleton] at hq
      rw [hq, Nat.and_comm]
      exact h2

theorem updateMask_match_disjoint (S0 S1 : MOVEMState) (M : Nat) (b : Bool)
    (h : (match MOVEMState.updateMask S0 M with
          | none => none
          | some S2 => some (true, S2)) = some (b, S1)) :
    M &&& S0.Mask = 0 := by
  unfold MOVEMState.updateMask at h
  by_cases h1 : M < 65536
  · by_cases h2 : M &&& S0.Mask = 0
    · exact h2
    · simp [h1, h2] at h
  · simp [h1] at h

theorem update_true_disjoint (S S1 : MOVEMState) (O : Int) (M : Nat)
    (h : S.update O M = some (true, S1)) : M &&& S.Mask = 0 := by
  unfold MOVEMState.update at h
  cases hc : S.classifyUpdateByMask M with
  | none => rw [hc] at h; simp at h
  | some Ty =>
    rw [hc] at h
    simp only at h
    by_cases h1 : Ty = UpdateType.Intermixed
    · simp [h1] at h
    · rw [if_neg h1] at h
      by_cases h2 : S.Start = INT_MIN
      · rw [if_pos h2] at h
        have hx := updateMask_match_disjoint _ _ _ _ h
        exact hx
      · rw [if_neg h2] at h
        by_cases h3 : Ty = UpdateType.Descending ∧ O = toInt32 (S.Start - 4)
        · rw [if_pos h3] at h
          have hx := updateMask_match_disjoint _ _ _ _ h
          exact hx
        · rw [if_neg h3] at h
          by_cases h4 : Ty = UpdateType.Ascending ∧ O = toInt32 (S.Stop + 4)
          · rw [if_pos h4] at h
            have hx := updateMask_match_disjoint _ _ _ _ h
            exact hx
          · rw [if_neg h4] at h
            simp at h

theorem update_RunInv (S S1 : MOVEMState) (acc : List (Int × Nat)) (p : Int × Nat)
    (b : Bool) (hI : RunInv S acc) (h : S.update p.1 p.2 = some (b, S1)) :
    RunInv S1 (if b = true then acc ++ [p] else acc) := by
  obtain ⟨hM0, _, _, _, hcase⟩ := update_some S S1 p.1 p.2 b h
  obtain ⟨hOr, hLt, hPw, hNil, hNe, hRange⟩ := hI
  cases b with
  | false =>
    rcases hcase with ⟨hf, _⟩ | ⟨_, hS⟩
    · exact Bool.noConfusion hf
    · subst hS
      exact ⟨hOr, hLt, hPw, hNil, hNe, hRange⟩
  | true =>
    rcases hcase with ⟨_, hM, hMask⟩ | ⟨hf, _⟩
    · have hd := update_true_disjoint S S1 p.1 p.2 h
      simp only [if_true]
      refine ⟨?_, ?_, ?_, ?_, ?_, ?_⟩
      · rw [orMasks_append, hMask, hOr]
      · rw [hMask]
        exact or_lt_65536 _ _ hLt hM
      · refine List.pairwise_append.mpr ⟨hPw, List.pairwise_singleton _ _, ?_⟩
        intro a ha c hc
        simp only [List.mem_singleton] at hc
        rw [hc]
        rw [hOr] at hd
        exact disjoint_orMasks p.2 acc hd a ha
      · intro e
        simp at e
      · intro _
        rw [hMask]
        exact or_ne_zero_right _ _ hM0
      · intro _ hr
        by_cases hacc : acc = []
        · subst hacc
          have hS0 : S.Mask = 0 := by rw [hOr]; rfl
          obtain ⟨_, _, hS1⟩ := update_fresh S S1 p.1 p.2 true hS0 (hNil rfl) h
          have hp := hr p (by simp)
          subst hS1
          simp only [List.nil_append, List.length_singleton]
          refine ⟨hp.1, le_refl _, hp.2, ?_⟩
          simp
        · have hp := hr p (by simp)
          obtain ⟨b1, b12, b2, hlen⟩ :=
            hRange hacc (fun q hq => hr q (List.mem_append_left _ hq))
          have hu := update_open S p.1 p.2 (hNe hacc) hM0 hM b1 b12 b2
          rw [hu] at h
          have hlen1 : ((acc ++ [p]).length : Int) = (acc.length : Int) + 1 := by
            simp
          rw [hlen1]
          by_cases ha : p.2 < S.Mask ∧ p.1 = S.Start - 4
          · rw [if_pos ha, if_pos hd] at h
            simp only [Option.some.injEq, Prod.mk.injEq, true_and] at h
            subst h
            simp only
            omega
          · rw [if_neg ha] at h
            by_cases hb : S.Mask < p.2 ∧ p.1 = S.Stop + 4
            · rw [if_pos hb, if_pos hd] at h
              simp only [Option.some.injEq, Prod.mk.injEq, true_and] at h
              subst h
              simp only
              omega
            · rw [if_neg hb] at h
              simp at h
    · exact Bool.noConfusion hf

theorem updateCalls_RunInv :
    ∀ (calls : List (Int × Nat)) (R R1 : MOVEMState × List (Int × Nat)),
      RunInv R.1 R.2 → updateCalls R calls = some R1 →
      RunInv R1.1 R1.2 ∧ ∃ t, R1.2 = R.2 ++ t ∧ t.Sublist calls := by
  intro calls
  induction calls with
  | nil =>
    intro R R1 hI h
    simp only [updateCalls, Option.some.injEq] at h
    subst h
    exact ⟨hI, [], by simp, List.Sublist.slnil⟩
  | cons p rest ih =>
    intro R R1 hI h
    simp only [updateCalls] at h
    cases hu : R.1.update p.1 p.2 with
    | none => simp [hu] at h
    | some q =>
      obtain ⟨b, S1⟩ := q
      have hstep := update_RunInv R.1 S1 R.2 p b hI hu
      rw [hu] at h
      cases b with
      | true =>
        simp only [if_true] at hstep
        obtain ⟨hI1, t, ht, hsub⟩ := ih (S1, R.2 ++ [p]) R1 hstep h
        refine ⟨hI1, p :: t, ?_, hsub.cons₂ p⟩
        rw [ht]
        simp
      | false =>
        simp only [Bool.false_eq_true, if_false] at hstep
        obtain ⟨hI1, t, ht, hsub⟩ := ih (S1, R.2) R1 hstep h
        exact ⟨hI1, t, ht, hsub.cons p⟩

theorem RunInv_init : RunInv MOVEMState.init [] :=
  ⟨rfl, by decide, List.Pairwise.nil, fun _ => rfl, fun e => absurd rfl e,
    fun e => absurd rfl e⟩

/-- C28 (amended): let `S` be the state reached from the empty state by a sequence of
calls of `update` none of which fails an assertion, and `acc` the accepted members (the
calls that returned `true`).  Then the masks of the accepted members are pairwise disjoint
and `S.Mask` is their OR and is below 2^16; and when there is at least one accepted
member and every accepted offset lies in `[INT_MIN + 4, INT_MAX - 4]` (so none equals
the sentinel `INT_MIN` and no step of 4 overflows), `Start <= Stop` and
`Stop - Start = 4 * (n - 1)` with `n` the number of accepted members. -/
theorem updateCalls_invariant (calls acc : List (Int × Nat)) (S : MOVEMState)
    (h : updateCalls (MOVEMState.init, []) calls = some (S, acc)) :
    (acc.Sublist calls ∧ acc.Pairwise (fun p q => p.2 &&& q.2 = 0) ∧
      S.Mask = orMasks acc ∧ S.Mask < 65536) ∧
    (acc ≠ [] → (∀ p ∈ acc, INT_MIN + 4 ≤ p.1 ∧ p.1 ≤ INT_MAX - 4) →
      S.Start ≤ S.Stop ∧ S.Stop - S.Start = 4 * ((acc.length : Int) - 1)) := by
  obtain ⟨⟨hOr, hLt, hPw, _, _, hRange⟩, t, ht, hsub⟩ :=
    updateCalls_RunInv calls (MOVEMState.init, []) (S, acc) RunInv_init h
  simp only [List.nil_append] at ht
  subst ht
  refine ⟨⟨hsub, hPw, hOr, hLt⟩, ?_⟩
  intro hacc hr
  obtain ⟨_, h12, _, hlen⟩ := hRange hacc hr
  exact ⟨h12, hlen⟩

/-- Witness of `updateCalls_invariant`: the calls (0, 2), (4, 8), (4, 1), (-4, 1), of
which the third is not accepted, reach a state with three members, mask 11 and the
offsets -4 to 4. -/
theorem updateCalls_invariant_witness :
    updateCalls (MOVEMState.init, []) [(0, 2), (4, 8), (4, 1), (-4, 1)] =
      some ({ MOVEMState.init with Start := -4, Stop := 4, Mask := 11 },
        [(0, 2), (4, 8), (-4, 1)]) ∧
    ((-4 : Int) ≤ 4 ∧ (4 : Int) - (-4) = 4 * (((3 : Nat) : Int) - 1)) :=
  ⟨by decide,
    (updateCalls_invariant [(0, 2), (4, 8), (4, 1), (-4, 1)] [(0, 2), (4, 8), (-4, 1)]
      { MOVEMState.init with Start := -4, Stop := 4, Mask := 11 } (by decide)).2
      (by decide) (by decide)⟩

/-- C28 fails as stated: the empty state itself (no accepted member) has
`Stop - Start = INT_MAX - INT_MIN`, not `4 * (0 - 1)`; and since `Start == INT_MIN`
marks a state without offsets, a first member at offset `INT_MIN` leaves the mark in
place, so that the second call is accepted at the unrelated offset 100 and sets
`Start = Stop = 100`: two accepted members, yet `Stop - Start = 0`. -/
theorem updateCalls_sentinel_restart :
    MOVEMState.init.Stop - MOVEMState.init.Start ≠ 4 * (((0 : Nat) : Int) - 1) ∧
    updateCalls (MOVEMState.init, []) [(INT_MIN, 1), (100, 2)] =
      some ({ MOVEMState.init with Start := 100, Stop := 100, Mask := 3 },
        [(INT_MIN, 1), (100, 2)]) ∧
    (100 : Int) - 100 ≠ 4 * (((2 : Nat) : Int) - 1) := by
  decide

end CollapseMOVEM

namespace ISel

/-- C38: for every stack size s and power-of-two alignment A = 2^k with
0 < slotSize <= A (and s + 3A below 2^32, so that nothing overflows), the result r of
`GetAlignedArgumentStackSize` satisfies s <= r < s + A and r is congruent to A - slotSize
modulo A, so r is the least such value not below s; the function returns r on r
(idempotent) and is monotone in s. -/
theorem GetAlignedArgumentStackSize_least (k SlotSize s : Nat) (h0 : 0 < SlotSize)
    (hSS : SlotSize ≤ 2 ^ k) (hs : s + 3 * 2 ^ k < 4294967296) :
    s ≤ GetAlignedArgumentStackSize (2 ^ k) SlotSize s ∧
    GetAlignedArgumentStackSize (2 ^ k) SlotSize s < s + 2 ^ k ∧
    GetAlignedArgumentStackSize (2 ^ k) SlotSize s % 2 ^ k = (2 ^ k - SlotSize) % 2 ^ k ∧
    (∀ t, s ≤ t → t % 2 ^ k = (2 ^ k - SlotSize) % 2 ^ k →
      GetAlignedArgumentStackSize (2 ^ k) SlotSize s ≤ t) ∧
    GetAlignedArgumentStackSize (2 ^ k) SlotSize
      (GetAlignedArgumentStackSize (2 ^ k) SlotSize s) =
        GetAlignedArgumentStackSize (2 ^ k) SlotSize s ∧
    (∀ s1, s ≤ s1 → s1 + 3 * 2 ^ k < 4294967296 →
      GetAlignedArgumentStackSize (2 ^ k) SlotSize s ≤
        GetAlignedArgumentStackSize (2 ^ k) SlotSize s1) := by
  have hA : 0 < 2 ^ k := Nat.one_le_two_pow
  have hc : (2 ^ k - SlotSize) % 2 ^ k = 2 ^ k - SlotSize := Nat.mod_eq_of_lt (by omega)
  -- bounds and residue, for any argument
  have bounds : ∀ u, u + 2 * 2 ^ k < 4294967296 →
      u ≤ GetAlignedArgumentStackSize (2 ^ k) SlotSize u ∧
      GetAlignedArgumentStackSize (2 ^ k) SlotSize u < u + 2 ^ k ∧
      GetAlignedArgumentStackSize (2 ^ k) SlotSize u % 2 ^ k = 2 ^ k - SlotSize := by
    intro u hu
    have hdm := Nat.div_add_mod u (2 ^ k)
    have hm : u % 2 ^ k < 2 ^ k := Nat.mod_lt _ hA
    have hmul : 2 ^ k * (u / 2 ^ k + 1) = 2 ^ k * (u / 2 ^ k) + 2 ^ k := by
      rw [Nat.mul_add, Nat.mul_one]
    rw [GetAlignedArgumentStackSize_eq k SlotSize u hSS hu]
    by_cases hcase : u % 2 ^ k ≤ 2 ^ k - SlotSize
    · rw [if_pos hcase, Nat.mul_add_mod, hc]
      omega
    · rw [if_neg hcase, Nat.mul_add_mod, hc]
      omega
  have least : ∀ u, u + 2 * 2 ^ k < 4294967296 → ∀ t, u ≤ t →
      t % 2 ^ k = 2 ^ k - SlotSize → GetAlignedArgumentStackSize (2 ^ k) SlotSize u ≤ t := by
    intro u hu t hut ht
    obtain ⟨_, b2, b3⟩ := bounds u hu
    have hdr := Nat.div_add_mod (GetAlignedArgumentStackSize (2 ^ k) SlotSize u) (2 ^ k)
    have hdt := Nat.div_add_mod t (2 ^ k)
    rw [b3] at hdr
    rw [ht] at hdt
    by_contra hlt
    have hq : t / 2 ^ k + 1 ≤ GetAlignedArgumentStackSize (2 ^ k) SlotSize u / 2 ^ k := by
      by_contra hq
      have hle : GetAlignedArgumentStackSize (2 ^ k) SlotSize u / 2 ^ k ≤ t / 2 ^ k := by
        omega
      have := Nat.mul_le_mul_left (2 ^ k) hle
      omega
    have h1 := Nat.mul_le_mul_left (2 ^ k) hq
    rw [Nat.mul_add, Nat.mul_one] at h1
    omega
  obtain ⟨b1, b2, b3⟩ := bounds s (by omega)
  refine ⟨b1, b2, by rw [hc]; exact b3, ?_, ?_, ?_⟩
  · intro t hst ht
    rw [hc] at ht
    exact least s (by omega) t hst ht
  · have hr := bounds (GetAlignedArgumentStackSize (2 ^ k) SlotSize s) (by omega)
    have hl := least (GetAlignedArgumentStackSize (2 ^ k) SlotSize s) (by omega)
      (GetAlignedArgumentStackSize (2 ^ k) SlotSize s) (le_refl _) b3
    omega
  · intro s1 hs1 hs1b
    obtain ⟨c1, _, c3⟩ := bounds s1 (by omega)
    exact least s (by omega) _ (by omega) c3

/-- Witness of `GetAlignedArgumentStackSize_least`: for a 16-byte alignment and 4-byte
slots, the stack size 20 is aligned to 28, which is aligned to itself. -/
theorem GetAlignedArgumentStackSize_least_witness :
    20 ≤ GetAlignedArgumentStackSize (2 ^ 4) 4 20 ∧
    GetAlignedArgumentStackSize (2 ^ 4) 4 20 < 20 + 2 ^ 4 ∧
    GetAlignedArgumentStackSize (2 ^ 4) 4 (GetAlignedArgumentStackSize (2 ^ 4) 4 20) =
      GetAlignedArgumentStackSize (2 ^ 4) 4 20 :=
  have h := GetAlignedArgumentStackSize_least 4 4 20 (by decide) (by decide) (by decide)
  ⟨h.1, h.2.1, h.2.2.2.2.1⟩

end ISel

namespace ISel

theorem LowerReturnLoop_keeps (RVLocs : List CCValAssign) :
    ∀ (OutVals : List SDNode) (S S1 : ReturnState),
      LowerReturnLoop RVLocs OutVals S = some S1 → ∃ t, S1.RetOps = S.RetOps ++ t := by
  induction RVLocs with
  | nil =>
    intro OutVals S S1 h
    simp only [LowerReturnLoop, Option.some.injEq] at h
    exact ⟨[], by rw [← h]; simp⟩
  | cons VA rest ih =>
    intro OutVals S S1 h
    unfold LowerReturnLoop at h
    split at h
    · obtain ⟨t, ht⟩ := ih _ _ _ h
      exact ⟨_, by rw [ht, List.append_assoc]⟩
    · exact absurd h (by simp)

theorem LowerReturn_bytes_operand (PtrVT : EVT) (B SRetReturnReg : Nat)
    (RVLocs : List CCValAssign) (Chain : SDNode) (OutVals : List SDNode) (R : SDNode)
    (h : LowerReturn PtrVT B SRetReturnReg RVLocs Chain OutVals = some R) :
    R.hasOpcode NodeType.M68kISD_RET = true ∧
      R.getOperand 1 = some (SDNode.Constant B (EVT.Simple MVT.i32) true) := by
  unfold LowerReturn at h
  simp only at h
  cases hL : LowerReturnLoop RVLocs OutVals
      { Chain := Chain, Flag := none,
        RetOps := [Chain, SDNode.Constant B (EVT.Simple MVT.i32) true] } with
  | none => rw [hL] at h; simp at h
  | some S =>
    rw [hL] at h
    obtain ⟨t, ht⟩ := LowerReturnLoop_keeps RVLocs OutVals _ S hL
    simp only [List.cons_append, List.nil_append] at ht
    simp only [ht] at h
    by_cases hs : SRetReturnReg ≠ 0
    · rw [if_pos hs] at h
      simp only [Option.some.injEq] at h
      rw [← h]
      simp [SDNode.hasOpcode, SDNode.getOperand]
    · rw [if_neg hs] at h
      simp only [Option.some.injEq] at h
      rw [← h, ht]
      simp [SDNode.hasOpcode, SDNode.getOperand]

end ISel

namespace ExpandPseudo

/-- C40: on a target that is at least a 68020, expanding a return placeholder with
cleanup count n fails (`llvm_unreachable`) for every n in 1..65535, so that nothing is
emitted, and it succeeds only for n = 0, with the plain return.  `LowerFormalArguments`
records 4 bytes to pop when the first incoming argument is a struct-return pointer passed
on the stack and 0 otherwise, `LowerReturn` puts the recorded count into operand 1 of the
return node, and the return placeholder carrying the count of such a function fails to
expand on these targets. -/
theorem ExpandMI_RET_68020 (T : Target) (Pre : List MachineInstr) (MI : MachineInstr)
    (n : Int) (rest : List MachineOperand) (hOpc : MI.Opcode = Opcode.RET)
    (hOps : MI.Operands = MachineOperand.Imm n :: rest) (hT : T.atLeastM68020 = true) :
    (1 ≤ n ∧ n ≤ 65535 → ExpandMI T Pre MI = none) ∧
    (∀ r, ExpandMI T Pre MI = some r →
      n = 0 ∧ r = (true, Pre ++ [BuildMI T Opcode.RTS []])) ∧
    (n = 0 → ExpandMI T Pre MI = some (true, Pre ++ [BuildMI T Opcode.RTS []])) ∧
    (∀ CCID isVarArg G StackSize Ins,
      ISel.LowerFormalArguments_BytesToPop CCID isVarArg G StackSize Ins =
        if ISel.argsAreStructReturn Ins = ISel.StructReturnType.StackStructReturn then 4
        else 0) ∧
    (∀ PtrVT B SRetReturnReg RVLocs Chain OutVals R,
      ISel.LowerReturn PtrVT B SRetReturnReg RVLocs Chain OutVals = some R →
      R.getOperand 1 = some (ISel.SDNode.Constant B (ISel.EVT.Simple ISel.MVT.i32) true)) ∧
    (∀ CCID isVarArg G StackSize (Flags : ISel.ArgSRetFlags) Ins,
      Flags.isSRet = true → Flags.isInReg = false →
      ExpandMI T Pre (retPlaceholder (Int.ofNat
        (ISel.LowerFormalArguments_BytesToPop CCID isVarArg G StackSize (Flags :: Ins)))) =
        none) := by
  have hE : ∀ (MI1 : MachineInstr) (m : Int) (rest1 : List MachineOperand),
      MI1.Opcode = Opcode.RET → MI1.Operands = MachineOperand.Imm m :: rest1 →
      ExpandMI T Pre MI1 =
        if m = 0 then some (true, Pre ++ [BuildMI T Opcode.RTS []]) else none := by
    intro MI1 m rest1 h1 h2
    simp only [ExpandMI, h1, ExpandRET, h2, hT, if_true]
    by_cases hm : m = 0
    · simp [hm]
    · simp only [hm, if_false]
      split <;> rfl
  have hMI := hE MI n rest hOpc hOps
  refine ⟨?_, ?_, ?_, ?_, ?_, ?_⟩
  · rintro ⟨h1, _⟩
    rw [hMI, if_neg (by omega)]
  · intro r hr
    rw [hMI] at hr
    by_cases hn : n = 0
    · rw [if_pos hn] at hr
      simp only [Option.some.injEq] at hr
      exact ⟨hn, hr.symm⟩
    · rw [if_neg hn] at hr
      exact absurd hr (by simp)
  · intro hn
    rw [hMI, if_pos hn]
  · intro CCID isVarArg G StackSize Ins
    simp [ISel.LowerFormalArguments_BytesToPop, ISel.isCalleePop, ISel.canGuaranteeTCO]
  · intro PtrVT B SRetReturnReg RVLocs Chain OutVals R hR
    exact (ISel.LowerReturn_bytes_operand PtrVT B SRetReturnReg RVLocs Chain OutVals R hR).2
  · intro CCID isVarArg G StackSize Flags Ins h1 h2
    have hB : ISel.LowerFormalArguments_BytesToPop CCID isVarArg G StackSize (Flags :: Ins)
        = 4 := by
      simp [ISel.LowerFormalArguments_BytesToPop, ISel.isCalleePop, ISel.canGuaranteeTCO,
        ISel.argsAreStructReturn, h1, h2]
    rw [hB, hE (retPlaceholder (Int.ofNat 4)) 4 [] rfl rfl]
    rfl

/-- Witness of `ExpandMI_RET_68020`: on a 68020 the return placeholder with cleanup count
4 fails to expand. -/
theorem ExpandMI_RET_68020_witness :
    ExpandMI { exampleTarget with atLeastM68020 := true } [] (retPlaceholder 4) = none :=
  (ExpandMI_RET_68020 { exampleTarget with atLeastM68020 := true } [] (retPlaceholder 4) 4 []
    rfl rfl rfl).1 (by decide)

end ExpandPseudo

namespace CollapseMOVEM

/-! ### Runs in strictly monotone mask order -/

theorem collapse_run_core (TRI : M68kRegisterInfo) (Reg : Nat) (isStore : Bool)
    (B : List MachineInstr) (ops : List (Int × Nat))
    (hReg : Reg = TRI.StackRegister ∨ Reg = TRI.BaseRegister ∨ Reg = TRI.FrameRegister)
    (hB : B.map operands = ops.map (fun p => some (p.2, p.1, Reg, isStore)))
    (hmask : ∀ p ∈ ops, p.2 ≠ 0 ∧ p.2 < 65536)
    (hoff : ∀ p ∈ ops, INT_MIN < p.1 ∧ p.1 ≤ INT_MAX)
    (hpw : ops.Pairwise (fun p q => p.2 &&& q.2 = 0))
    (hdir : ascendingRun ops = true ∨ descendingRun ops = true) :
    (2 ≤ ops.length →
      runOnMachineFunction TRI [B]
        = some (true, [[mergedInstr isStore Reg (lowestOffset ops) (orMasks ops)]])) ∧
    (ops.length = 1 → runOnMachineFunction TRI [B] = some (true, [B])) := by
  have hR : Reg ≠ 0 := by
    rcases hReg with h | h | h
    · rw [h]; exact TRI.stack_ne_zero
    · rw [h]; exact TRI.base_ne_zero
    · rw [h]; exact TRI.frame_ne_zero
  cases ops with
  | nil => simp
  | cons p rest =>
    cases B with
    | nil => simp at hB
    | cons MI B =>
      simp only [List.map_cons, List.cons.injEq] at hB
      obtain ⟨hMI, hB⟩ := hB
      obtain ⟨hM0, hM⟩ := hmask p (List.mem_cons_self _ _)
      obtain ⟨hO1, hO2⟩ := hoff p (List.mem_cons_self _ _)
      rw [List.pairwise_cons] at hpw
      obtain ⟨hp, hpw⟩ := hpw
      have hfirst := stepMI_first TRI MI p Reg isStore hReg hMI hM0 hM false []
      have hlen : B.length = rest.length := by
        have := congrArg List.length hB
        simpa using this
      -- the state after the first instruction
      obtain ⟨S1, hl, hBeg, hBase, hSt, hMask⟩ :
          ∃ S1, loopMBB TRI (false, [], MOVEMState.init) (MI :: B) = some (true, [], S1) ∧
            S1.Begin = MI :: B ∧ S1.Base = Reg ∧
            (S1.Start = lowestOffset (p :: rest) ∧ S1.Start ≠ INT_MIN) ∧
            S1.Mask = orMasks (p :: rest) ∧
            S1.Ty = if isStore then MoveType.Store else MoveType.Load := by
        rcases hdir with hasc | hdesc
        · obtain ⟨S1, h1, h2, h3, h4, h5, h6⟩ :=
            loop_ascending TRI Reg isStore hR B rest []
              { Begin := [MI], Base := Reg, Start := p.1, Stop := p.1, Mask := p.2,
                Ty := if isStore then MoveType.Store else MoveType.Load }
              hB rfl (isStore_ite _ isStore rfl).1 (ne_of_gt hO1)
              (fun q hq => ⟨(hmask q (List.mem_cons_of_mem _ hq)).2,
                by rw [Nat.and_comm]; exact hp q hq,
                le_of_lt (hoff q (List.mem_cons_of_mem _ hq)).1,
                (hoff q (List.mem_cons_of_mem _ hq)).2⟩)
              hpw hasc
          refine ⟨S1, ?_, by simpa using h2, h3, ⟨?_, ?_⟩, ?_, h6⟩
          · simp only [loopMBB, hfirst]; exact h1
          · rw [h4]; exact (lowestOffset_ascending rest p p.2 hasc).symm
          · rw [h4]; exact ne_of_gt hO1
          · rw [h5]; simp [orMasks]
        · obtain ⟨S1, h1, h2, h3, h4, h4b, h5, h6⟩ :=
            loop_descending TRI Reg isStore hR B rest []
              { Begin := [MI], Base := Reg, Start := p.1, Stop := p.1, Mask := p.2,
                Ty := if isStore then MoveType.Store else MoveType.Load }
              hB rfl (isStore_ite _ isStore rfl).1 (ne_of_gt hO1)
              (fun q hq => ⟨(hmask q (List.mem_cons_of_mem _ hq)).1,
                (hmask q (List.mem_cons_of_mem _ hq)).2,
                by rw [Nat.and_comm]; exact hp q hq,
                (hoff q (List.mem_cons_of_mem _ hq)).1,
                (hoff q (List.mem_cons_of_mem _ hq)).2⟩)
              hpw hdesc
          refine ⟨S1, ?_, by simpa using h2, h3, ⟨?_, h4b⟩, ?_, h6⟩
          · simp only [loopMBB, hfirst]; exact h1
          · rw [h4]; exact (lowestOffset_descending rest p p.2 hdesc).symm
          · rw [h5]; simp [orMasks]
      obtain ⟨hMask, hTy⟩ := hMask
      obtain ⟨hSt, hSt1⟩ := hSt
      have hhb : S1.hasBase = true := by simp [MOVEMState.hasBase, hBase, hR]
      obtain ⟨_, hLoad⟩ := isStore_ite S1 isStore hTy
      constructor
      · intro h2
        cases B with
        | nil =>
          simp only [List.length_nil] at hlen
          simp only [List.length_cons, ← hlen] at h2
          omega
        | cons MI2 B2 =>
          simp only [runOnMachineFunction, runOnBlocks, runOnMBB, endOfMBB, hl, hhb, Finish, hBeg]
          rw [hSt] at hSt1
          cases isStore <;>
            simp [hSt1, hBase, hR, hLoad, mergedInstr, hSt, hMask, runOnBlocks]
      · intro h1
        cases B with
        | nil =>
          simp only [runOnMachineFunction, runOnBlocks, runOnMBB, endOfMBB, hl, hhb, Finish, hBeg]
          simp [runOnBlocks]
        | cons MI2 B2 =>
          simp only [List.length_cons] at h1 hlen
          omega


theorem testBit_of_top (x t : Nat) (h1 : 2 ^ t ≤ x) (h2 : x < 2 ^ (t + 1)) :
    x.testBit t = true := by
  have hd : x / 2 ^ t = 1 := by
    apply Nat.div_eq_of_lt_le
    · omega
    · rw [pow_succ] at h2
      omega
  simp [Nat.testBit, Nat.shiftRight_eq_div_pow, hd]

theorem le_or_right (a b : Nat) : b ≤ a ||| b := by
  apply Nat.le_of_testBit
  intro i hi
  simp [Nat.testBit_or, hi]

theorem stepsUp_ascendingFrom :
    ∀ (rest : List (Int × Nat)) (p : Int × Nat) (acc t : Nat),
      2 ^ t ≤ p.2 → p.2 < 2 ^ (t + 1) → acc < 2 ^ (t + 1) →
      stepsUp (p :: rest) = true →
      (p :: rest).Pairwise (fun a b => a.2 &&& b.2 = 0) →
      ascendingFrom p.1 acc rest = true := by
  intro rest
  induction rest with
  | nil =>
    intro p acc t _ _ _ _ _
    rfl
  | cons q rest ih =>
    intro p acc t h1 h2 h3 hs hpw
    simp only [stepsUp, Bool.and_eq_true, decide_eq_true_eq] at hs
    obtain ⟨⟨hO, hlt⟩, hs1⟩ := hs
    rw [List.pairwise_cons] at hpw
    obtain ⟨hp, hpw1⟩ := hpw
    have hdisj : p.2 &&& q.2 = 0 := hp q (List.mem_cons_self _ _)
    have hq0 : q.2 ≠ 0 := by omega
    have hl1 : 2 ^ q.2.log2 ≤ q.2 := Nat.log2_self_le hq0
    have hl2 : q.2 < 2 ^ (q.2.log2 + 1) := Nat.lt_log2_self
    have ht : t < q.2.log2 := by
      by_contra hc
      rcases Nat.lt_or_eq_of_le (Nat.le_of_not_lt hc) with hlt2 | heq
      · have : 2 ^ (q.2.log2 + 1) ≤ 2 ^ t := Nat.pow_le_pow_right (by decide) hlt2
        omega
      · have hb1 := testBit_of_top p.2 t h1 h2
        have hb2 := testBit_of_top q.2 t (by rw [← heq]; exact hl1) (by rw [← heq]; exact hl2)
        have hb := congrArg (fun x => x.testBit t) hdisj
        simp [Nat.testBit_and, hb1, hb2] at hb
    have hpow : 2 ^ (t + 1) ≤ 2 ^ q.2.log2 := Nat.pow_le_pow_right (by decide) ht
    have hacc : acc < q.2 := by omega
    have hor : acc ||| q.2 < 2 ^ (q.2.log2 + 1) :=
      Nat.or_lt_two_pow (lt_of_lt_of_le h3
        (Nat.pow_le_pow_right (by decide) (by omega))) hl2
    simp only [ascendingFrom, Bool.and_eq_true, decide_eq_true_eq]
    exact ⟨⟨hO, hacc⟩, ih q (acc ||| q.2) q.2.log2 hl1 hl2 hor hs1 hpw1⟩

theorem stepsDown_descendingFrom :
    ∀ (rest : List (Int × Nat)) (p : Int × Nat) (acc : Nat),
      p.2 ≤ acc → stepsDown (p :: rest) = true →
      descendingFrom p.1 acc rest = true := by
  intro rest
  induction rest with
  | nil =>
    intro p acc _ _
    rfl
  | cons q rest ih =>
    intro p acc h1 hs
    simp only [stepsDown, Bool.and_eq_true, decide_eq_true_eq] at hs
    obtain ⟨⟨hO, hlt⟩, hs1⟩ := hs
    simp only [descendingFrom, Bool.and_eq_true, decide_eq_true_eq]
    exact ⟨⟨hO, by omega⟩, ih q (acc ||| q.2) (le_or_right acc q.2) hs1⟩

theorem lowestOffset_le : ∀ (ops : List (Int × Nat)), ∀ p ∈ ops, lowestOffset ops ≤ p.1 := by
  intro ops
  induction ops with
  | nil =>
    intro p hp
    simp at hp
  | cons a rest ih =>
    intro p hp
    cases rest with
    | nil =>
      simp only [List.mem_singleton] at hp
      rw [hp]
      exact le_refl _
    | cons b rest2 =>
      simp only [lowestOffset]
      rcases List.mem_cons.mp hp with h | h
      · rw [h]
        exact min_le_left _ _
      · exact le_trans (min_le_right _ _) (ih p h)

/-- C33: a block of N >= 2 adjacent MOVEMs on one stack/frame/base-pointer register and of
one direction, with pairwise-disjoint non-zero 16-bit masks, in which from each instruction
to the next either the mask strictly increases and the offset increases by exactly 4, or
the mask strictly decreases and the offset decreases by exactly 4, is replaced by exactly
one instruction whose mask is the OR of the N masks and whose offset is the least of the N
offsets.  Key step: in the increasing case each mask is numerically above the OR of all
masks before it. -/
theorem collapse_monotone_run (TRI : M68kRegisterInfo) (Reg : Nat) (isStore : Bool)
    (B : List MachineInstr) (ops : List (Int × Nat))
    (hReg : Reg = TRI.StackRegister ∨ Reg = TRI.BaseRegister ∨ Reg = TRI.FrameRegister)
    (hB : B.map operands = ops.map (fun p => some (p.2, p.1, Reg, isStore)))
    (hmask : ∀ p ∈ ops, p.2 ≠ 0 ∧ p.2 < 65536)
    (hoff : ∀ p ∈ ops, INT_MIN < p.1 ∧ p.1 ≤ INT_MAX)
    (hpw : ops.Pairwise (fun p q => p.2 &&& q.2 = 0))
    (hdir : stepsUp ops = true ∨ stepsDown ops = true) (hN : 2 ≤ ops.length) :
    runOnMachineFunction TRI [B]
        = some (true, [[mergedInstr isStore Reg (lowestOffset ops) (orMasks ops)]]) ∧
    (stepsUp ops = true → ascendingRun ops = true) ∧
    (∀ p ∈ ops, lowestOffset ops ≤ p.1) := by
  have hup : stepsUp ops = true → ascendingRun ops = true := by
    intro h
    cases ops with
    | nil => rfl
    | cons p rest =>
      have hp0 := (hmask p (List.mem_cons_self _ _)).1
      exact stepsUp_ascendingFrom rest p p.2 p.2.log2 (Nat.log2_self_le hp0)
        Nat.lt_log2_self Nat.lt_log2_self h hpw
  have hdown : stepsDown ops = true → descendingRun ops = true := by
    intro h
    cases ops with
    | nil => rfl
    | cons p rest => exact stepsDown_descendingFrom rest p p.2 (le_refl _) h
  have hdir2 : ascendingRun ops = true ∨ descendingRun ops = true := by
    rcases hdir with h | h
    · exact Or.inl (hup h)
    · exact Or.inr (hdown h)
  refine ⟨(collapse_run_core TRI Reg isStore B ops hReg hB hmask hoff hpw hdir2).1 hN, hup, ?_⟩
  exact lowestOffset_le ops

/-- Witness of `collapse_monotone_run`: three stores at offsets 0, 4, 8 with the masks 1,
6, 8 become one store with mask 15 at offset 0. -/
theorem collapse_monotone_run_witness :
    runOnMachineFunction exampleTRI
        [[MachineInstr.MOVM32pm 0 15 1, MachineInstr.MOVM32pm 4 15 6,
          MachineInstr.MOVM32pm 8 15 8]]
      = some (true, [[mergedInstr true 15 (lowestOffset [(0, 1), (4, 6), (8, 8)])
          (orMasks [(0, 1), (4, 6), (8, 8)])]]) :=
  (collapse_monotone_run exampleTRI 15 true
    [MachineInstr.MOVM32pm 0 15 1, MachineInstr.MOVM32pm 4 15 6, MachineInstr.MOVM32pm 8 15 8]
    [(0, 1), (4, 6), (8, 8)] (by decide) (by decide) (by decide) (by decide) (by decide)
    (by decide) (by decide)).1

end CollapseMOVEM


namespace ExpandPseudo

/-! ### The loop of `ExpandMBB` -/

theorem ExpandMI_default (T : Target) (Pre : List MachineInstr) (MI : MachineInstr)
    (h : isPlaceholder MI.Opcode = false) : ExpandMI T Pre MI = some (false, Pre ++ [MI]) := by
  unfold ExpandMI
  cases hO : MI.Opcode <;> rw [hO] at h <;> first | rfl | exact absurd h (by decide)

theorem ExpandCalls_flag (T : Target) :
    ∀ (MBB Pre : List MachineInstr) (m : Bool),
      ExpandLoop T m Pre MBB =
        (ExpandCalls T Pre MBB).map fun R => (m || R.1.any Prod.snd, R.2) := by
  intro MBB
  induction MBB with
  | nil =>
    intro Pre m
    simp [ExpandLoop, ExpandCalls]
  | cons MI rest ih =>
    intro Pre m
    simp only [ExpandLoop, ExpandCalls]
    cases hE : ExpandMI T Pre MI with
    | none => rfl
    | some q =>
      obtain ⟨r, Pre1⟩ := q
      simp only
      rw [ih Pre1 (m || r)]
      cases ExpandCalls T Pre1 rest with
      | none => rfl
      | some R => simp [Bool.or_assoc]

theorem ExpandCalls_instrs (T : Target) :
    ∀ (MBB Pre : List MachineInstr) (R : List (MachineInstr × Bool) × List MachineInstr),
      ExpandCalls T Pre MBB = some R →
      R.1.map Prod.fst = MBB ∧
      ∀ i MI r, R.1.get? i = some (MI, r) →
        ∃ Pre0 Pre1, ExpandMI T Pre0 MI = some (r, Pre1) := by
  intro MBB
  induction MBB with
  | nil =>
    intro Pre R h
    simp only [ExpandCalls, Option.some.injEq] at h
    subst h
    simp
  | cons MI rest ih =>
    intro Pre R h
    simp only [ExpandCalls] at h
    cases hE : ExpandMI T Pre MI with
    | none => simp [hE] at h
    | some q =>
      obtain ⟨r, Pre1⟩ := q
      rw [hE] at h
      simp only at h
      cases hC : ExpandCalls T Pre1 rest with
      | none => simp [hC] at h
      | some R1 =>
        rw [hC] at h
        simp only [Option.map_some', Option.some.injEq] at h
        subst h
        obtain ⟨h1, h2⟩ := ih Pre1 R1 hC
        refine ⟨by simp [h1], ?_⟩
        intro i MI1 r1 hi
        cases i with
        | zero =>
          simp only [List.get?_cons_zero, Option.some.injEq, Prod.mk.injEq] at hi
          obtain ⟨e1, e2⟩ := hi
          subst e1
          subst e2
          exact ⟨Pre, Pre1, hE⟩
        | succ j =>
          simp only [List.get?_cons_succ] at hi
          exact h2 j MI1 r1 hi

theorem ExpandTCRETURN_shape (T : Target) (Pre Pre1 : List MachineInstr) (MI : MachineInstr)
    (r : Bool) (h : ExpandTCRETURN T Pre MI = some (r, Pre1)) :
    (∃ t, Pre1 = Pre ++ t) ∨ ∃ t, Pre1 = (T.mergeSPUpdates Pre true).2 ++ t := by
  unfold ExpandTCRETURN at h
  split at h
  next JT SA tl heq =>
    simp only at h
    by_cases h1 : T.TCReturnAddrDelta ≤ 0
    · by_cases h2 : 0 ≤ toInt32 (toInt32 SA - T.TCReturnAddrDelta)
      · simp only [h1, h2, not_true_eq_false, if_false] at h
        cases hJ : buildTailJump T MI.Opcode JT with
        | none =>
          rw [hJ] at h
          simp at h
        | some J =>
          rw [hJ] at h
          simp only [Option.some.injEq, Prod.mk.injEq] at h
          by_cases h3 : toInt32 (toInt32 SA - T.TCReturnAddrDelta) ≠ 0
          · rw [if_pos h3] at h
            exact Or.inr ⟨_, by rw [← h.2, List.append_assoc]⟩
          · rw [if_neg h3] at h
            exact Or.inl ⟨_, h.2.symm⟩
      · simp [h1, h2] at h
    · simp [h1] at h
  next => simp at h

theorem ExpandRET_shape (T : Target) (Pre Pre1 : List MachineInstr) (MI : MachineInstr)
    (r : Bool) (h : ExpandRET T Pre MI = some (r, Pre1)) : ∃ t, Pre1 = Pre ++ t := by
  unfold ExpandRET at h
  split at h
  next SA tl heq =>
    by_cases h1 : SA = 0
    · rw [if_pos h1] at h
      simp only [Option.some.injEq, Prod.mk.injEq] at h
      exact ⟨_, h.2.symm⟩
    · rw [if_neg h1] at h
      by_cases h2 : isUInt16 SA = true
      · rw [if_pos h2] at h
        by_cases h3 : T.atLeastM68020 = true
        · rw [if_pos h3] at h
          simp at h
        · rw [if_neg h3] at h
          simp only [Option.some.injEq, Prod.mk.injEq] at h
          rw [← h.2, List.append_assoc, List.append_assoc]
          exact ⟨_, rfl⟩
      · rw [if_neg h2] at h
        simp at h
  next => simp at h

theorem ExpandMI_shape (T : Target) (Pre Pre1 : List MachineInstr) (MI : MachineInstr)
    (r : Bool) (h : ExpandMI T Pre MI = some (r, Pre1)) :
    (∃ t, Pre1 = Pre ++ t) ∨
      ((MI.Opcode = Opcode.TCRETURNq ∨ MI.Opcode = Opcode.TCRETURNj) ∧
        ∃ t, Pre1 = (T.mergeSPUpdates Pre true).2 ++ t) := by
  unfold ExpandMI at h
  cases hO : MI.Opcode
  case TCRETURNq =>
    rw [hO] at h
    rcases ExpandTCRETURN_shape T Pre Pre1 MI r h with h1 | h1
    · exact Or.inl h1
    · exact Or.inr ⟨Or.inl rfl, h1⟩
  case TCRETURNj =>
    rw [hO] at h
    rcases ExpandTCRETURN_shape T Pre Pre1 MI r h with h1 | h1
    · exact Or.inl h1
    · exact Or.inr ⟨Or.inr rfl, h1⟩
  case RET =>
    rw [hO] at h
    exact Or.inl (ExpandRET_shape T Pre Pre1 MI r h)
  all_goals
    rw [hO] at h
    simp only [placeHelper, Option.some.injEq, Prod.mk.injEq] at h
    exact Or.inl ⟨_, h.2.symm⟩

theorem unrecognised_cons (MI : MachineInstr) (rest : List MachineInstr) :
    unrecognised (MI :: rest) =
      if isPlaceholder MI.Opcode = false then MI :: unrecognised rest
      else unrecognised rest := by
  unfold unrecognised
  cases h : isPlaceholder MI.Opcode <;> simp [List.filter_cons, h]

theorem sublist_unrecognised (L Pre : List MachineInstr)
    (hL : ∀ x ∈ L, isPlaceholder x.Opcode = false) (h : L.Sublist Pre) :
    L.Sublist (unrecognised Pre) := by
  have h1 : (unrecognised L).Sublist (unrecognised Pre) := h.filter _
  have h2 : unrecognised L = L := by
    unfold unrecognised
    rw [List.filter_eq_self]
    intro x hx
    simp [hL x hx]
  rw [h2] at h1
  exact h1

theorem ExpandLoop_keeps (T : Target) :
    ∀ (MBB Pre L out : List MachineInstr) (m m1 : Bool),
      (mergeKeepsUnrecognised T ∨ noTailCall MBB) →
      (∀ x ∈ L, isPlaceholder x.Opcode = false) → L.Sublist Pre →
      ExpandLoop T m Pre MBB = some (m1, out) →
      (L ++ unrecognised MBB).Sublist out := by
  intro MBB
  induction MBB with
  | nil =>
    intro Pre L out m m1 _ _ hsub h
    simp only [ExpandLoop, Option.some.injEq, Prod.mk.injEq] at h
    rw [← h.2]
    simpa [unrecognised] using hsub
  | cons MI rest ih =>
    intro Pre L out m m1 hK hL hsub h
    simp only [ExpandLoop] at h
    cases hE : ExpandMI T Pre MI with
    | none => simp [hE] at h
    | some q =>
      obtain ⟨r, Pre1⟩ := q
      rw [hE] at h
      simp only at h
      have hK1 : mergeKeepsUnrecognised T ∨ noTailCall rest := by
        rcases hK with hK | hK
        · exact Or.inl hK
        · exact Or.inr (fun x hx => hK x (List.mem_cons_of_mem _ hx))
      rw [unrecognised_cons]
      by_cases hp : isPlaceholder MI.Opcode = false
      · rw [if_pos hp]
        rw [ExpandMI_default T Pre MI hp] at hE
        simp only [Option.some.injEq, Prod.mk.injEq] at hE
        have h1 : (L ++ [MI]).Sublist Pre1 := by
          rw [← hE.2]
          exact List.Sublist.append hsub (List.Sublist.refl _)
        have h2 := ih Pre1 (L ++ [MI]) out _ m1 hK1 (by
          intro x hx
          rcases List.mem_append.mp hx with hx | hx
          · exact hL x hx
          · simp only [List.mem_singleton] at hx
            rw [hx]
            exact hp) h1 h
        simpa using h2
      · rw [if_neg hp]
        have h1 : L.Sublist Pre1 := by
          rcases ExpandMI_shape T Pre Pre1 MI r hE with ⟨t, ht⟩ | ⟨hO, t, ht⟩
          · rw [ht]
            exact hsub.trans (List.sublist_append_left _ _)
          · rcases hK with hK | hK
            · rw [ht]
              exact ((sublist_unrecognised L Pre hL hsub).trans (hK Pre true)).trans
                (List.sublist_append_left _ _)
            · have := hK MI (List.mem_cons_self _ _)
              rcases hO with hO | hO
              · exact absurd hO this.1
              · exact absurd hO this.2
        exact ih Pre1 L out _ m1 hK1 hL h1 h

/-- C31 (amended): `ExpandMBB` calls `ExpandMI` exactly once on each instruction present
in the block on entry, in block order, and on no other instruction; the flag it returns
is the OR of the flags of these calls; a call on an instruction of an unrecognised opcode
returns false and leaves the instruction in place.  When the block holds no tail-call
placeholder, or `mergeSPUpdates` of the frame lowering keeps the instructions of
unrecognised opcodes, the instructions of unrecognised opcodes appear in the block
afterwards, unchanged and in their original order; a block of such instructions only is
returned unchanged with the flag false. -/
theorem ExpandMBB_single_pass (T : Target) (MBB : List MachineInstr) :
    (ExpandMBB T MBB = (ExpandCalls T [] MBB).map fun R => (R.1.any Prod.snd, R.2)) ∧
    (∀ R, ExpandCalls T [] MBB = some R →
      R.1.map Prod.fst = MBB ∧
      ∀ i MI r, R.1.get? i = some (MI, r) →
        ∃ Pre0 Pre1, ExpandMI T Pre0 MI = some (r, Pre1)) ∧
    (∀ Pre MI, isPlaceholder MI.Opcode = false →
      ExpandMI T Pre MI = some (false, Pre ++ [MI])) ∧
    (mergeKeepsUnrecognised T ∨ noTailCall MBB →
      ∀ m out, ExpandMBB T MBB = some (m, out) → (unrecognised MBB).Sublist out) ∧
    ((∀ MI ∈ MBB, isPlaceholder MI.Opcode = false) → ExpandMBB T MBB = some (false, MBB)) := by
  refine ⟨?_, ?_, ?_, ?_, ?_⟩
  · unfold ExpandMBB
    rw [ExpandCalls_flag T MBB [] false]
    simp
  · intro R hR
    exact ExpandCalls_instrs T MBB [] R hR
  · intro Pre MI h
    exact ExpandMI_default T Pre MI h
  · intro hK m out h
    have := ExpandLoop_keeps T MBB [] [] out false m hK (by simp) (List.Sublist.refl _) h
    simpa using this
  · intro hAll
    have key : ∀ (B Pre : List MachineInstr), (∀ MI ∈ B, isPlaceholder MI.Opcode = false) →
        ExpandLoop T false Pre B = some (false, Pre ++ B) := by
      intro B
      induction B with
      | nil =>
        intro Pre _
        simp [ExpandLoop]
      | cons MI rest ih =>
        intro Pre hB
        simp only [ExpandLoop, ExpandMI_default T Pre MI (hB MI (List.mem_cons_self _ _))]
        rw [Bool.or_false, ih (Pre ++ [MI]) (fun x hx => hB x (List.mem_cons_of_mem _ hx))]
        simp
    simpa [ExpandMBB] using key MBB [] hAll

/-- C31 fails as stated: with a frame lowering that merges a preceding stack-pointer
update, the expansion of a tail-call placeholder removes the instruction before it,
which has an unrecognised opcode: the block of a stack-pointer update by 8 and a tail call
with stack adjustment 4 becomes one update by 12 and the jump. -/
theorem ExpandMBB_merge_removes :
    isPlaceholder (Opcode.other 0) = false ∧
    ExpandMBB mergingTarget
        [{ Opcode := Opcode.other 0, Operands := [MachineOperand.Imm 8], ImplicitOps := [] },
         tailCallPlaceholder Opcode.TCRETURNq (MachineOperand.GlobalAddress 7 0 0) 4 []] =
      some (true,
        [{ Opcode := Opcode.other 0, Operands := [MachineOperand.Imm 12], ImplicitOps := [] },
         { Opcode := Opcode.TAILJMPq, Operands := [MachineOperand.GlobalAddress 7 0 0],
           ImplicitOps := [] }]) := by
  decide

end ExpandPseudo

namespace ISel

/-- C36 fails: under the stated meaning of the flags (the bit test sets Z exactly when the
tested bit is 0, COND_EQ holds iff Z is set, COND_NE iff Z is clear), the condition that
`getBitTestCondition` returns, a SETCC over the bit test with COND_NE for SETEQ and
COND_EQ for SETNE, holds exactly when the comparison `((Src >> BitNo) & 1) CC 0` does NOT
hold, for every value and bit number. -/
theorem getBitTestCondition_inverted (Src BitNo : SDNode) :
    (∃ Src1 BitNo1,
      getBitTestCondition Src BitNo ISD.CondCode.SETEQ =
        SDNode.Node NodeType.M68kISD_SETCC [EVT.Simple MVT.i8]
          [SDNode.Constant CondCode.COND_NE.toNat (EVT.Simple MVT.i8) false,
           SDNode.Node NodeType.M68kISD_BT [EVT.Simple MVT.i32] [Src1, BitNo1]] ∧
      getBitTestCondition Src BitNo ISD.CondCode.SETNE =
        SDNode.Node NodeType.M68kISD_SETCC [EVT.Simple MVT.i8]
          [SDNode.Constant CondCode.COND_EQ.toNat (EVT.Simple MVT.i8) false,
           SDNode.Node NodeType.M68kISD_BT [EVT.Simple MVT.i32] [Src1, BitNo1]]) ∧
    (∀ x n b, bitCompare ISD.CondCode.SETEQ x n = some b →
      condOnZ CondCode.COND_NE (bitTestZ x n) = some (!b)) ∧
    (∀ x n b, bitCompare ISD.CondCode.SETNE x n = some b →
      condOnZ CondCode.COND_EQ (bitTestZ x n) = some (!b)) ∧
    bitCompare ISD.CondCode.SETEQ 0 0 = some true ∧
    condOnZ CondCode.COND_NE (bitTestZ 0 0) = some false := by
  have hbit : ∀ x n : Nat, ((x >>> n) &&& 1 == 0) = !x.testBit n := by
    intro x n
    have h1 : (x >>> n) &&& 1 = (x >>> n) % 2 := Nat.and_one_is_mod _
    rw [h1, Nat.testBit, Nat.and_comm, h1]
    rcases Nat.mod_two_eq_zero_or_one (x >>> n) with h | h <;> simp [h]
  refine ⟨⟨_, _, rfl, rfl⟩, ?_, ?_, by decide, by decide⟩
  · intro x n b h
    simp only [bitCompare, Option.some.injEq] at h
    rw [← h, hbit]
    simp [condOnZ, bitTestZ]
  · intro x n b h
    simp only [bitCompare, Option.some.injEq] at h
    have : ((x >>> n) &&& 1 != 0) = x.testBit n := by
      have := hbit x n
      simp only [bne, this, Bool.not_not]
    rw [← h, this]
    simp [condOnZ, bitTestZ]

/-- C37: `LowerCall` always reaches its decision (the assertion on variable arguments
cannot fail), and for every call it lowers as a tail call the frame-pointer difference
FPDiff is 0: the stack adjustment operand of the tail-call node is 0, the return address
is neither loaded nor stored, and the tail-call return-address delta of the side-table is
unchanged; a tail call that is not a must-tail call is a sibling call; and the
eligibility predicate is false whenever guaranteed tail-call optimisation is enabled. -/
theorem LowerCall_tail_FPDiff (disableTailCalls isTailCall IsMustTail : Bool)
    (Q : TailCallQuery) (AlignedCallFrameSize StackAlignment SlotSize : Nat)
    (TCReturnAddrDelta : Int) :
    (∃ P, LowerCall disableTailCalls isTailCall IsMustTail Q AlignedCallFrameSize
        StackAlignment SlotSize TCReturnAddrDelta = some P ∧
      (P.isTailCall = true →
        P.FPDiff = 0 ∧ P.StackAdjust = some 0 ∧ P.LoadsRetAddr = false ∧
        P.StoresRetAddr = false ∧ P.TCReturnAddrDelta = TCReturnAddrDelta ∧
        (IsMustTail = false → P.IsSibcall = true ∧ P.NumBytes = 0))) ∧
    (Q.GuaranteedTailCallOpt = true → IsEligibleForTailCallOptimization Q = false) := by
  have hG : Q.GuaranteedTailCallOpt = true → IsEligibleForTailCallOptimization Q = false := by
    intro h
    simp [IsEligibleForTailCallOptimization, canGuaranteeTCO, h]
  refine ⟨?_, hG⟩
  simp only [LowerCall, canGuaranteeTCO, Bool.and_false, Bool.false_eq_true, if_false]
  refine ⟨_, rfl, ?_⟩
  intro hT
  simp only at hT ⊢
  cases IsMustTail with
  | true => simp
  | false =>
    simp only [Bool.false_eq_true, if_false] at hT ⊢
    cases hd : disableTailCalls with
    | true => simp [hd] at hT
    | false =>
      simp only [hd, Bool.false_eq_true, if_false] at hT ⊢
      cases ht : isTailCall with
      | false => simp [ht] at hT
      | true =>
        simp only [ht, if_true] at hT ⊢
        cases hg : Q.GuaranteedTailCallOpt with
        | true =>
          rw [hG hg] at hT
          exact absurd hT (by decide)
        | false => simp [hT]

/-- Witness of `LowerCall_tail_FPDiff`: the eligible call of `stackCallQuery` is lowered as
a sibling call with stack adjustment 0. -/
theorem LowerCall_tail_FPDiff_witness :
    (LowerCall false true false stackCallQuery 8 4 4 (-4)).map TailCallPlan.isTailCall =
      some true ∧
    ∃ P, LowerCall false true false stackCallQuery 8 4 4 (-4) = some P ∧
      (P.isTailCall = true →
        P.FPDiff = 0 ∧ P.StackAdjust = some 0 ∧ P.LoadsRetAddr = false ∧
        P.StoresRetAddr = false ∧ P.TCReturnAddrDelta = -4 ∧
        (false = false → P.IsSibcall = true ∧ P.NumBytes = 0)) :=
  ⟨by decide, (LowerCall_tail_FPDiff false true false stackCallQuery 8 4 4 (-4)).1⟩

end ISel

namespace ISel

/-! ### Widening of 16-bit comparisons -/

theorem signedValue_sext (a : Nat) :
    signedValue 32 (evalSIGN_EXTEND 16 32 a) = signedValue 16 a := by
  unfold evalSIGN_EXTEND signedValue
  have h1 : a % 2 ^ 16 < 65536 := Nat.mod_lt _ (by decide)
  norm_num only at h1 ⊢
  split_ifs <;> omega

theorem TranslateM68kCC_integer_codes (CC : ISD.CondCode) (Op0 Op1 : SDNode)
    (cc : CondCode) (L R : SDValue)
    (h : TranslateM68kCC CC false Op0.toSDValue Op1.toSDValue = some (cc, L, R)) :
    (isM68kCCUnsigned cc).isSome = true ∨
      ((cc = CondCode.COND_PL ∨ cc = CondCode.COND_MI) ∧
        isNullConstant (rhsAfterTranslate Op1 R) = true) := by
  have hint : ∀ c, TranslateIntegerM68kCC CC = some c → (isM68kCCUnsigned c).isSome = true := by
    intro c hc
    cases CC <;> simp [TranslateIntegerM68kCC] at hc <;> subst hc <;> rfl
  have hvia : (match TranslateIntegerM68kCC CC with
      | none => none
      | some c => some (c, Op0.toSDValue, Op1.toSDValue)) = some (cc, L, R) →
      (isM68kCCUnsigned cc).isSome = true := by
    intro hv
    cases hc : TranslateIntegerM68kCC CC with
    | none => rw [hc] at hv; simp at hv
    | some c =>
      rw [hc] at hv
      simp only [Option.some.injEq, Prod.mk.injEq] at hv
      rw [← hv.1]
      exact hint c hc
  unfold TranslateM68kCC at h
  simp only [Bool.false_eq_true, not_false_eq_true, if_true] at h
  cases Op1 with
  | Constant Val VT isT =>
    simp only [SDNode.toSDValue] at h hvia
    by_cases c1 : CC = ISD.CondCode.SETGT ∧ isAllOnesValue VT.getSizeInBits Val = true
    · rw [if_pos c1] at h
      simp only [Option.some.injEq, Prod.mk.injEq] at h
      refine Or.inr ⟨Or.inl h.1.symm, ?_⟩
      rw [← h.2.2]
      unfold rhsAfterTranslate
      split_ifs with he
      · simp only [SDNode.toSDValue, SDValue.Constant.injEq, true_and] at he
        simp [isNullConstant, ← he]
      · simp [isNullConstant, SDNode.getValueType]
    · rw [if_neg c1] at h
      by_cases c2 : CC = ISD.CondCode.SETLT ∧ isNullValue VT.getSizeInBits Val = true
      · rw [if_pos c2] at h
        simp only [Option.some.injEq, Prod.mk.injEq] at h
        refine Or.inr ⟨Or.inr h.1.symm, ?_⟩
        rw [← h.2.2]
        have hz := c2.2
        simp only [isNullValue] at hz
        simp [rhsAfterTranslate, SDNode.toSDValue, isNullConstant, hz]
      · rw [if_neg c2] at h
        by_cases c3 : CC = ISD.CondCode.SETLT ∧ getZExtValue VT.getSizeInBits Val = 1
        · rw [if_pos c3] at h
          simp only [Option.some.injEq, Prod.mk.injEq] at h
          rw [← h.1]
          exact Or.inl rfl
        · rw [if_neg c3] at h
          exact Or.inl (hvia h)
  | Leaf id VT => exact Or.inl (hvia h)
  | Register Rg VT => exact Or.inl (hvia h)
  | Node Opc VTs Ops => exact Or.inl (hvia h)
  | Res N i => exact Or.inl (hvia h)
  | LibCall LC RetVT Args S => exact Or.inl (hvia h)

/-- C39: `isM68kCCUnsigned` is true for EQ, NE, CS, HI, LS, CC, false for GT, GE, LT, LE
and aborts on every other code.  When `EmitCmp` compares 16-bit operands of which one is a
constant (and not at minimum size), it widens both to 32 bits, by zero-extension when
`isM68kCCUnsigned` is true and by sign-extension otherwise.  Every code that the integer
path of `LowerSETCC` passes to `EmitCmp` is one of the ten, or is PL or MI together with
a zero constant as second operand, for which `EmitCmp` calls `EmitTest` and not
`isM68kCCUnsigned`.  For all 16-bit a and b and each of the ten codes the widened 32-bit
comparison holds exactly when the 16-bit comparison holds. -/
theorem EmitCmp_widening (EmitTest : SDNode → CondCode → SDNode) :
    (∀ cc, isM68kCCUnsigned cc =
      if cc ∈ [CondCode.COND_EQ, CondCode.COND_NE, CondCode.COND_CS, CondCode.COND_HI,
        CondCode.COND_LS, CondCode.COND_CC] then some true
      else if cc ∈ [CondCode.COND_GT, CondCode.COND_GE, CondCode.COND_LT, CondCode.COND_LE]
        then some false
      else none) ∧
    (∀ Op0 Op1 cc u, Op0.getValueType = EVT.Simple MVT.i16 →
      isConstantSDNode Op0 = true ∨ isConstantSDNode Op1 = true →
      isNullConstant Op1 = false → isM68kCCUnsigned cc = some u →
      EmitCmp EmitTest false Op0 Op1 cc =
        some (SDNode.Res
          (SDNode.Node NodeType.M68kISD_SUB [EVT.Simple MVT.i32, EVT.Simple MVT.i8]
            [SDNode.Node (if u then NodeType.ZERO_EXTEND else NodeType.SIGN_EXTEND)
              [EVT.Simple MVT.i32] [Op0],
             SDNode.Node (if u then NodeType.ZERO_EXTEND else NodeType.SIGN_EXTEND)
              [EVT.Simple MVT.i32] [Op1]]) 1)) ∧
    (∀ hasMinSize Op0 Op1 CC cc L R,
      TranslateM68kCC CC false Op0.toSDValue Op1.toSDValue = some (cc, L, R) →
      (isM68kCCUnsigned cc).isSome = true ∨
        ((cc = CondCode.COND_PL ∨ cc = CondCode.COND_MI) ∧
          EmitCmp EmitTest hasMinSize Op0 (rhsAfterTranslate Op1 R) cc =
            some (EmitTest Op0 cc))) ∧
    (∀ hasMinSize Op0 Op1 CC,
      LowerSETCC_compare EmitTest hasMinSize Op0 Op1 CC = none →
      TranslateM68kCC CC false Op0.toSDValue Op1.toSDValue = none ∨
        Op0.getValueType = EVT.Simple MVT.i1) ∧
    (∀ cc u, isM68kCCUnsigned cc = some u → ∀ a b,
      compareHolds 32
          (if u then evalZERO_EXTEND 16 32 a else evalSIGN_EXTEND 16 32 a)
          (if u then evalZERO_EXTEND 16 32 b else evalSIGN_EXTEND 16 32 b) cc =
        compareHolds 16 a b cc ∧ (compareHolds 16 a b cc).isSome = true) := by
  refine ⟨?_, ?_, ?_, ?_, ?_⟩
  · intro cc
    cases cc <;> rfl
  · intro Op0 Op1 cc u hVT hC hN hU
    have hC1 : (Op0.getValueType = EVT.Simple MVT.i16 ∧
        (isConstantSDNode Op0 = true ∨ isConstantSDNode Op1 = true)) ∧ (!false) = true :=
      ⟨⟨hVT, hC⟩, rfl⟩
    simp only [EmitCmp, hN, Bool.false_eq_true, if_false, hVT, hU]
    rw [if_neg (by simp), if_pos (by simp)]
    rw [if_pos (by simpa using hC)]
    simp [SDNode.getValueType]
  · intro hasMinSize Op0 Op1 CC cc L R h
    rcases TranslateM68kCC_integer_codes CC Op0 Op1 cc L R h with h1 | ⟨h1, h2⟩
    · exact Or.inl h1
    · exact Or.inr ⟨h1, by simp [EmitCmp, h2]⟩
  · intro hasMinSize Op0 Op1 CC h
    unfold LowerSETCC_compare at h
    cases hT : TranslateM68kCC CC false Op0.toSDValue Op1.toSDValue with
    | none => exact Or.inl rfl
    | some q =>
      obtain ⟨cc, L, R⟩ := q
      rw [hT] at h
      simp only at h
      by_cases hI : cc = CondCode.COND_INVALID
      · rw [if_pos hI] at h
        exact absurd h (by simp)
      · rw [if_neg hI] at h
        right
        cases hE : EmitCmp EmitTest hasMinSize Op0 (rhsAfterTranslate Op1 R) cc with
        | some CCR => rw [hE] at h; exact absurd h (by simp)
        | none =>
          rcases TranslateM68kCC_integer_codes CC Op0 Op1 cc L R hT with h1 | ⟨_, h2⟩
          · unfold EmitCmp at hE
            obtain ⟨u, hu⟩ := Option.isSome_iff_exists.mp h1
            simp only [hu] at hE
            split_ifs at hE with c1 c2 c3 c4
            · exact c2.2
          · simp [EmitCmp, h2] at hE
  · intro cc u hU a b
    have ha : a % 2 ^ 16 < 65536 := Nat.mod_lt _ (by decide)
    have hb : b % 2 ^ 16 < 65536 := Nat.mod_lt _ (by decide)
    have hza : evalZERO_EXTEND 16 32 a % 2 ^ 32 = a % 2 ^ 16 := by
      unfold evalZERO_EXTEND
      norm_num only at ha ⊢
      omega
    have hzb : evalZERO_EXTEND 16 32 b % 2 ^ 32 = b % 2 ^ 16 := by
      unfold evalZERO_EXTEND
      norm_num only at hb ⊢
      omega
    cases cc <;> simp [isM68kCCUnsigned] at hU <;> subst hU <;>
      simp only [compareHolds, if_true, Bool.false_eq_true, if_false, hza, hzb,
        signedValue_sext, Option.isSome_some, and_self]

/-- Witness of `EmitCmp_widening`: the comparison of a 16-bit value with the constant 5
under COND_LT is widened by sign-extension. -/
theorem EmitCmp_widening_witness :
    EmitCmp (fun N _ => N) false (SDNode.Leaf 0 (EVT.Simple MVT.i16))
        (SDNode.Constant 5 (EVT.Simple MVT.i16) false) CondCode.COND_LT =
      some (SDNode.Res
        (SDNode.Node NodeType.M68kISD_SUB [EVT.Simple MVT.i32, EVT.Simple MVT.i8]
          [SDNode.Node (if false then NodeType.ZERO_EXTEND else NodeType.SIGN_EXTEND)
            [EVT.Simple MVT.i32] [SDNode.Leaf 0 (EVT.Simple MVT.i16)],
           SDNode.Node (if false then NodeType.ZERO_EXTEND else NodeType.SIGN_EXTEND)
            [EVT.Simple MVT.i32] [SDNode.Constant 5 (EVT.Simple MVT.i16) false]]) 1) :=
  (EmitCmp_widening (fun N _ => N)).2.1 (SDNode.Leaf 0 (EVT.Simple MVT.i16))
    (SDNode.Constant 5 (EVT.Simple MVT.i16) false) CondCode.COND_LT false rfl
    (Or.inr rfl) rfl rfl

end ISel

namespace ISel

/-! ### Dynamic stack allocation -/

theorem and_high_mask (n k s : Nat) (hk : k ≤ n) (hs : s < 2 ^ n) :
    s &&& (2 ^ n - 2 ^ k) = s - s % 2 ^ k := by
  have h1 : 2 ^ n - 2 ^ k = (2 ^ (n - k) - 1) <<< k := by
    rw [Nat.shiftLeft_eq, Nat.sub_mul, ← Nat.pow_add, Nat.sub_add_cancel hk, Nat.one_mul]
  have h2 : s - s % 2 ^ k = (s >>> k) <<< k := by
    rw [Nat.shiftLeft_eq, Nat.shiftRight_eq_div_pow]
    have := Nat.div_add_mod s (2 ^ k)
    rw [Nat.mul_comm] at this
    omega
  rw [h1, h2]
  apply Nat.eq_of_testBit_eq
  intro i
  simp only [Nat.testBit_and, Nat.testBit_shiftLeft, Nat.testBit_two_pow_sub_one,
    Nat.testBit_shiftRight]
  by_cases hi : k ≤ i
  · have e : k + (i - k) = i := by omega
    simp only [ge_iff_le, hi, decide_True, Bool.true_and, e]
    by_cases hn : i < n
    · have : i - k < n - k := by omega
      simp [this]
    · have hlt : s < 2 ^ i :=
        lt_of_lt_of_le hs (Nat.pow_le_pow_right (by decide) (by omega))
      simp [Nat.testBit_lt_two_pow hlt]
  · simp [hi]

/-- C32: without split stack, `LowerDYNAMIC_STACKALLOC` returns the merge of the value
`Result` and a chain that copies `Result` into the stack pointer, where `Result` is
`SP - Size`, ANDed with `-Align` exactly when `Align` exceeds the default stack alignment;
for `Align = 2^k` above the default the value r of `Result` is a multiple of `Align` with
`t - Align < r <= t`, where t is `SP - Size` modulo 2^32.  With split stack the result is
the merge of a `SEG_ALLOCA` node on a copy of `Size` into a virtual register and the
chain, without any of these nodes. -/
theorem LowerDYNAMIC_STACKALLOC_in_place (PtrVT : EVT) (Vreg SPReg StackAlign Align : Nat)
    (Chain Size : SDNode) (isT : Bool) (leaf : Nat → Nat) (reg : Register → Nat)
    (hSP : SPReg ≠ 0) (hAlign : Align < 4294967296) :
    (∃ Result,
      LowerDYNAMIC_STACKALLOC false PtrVT Vreg SPReg StackAlign (EVT.Simple MVT.i32) Chain Size
          (SDNode.Constant Align (EVT.Simple MVT.i32) isT) =
        some (SDNode.Node NodeType.MERGE_VALUES [EVT.Simple MVT.i32, EVT.Other]
          [Result,
           getCALLSEQ_END
             (getCopyToRegChain
               (SDNode.Res (getCopyFromReg (getCALLSEQ_START PtrVT Chain 0 0)
                 (Register.phys SPReg) (EVT.Simple MVT.i32)) 1)
               (Register.phys SPReg) Result)
             (SDNode.Constant 0 PtrVT true) (SDNode.Constant 0 PtrVT true) none]) ∧
      Result =
        (if Align > StackAlign then
          SDNode.Node NodeType.AND [EVT.Simple MVT.i32]
            [SDNode.Node NodeType.SUB [EVT.Simple MVT.i32]
              [getCopyFromReg (getCALLSEQ_START PtrVT Chain 0 0) (Register.phys SPReg)
                (EVT.Simple MVT.i32), Size],
             SDNode.Constant ((18446744073709551616 - Align) % 18446744073709551616)
               (EVT.Simple MVT.i32) false]
        else
          SDNode.Node NodeType.SUB [EVT.Simple MVT.i32]
            [getCopyFromReg (getCALLSEQ_START PtrVT Chain 0 0) (Register.phys SPReg)
              (EVT.Simple MVT.i32), Size]) ∧
      (Align ≤ StackAlign →
        (Result.eval leaf reg).1 =
          (reg (Register.phys SPReg) % 2 ^ 32 + 2 ^ 32 - (Size.eval leaf reg).1 % 2 ^ 32)
            % 2 ^ 32) ∧
      (∀ k, Align = 2 ^ k → StackAlign < Align →
        (Result.eval leaf reg).1 % Align = 0 ∧
        (Result.eval leaf reg).1 ≤
          (reg (Register.phys SPReg) % 2 ^ 32 + 2 ^ 32 - (Size.eval leaf reg).1 % 2 ^ 32)
            % 2 ^ 32 ∧
        (reg (Register.phys SPReg) % 2 ^ 32 + 2 ^ 32 - (Size.eval leaf reg).1 % 2 ^ 32)
            % 2 ^ 32 < (Result.eval leaf reg).1 + Align)) ∧
    LowerDYNAMIC_STACKALLOC true PtrVT Vreg SPReg StackAlign (EVT.Simple MVT.i32) Chain Size
        (SDNode.Constant Align (EVT.Simple MVT.i32) isT) =
      some (SDNode.Node NodeType.MERGE_VALUES [PtrVT, EVT.Other]
        [SDNode.Node NodeType.M68kISD_SEG_ALLOCA [PtrVT]
          [getCopyToRegChain (getCALLSEQ_START PtrVT Chain 0 0) (Register.phys Vreg) Size,
           SDNode.Register (Register.phys Vreg) PtrVT],
         getCALLSEQ_END
           (getCopyToRegChain (getCALLSEQ_START PtrVT Chain 0 0) (Register.phys Vreg) Size)
           (SDNode.Constant 0 PtrVT true) (SDNode.Constant 0 PtrVT true) none]) := by
  have hz : SDNode.getZExtValue Align (EVT.Simple MVT.i32) = some Align := by
    have h1 : Align % 2 ^ 32 = Align := Nat.mod_eq_of_lt (by norm_num; exact hAlign)
    simp only [SDNode.getZExtValue, EVT.getSizeInBits, MVT.getSizeInBits, h1]
    rw [if_pos (by omega)]
  have hm : Align % 4294967296 = Align := Nat.mod_eq_of_lt hAlign
  constructor
  · by_cases hgt : Align > StackAlign
    · refine ⟨_, ?_, (if_pos hgt).symm, ?_, ?_⟩
      · simp [LowerDYNAMIC_STACKALLOC, hz, hm, hSP, hgt, SDNode.getValueType,
          getCALLSEQ_END]
      · intro hle
        omega
      · intro k hk _
        have hk32 : k < 32 := by
          by_contra hc
          have : 2 ^ 32 ≤ 2 ^ k := Nat.pow_le_pow_right (by decide) (by omega)
          omega
        have hApos : 0 < 2 ^ k := Nat.one_le_two_pow
        have hA64 : (18446744073709551616 - Align) % 18446744073709551616 % 2 ^ 32
            = 2 ^ 32 - 2 ^ k := by
          rw [hk] at hAlign ⊢
          omega
        have hval : ((SDNode.Node NodeType.AND [EVT.Simple MVT.i32]
            [SDNode.Node NodeType.SUB [EVT.Simple MVT.i32]
              [getCopyFromReg (getCALLSEQ_START PtrVT Chain 0 0) (Register.phys SPReg)
                (EVT.Simple MVT.i32), Size],
             SDNode.Constant ((18446744073709551616 - Align) % 18446744073709551616)
               (EVT.Simple MVT.i32) false]).eval leaf reg).1 =
            ((reg (Register.phys SPReg) % 2 ^ 32 + 2 ^ 32 - (Size.eval leaf reg).1 % 2 ^ 32)
              % 2 ^ 32 &&& (2 ^ 32 - 2 ^ k)) % 2 ^ 32 := by
          simp only [SDNode.eval, SDNode.evalList, evalOp, getCopyFromReg, List.headD_cons,
            EVT.getSizeInBits, MVT.getSizeInBits, hA64, Nat.mod_mod]
        rw [hval]
        have ht : (reg (Register.phys SPReg) % 2 ^ 32 + 2 ^ 32 -
            (Size.eval leaf reg).1 % 2 ^ 32) % 2 ^ 32 < 2 ^ 32 := Nat.mod_lt _ (by decide)
        generalize (reg (Register.phys SPReg) % 2 ^ 32 + 2 ^ 32 -
            (Size.eval leaf reg).1 % 2 ^ 32) % 2 ^ 32 = t at ht ⊢
        rw [and_high_mask 32 k t (by omega) ht]
        have hmod : t % 2 ^ k < 2 ^ k := Nat.mod_lt _ hApos
        have hle : t - t % 2 ^ k ≤ t := Nat.sub_le _ _
        rw [Nat.mod_eq_of_lt (lt_of_le_of_lt hle ht), hk]
        have hdm := Nat.div_add_mod t (2 ^ k)
        have hr : t - t % 2 ^ k = 2 ^ k * (t / 2 ^ k) := by omega
        refine ⟨?_, hle, by omega⟩
        rw [hr]
        exact Nat.mul_mod_right _ _
    · refine ⟨_, ?_, (if_neg hgt).symm, ?_, ?_⟩
      · simp [LowerDYNAMIC_STACKALLOC, hz, hm, hSP, hgt, SDNode.getValueType,
          getCALLSEQ_END]
      · intro _
        simp only [SDNode.eval, SDNode.evalList, evalOp, getCopyFromReg, List.headD_cons,
          EVT.getSizeInBits, MVT.getSizeInBits, Nat.mod_mod]
      · intro k hk hlt
        omega
  · simp [LowerDYNAMIC_STACKALLOC, hz, SDNode.getValueType, getCALLSEQ_END]

end ISel

namespace ISel

/-- Witness of `LowerDYNAMIC_STACKALLOC_in_place`: with stack pointer 1000, size 24,
alignment 16 and default alignment 4 the new stack pointer is a multiple of 16 in
(960, 976]. -/
theorem LowerDYNAMIC_STACKALLOC_in_place_witness :
    (15 : Nat) ≠ 0 ∧ (16 : Nat) < 4294967296 ∧
    ∃ Result Ch,
      LowerDYNAMIC_STACKALLOC false (EVT.Simple MVT.i32) 100 15 4 (EVT.Simple MVT.i32)
          (SDNode.Leaf 0 EVT.Other) (SDNode.Constant 24 (EVT.Simple MVT.i32) false)
          (SDNode.Constant 16 (EVT.Simple MVT.i32) false) =
        some (SDNode.Node NodeType.MERGE_VALUES [EVT.Simple MVT.i32, EVT.Other]
          [Result, Ch]) ∧
      (Result.eval (fun _ => 0) (fun _ => 1000)).1 % 16 = 0 ∧
      (Result.eval (fun _ => 0) (fun _ => 1000)).1 ≤ 976 ∧
      976 < (Result.eval (fun _ => 0) (fun _ => 1000)).1 + 16 := by
  obtain ⟨R, h1, _, _, h4⟩ :=
    (LowerDYNAMIC_STACKALLOC_in_place (EVT.Simple MVT.i32) 100 15 4 16
      (SDNode.Leaf 0 EVT.Other) (SDNode.Constant 24 (EVT.Simple MVT.i32) false) false
      (fun _ => 0) (fun _ => 1000) (by decide) (by decide)).1
  exact ⟨by decide, by decide, R, _, h1, h4 4 (by decide) (by decide)⟩

end ISel
namespace ISel

/-! ### Selects of all ones -/

theorem isAllOnesConstant_eval (leaf : Nat → Nat) (reg : Register → Nat) (Op : SDNode)
    (h : isAllOnesConstant Op = true) :
    (Op.eval leaf reg).1 = 2 ^ Op.getValueType.getSizeInBits - 1 := by
  cases Op <;> simp [isAllOnesConstant] at h
  simp [SDNode.eval, SDNode.getValueType, h]

theorem isNullConstant_eval (leaf : Nat → Nat) (reg : Register → Nat) (Op : SDNode)
    (h : isNullConstant Op = true) : (Op.eval leaf reg).1 = 0 := by
  cases Op <;> simp [isNullConstant] at h
  simp [SDNode.eval, h]

theorem ones_or_mod (w y : Nat) : ((2 ^ w - 1) ||| y) % 2 ^ w = 2 ^ w - 1 := by
  apply Nat.eq_of_testBit_eq
  intro i
  simp only [Nat.testBit_mod_two_pow, Nat.testBit_or, Nat.testBit_two_pow_sub_one]
  by_cases hi : i < w <;> simp [hi]

theorem or_ones_mod (w y : Nat) : (y ||| (2 ^ w - 1)) % 2 ^ w = 2 ^ w - 1 := by
  rw [Nat.lor_comm]
  exact ones_or_mod w y

theorem ones_mod (w : Nat) : (2 ^ w - 1) % 2 ^ w = 2 ^ w - 1 :=
  Nat.mod_eq_of_lt (by have := @Nat.one_le_two_pow w; omega)

end ISel
namespace ISel

theorem LowerSELECT_allOnes_unfold (VT : EVT) (cc : CondCode) (X Op1 Op2 : SDNode)
    (hcc : cc = CondCode.COND_EQ ∨ cc = CondCode.COND_NE)
    (hones : isAllOnesConstant Op1 = true ∨ isAllOnesConstant Op2 = true) :
    LowerSELECT_allOnes VT (compareWithZero cc X) Op1 Op2 =
      some (some
        (if isNullConstant (if isAllOnesConstant Op2 then Op1 else Op2) ∧
            (isAllOnesConstant Op1 = decide (cc = CondCode.COND_NE)) then
          SDNode.Node NodeType.M68kISD_SETCC_CARRY [VT]
            [SDNode.Constant CondCode.COND_CS.toNat (EVT.Simple MVT.i8) false,
             SDNode.Res (SDNode.Node NodeType.M68kISD_SUB
               [X.getValueType, EVT.Simple MVT.i32]
               [SDNode.Constant 0 X.getValueType false, X]) 1]
        else
          let Res0 := SDNode.Node NodeType.M68kISD_SETCC_CARRY [VT]
            [SDNode.Constant CondCode.COND_CS.toNat (EVT.Simple MVT.i8) false,
             SDNode.Node NodeType.M68kISD_CMP [EVT.Simple MVT.i8]
               [SDNode.Constant 1 X.getValueType false, X]]
          let Res1 :=
            if isAllOnesConstant Op1 ≠ decide (cc = CondCode.COND_EQ) then
              getNOT Res0 VT
            else Res0
          if !isNullConstant Op2 then
            SDNode.Node NodeType.OR [VT]
              [Res1, if isAllOnesConstant Op2 then Op1 else Op2]
          else Res1)) := by
  have hor : (isAllOnesConstant Op1 = true ∨ isAllOnesConstant Op2 = true) := hones
  rcases hcc with rfl | rfl
  all_goals
    simp only [LowerSELECT_allOnes, compareWithZero, SDNode.hasOpcode, SDNode.getOperand,
      beq_self_eq_true, if_true, List.get?, Option.bind, isNullConstant, Nat.zero_mod,
      SDNode.getZExtValue, EVT.getSizeInBits, MVT.getSizeInBits, CondCode.toNat]
    norm_num [hor, SDNode.getValueType, getNOT]
    split_ifs <;> simp_all [SDNode.getValueType, getNOT]

end ISel
namespace ISel

/-- C35: for a select of type `VT` on the compare of `X` with zero under COND_EQ or
COND_NE, one of whose value operands is the constant of all ones, the step of
`LowerSELECT` returns a node whose value is the value of the select: operand 1 when the
comparison holds and operand 2 otherwise, for every value of `X` of the width of its type
and all values of the operands of the width of `VT`.  The carry of `(cmp c, x)` is
`x <u c`, that of `0 - x` is `x != 0`, and SETCC_CARRY is all ones for a set carry, as
`evalOp` has them. -/
theorem LowerSELECT_allOnes_value (VT : EVT) (cc : CondCode) (X Op1 Op2 : SDNode)
    (leaf : Nat → Nat) (reg : Register → Nat)
    (hcc : cc = CondCode.COND_EQ ∨ cc = CondCode.COND_NE)
    (hones : isAllOnesConstant Op1 = true ∨ isAllOnesConstant Op2 = true)
    (h1 : Op1.getValueType = VT) (h2 : Op2.getValueType = VT)
    (hX : 0 < X.getValueType.getSizeInBits)
    (hx : (X.eval leaf reg).1 < 2 ^ X.getValueType.getSizeInBits)
    (hy1 : (Op1.eval leaf reg).1 < 2 ^ VT.getSizeInBits)
    (hy2 : (Op2.eval leaf reg).1 < 2 ^ VT.getSizeInBits) :
    ∃ R c,
      LowerSELECT_allOnes VT (compareWithZero cc X) Op1 Op2 = some (some R) ∧
      compareHolds X.getValueType.getSizeInBits (X.eval leaf reg).1 0 cc = some c ∧
      (R.eval leaf reg).1 = evalSELECT c (Op1.eval leaf reg).1 (Op2.eval leaf reg).1 := by
  refine ⟨_, decide (((X.eval leaf reg).1 = 0) ↔ cc = CondCode.COND_EQ),
    LowerSELECT_allOnes_unfold VT cc X Op1 Op2 hcc hones, ?_, ?_⟩
  · rcases hcc with rfl | rfl
    · simp [compareHolds, Nat.mod_eq_of_lt hx]
    · simp [compareHolds, Nat.mod_eq_of_lt hx]
  · have hone : 1 % 2 ^ X.getValueType.getSizeInBits = 1 :=
      Nat.mod_eq_of_lt (Nat.one_lt_two_pow (by omega))
    have ha : isAllOnesConstant Op1 = true →
        (Op1.eval leaf reg).1 = 2 ^ VT.getSizeInBits - 1 := by
      intro h
      rw [isAllOnesConstant_eval leaf reg Op1 h, h1]
    have hb : isAllOnesConstant Op2 = true →
        (Op2.eval leaf reg).1 = 2 ^ VT.getSizeInBits - 1 := by
      intro h
      rw [isAllOnesConstant_eval leaf reg Op2 h, h2]
    have hn1 := isNullConstant_eval leaf reg Op1
    have hn2 := isNullConstant_eval leaf reg Op2
    have hm1 := Nat.mod_eq_of_lt hy1
    have hm2 := Nat.mod_eq_of_lt hy2
    have hom := ones_mod VT.getSizeInBits
    have hoo := ones_or_mod VT.getSizeInBits
    cases hA : isAllOnesConstant Op1 <;> cases hB : isAllOnesConstant Op2 <;>
    cases hN1 : isNullConstant Op1 <;> cases hN2 : isNullConstant Op2 <;>
    rcases hcc with rfl | rfl <;>
    simp only [hA, hB, Bool.false_eq_true, or_self, or_true, true_or] at hones <;>
    simp only [hA, hB, hN1, hN2, true_implies, Bool.false_eq_true, false_implies] at ha hb hn1 hn2 <;>
    by_cases hx0 : (X.eval leaf reg).1 = 0 <;>
    simp [hA, hB, hN1, hN2, hx0, getNOT, SDNode.eval, SDNode.evalList, evalOp, evalSELECT,
      hone, ha, hb, hn1, hn2, hm1, hm2, hom, hoo, or_ones_mod]
    all_goals omega

end ISel
namespace ISel

/-- Witness of `LowerSELECT_allOnes_value`: the select `(select (x == 0), -1, y)` of type
i32 on the leaves x (value 0) and y (value 7). -/
theorem LowerSELECT_allOnes_value_witness :
    ∃ R c,
      LowerSELECT_allOnes (EVT.Simple MVT.i32)
          (compareWithZero CondCode.COND_EQ (SDNode.Leaf 0 (EVT.Simple MVT.i32)))
          (SDNode.Constant 4294967295 (EVT.Simple MVT.i32) false)
          (SDNode.Leaf 1 (EVT.Simple MVT.i32)) = some (some R) ∧
      compareHolds (SDNode.Leaf 0 (EVT.Simple MVT.i32)).getValueType.getSizeInBits
        ((SDNode.Leaf 0 (EVT.Simple MVT.i32)).eval (fun i => 7 * i) (fun _ => 0)).1 0
        CondCode.COND_EQ = some c ∧
      (R.eval (fun i => 7 * i) (fun _ => 0)).1 =
        evalSELECT c
          ((SDNode.Constant 4294967295 (EVT.Simple MVT.i32) false).eval
            (fun i => 7 * i) (fun _ => 0)).1
          ((SDNode.Leaf 1 (EVT.Simple MVT.i32)).eval (fun i => 7 * i) (fun _ => 0)).1 :=
  LowerSELECT_allOnes_value (EVT.Simple MVT.i32) CondCode.COND_EQ
    (SDNode.Leaf 0 (EVT.Simple MVT.i32))
    (SDNode.Constant 4294967295 (EVT.Simple MVT.i32) false)
    (SDNode.Leaf 1 (EVT.Simple MVT.i32)) (fun i => 7 * i) (fun _ => 0)
    (Or.inl rfl) (Or.inl (by decide)) rfl rfl (by decide) (by decide) (by decide)
    (by decide)

end ISel
namespace ISel

/-! ### Renaming of the PHI operands -/

theorem buildPHIs_cons_CMOV (OppCC : CondCode) (Table : List (Nat × (Nat × Nat)))
    (Opc : CMOVOpcode) (D O1 : Nat) (K : Bool) (O2 : Nat) (C : CondCode) (KC : Bool)
    (rest : List MachineInstr) :
    buildPHIs OppCC Table (MachineInstr.CMOV Opc D O1 K O2 C KC :: rest) =
      MachineInstr.PHI D
        [(rewriteFirst Table (if C = OppCC then O2 else O1), MBB.copy0MBB),
         (rewriteSecond Table (if C = OppCC then O1 else O2), MBB.thisMBB)] ::
      buildPHIs OppCC
        ((D, (rewriteFirst Table (if C = OppCC then O2 else O1),
              rewriteSecond Table (if C = OppCC then O1 else O2))) :: Table) rest :=
  rfl

theorem lookup_cons_table (Table : List (Nat × (Nat × Nat))) (D d : Nat) (v : Nat × Nat) :
    List.lookup d ((D, v) :: Table) = if d = D then some v else Table.lookup d := by
  simp only [List.lookup]
  by_cases h : d = D
  · simp [h]
  · have : (d == D) = false := by simpa using h
    simp [h, this]

theorem rewrite_not_dest (D : List Nat) (Table : List (Nat × (Nat × Nat))) (r : Nat)
    (hT : ∀ d p, Table.lookup d = some p → p.1 ∉ D ∧ p.2 ∉ D)
    (hr : r ∈ D → (Table.lookup r).isSome = true) :
    rewriteFirst Table r ∉ D ∧ rewriteSecond Table r ∉ D := by
  unfold rewriteFirst rewriteSecond
  cases h : Table.lookup r with
  | some p => exact hT r p h
  | none =>
    have : r ∉ D := by
      intro hm
      have := hr hm
      rw [h] at this
      simp at this
    exact ⟨this, this⟩

theorem buildPHIs_operands (OppCC : CondCode) (D : List Nat) :
    ∀ (L : List MachineInstr) (Table : List (Nat × (Nat × Nat))),
      (∀ d p, Table.lookup d = some p → p.1 ∉ D ∧ p.2 ∉ D) →
      (∀ d ∈ D, d ∈ destRegs L ∨ (Table.lookup d).isSome = true) →
      usedOnlyLater L = true →
      ∀ P ∈ buildPHIs OppCC Table L, ∀ r ∈ phiOperands P, r ∉ D := by
  intro L
  induction L with
  | nil =>
    intro Table _ _ _ P hP
    simp [buildPHIs] at hP
  | cons I rest ih =>
    intro Table hT hK hU P hP
    simp only [usedOnlyLater, Bool.and_eq_true, List.all_eq_true, Bool.not_eq_true',
      List.contains_eq_any_beq, List.any_eq_false, beq_iff_eq] at hU
    cases I with
    | CMOV Opc D0 O1 K O2 C KC =>
      have hops : ∀ r, r = O1 ∨ r = O2 → r ∈ D → (Table.lookup r).isSome = true := by
        intro r hr hm
        rcases hK r hm with h | h
        · exfalso
          have h1 := hU.1 r (by
            simp only [selectOperands, List.mem_cons, List.mem_singleton, List.not_mem_nil,
              or_false]
            exact hr)
          exact h1 r h rfl
        · exact h
      have hA := rewrite_not_dest D Table (if C = OppCC then O2 else O1) hT
        (hops _ (by split_ifs <;> simp))
      have hB := rewrite_not_dest D Table (if C = OppCC then O1 else O2) hT
        (hops _ (by split_ifs <;> simp))
      rw [buildPHIs_cons_CMOV] at hP
      rcases List.mem_cons.mp hP with hP | hP
      · rw [hP]
        intro r hr
        simp only [phiOperands, List.map_cons, List.map_nil, List.mem_cons,
          List.mem_singleton, List.not_mem_nil, or_false] at hr
        rcases hr with hr | hr
        · rw [hr]
          exact hA.1
        · rw [hr]
          exact hB.2
      · refine ih _ ?_ ?_ hU.2 P hP
        · intro d p hd
          rw [lookup_cons_table] at hd
          by_cases hdD : d = D0
          · rw [if_pos hdD] at hd
            simp only [Option.some.injEq] at hd
            rw [← hd]
            exact ⟨hA.1, hB.2⟩
          · rw [if_neg hdD] at hd
            exact hT d p hd
        · intro d hd
          rw [lookup_cons_table]
          by_cases hdD : d = D0
          · right
            simp [hdD]
          · rw [if_neg hdD]
            rcases hK d hd with h | h
            · left
              simp only [destRegs, List.filterMap_cons, destReg, List.mem_cons] at h
              rcases h with h | h
              · exact absurd h hdD
              · exact h
            · exact Or.inr h
    | PHI d Inc =>
      exact ih Table hT (by simpa [destRegs, destReg] using hK) hU.2 P
        (by simpa [buildPHIs] using hP)
    | COPY d s =>
      exact ih Table hT (by simpa [destRegs, destReg] using hK) hU.2 P
        (by simpa [buildPHIs] using hP)
    | Bcc c t =>
      exact ih Table hT (by simpa [destRegs, destReg] using hK) hU.2 P
        (by simpa [buildPHIs] using hP)
    | other i a b =>
      exact ih Table hT (by simpa [destRegs, destReg] using hK) hU.2 P
        (by simpa [buildPHIs] using hP)

end ISel
namespace ISel

theorem rewrite_value (holds : CondCode → Bool) (CC : CondCode) (regs cur : Nat → Int)
    (Table : List (Nat × (Nat × Nat)))
    (hT : ∀ d p, Table.lookup d = some p → cur d = regs (if holds CC then p.2 else p.1))
    (hN : ∀ d, Table.lookup d = none → cur d = regs d) (r : Nat) :
    cur r = regs (if holds CC then rewriteSecond Table r else rewriteFirst Table r) := by
  unfold rewriteFirst rewriteSecond
  cases h : Table.lookup r with
  | some p => exact hT r p h
  | none =>
    rw [hN r h]
    simp

theorem execMerge_buildPHIs (holds : CondCode → Bool) (CC OppCC : CondCode)
    (hOpp : holds OppCC = !holds CC) (regs : Nat → Int) :
    ∀ (L : List MachineInstr) (Table : List (Nat × (Nat × Nat))) (cur : Nat → Int),
      (∀ I ∈ L, inRun CC OppCC I = true) →
      (∀ d p, Table.lookup d = some p → cur d = regs (if holds CC then p.2 else p.1)) →
      (∀ d, Table.lookup d = none → cur d = regs d) →
      execMerge (if holds CC then MBB.thisMBB else MBB.copy0MBB) regs cur
          (buildPHIs OppCC Table L) =
        L.foldl (execCMOV holds) cur := by
  intro L
  induction L with
  | nil =>
    intro Table cur _ _ _
    simp [buildPHIs, execMerge]
  | cons I rest ih =>
    intro Table cur hL hT hN
    have hI := hL I (List.mem_cons_self _ _)
    cases I with
    | CMOV Opc D O1 K O2 C KC =>
      have hne : CC ≠ OppCC := by
        intro h
        rw [← h] at hOpp
        cases hc : holds CC <;> simp [hc] at hOpp
      simp only [inRun, decide_eq_true_eq] at hI
      have hv : regs (if holds CC then rewriteSecond Table (if C = OppCC then O1 else O2)
            else rewriteFirst Table (if C = OppCC then O2 else O1)) =
          (if holds C then cur O2 else cur O1) := by
        rcases hI with hC | hC
        · have h1 : ¬ C = OppCC := by
            rw [hC]
            exact hne
          rw [if_neg h1, if_neg h1, hC]
          cases hc : holds CC
          · simp only [Bool.false_eq_true, if_false]
            have := rewrite_value holds CC regs cur Table hT hN O1
            rw [hc] at this
            simpa using this.symm
          · simp only [if_true]
            have := rewrite_value holds CC regs cur Table hT hN O2
            rw [hc] at this
            simpa using this.symm
        · rw [if_pos hC, if_pos hC, hC, hOpp]
          cases hc : holds CC
          · simp only [Bool.false_eq_true, if_false, Bool.not_false, if_true]
            have := rewrite_value holds CC regs cur Table hT hN O2
            rw [hc] at this
            simpa using this.symm
          · simp only [if_true, Bool.not_true, Bool.false_eq_true, if_false]
            have := rewrite_value holds CC regs cur Table hT hN O1
            rw [hc] at this
            simpa using this.symm
      have hstep : execMerge (if holds CC then MBB.thisMBB else MBB.copy0MBB) regs cur
          (buildPHIs OppCC Table (MachineInstr.CMOV Opc D O1 K O2 C KC :: rest)) =
          execMerge (if holds CC then MBB.thisMBB else MBB.copy0MBB) regs
            (Function.update cur D
              (regs (if holds CC then rewriteSecond Table (if C = OppCC then O1 else O2)
                else rewriteFirst Table (if C = OppCC then O2 else O1))))
            (buildPHIs OppCC
              ((D, (rewriteFirst Table (if C = OppCC then O2 else O1),
                    rewriteSecond Table (if C = OppCC then O1 else O2))) :: Table) rest) := by
        rw [buildPHIs_cons_CMOV]
        cases hc : holds CC <;> simp [execMerge]
      rw [hstep, List.foldl_cons]
      have hexec : execCMOV holds cur (MachineInstr.CMOV Opc D O1 K O2 C KC) =
          Function.update cur D (if holds C then cur O2 else cur O1) := rfl
      rw [hexec, ← hv]
      apply ih
      · intro J hJ
        exact hL J (List.mem_cons_of_mem _ hJ)
      · intro d p hd
        rw [lookup_cons_table] at hd
        by_cases hdD : d = D
        · rw [if_pos hdD] at hd
          simp only [Option.some.injEq] at hd
          rw [hdD, Function.update_same, ← hd]
        · rw [if_neg hdD] at hd
          rw [Function.update_noteq hdD]
          exact hT d p hd
      · intro d hd
        rw [lookup_cons_table] at hd
        by_cases hdD : d = D
        · rw [if_pos hdD] at hd
          simp at hd
        · rw [if_neg hdD] at hd
          rw [Function.update_noteq hdD]
          exact hN d hd
    | PHI d Inc => simp [inRun] at hI
    | COPY d s => simp [inRun] at hI
    | Bcc c t => simp [inRun] at hI
    | other i a b => simp [inRun] at hI

end ISel
namespace ISel

theorem EmitLoweredSelect_fused (Opp : CondCode → CondCode)
    (SuccLiveInCCR : MBB → Bool) (Pre : List MachineInstr) (Opc : CMOVOpcode)
    (D O1 : Nat) (K : Bool) (O2 : Nat) (CC : CondCode) (KC : Bool)
    (Run Tail : List MachineInstr) (Successors : List MBB)
    (hRun : ∀ I ∈ Run, inRun CC (Opp CC) I = true)
    (hMax : ∀ I, Tail.head? = some I → inRun CC (Opp CC) I = false)
    (hCasc : Run = [] → ∀ I, Tail.head? = some I →
      isCascadedPair (MachineInstr.CMOV Opc D O1 K O2 CC KC) I = false) :
    EmitLoweredSelect Opp SuccLiveInCCR Pre (MachineInstr.CMOV Opc D O1 K O2 CC KC)
        (Run ++ Tail) Successors =
      some
        { thisMBB := Pre ++ [MachineInstr.Bcc CC MBB.sinkMBB]
          thisSuccessors := [MBB.copy0MBB, MBB.sinkMBB]
          NewBlocks :=
            [(MBB.copy0MBB,
              { Instrs := [], Successors := [MBB.sinkMBB],
                LiveInCCR :=
                  (!killsCCR (Run.getLastD (MachineInstr.CMOV Opc D O1 K O2 CC KC)) &&
                    !checkAndUpdateCCRKill SuccLiveInCCR Successors Tail) }),
             (MBB.sinkMBB,
              { Instrs :=
                  buildPHIs (Opp CC) [] (MachineInstr.CMOV Opc D O1 K O2 CC KC :: Run) ++
                    Tail,
                Successors := Successors,
                LiveInCCR :=
                  (!killsCCR (Run.getLastD (MachineInstr.CMOV Opc D O1 K O2 CC KC)) &&
                    !checkAndUpdateCCRKill SuccLiveInCCR Successors Tail) })] } := by
  have hscan := scanCMOVs_append CC (Opp CC) Run Tail hRun hMax
  cases Run with
  | nil =>
    simp only [List.nil_append] at hscan ⊢
    cases Tail with
    | nil => simp [EmitLoweredSelect, hscan]
    | cons N rest =>
      have := hCasc rfl N rfl
      simp [EmitLoweredSelect, hscan, this]
  | cons I rest =>
    simp only [List.cons_append] at hscan ⊢
    simp [EmitLoweredSelect, hscan]

/-- C34: for a fused run of selects (a select followed by a maximal run of selects on the
same condition code or its opposite, not the cascaded case) `EmitLoweredSelect` puts the
PHI nodes `buildPHIs` makes at the head of `sinkMBB`.  When no select of the run reads its
own destination or that of a later select, no PHI node takes the destination of a select
of the run as an operand.  For either outcome of the branch (the code and its opposite
have opposite truth values), entering `sinkMBB` from the block the branch selects, the PHI
nodes leave every register with the value it has after executing the selects one after
another. -/
theorem EmitLoweredSelect_renaming (Opp : CondCode → CondCode)
    (SuccLiveInCCR : MBB → Bool) (Pre : List MachineInstr) (Opc : CMOVOpcode)
    (D O1 : Nat) (K : Bool) (O2 : Nat) (CC : CondCode) (KC : Bool)
    (Run Tail : List MachineInstr) (Successors : List MBB)
    (hRun : ∀ I ∈ Run, inRun CC (Opp CC) I = true)
    (hMax : ∀ I, Tail.head? = some I → inRun CC (Opp CC) I = false)
    (hCasc : Run = [] → ∀ I, Tail.head? = some I →
      isCascadedPair (MachineInstr.CMOV Opc D O1 K O2 CC KC) I = false) :
    ∃ PHIs R,
      EmitLoweredSelect Opp SuccLiveInCCR Pre (MachineInstr.CMOV Opc D O1 K O2 CC KC)
          (Run ++ Tail) Successors = some R ∧
      PHIs = buildPHIs (Opp CC) [] (MachineInstr.CMOV Opc D O1 K O2 CC KC :: Run) ∧
      R.thisMBB = Pre ++ [MachineInstr.Bcc CC MBB.sinkMBB] ∧
      R.NewBlocks.map (fun B => (B.1, B.2.Instrs)) =
        [(MBB.copy0MBB, []), (MBB.sinkMBB, PHIs ++ Tail)] ∧
      (usedOnlyLater (MachineInstr.CMOV Opc D O1 K O2 CC KC :: Run) = true →
        ∀ P ∈ PHIs, ∀ r ∈ phiOperands P,
          r ∉ destRegs (MachineInstr.CMOV Opc D O1 K O2 CC KC :: Run)) ∧
      ∀ (holds : CondCode → Bool) (regs : Nat → Int), holds (Opp CC) = !holds CC →
        ∃ pred,
          sinkPredecessor holds
              ((MBB.thisMBB,
                { Instrs := R.thisMBB, Successors := R.thisSuccessors,
                  LiveInCCR := false }) :: R.NewBlocks) = some pred ∧
          pred = (if holds CC then MBB.thisMBB else MBB.copy0MBB) ∧
          execMerge pred regs regs PHIs =
            (MachineInstr.CMOV Opc D O1 K O2 CC KC :: Run).foldl (execCMOV holds) regs := by
  have hall : ∀ I ∈ MachineInstr.CMOV Opc D O1 K O2 CC KC :: Run,
      inRun CC (Opp CC) I = true := by
    intro I hI
    rcases List.mem_cons.mp hI with h | h
    · rw [h]
      simp [inRun]
    · exact hRun I h
  refine ⟨buildPHIs (Opp CC) [] (MachineInstr.CMOV Opc D O1 K O2 CC KC :: Run),
    { thisMBB := Pre ++ [MachineInstr.Bcc CC MBB.sinkMBB]
      thisSuccessors := [MBB.copy0MBB, MBB.sinkMBB]
      NewBlocks :=
        [(MBB.copy0MBB,
          { Instrs := [], Successors := [MBB.sinkMBB],
            LiveInCCR := (!killsCCR (Run.getLastD (MachineInstr.CMOV Opc D O1 K O2 CC KC)) &&
              !checkAndUpdateCCRKill SuccLiveInCCR Successors Tail) }),
         (MBB.sinkMBB,
          { Instrs := buildPHIs (Opp CC) [] (MachineInstr.CMOV Opc D O1 K O2 CC KC :: Run)
              ++ Tail,
            Successors := Successors,
            LiveInCCR := (!killsCCR (Run.getLastD (MachineInstr.CMOV Opc D O1 K O2 CC KC)) &&
              !checkAndUpdateCCRKill SuccLiveInCCR Successors Tail) })] },
    ?_, rfl, rfl, rfl, ?_, ?_⟩
  · exact EmitLoweredSelect_fused Opp SuccLiveInCCR Pre Opc D O1 K O2 CC KC Run Tail
      Successors hRun hMax hCasc
  · intro hU
    exact buildPHIs_operands (Opp CC) _ _ [] (by simp) (by
      intro d hd
      exact Or.inl hd) hU
  · intro holds regs hOpp
    refine ⟨_, ?_, rfl, ?_⟩
    · cases hc : holds CC <;> simp [sinkPredecessor, takesBranch, hc]
    · exact execMerge_buildPHIs holds CC (Opp CC) hOpp regs _ [] regs hall (by simp)
        (by simp)

end ISel
namespace ISel

/-- Witness of `EmitLoweredSelect_renaming`: the run `t10 = select EQ t1, t2` and
`t11 = select NE t10, t3`, whose second select reads the result of the first, followed by
another instruction. -/
theorem EmitLoweredSelect_renaming_witness :
    ∃ PHIs R,
      EmitLoweredSelect GetOppositeBranchCondition (fun _ => false) []
          (MachineInstr.CMOV CMOVOpcode.CMOV32r 10 1 false 2 CondCode.COND_EQ false)
          ([MachineInstr.CMOV CMOVOpcode.CMOV32r 11 10 false 3 CondCode.COND_NE false] ++
            [MachineInstr.other 0 false true]) [] = some R ∧
      PHIs = buildPHIs (GetOppositeBranchCondition CondCode.COND_EQ) []
        [MachineInstr.CMOV CMOVOpcode.CMOV32r 10 1 false 2 CondCode.COND_EQ false,
         MachineInstr.CMOV CMOVOpcode.CMOV32r 11 10 false 3 CondCode.COND_NE false] ∧
      (∀ P ∈ PHIs, ∀ r ∈ phiOperands P,
        r ∉ destRegs
          [MachineInstr.CMOV CMOVOpcode.CMOV32r 10 1 false 2 CondCode.COND_EQ false,
           MachineInstr.CMOV CMOVOpcode.CMOV32r 11 10 false 3 CondCode.COND_NE false]) := by
  obtain ⟨PHIs, R, h1, h2, _, _, h5, _⟩ :=
    EmitLoweredSelect_renaming GetOppositeBranchCondition (fun _ => false) []
      CMOVOpcode.CMOV32r 10 1 false 2 CondCode.COND_EQ false
      [MachineInstr.CMOV CMOVOpcode.CMOV32r 11 10 false 3 CondCode.COND_NE false]
      [MachineInstr.other 0 false true] [] (by decide) (by decide) (by decide)
  exact ⟨PHIs, R, h1, h2, h5 (by decide)⟩

end ISel
end M68k
